import Mathlib

/-!
# Darshan I/O trace generator: a verification development

Shallow embedding of `darshan-util/darshan-gen-io-trace.c`.

Conventions of the embedding
* `int64_t` counters are mathematical integers (`Int`); unsigned 64-bit values are
  naturals reduced with `% 2^64` where the source computes in `uint64_t`/`size_t`.
* `double` values are rationals (`ℚ`).  The result of every floating-point addition,
  subtraction, multiplication and division in the delay computation and in the generators
  is rounded to the nearest double, ties to even (`round_double`: 53 significant binary
  digits; the exponent range of the format is not modelled).  The conversion of an integer
  counter to `double` is taken as exact, which it is for counters below 2^53.
* The subtraction `t - start_time` of the timestamp normalisation (`check_file_counters`
  and `preprocess_events`) is taken as exact, which it is in double precision for
  `start_time ≤ t ≤ 2 * start_time`, the absolute times of one job; a negative difference
  is replaced by 0 whatever its rounding.
* A floating-point division whose divisor is zero has no rational value (IEEE gives an
  infinity or a NaN); the places where the source can divide by zero are modelled
  explicitly.
* `ceil((double)a / b)` of two integers is the exact integer ceiling of the rational
  quotient (this agrees with the floating-point computation for operands below 2^53).
* A function that can stop in `assert`, trap, or run into undefined behaviour returns
  `Option`; `none` stands for "the call does not complete".
* The C library stream `rand()` is a function `rnd : Nat → Nat`; the state counts the draws
  made so far.
* Process-wide and function-local `static` variables are fields of `gen_state`.
* The globals `nprocs`, `opt_agg_count`, `start_time` and `app_run_time` are arguments of
  the functions that read them.
* The values of the counter indices are fixed by `darshan-log-format.h`, which is not among
  these sources: the integer counter the collective generator reads as
  `file->counters[CP_F_OPEN_TIMESTAMP]` is given by an argument `open_counter`.
* The double a caller reads after the value-less `return;` of
  `generate_psx_coll_io_events` is an argument `unspecified_time`.
* Where the set-up of a generator divides by zero, the program goes on with a non-finite
  delay, delay fraction or meta time per operation, and every event time computed from it
  is non-finite.  No assertion and no branch that decides on an event, a counter, a static
  or a `rand()` call reads a computed time, a delay or a delay fraction (the comparison
  `io_event.end_time > max_cur_time` of the collective generator only selects a time), so
  the events stored, their ranks, sizes and offsets, the counters, the statics and the
  `rand()` calls of such a run are those of a run with finite values.  The model goes on
  with 0 in place of each non-finite value: it describes such a run in everything but the
  times of its events.
-/

namespace Darshan

/-! ## Machine arithmetic -/

/-- Value of an integer after conversion to `uint64_t`. -/
def u64 (x : Int) : Nat := (x % 18446744073709551616).toNat

/-- Value of an unsigned 64-bit pattern read back as `int64_t`. -/
def s64 (n : Nat) : Int :=
  if n % 18446744073709551616 < 9223372036854775808 then ((n % 18446744073709551616 : Nat) : Int)
  else ((n % 18446744073709551616 : Nat) : Int) - 18446744073709551616

/-- The exact value of `ceil((double)a / b)`; no value when `b` is zero. -/
def ceil_ddiv (a b : Int) : Option Int :=
  if b = 0 then none else some (Int.ceil ((a : ℚ) / (b : ℚ)))

/-- The C expression `x ^ 1` on a two's complement integer. -/
def xor1 (x : Int) : Int := if x % 2 = 0 then x + 1 else x - 1

/-- A `double` that may be non-finite: the result of one floating-point division. -/
inductive fval where
  | fin (q : ℚ)
  | pinf
  | ninf
  | nan
  deriving DecidableEq

/-- The comparison `u < x` for a finite `u`. -/
def fval.draw_lt (u : ℚ) : fval → Bool
  | fval.fin q => decide (u < q)
  | fval.pinf => true
  | fval.ninf => false
  | fval.nan => false

/-- The comparison `x == 0.0`. -/
def fval.is_zero : fval → Bool
  | fval.fin q => decide (q = 0)
  | _ => false

/-- The constant `RAND_MAX` of the C library. -/
def RAND_MAX : Nat := 2147483647

/-- The value `(double)rand() / (double)(RAND_MAX + 1.0)` for a raw draw `r`; the division
of a draw below `2^31` by `2^31` is exact in double precision. -/
def uniform (r : Nat) : ℚ := (r : ℚ) / ((RAND_MAX : ℚ) + 1)

/-- The number of binary digits of `n`, found with at most `fuel` halvings. -/
def bit_length : Nat → Nat → Nat
  | 0, _ => 0
  | fuel + 1, n => if n = 0 then 0 else bit_length fuel (n / 2) + 1

/-- The exponent `e` with `2^e ≤ n / d < 2^(e+1)`, for positive `n` and `d`. -/
def binade (n d : Nat) : Int :=
  let e0 : Int := (bit_length n n : Int) - (bit_length d d : Int)
  if 0 ≤ e0 then (if d * 2 ^ e0.toNat ≤ n then e0 else e0 - 1)
  else (if d ≤ n * 2 ^ (-e0).toNat then e0 else e0 - 1)

/-- The quotient `n / d` rounded to the nearest integer, a tie to the even one. -/
def round_half_even (n d : Nat) : Nat :=
  if 2 * (n % d) < d then n / d
  else if d < 2 * (n % d) then n / d + 1
  else if (n / d) % 2 = 0 then n / d else n / d + 1

/-- The positive rational `n / d` rounded to 53 significant binary digits. -/
def round_pos (n d : Nat) : ℚ :=
  if 0 ≤ 52 - binade n d then
    (round_half_even (n * 2 ^ (52 - binade n d).toNat) d : ℚ) /
      ((2 ^ (52 - binade n d).toNat : Nat) : ℚ)
  else
    (round_half_even n (d * 2 ^ (binade n d - 52).toNat) : ℚ) *
      ((2 ^ (binade n d - 52).toNat : Nat) : ℚ)

/-- The `double` nearest to a rational: round to nearest, ties to even, 53 significant
binary digits.  The exponent range of the format is not modelled. -/
def round_double (q : ℚ) : ℚ :=
  if q = 0 then 0
  else if 0 < q then round_pos q.num.natAbs q.den
  else - round_pos q.num.natAbs q.den

/-- The sum `a + b` of two doubles. -/
def fadd (a b : ℚ) : ℚ := round_double (a + b)

/-- The difference `a - b` of two doubles. -/
def fsub (a b : ℚ) : ℚ := round_double (a - b)

/-- The product `a * b` of two doubles. -/
def fmul (a b : ℚ) : ℚ := round_double (a * b)

/-- The quotient `a / b` of two doubles at a place where the divisor is not zero. -/
def fquo (a b : ℚ) : ℚ := round_double (a / b)

/-- The quotient `(double)a / b` of two integers, following IEEE for a zero divisor. -/
def fval.ofDiv (a b : Int) : fval :=
  if b = 0 then (if 0 < a then fval.pinf else if a < 0 then fval.ninf else fval.nan)
  else fval.fin (fquo (a : ℚ) (b : ℚ))

/-- The constant `0.2`. -/
def DEF_INTER_IO_DELAY_PCT : ℚ := round_double (2 / 10)

/-- The constant `0.4`. -/
def DEF_INTER_CYC_DELAY_PCT : ℚ := round_double (4 / 10)

/-! ## Data model -/

/-- The per-file record `struct darshan_file`: the integer counters and floating-point
counters the generator reads.  The ten size-histogram bins and the four common-access
slots are contiguous runs of the counter array and are kept as lists. -/
structure darshan_file where
  rank : Int
  hash : Nat
  CP_INDEP_OPENS : Int
  CP_COLL_OPENS : Int
  CP_INDEP_READS : Int
  CP_INDEP_WRITES : Int
  CP_COLL_READS : Int
  CP_COLL_WRITES : Int
  CP_POSIX_READS : Int
  CP_POSIX_WRITES : Int
  CP_POSIX_OPENS : Int
  CP_POSIX_FOPENS : Int
  CP_POSIX_FREADS : Int
  CP_POSIX_FWRITES : Int
  CP_BYTES_READ : Int
  CP_BYTES_WRITTEN : Int
  CP_MAX_BYTE_READ : Int
  CP_MAX_BYTE_WRITTEN : Int
  CP_SEQ_READS : Int
  CP_SEQ_WRITES : Int
  CP_RW_SWITCHES : Int
  /-- The bins `CP_SIZE_READ_0_100 ..` (ten entries). -/
  size_read_bins : List Int
  /-- The bins `CP_SIZE_WRITE_0_100 ..` (ten entries). -/
  size_write_bins : List Int
  /-- The slots `CP_ACCESS1_ACCESS .. CP_ACCESS4_ACCESS`. -/
  common_accesses : List Int
  /-- The slots `CP_ACCESS1_COUNT .. CP_ACCESS4_COUNT`. -/
  common_access_counts : List Int
  CP_F_OPEN_TIMESTAMP : ℚ
  CP_F_CLOSE_TIMESTAMP : ℚ
  CP_F_READ_START_TIMESTAMP : ℚ
  CP_F_WRITE_START_TIMESTAMP : ℚ
  CP_F_READ_END_TIMESTAMP : ℚ
  CP_F_WRITE_END_TIMESTAMP : ℚ
  CP_F_POSIX_READ_TIME : ℚ
  CP_F_POSIX_WRITE_TIME : ℚ
  CP_F_POSIX_META_TIME : ℚ
  deriving DecidableEq

/-- The tag of a synthesized event. -/
inductive event_type where
  | POSIX_OPEN
  | POSIX_CLOSE
  | POSIX_READ
  | POSIX_WRITE
  | BARRIER
  deriving DecidableEq

/-- The payload union `event_params` of an event. -/
inductive event_params where
  | open (file : Nat) (create_flag : Int)
  | close (file : Nat)
  | read (file : Nat) (size : Nat) (offset : Int)
  | write (file : Nat) (size : Nat) (offset : Int)
  | barrier (proc_count : Int) (root : Int)
  deriving DecidableEq

/-- The record `struct darshan_event`. -/
structure darshan_event where
  rank : Int
  type : event_type
  start_time : ℚ
  end_time : ℚ
  event_params : event_params
  deriving DecidableEq

/-- An entry of the creation-time hash table. -/
structure hash_entry_t where
  hash : Nat
  time : ℚ
  deriving DecidableEq

/-- The lookup `HASH_FIND` on the creation-time table. -/
def HASH_FIND (tbl : List hash_entry_t) (h : Nat) : Option hash_entry_t :=
  tbl.find? (fun e => decide (e.hash = h))

/-- The state the generators work on: the record being processed, the file event buffer
with its capacity, the function-local statics of the two I/O generators and of
`determine_io_params`, and the number of `rand()` calls made so far. -/
structure gen_state where
  file : darshan_file
  file_event_list : List darshan_event
  file_event_list_max : Int
  /-- The static `rw` of `generate_psx_ind_io_events`. -/
  ind_rw : Int
  ind_next_switch_ndx : Int
  ind_rd_bw : ℚ
  ind_wr_bw : ℚ
  /-- The static `rw` of `generate_psx_coll_io_events`. -/
  coll_rw : Int
  coll_next_switch_ndx : Int
  coll_rd_bw : ℚ
  coll_wr_bw : ℚ
  seq_rd_flag : Int
  seq_wr_flag : Int
  next_rd_off : Nat
  next_wr_off : Nat
  rd_common_accesses : List Int
  wr_common_accesses : List Int
  all_common_flag : Int
  rand_cnt : Nat
  deriving DecidableEq

/-- The four delay fractions passed by pointer to `calc_io_delay_pcts`. -/
structure delay_pcts where
  first_io_pct : ℚ
  close_pct : ℚ
  inter_open_pct : ℚ
  inter_io_pct : ℚ
  deriving DecidableEq

/-! ## calc_io_delay_pcts -/

/-- The quotient of two doubles when it is a finite number. -/
def fdiv (a b : ℚ) : Option ℚ := if b = 0 then none else some (fquo a b)

def first_io_time (file : darshan_file) : ℚ :=
  if file.CP_F_WRITE_START_TIMESTAMP = 0 then file.CP_F_READ_START_TIMESTAMP
  else if file.CP_F_READ_START_TIMESTAMP = 0 then file.CP_F_WRITE_START_TIMESTAMP
  else if file.CP_F_READ_START_TIMESTAMP < file.CP_F_WRITE_START_TIMESTAMP then
    file.CP_F_READ_START_TIMESTAMP
  else file.CP_F_WRITE_START_TIMESTAMP

def last_io_time (file : darshan_file) : ℚ :=
  if file.CP_F_READ_END_TIMESTAMP > file.CP_F_WRITE_END_TIMESTAMP then
    file.CP_F_READ_END_TIMESTAMP
  else file.CP_F_WRITE_END_TIMESTAMP

/-- The fractions of `calc_io_delay_pcts` before the final adjustment (source lines
926-944), from the values `p` the caller passed in. -/
def prelim_delay_pcts (file : darshan_file) (num_opens num_io_ops : Int)
    (delay_per_cycle : ℚ) (p : delay_pcts) : delay_pcts :=
  let inter_open := if num_opens > 1 then DEF_INTER_CYC_DELAY_PCT else p.inter_open_pct
  let inter_io := if num_io_ops > 1 then DEF_INTER_IO_DELAY_PCT else p.inter_io_pct
  if first_io_time file ≠ 0 then
    { first_io_pct := fquo (fsub (first_io_time file) file.CP_F_OPEN_TIMESTAMP) delay_per_cycle
      close_pct := fquo (fsub file.CP_F_CLOSE_TIMESTAMP (last_io_time file)) delay_per_cycle
      inter_open_pct := inter_open
      inter_io_pct := inter_io }
  else
    { first_io_pct := 0
      close_pct := fsub 1 inter_open
      inter_open_pct := inter_open
      inter_io_pct := inter_io }

/-- The sum `total_delay_pct` of four fractions. -/
def delay_pcts.total (p : delay_pcts) : ℚ :=
  fadd (fadd (fadd p.inter_open_pct p.inter_io_pct) p.first_io_pct) p.close_pct

/-- The function `calc_io_delay_pcts`.  The result is `none` when one of the divisions of
the adjustment step has a zero divisor, in which case the source stores non-finite values
in all four fractions. -/
def calc_io_delay_pcts (file : darshan_file) (num_opens num_io_ops : Int)
    (delay_per_cycle : ℚ) (p : delay_pcts) : Option delay_pcts :=
  if delay_per_cycle > 0 then
    let q := prelim_delay_pcts file num_opens num_io_ops delay_per_cycle p
    let total_delay_pct := q.total
    if total_delay_pct < 1 ∧ (q.inter_open_pct ≠ 0 ∨ q.inter_io_pct ≠ 0) then
      (fdiv q.inter_open_pct (fadd q.inter_open_pct q.inter_io_pct)).bind fun a =>
      (fdiv q.inter_io_pct (fadd q.inter_open_pct q.inter_io_pct)).bind fun b =>
      some { first_io_pct := q.first_io_pct
             close_pct := q.close_pct
             inter_open_pct := fmul a (fsub (fsub 1 q.first_io_pct) q.close_pct)
             inter_io_pct := fmul b (fsub (fsub 1 q.first_io_pct) q.close_pct) }
    else
      (fdiv q.inter_open_pct total_delay_pct).bind fun a =>
      (fdiv q.inter_io_pct total_delay_pct).bind fun b =>
      (fdiv q.first_io_pct total_delay_pct).bind fun c =>
      (fdiv q.close_pct total_delay_pct).bind fun d =>
      some { first_io_pct := fadd q.first_io_pct (fmul c (fsub 1 total_delay_pct))
             close_pct := fadd q.close_pct (fmul d (fsub 1 total_delay_pct))
             inter_open_pct := fadd q.inter_open_pct (fmul a (fsub 1 total_delay_pct))
             inter_io_pct := fadd q.inter_io_pct (fmul b (fsub 1 total_delay_pct)) }
  else some p

/-- All four fractions zero: the values both generators pass in. -/
def zero_pcts : delay_pcts :=
  { first_io_pct := 0, close_pct := 0, inter_open_pct := 0, inter_io_pct := 0 }

/-! ## Event writers -/

/-- Append one event to the file event buffer; stops in the capacity assertion
`assert(file_event_list_cnt != file_event_list_max)` when the buffer is full. -/
def store_event (st : gen_state) (e : darshan_event) : Option gen_state :=
  if (st.file_event_list.length : Int) = st.file_event_list_max then none
  else some { st with file_event_list := st.file_event_list ++ [e] }

/-- The function `generate_psx_open_event`: returns the new state and the new time. -/
def generate_psx_open_event (st : gen_state) (create_flag : Int) (meta_op_time cur_time : ℚ) :
    Option (gen_state × ℚ) :=
  (store_event st
    { rank := st.file.rank
      type := event_type.POSIX_OPEN
      start_time := cur_time
      end_time := fadd cur_time meta_op_time
      event_params := event_params.open st.file.hash create_flag }).map
    fun st1 => (st1, fadd cur_time meta_op_time)

/-- The function `generate_psx_close_event`. -/
def generate_psx_close_event (st : gen_state) (meta_op_time cur_time : ℚ) :
    Option (gen_state × ℚ) :=
  (store_event st
    { rank := st.file.rank
      type := event_type.POSIX_CLOSE
      start_time := cur_time
      end_time := fadd cur_time meta_op_time
      event_params := event_params.close st.file.hash }).map
    fun st1 => (st1, fadd cur_time meta_op_time)

/-- The function `generate_barrier_event`. -/
def generate_barrier_event (st : gen_state) (root : Int) (cur_time : ℚ) :
    Option (gen_state × ℚ) :=
  (store_event st
    { rank := st.file.rank
      type := event_type.BARRIER
      start_time := cur_time
      end_time := fadd cur_time (round_double (1 / 1000000))
      event_params := event_params.barrier (-1) root }).map
    fun st1 => (st1, fadd cur_time (round_double (1 / 1000000)))

/-! ## determine_io_params -/

/-- The table `bin_min_size`. -/
def bin_min_size : List Nat :=
  [0, 100, 1024, 10 * 1024, 100 * 1024, 1024 * 1024, 4 * 1024 * 1024,
   10 * 1024 * 1024, 100 * 1024 * 1024, 1024 * 1024 * 1024]

/-- The test `IO_IS_IN_SIZE_BIN_RANGE(size, bin_ndx, bin_min_sizes)`. -/
def IO_IS_IN_SIZE_BIN_RANGE (size : Nat) (bin_ndx : Nat) (bin_min_sizes : List Nat) : Bool :=
  if bin_ndx = 9 then decide (size ≥ bin_min_sizes.getD bin_ndx 0)
  else decide (size ≥ bin_min_sizes.getD bin_ndx 0) && decide (size < bin_min_sizes.getD (bin_ndx + 1) 0)

/-- The loop that decrements every size bin whose range holds the size
(source lines 1545-1549). -/
def decr_size_bins (io_sz : Nat) (size_bins : List Int) : List Int :=
  (List.range 10).foldl
    (fun bins i =>
      if IO_IS_IN_SIZE_BIN_RANGE io_sz i bin_min_size then bins.set i (bins.getD i 0 - 1)
      else bins)
    size_bins

/-- The sum `tmp_byte_counter` of size times count over the four common-access slots. -/
def common_access_bytes (file : darshan_file) : Int :=
  (List.range 4).foldl
    (fun acc i => acc + file.common_accesses.getD i 0 * file.common_access_counts.getD i 0) 0

/-- The result of choosing a size from the common-access slots: the size, the remaining
per-cycle shares of the direction, and the updated slot counts. -/
structure common_draw where
  io_sz : Nat
  shares : List Int
  counts : List Int

/-- First loop over the slots (source lines 1494-1510): take the first slot whose
remaining share is non-zero. -/
def drain_share (accesses : List Int) (shares counts : List Int) : common_draw :=
  match (List.range 4).find? (fun i => decide (shares.getD i 0 ≠ 0)) with
  | some i =>
    { io_sz := u64 (accesses.getD i 0)
      shares := shares.set i (shares.getD i 0 - 1)
      counts := counts.set i (counts.getD i 0 - 1) }
  | none => { io_sz := 0, shares := shares, counts := counts }

/-- Second loop over the slots (source lines 1514-1536): every slot's share is reset to
its count divided by `io_cycles`; the first non-zero share supplies the size. -/
def reapportion (accesses : List Int) (io_cycles : Int) (d : common_draw) : common_draw :=
  (List.range 4).foldl
    (fun d i =>
      let share := Int.tdiv (d.counts.getD i 0) io_cycles
      if d.io_sz = 0 ∧ share ≠ 0 then
        { io_sz := u64 (accesses.getD i 0)
          shares := d.shares.set i (share - 1)
          counts := d.counts.set i (d.counts.getD i 0 - 1) }
      else { d with shares := d.shares.set i share })
    d

/-- The sequential-access test of source lines 1453-1455 / 1473-1475; no value when the
integer division traps (`last_io_byte + 1 = 0`). -/
def seq_flag_init (ops total_io_size last_io_byte seq_cnt : Int) : Option Int :=
  if last_io_byte + 1 = 0 then none
  else if ops - Int.tdiv (total_io_size - last_io_byte - 1) (last_io_byte + 1) - 1 = seq_cnt then
    some 1
  else some 0

/-- Initialisation of `all_common_flag` on the first call for a file
(source lines 1427-1442). -/
def init_all_common_flag (st : gen_state) : gen_state :=
  if st.all_common_flag = -1 then
    { st with all_common_flag :=
        if common_access_bytes st.file = st.file.CP_BYTES_WRITTEN + st.file.CP_BYTES_READ
        then 1 else 0 }
  else st

/-- The byte total `*total_io_size` of the requested direction. -/
def total_io_size (st : gen_state) (write_flag : Int) : Int :=
  if write_flag ≠ 0 then st.file.CP_BYTES_WRITTEN else st.file.CP_BYTES_READ

/-- The value `last_io_byte` of the requested direction. -/
def last_io_byte (st : gen_state) (write_flag : Int) : Int :=
  if write_flag ≠ 0 then st.file.CP_MAX_BYTE_WRITTEN else st.file.CP_MAX_BYTE_READ

/-- Initialisation of the sequential flag of the requested direction
(source lines 1451-1463 and 1471-1483). -/
def init_seq_flag (st : gen_state) (write_flag : Int) : Option gen_state :=
  if write_flag ≠ 0 then
    if st.seq_wr_flag = -1 then
      (seq_flag_init st.file.CP_POSIX_WRITES (total_io_size st write_flag)
        (last_io_byte st write_flag) st.file.CP_SEQ_WRITES).map
        fun f => { st with seq_wr_flag := f }
    else some st
  else
    if st.seq_rd_flag = -1 then
      (seq_flag_init st.file.CP_POSIX_READS (total_io_size st write_flag)
        (last_io_byte st write_flag) st.file.CP_SEQ_READS).map
        fun f => { st with seq_rd_flag := f }
    else some st

/-- Store the remaining shares of the requested direction and the slot counts after a
draw from the common-access slots. -/
def set_common_draw (st : gen_state) (write_flag : Int) (d : common_draw) : gen_state :=
  if write_flag ≠ 0 then
    { st with wr_common_accesses := d.shares,
              file := { st.file with common_access_counts := d.counts } }
  else
    { st with rd_common_accesses := d.shares,
              file := { st.file with common_access_counts := d.counts } }

/-- The choice of `*io_sz` (source lines 1486-1542); stops in the assertion of the
untested random-size path, or in a division by `io_cycles = 0`. -/
def choose_io_size (st : gen_state) (write_flag : Int) (io_cycles : Int) :
    Option (gen_state × Nat) :=
  if total_io_size st write_flag = 0 ∨
      st.file.CP_POSIX_READS + st.file.CP_POSIX_WRITES = 1 then
    some (st, u64 (total_io_size st write_flag))
  else if st.all_common_flag ≠ 0 then
    let d1 := drain_share st.file.common_accesses
      (if write_flag ≠ 0 then st.wr_common_accesses else st.rd_common_accesses)
      st.file.common_access_counts
    if d1.io_sz = 0 then
      if io_cycles = 0 then none
      else
        some (set_common_draw st write_flag (reapportion st.file.common_accesses io_cycles d1),
              (reapportion st.file.common_accesses io_cycles d1).io_sz)
    else some (set_common_draw st write_flag d1, d1.io_sz)
  else none

/-- Part of `determine_io_params` up to the choice of the size (source lines 1426-1542):
initialises the all-common and sequential flags and chooses `io_sz`. -/
def determine_io_size (st : gen_state) (write_flag : Int) (io_cycles : Int) :
    Option (gen_state × Nat) :=
  (init_seq_flag (init_all_common_flag st) write_flag).bind fun st2 =>
    choose_io_size st2 write_flag io_cycles

/-- The update `*total_io_size -= *io_sz` and the size bin decrement
(source lines 1544-1549). -/
def account_io_size (st : gen_state) (write_flag : Int) (io_sz : Nat) : gen_state :=
  if write_flag ≠ 0 then
    { st with file := { st.file with
        CP_BYTES_WRITTEN := s64 (u64 st.file.CP_BYTES_WRITTEN + 18446744073709551616 - io_sz)
        size_write_bins := decr_size_bins io_sz st.file.size_write_bins } }
  else
    { st with file := { st.file with
        CP_BYTES_READ := s64 (u64 st.file.CP_BYTES_READ + 18446744073709551616 - io_sz)
        size_read_bins := decr_size_bins io_sz st.file.size_read_bins } }

/-- The sequential offset: wrap to 0 when the access would pass `last_io_byte + 1`. -/
def seq_offset (next_off io_sz : Nat) (last_byte : Int) : Nat :=
  if (next_off + io_sz) % 18446744073709551616 > u64 (last_byte + 1) then 0 else next_off

/-- The choice of `*io_off` (source lines 1556-1583). -/
def choose_io_offset (rnd : Nat → Nat) (st : gen_state) (write_flag : Int) (io_sz : Nat) :
    gen_state × Int :=
  if io_sz = 0 then (st, last_io_byte st write_flag + 1)
  else if write_flag ≠ 0 ∧ st.seq_wr_flag ≠ 0 then
    ({ st with next_wr_off :=
        (seq_offset st.next_wr_off io_sz (last_io_byte st write_flag) + io_sz)
          % 18446744073709551616 },
     s64 (seq_offset st.next_wr_off io_sz (last_io_byte st write_flag)))
  else if write_flag = 0 ∧ st.seq_rd_flag ≠ 0 then
    ({ st with next_rd_off :=
        (seq_offset st.next_rd_off io_sz (last_io_byte st write_flag) + io_sz)
          % 18446744073709551616 },
     s64 (seq_offset st.next_rd_off io_sz (last_io_byte st write_flag)))
  else if io_sz < u64 (last_io_byte st write_flag) then
    ({ st with rand_cnt := st.rand_cnt + 1 },
     s64 (rnd st.rand_cnt % (u64 (last_io_byte st write_flag) - io_sz)))
  else (st, 0)

/-- The reset of the statics on the last I/O operation of the file
(source lines 1585-1593). -/
def reset_io_statics (st : gen_state) : gen_state :=
  if st.file.CP_POSIX_READS + st.file.CP_POSIX_WRITES = 1 then
    { st with next_rd_off := 0, next_wr_off := 0, seq_wr_flag := -1, seq_rd_flag := -1,
              all_common_flag := -1,
              rd_common_accesses := [0, 0, 0, 0], wr_common_accesses := [0, 0, 0, 0] }
  else st

/-- Part of `determine_io_params` after the size is chosen (source lines 1544-1593):
byte total and size bin update, choice of the offset, reset of the statics on the last
operation of the file. -/
def determine_io_offset (rnd : Nat → Nat) (st : gen_state) (write_flag : Int) (io_sz : Nat) :
    gen_state × Nat × Int :=
  (reset_io_statics (choose_io_offset rnd (account_io_size st write_flag io_sz)
      write_flag io_sz).1,
   io_sz,
   (choose_io_offset rnd (account_io_size st write_flag io_sz) write_flag io_sz).2)

/-- The function `determine_io_params`: returns the new state, `*io_sz` and `*io_off`.
The argument `coll_flag` is not read by the source. -/
def determine_io_params (rnd : Nat → Nat) (st : gen_state) (write_flag : Int)
    (_coll_flag : Int) (io_cycles : Int) : Option (gen_state × Nat × Int) :=
  (determine_io_size st write_flag io_cycles).map fun r =>
    determine_io_offset rnd r.1 write_flag r.2

/-! ## generate_psx_ind_io_events -/

/-- The local variables of the I/O loop that live across iterations: the generator state,
`cur_time`, `psx_rw_ops_remaining` and `rw_switch` (`none` while still unassigned). -/
structure io_loop_state where
  st : gen_state
  cur_time : ℚ
  psx_rw_ops_remaining : Int
  rw_switch : Option fval

/-- Initialisation of the statics when `rw == -1` (source lines 1025-1045). -/
def ind_io_init (st : gen_state) : Option gen_state :=
  if st.ind_rw = -1 then
    (ceil_ddiv st.file.CP_POSIX_OPENS (st.file.CP_RW_SWITCHES + 1)).map fun ndx =>
      { st with
        ind_rw :=
          if st.file.CP_F_WRITE_START_TIMESTAMP = 0 then 0
          else if st.file.CP_F_READ_START_TIMESTAMP = 0 then 1
          else if st.file.CP_F_READ_START_TIMESTAMP < st.file.CP_F_WRITE_START_TIMESTAMP then 0
          else 1
        ind_next_switch_ndx := ndx
        ind_rd_bw :=
          if st.file.CP_F_POSIX_READ_TIME ≠ 0 then
            fquo (st.file.CP_BYTES_READ : ℚ) st.file.CP_F_POSIX_READ_TIME
          else st.ind_rd_bw
        ind_wr_bw :=
          if st.file.CP_F_POSIX_WRITE_TIME ≠ 0 then
            fquo (st.file.CP_BYTES_WRITTEN : ℚ) st.file.CP_F_POSIX_WRITE_TIME
          else st.ind_wr_bw }
  else some st

/-- The value given to `rw_switch` after an operation (source lines 1104-1121). -/
def ind_rw_switch (st : gen_state) (psx_rw_ops_remaining : Int) : fval :=
  let f := st.file
  if f.CP_RW_SWITCHES ≠ 0 ∧
      ((st.ind_rw = 0 ∧ f.CP_POSIX_READS ≤ Int.tdiv f.CP_RW_SWITCHES 2) ∨
       (st.ind_rw ≠ 0 ∧ f.CP_POSIX_WRITES ≤ Int.tdiv f.CP_RW_SWITCHES 2)) then
    fval.fin 1
  else if f.CP_RW_SWITCHES = 0 ∨ f.CP_RW_SWITCHES < f.CP_POSIX_OPENS ∨
      (st.ind_rw = 0 ∧ f.CP_RW_SWITCHES = 1 ∧ f.CP_POSIX_READS ≠ 0) ∨
      (st.ind_rw ≠ 0 ∧ f.CP_RW_SWITCHES = 1 ∧ f.CP_POSIX_WRITES ≠ 0) then
    fval.fin 0
  else fval.ofDiv f.CP_RW_SWITCHES (psx_rw_ops_remaining - 1)

/-- The read or write event of one iteration and the time after it
(source lines 1051-1095). -/
def ind_io_event (st : gen_state) (meta_op_time cur_time : ℚ) (io_sz : Nat) (io_off : Int) :
    darshan_event × ℚ :=
  if st.ind_rw = 0 then
    let io_op_time : ℚ := if st.ind_rd_bw = 0 then 0 else fquo (io_sz : ℚ) st.ind_rd_bw
    ({ rank := st.file.rank
       type := event_type.POSIX_READ
       start_time := cur_time
       end_time := fadd cur_time (fadd io_op_time meta_op_time)
       event_params := event_params.read st.file.hash io_sz io_off },
     fadd cur_time (fadd io_op_time meta_op_time))
  else
    let io_op_time : ℚ := if st.ind_wr_bw = 0 then 0 else fquo (io_sz : ℚ) st.ind_wr_bw
    ({ rank := st.file.rank
       type := event_type.POSIX_WRITE
       start_time := cur_time
       end_time := fadd cur_time (fadd io_op_time meta_op_time)
       event_params := event_params.write st.file.hash io_sz io_off },
     fadd cur_time (fadd io_op_time meta_op_time))

/-- The counter update of one iteration: `CP_POSIX_READS--` or `CP_POSIX_WRITES--`. -/
def ind_io_count (st : gen_state) : gen_state :=
  if st.ind_rw = 0 then
    { st with file := { st.file with CP_POSIX_READS := st.file.CP_POSIX_READS - 1 } }
  else
    { st with file := { st.file with CP_POSIX_WRITES := st.file.CP_POSIX_WRITES - 1 } }

/-- One `rand()` draw deciding the read/write toggle (source lines 1123-1129). -/
def ind_toggle (rnd : Nat → Nat) (st : gen_state) (rw_switch : fval) : gen_state :=
  if fval.draw_lt (uniform (rnd st.rand_cnt)) rw_switch = true then
    { st with rand_cnt := st.rand_cnt + 1
              ind_rw := xor1 st.ind_rw
              file := { st.file with CP_RW_SWITCHES := st.file.CP_RW_SWITCHES - 1 } }
  else { st with rand_cnt := st.rand_cnt + 1 }

/-- One iteration `i` of the loop of `generate_psx_ind_io_events`
(source lines 1048-1137). -/
def ind_io_body (rnd : Nat → Nat) (io_ops_this_cycle : Int) (inter_io_delay meta_op_time : ℚ)
    (i : Int) (s : io_loop_state) : Option io_loop_state :=
  (determine_io_params rnd s.st s.st.ind_rw 0 s.st.file.CP_POSIX_OPENS).bind fun r =>
    let ev := ind_io_event r.1 meta_op_time s.cur_time r.2.1 r.2.2
    let st1 := ind_io_count r.1
    if st1.file.CP_POSIX_READS < 0 ∨ st1.file.CP_POSIX_WRITES < 0 then none
    else
      (store_event st1 ev.1).map fun st2 =>
        let rw_switch := ind_rw_switch st2 (s.psx_rw_ops_remaining - 1)
        let st3 := ind_toggle rnd st2 rw_switch
        { st := st3
          cur_time :=
            if i ≠ io_ops_this_cycle - 1 then
              fadd ev.2 (fquo inter_io_delay ((io_ops_this_cycle : ℚ) - 1))
            else ev.2
          psx_rw_ops_remaining := s.psx_rw_ops_remaining - 1
          rw_switch := some rw_switch }

/-- The loop `for (i = 0; i < io_ops_this_cycle; i++)`, with `k` iterations left. -/
def ind_io_loop (rnd : Nat → Nat) (io_ops_this_cycle : Int) (inter_io_delay meta_op_time : ℚ) :
    Nat → Int → io_loop_state → Option io_loop_state
  | 0, _, s => some s
  | k + 1, i, s =>
    (ind_io_body rnd io_ops_this_cycle inter_io_delay meta_op_time i s).bind
      (ind_io_loop rnd io_ops_this_cycle inter_io_delay meta_op_time k (i + 1))

/-- The end of `generate_psx_ind_io_events` (source lines 1139-1151).  Reading a
`rw_switch` that no iteration assigned has no defined value. -/
def ind_io_finish (open_ndx : Int) (s : io_loop_state) : Option gen_state :=
  let st := s.st
  if st.file.CP_POSIX_OPENS = 1 then some { st with ind_rw := -1 }
  else
    match s.rw_switch with
    | none => none
    | some rw_switch =>
      if rw_switch.is_zero = true ∧ st.file.CP_RW_SWITCHES ≠ 0 ∧
          st.ind_next_switch_ndx = open_ndx + 1 then
        (ceil_ddiv (st.file.CP_POSIX_OPENS - 1) (st.file.CP_RW_SWITCHES - 1 + 1)).map fun d =>
          { st with ind_rw := xor1 st.ind_rw
                    file := { st.file with CP_RW_SWITCHES := st.file.CP_RW_SWITCHES - 1 }
                    ind_next_switch_ndx := st.ind_next_switch_ndx + d }
      else some st

/-- The function `generate_psx_ind_io_events`: returns the new state and the new time. -/
def generate_psx_ind_io_events (rnd : Nat → Nat) (st : gen_state) (open_ndx : Int)
    (inter_io_delay meta_op_time cur_time : ℚ) : Option (gen_state × ℚ) :=
  let psx_rw_ops_remaining := st.file.CP_POSIX_READS + st.file.CP_POSIX_WRITES
  if psx_rw_ops_remaining = 0 then some (st, cur_time)
  else
    (ceil_ddiv psx_rw_ops_remaining st.file.CP_POSIX_OPENS).bind fun io_ops_this_cycle =>
    (ind_io_init st).bind fun st1 =>
    (ind_io_loop rnd io_ops_this_cycle inter_io_delay meta_op_time io_ops_this_cycle.toNat 0
      { st := st1, cur_time := cur_time, psx_rw_ops_remaining := psx_rw_ops_remaining,
        rw_switch := none }).bind fun s =>
    (ind_io_finish open_ndx s).map fun st2 => (st2, s.cur_time)

/-! ## generate_psx_ind_file_events -/

/-- The values computed once before the cycle loop of `generate_psx_ind_file_events`. -/
structure ind_cycle_params where
  delay_per_open : ℚ
  pcts : delay_pcts
  inter_open_delay : ℚ
  meta_op_time : ℚ

/-- One open-I/O-close cycle (body of the loop at source lines 703-726, with the
decrement of `CP_POSIX_OPENS` of the loop header). -/
def ind_cycle (rnd : Nat → Nat) (c : ind_cycle_params) (i : Int) (create_flag : Int)
    (st : gen_state) (cur_time : ℚ) : Option (gen_state × ℚ) :=
  (generate_psx_open_event st create_flag c.meta_op_time cur_time).bind fun r1 =>
  (generate_psx_ind_io_events rnd r1.1 i (fmul c.pcts.inter_io_pct c.delay_per_open)
    c.meta_op_time (fadd r1.2 (fmul c.pcts.first_io_pct c.delay_per_open))).bind fun r2 =>
  (generate_psx_close_event r2.1 c.meta_op_time
    (fadd r2.2 (fmul c.pcts.close_pct c.delay_per_open))).map fun r3 =>
    ({ r3.1 with file := { r3.1.file with CP_POSIX_OPENS := r3.1.file.CP_POSIX_OPENS - 1 } },
     if r3.1.file.CP_POSIX_OPENS > 1 then fadd r3.2 c.inter_open_delay else r3.2)

/-- The loop `for (i = 0; file->counters[CP_POSIX_OPENS]; i++, file->counters[CP_POSIX_OPENS]--)`
with at most `fuel` iterations. -/
def ind_cycles (rnd : Nat → Nat) (c : ind_cycle_params) :
    Nat → Int → Int → gen_state → ℚ → Option (gen_state × ℚ)
  | fuel, i, create_flag, st, cur_time =>
    if st.file.CP_POSIX_OPENS = 0 then some (st, cur_time)
    else
      match fuel with
      | 0 => none
      | k + 1 =>
        (ind_cycle rnd c i create_flag st cur_time).bind fun r =>
          ind_cycles rnd c k (i + 1) 0 r.1 r.2

/-- The four delay fractions a generator works with: those of `calc_io_delay_pcts` and,
when they are not finite, four zeros in their place. -/
def finite_pcts (p : Option delay_pcts) : delay_pcts := p.getD zero_pcts

/-- The value a generator works with for a quotient of two doubles: the quotient and, when
it is not finite, 0 in its place. -/
def finite_quotient (a b : ℚ) : ℚ := (fdiv a b).getD 0

/-- The set-up of `generate_psx_ind_file_events` (source lines 664-699), called with a
non-zero open count.  It always has a value: delay fractions or a meta time per operation
that are not finite are carried on as zeros. -/
def ind_cycle_setup (file : darshan_file) : Option ind_cycle_params :=
  let delay_per_open :=
    fquo (fsub (fsub (fsub (fsub file.CP_F_CLOSE_TIMESTAMP file.CP_F_OPEN_TIMESTAMP)
      file.CP_F_POSIX_READ_TIME) file.CP_F_POSIX_WRITE_TIME) file.CP_F_POSIX_META_TIME)
      (file.CP_POSIX_OPENS : ℚ)
  let pcts := finite_pcts (calc_io_delay_pcts file file.CP_POSIX_OPENS
    (file.CP_POSIX_READS + file.CP_POSIX_WRITES) delay_per_open zero_pcts)
  some
    { delay_per_open := delay_per_open
      pcts := pcts
      inter_open_delay :=
        if file.CP_POSIX_OPENS > 1 then
          fmul (fmul pcts.inter_open_pct delay_per_open)
            (fquo (file.CP_POSIX_OPENS : ℚ) ((file.CP_POSIX_OPENS : ℚ) - 1))
        else 0
      meta_op_time := finite_quotient file.CP_F_POSIX_META_TIME
        (((2 * file.CP_POSIX_OPENS + file.CP_POSIX_READS + file.CP_POSIX_WRITES : Int) : ℚ)) }

/-- The create flag of the first open (source lines 686-699). -/
def ind_create_flag (created_files_hash : List hash_entry_t) (file : darshan_file) : Int :=
  match HASH_FIND created_files_hash file.hash with
  | none => 0
  | some hfile => if hfile.time = file.CP_F_OPEN_TIMESTAMP then 1 else 0

/-- The function `generate_psx_ind_file_events` acting on the generator state. -/
def generate_psx_ind_file_events (rnd : Nat → Nat) (created_files_hash : List hash_entry_t)
    (st : gen_state) : Option gen_state :=
  if st.file.CP_POSIX_OPENS = 0 then some st
  else
    (ind_cycle_setup st.file).bind fun c =>
    (ind_cycles rnd c st.file.CP_POSIX_OPENS.toNat 0
      (ind_create_flag created_files_hash st.file) st st.file.CP_F_OPEN_TIMESTAMP).map
    fun r => r.1

/-! ## generate_psx_coll_io_events -/

/-- The integer quotient `a / b` of C, truncating toward zero; a trap when `b` is zero. -/
def cdiv (a b : Int) : Option Int := if b = 0 then none else some (Int.tdiv a b)

/-- The integer remainder `a % b` of C; a trap when `b` is zero. -/
def cmod (a b : Int) : Option Int := if b = 0 then none else some (Int.tmod a b)

/-- The value of `round(x)`: the nearest integer, halves away from zero. -/
def round_half_away (q : ℚ) : Int :=
  if 0 ≤ q then Int.floor (q + 1 / 2) else Int.ceil (q - 1 / 2)

/-- The value `ceil(a / b)` of a quotient of two doubles converted to an integer; no value
when `b` is zero. -/
def ceil_qdiv (a b : ℚ) : Option Int := if b = 0 then none else some (Int.ceil (fquo a b))

/-- The values fixed at the start of one call of `generate_psx_coll_io_events`. -/
structure coll_io_consts where
  nprocs : Int
  aggregator_cnt : Int
  ranks_per_aggregator : Int
  total_ind_io_ops : Int
  total_io_ops_this_cycle : Int
  inter_io_delay : ℚ
  meta_op_time : ℚ

/-- The local variables of the I/O loop of `generate_psx_coll_io_events` that live across
iterations (`rw_switch` is `none` while still unassigned). -/
structure coll_loop_state where
  st : gen_state
  cur_time : ℚ
  max_cur_time : ℚ
  total_coll_io_ops : Int
  ind_io_ops_this_cycle : Int
  coll_io_ops_this_cycle : Int
  next_ind_io_rank : Int
  rw_switch : Option fval

/-- The totals and aggregator settings computed at source lines 1185-1197:
`total_ind_io_ops`, `total_coll_io_ops`, `aggregator_cnt`, `ranks_per_aggregator`. -/
def coll_io_totals (nprocs opt_agg_count : Int) (file : darshan_file) :
    Option (Int × Int × Int × Int) :=
  if file.CP_COLL_OPENS ≠ 0 then
    (cdiv (file.CP_COLL_READS + file.CP_COLL_WRITES) nprocs).bind fun total_coll =>
    (cdiv nprocs opt_agg_count).map fun ranks_per_aggregator =>
      (file.CP_INDEP_READS + file.CP_INDEP_WRITES, total_coll, opt_agg_count,
       ranks_per_aggregator)
  else some (file.CP_POSIX_READS + file.CP_POSIX_WRITES, 0, nprocs, 1)

/-- Initialisation of the statics when `rw == -1` (source lines 1215-1235). -/
def coll_io_init (nprocs aggregator_cnt : Int) (st : gen_state) : Option gen_state :=
  if st.coll_rw = -1 then
    (fdiv (st.file.CP_POSIX_OPENS : ℚ) (nprocs : ℚ)).bind fun cycles =>
    (fdiv (st.file.CP_RW_SWITCHES : ℚ) (aggregator_cnt : ℚ)).bind fun switches =>
    (ceil_qdiv cycles (fadd switches 1)).map fun ndx =>
      { st with
        coll_rw :=
          if st.file.CP_F_WRITE_START_TIMESTAMP = 0 then 0
          else if st.file.CP_F_READ_START_TIMESTAMP = 0 then 1
          else if st.file.CP_F_READ_START_TIMESTAMP < st.file.CP_F_WRITE_START_TIMESTAMP then 0
          else 1
        coll_next_switch_ndx := ndx
        coll_rd_bw :=
          if st.file.CP_F_POSIX_READ_TIME ≠ 0 then
            fquo (st.file.CP_BYTES_READ : ℚ) st.file.CP_F_POSIX_READ_TIME
          else st.coll_rd_bw
        coll_wr_bw :=
          if st.file.CP_F_POSIX_WRITE_TIME ≠ 0 then
            fquo (st.file.CP_BYTES_WRITTEN : ℚ) st.file.CP_F_POSIX_WRITE_TIME
          else st.coll_wr_bw }
  else some st

/-- The read or write event of one pass of the inner loop (source lines 1280-1319), issued
by rank `rank`. -/
def coll_io_event (st : gen_state) (rank : Int) (meta_op_time cur_time : ℚ) (io_sz : Nat)
    (io_off : Int) : darshan_event :=
  if st.coll_rw = 0 then
    let io_op_time : ℚ := if st.coll_rd_bw = 0 then 0 else fquo (io_sz : ℚ) st.coll_rd_bw
    { rank := rank
      type := event_type.POSIX_READ
      start_time := cur_time
      end_time := fadd (fadd cur_time io_op_time) meta_op_time
      event_params := event_params.read st.file.hash io_sz io_off }
  else
    let io_op_time : ℚ := if st.coll_wr_bw = 0 then 0 else fquo (io_sz : ℚ) st.coll_wr_bw
    { rank := rank
      type := event_type.POSIX_WRITE
      start_time := cur_time
      end_time := fadd (fadd cur_time io_op_time) meta_op_time
      event_params := event_params.write st.file.hash io_sz io_off }

/-- The counter update of one pass of the inner loop: `CP_POSIX_READS--` or
`CP_POSIX_WRITES--`. -/
def coll_io_count (st : gen_state) : gen_state :=
  if st.coll_rw = 0 then
    { st with file := { st.file with CP_POSIX_READS := st.file.CP_POSIX_READS - 1 } }
  else
    { st with file := { st.file with CP_POSIX_WRITES := st.file.CP_POSIX_WRITES - 1 } }

/-- One pass of the inner loop `for (j = 0; j < io_cnt; j++)` (source lines 1275-1333) on
the generator state, `io_event.rank` and `max_cur_time`. -/
def coll_io_op (rnd : Nat → Nat) (c : coll_io_consts) (ind_coll : Int)
    (total_coll_io_ops : Int) (cur_time : ℚ) (x : gen_state × Int × ℚ) :
    Option (gen_state × Int × ℚ) :=
  (if ind_coll ≠ 0 then some total_coll_io_ops
    else ceil_ddiv x.1.file.CP_POSIX_OPENS c.nprocs).bind fun io_cycles =>
  (determine_io_params rnd x.1 x.1.coll_rw ind_coll io_cycles).bind fun r =>
    let ev := coll_io_event r.1 x.2.1 c.meta_op_time cur_time r.2.1 r.2.2
    let st1 := coll_io_count r.1
    if st1.file.CP_POSIX_READS < 0 ∨ st1.file.CP_POSIX_WRITES < 0 then none
    else
      (store_event st1 ev).map fun st2 =>
        (st2,
         if x.2.1 + c.ranks_per_aggregator ≥ c.ranks_per_aggregator * c.aggregator_cnt then 0
         else x.2.1 + c.ranks_per_aggregator,
         if ev.end_time > x.2.2 then ev.end_time else x.2.2)

/-- The inner loop with `k` passes left. -/
def coll_io_ops (rnd : Nat → Nat) (c : coll_io_consts) (ind_coll : Int)
    (total_coll_io_ops : Int) (cur_time : ℚ) :
    Nat → gen_state × Int × ℚ → Option (gen_state × Int × ℚ)
  | 0, x => some x
  | k + 1, x =>
    (coll_io_op rnd c ind_coll total_coll_io_ops cur_time x).bind
      (coll_io_ops rnd c ind_coll total_coll_io_ops cur_time k)

/-- What the first part of one iteration decides (source lines 1239-1273): the state, the
flag `ind_coll`, the first issuing rank, `io_cnt`, and the updated cycle counters. -/
structure coll_pick where
  st : gen_state
  ind_coll : Int
  rank : Int
  io_cnt : Int
  ind_io_ops_this_cycle : Int
  coll_io_ops_this_cycle : Int
  next_ind_io_rank : Int

/-- An independent operation is drawn (source lines 1242-1249). -/
def coll_pick_independent (c : coll_io_consts) (s : coll_loop_state) (st : gen_state) :
    Option coll_pick :=
  (cmod s.next_ind_io_rank c.nprocs).map fun rank =>
    { st :=
        if st.coll_rw = 0 then
          { st with file := { st.file with CP_INDEP_READS := st.file.CP_INDEP_READS - 1 } }
        else
          { st with file := { st.file with CP_INDEP_WRITES := st.file.CP_INDEP_WRITES - 1 } }
      ind_coll := 0
      rank := rank
      io_cnt := 1
      ind_io_ops_this_cycle := s.ind_io_ops_this_cycle - 1
      coll_io_ops_this_cycle := s.coll_io_ops_this_cycle
      next_ind_io_rank := s.next_ind_io_rank + 1 }

/-- A collective operation is drawn (source lines 1254-1272): a barrier is stored and the
number of participating accesses is computed. -/
def coll_pick_collective (c : coll_io_consts) (s : coll_loop_state) (st : gen_state) :
    Option coll_pick :=
  (generate_barrier_event st 0 s.cur_time).bind fun b =>
    let st1 := b.1
    if st1.coll_rw = 0 then
      (cdiv st1.file.CP_COLL_READS c.nprocs).bind fun per_rank =>
      (ceil_ddiv (st1.file.CP_POSIX_READS - st1.file.CP_INDEP_READS) per_rank).map fun io_cnt =>
        { st := { st1 with file :=
                    { st1.file with CP_COLL_READS := st1.file.CP_COLL_READS - c.nprocs } }
          ind_coll := 1
          rank := 0
          io_cnt := io_cnt
          ind_io_ops_this_cycle := s.ind_io_ops_this_cycle
          coll_io_ops_this_cycle := s.coll_io_ops_this_cycle - 1
          next_ind_io_rank := s.next_ind_io_rank }
    else
      (cdiv st1.file.CP_COLL_WRITES c.nprocs).bind fun per_rank =>
      (ceil_ddiv (st1.file.CP_POSIX_WRITES - st1.file.CP_INDEP_WRITES) per_rank).map
        fun io_cnt =>
        { st := { st1 with file :=
                    { st1.file with CP_COLL_WRITES := st1.file.CP_COLL_WRITES - c.nprocs } }
          ind_coll := 1
          rank := 0
          io_cnt := io_cnt
          ind_io_ops_this_cycle := s.ind_io_ops_this_cycle
          coll_io_ops_this_cycle := s.coll_io_ops_this_cycle - 1
          next_ind_io_rank := s.next_ind_io_rank }

/-- The value given to `rw_switch` after an operation (source lines 1339-1361); a trap
when an integer divisor is zero. -/
def coll_rw_switch (c : coll_io_consts) (st : gen_state) (total_coll_io_ops : Int) :
    Option fval :=
  let f := st.file
  if c.aggregator_cnt = 0 then none
  else if Int.tdiv f.CP_RW_SWITCHES c.aggregator_cnt ≠ 0 ∧
      ((st.coll_rw = 0 ∧
          f.CP_POSIX_READS ≤ Int.tdiv f.CP_RW_SWITCHES (2 * c.aggregator_cnt)) ∨
       (st.coll_rw ≠ 0 ∧
          f.CP_POSIX_WRITES ≤ Int.tdiv f.CP_RW_SWITCHES (2 * c.aggregator_cnt))) then
    some (fval.fin 1)
  else if f.CP_RW_SWITCHES = 0 then some (fval.fin 0)
  else if c.nprocs = 0 then none
  else if Int.tdiv f.CP_RW_SWITCHES c.aggregator_cnt < Int.tdiv f.CP_POSIX_OPENS c.nprocs ∨
      (st.coll_rw = 0 ∧ f.CP_RW_SWITCHES = c.aggregator_cnt ∧ f.CP_POSIX_READS ≠ 0) ∨
      (st.coll_rw ≠ 0 ∧ f.CP_RW_SWITCHES = c.aggregator_cnt ∧ f.CP_POSIX_WRITES ≠ 0) then
    some (fval.fin 0)
  else some (fval.ofDiv f.CP_RW_SWITCHES (c.total_ind_io_ops + total_coll_io_ops - 1))

/-- One `rand()` draw deciding the read/write toggle (source lines 1364-1369). -/
def coll_toggle (rnd : Nat → Nat) (c : coll_io_consts) (st : gen_state) (rw_switch : fval) :
    gen_state :=
  if fval.draw_lt (uniform (rnd st.rand_cnt)) rw_switch = true then
    { st with rand_cnt := st.rand_cnt + 1
              coll_rw := xor1 st.coll_rw
              file := { st.file with
                CP_RW_SWITCHES := st.file.CP_RW_SWITCHES - c.aggregator_cnt } }
  else { st with rand_cnt := st.rand_cnt + 1 }

/-- One iteration `i` of the loop of `generate_psx_coll_io_events`
(source lines 1237-1375). -/
def coll_io_body (rnd : Nat → Nat) (c : coll_io_consts) (i : Int) (s : coll_loop_state) :
    Option coll_loop_state :=
  (cdiv s.ind_io_ops_this_cycle (c.total_io_ops_this_cycle - i)).bind fun ind_coll_switch =>
  (if uniform (rnd s.st.rand_cnt) < (ind_coll_switch : ℚ) then
      coll_pick_independent c s { s.st with rand_cnt := s.st.rand_cnt + 1 }
    else coll_pick_collective c s { s.st with rand_cnt := s.st.rand_cnt + 1 }).bind fun p =>
  (coll_io_ops rnd c p.ind_coll s.total_coll_io_ops s.cur_time p.io_cnt.toNat
    (p.st, p.rank, s.max_cur_time)).bind fun r =>
  let total_coll := if p.ind_coll ≠ 0 then s.total_coll_io_ops - 1 else s.total_coll_io_ops
  (coll_rw_switch c r.1 total_coll).map fun rw_switch =>
    { st := coll_toggle rnd c r.1 rw_switch
      cur_time :=
        if i ≠ c.total_io_ops_this_cycle - 1 then
          fadd r.2.2 (fquo c.inter_io_delay ((c.total_io_ops_this_cycle : ℚ) - 1))
        else r.2.2
      max_cur_time := r.2.2
      total_coll_io_ops := total_coll
      ind_io_ops_this_cycle := p.ind_io_ops_this_cycle
      coll_io_ops_this_cycle := p.coll_io_ops_this_cycle
      next_ind_io_rank := p.next_ind_io_rank
      rw_switch := some rw_switch }

/-- The loop `for (i = 0; i < total_io_ops_this_cycle; i++)`, with `k` iterations left. -/
def coll_io_loop (rnd : Nat → Nat) (c : coll_io_consts) :
    Nat → Int → coll_loop_state → Option coll_loop_state
  | 0, _, s => some s
  | k + 1, i, s => (coll_io_body rnd c i s).bind (coll_io_loop rnd c k (i + 1))

/-- The end of `generate_psx_coll_io_events` (source lines 1377-1389).  Reading a
`rw_switch` that no iteration assigned has no defined value. -/
def coll_io_finish (c : coll_io_consts) (open_ndx : Int) (s : coll_loop_state) :
    Option gen_state :=
  let st := s.st
  if st.file.CP_POSIX_OPENS ≤ c.nprocs then some { st with coll_rw := -1 }
  else
    match s.rw_switch with
    | none => none
    | some rw_switch =>
      if rw_switch.is_zero = true then
        (cdiv st.file.CP_RW_SWITCHES c.aggregator_cnt).bind fun q =>
          if q ≠ 0 ∧ st.coll_next_switch_ndx = open_ndx + 1 then
            (fdiv (fsub (st.file.CP_POSIX_OPENS : ℚ) (c.nprocs : ℚ)) (c.nprocs : ℚ)).bind
              fun cycles =>
            (fdiv ((st.file.CP_RW_SWITCHES - c.aggregator_cnt : Int) : ℚ)
              (c.aggregator_cnt : ℚ)).bind fun switches =>
            (ceil_qdiv cycles (fadd switches 1)).map fun d =>
              { st with coll_rw := xor1 st.coll_rw
                        file := { st.file with
                          CP_RW_SWITCHES := st.file.CP_RW_SWITCHES - c.aggregator_cnt }
                        coll_next_switch_ndx := st.coll_next_switch_ndx + d }
          else some st
      else some st

/-- The function `generate_psx_coll_io_events`, with the globals `nprocs` and
`opt_agg_count` as arguments: returns the new state and the new time.  The early
`return;` at source line 1200 gives the caller no defined value; the double it then reads
is the argument `unspecified_time`. -/
def generate_psx_coll_io_events (rnd : Nat → Nat) (nprocs opt_agg_count : Int)
    (unspecified_time : ℚ) (st : gen_state) (open_ndx : Int)
    (inter_io_delay meta_op_time cur_time : ℚ) : Option (gen_state × ℚ) :=
  (coll_io_totals nprocs opt_agg_count st.file).bind fun t =>
  if t.1 + t.2.1 = 0 then some (st, unspecified_time)
  else
    let cycle_rank_cnt : Int :=
      if st.file.CP_POSIX_OPENS ≥ nprocs then nprocs else st.file.CP_POSIX_OPENS
    (fdiv (t.1 : ℚ) (st.file.CP_POSIX_OPENS : ℚ)).bind fun per_open =>
    (fdiv (st.file.CP_POSIX_OPENS : ℚ) (nprocs : ℚ)).bind fun cycles =>
    (ceil_qdiv (t.2.1 : ℚ) cycles).bind fun coll_io_ops_this_cycle =>
    let ind_io_ops_this_cycle : Int := Int.ceil (fmul per_open (cycle_rank_cnt : ℚ))
    let c : coll_io_consts :=
      { nprocs := nprocs
        aggregator_cnt := t.2.2.1
        ranks_per_aggregator := t.2.2.2
        total_ind_io_ops := t.1
        total_io_ops_this_cycle := ind_io_ops_this_cycle + coll_io_ops_this_cycle
        inter_io_delay := inter_io_delay
        meta_op_time := meta_op_time }
    (coll_io_init nprocs t.2.2.1 st).bind fun st1 =>
    (coll_io_loop rnd c (ind_io_ops_this_cycle + coll_io_ops_this_cycle).toNat 0
      { st := st1, cur_time := cur_time, max_cur_time := 0, total_coll_io_ops := t.2.1,
        ind_io_ops_this_cycle := ind_io_ops_this_cycle,
        coll_io_ops_this_cycle := coll_io_ops_this_cycle, next_ind_io_rank := 0,
        rw_switch := none }).bind fun s =>
    (coll_io_finish c open_ndx s).map fun st2 => (st2, s.cur_time)

/-! ## generate_psx_coll_file_events -/

/-- The adjustment of `CP_POSIX_OPENS` for opens that are not part of a collective cycle
(source lines 766-798): returns the record, `extra_opens` and `extra_open_stride`
(`none` while unassigned).  Stops in the two assertions or in a division by zero. -/
def coll_adjust_opens (nprocs : Int) (file : darshan_file) :
    Option (darshan_file × Int × Option Int) :=
  let create_flag : Int := if file.CP_BYTES_WRITTEN ≠ 0 then 1 else 0
  if file.CP_COLL_OPENS ≠ 0 ∨ file.CP_INDEP_OPENS ≠ 0 then
    let extra_opens := file.CP_POSIX_OPENS - file.CP_COLL_OPENS - file.CP_INDEP_OPENS
    if extra_opens ≠ 0 then
      (cdiv file.CP_COLL_OPENS nprocs).bind fun per_rank =>
        if ¬ (extra_opens ≤ per_rank + file.CP_INDEP_OPENS) then none
        else if create_flag = 0 then none
        else
          some ({ file with CP_POSIX_OPENS :=
                    file.CP_POSIX_OPENS - extra_opens - file.CP_INDEP_OPENS },
                extra_opens, some (Int.tdiv per_rank extra_opens))
    else
      some ({ file with CP_POSIX_OPENS := file.CP_POSIX_OPENS - file.CP_INDEP_OPENS },
            extra_opens, none)
  else
    (cdiv file.CP_POSIX_OPENS nprocs).bind fun per_rank =>
      let extra_opens := file.CP_POSIX_OPENS - per_rank * nprocs
      if extra_opens ≠ 0 ∧
          Int.tmod (Int.tdiv (file.CP_POSIX_OPENS - extra_opens) nprocs) extra_opens = 0 then
        if create_flag = 0 then none
        else
          some ({ file with CP_POSIX_OPENS := file.CP_POSIX_OPENS - extra_opens }, extra_opens,
                some (Int.tdiv (Int.tdiv (file.CP_POSIX_OPENS - extra_opens) nprocs)
                  extra_opens))
      else some (file, 0, none)

/-- The values computed once before the cycle loop of `generate_psx_coll_file_events`. -/
structure coll_cycle_params where
  nprocs : Int
  opt_agg_count : Int
  unspecified_time : ℚ
  extra_opens : Int
  extra_open_stride : Option Int
  delay_per_cycle : ℚ
  pcts : delay_pcts
  meta_op_time : ℚ

/-- The events of rank 0 creating the file (source lines 819-827); `i % extra_open_stride`
traps on a zero stride and has no defined value on an unassigned one. -/
def coll_extra_open (c : coll_cycle_params) (i create_flag : Int) (st : gen_state)
    (cur_time : ℚ) : Option (gen_state × ℚ × Int) :=
  if c.extra_opens ≠ 0 then
    match c.extra_open_stride with
    | none => none
    | some stride =>
      (cmod i stride).bind fun r =>
        if r = 0 then
          (generate_psx_open_event { st with file := { st.file with rank := 0 } } create_flag
            c.meta_op_time cur_time).bind fun r1 =>
          (generate_psx_close_event r1.1 c.meta_op_time r1.2).map fun r2 =>
            ({ r2.1 with file := { r2.1.file with rank := -1 } }, r2.2, 0)
        else some (st, cur_time, create_flag)
  else some (st, cur_time, create_flag)

/-- A cycle in which every rank takes part (source lines 816-853). -/
def coll_full_cycle (rnd : Nat → Nat) (c : coll_cycle_params) (i create_flag : Int)
    (st : gen_state) (cur_time : ℚ) : Option (gen_state × ℚ × Int) :=
  (coll_extra_open c i create_flag st cur_time).bind fun r0 =>
  (if r0.1.file.CP_COLL_OPENS ≠ 0 then generate_barrier_event r0.1 0 r0.2.1
    else some (r0.1, r0.2.1)).bind fun rb =>
  (generate_psx_open_event rb.1 r0.2.2 c.meta_op_time rb.2).bind fun r1 =>
  (generate_psx_coll_io_events rnd c.nprocs c.opt_agg_count c.unspecified_time r1.1 i
    (fmul c.pcts.inter_io_pct c.delay_per_cycle) c.meta_op_time
    (fadd r1.2 (fmul c.pcts.first_io_pct c.delay_per_cycle))).bind fun r2 =>
  (generate_psx_close_event r2.1 c.meta_op_time
    (fadd r2.2 (fmul c.pcts.close_pct c.delay_per_cycle))).map fun r3 =>
    ({ r3.1 with file :=
         { r3.1.file with CP_POSIX_OPENS := r3.1.file.CP_POSIX_OPENS - c.nprocs } },
     (if r3.1.file.CP_POSIX_OPENS - c.nprocs ≠ 0 then
        fadd r3.2 (fmul c.pcts.inter_open_pct c.delay_per_cycle)
      else r3.2),
     0)

/-- The loop `for (j = 0; j < file->counters[CP_POSIX_OPENS]; j++)` storing one OPEN per
participating rank (source lines 857-864), with `k` ranks left; only the last call's return
value is kept. -/
def coll_rank_opens (meta_op_time cur_time : ℚ) :
    Nat → Int → gen_state → ℚ → Option (gen_state × ℚ)
  | 0, _, st, t => some (st, t)
  | k + 1, j, st, t =>
    (generate_psx_open_event { st with file := { st.file with rank := j } } 0 meta_op_time
      cur_time).bind fun r =>
      coll_rank_opens meta_op_time cur_time k (j + 1) r.1
        (if j ≠ st.file.CP_POSIX_OPENS - 1 then t else r.2)

/-- The loop storing one CLOSE per participating rank (source lines 877-884). -/
def coll_rank_closes (meta_op_time cur_time : ℚ) :
    Nat → Int → gen_state → ℚ → Option (gen_state × ℚ)
  | 0, _, st, t => some (st, t)
  | k + 1, j, st, t =>
    (generate_psx_close_event { st with file := { st.file with rank := j } } meta_op_time
      cur_time).bind fun r =>
      coll_rank_closes meta_op_time cur_time k (j + 1) r.1
        (if j ≠ st.file.CP_POSIX_OPENS - 1 then t else r.2)

/-- The last cycle, in which fewer than `nprocs` ranks take part (source lines 856-887). -/
def coll_partial_cycle (rnd : Nat → Nat) (c : coll_cycle_params) (i : Int)
    (st : gen_state) (cur_time : ℚ) : Option (gen_state × ℚ × Int) :=
  (coll_rank_opens c.meta_op_time cur_time st.file.CP_POSIX_OPENS.toNat 0 st cur_time).bind
    fun r1 =>
  (generate_psx_coll_io_events rnd c.nprocs c.opt_agg_count c.unspecified_time
    { r1.1 with file := { r1.1.file with rank := -1 } } i
    (fmul c.pcts.inter_io_pct c.delay_per_cycle) c.meta_op_time
    (fadd r1.2 (fmul c.pcts.first_io_pct c.delay_per_cycle))).bind fun r2 =>
  (coll_rank_closes c.meta_op_time (fadd r2.2 (fmul c.pcts.close_pct c.delay_per_cycle))
    r2.1.file.CP_POSIX_OPENS.toNat 0 r2.1
    (fadd r2.2 (fmul c.pcts.close_pct c.delay_per_cycle))).map
    fun r3 =>
    ({ r3.1 with file := { r3.1.file with CP_POSIX_OPENS := 0, rank := -1 } }, r3.2, 0)

/-- One iteration of the cycle loop (source lines 816-888). -/
def coll_cycle (rnd : Nat → Nat) (c : coll_cycle_params) (i create_flag : Int)
    (st : gen_state) (cur_time : ℚ) : Option (gen_state × ℚ × Int) :=
  if st.file.CP_POSIX_OPENS ≥ c.nprocs then coll_full_cycle rnd c i create_flag st cur_time
  else
    (coll_partial_cycle rnd c i st cur_time).map fun r => (r.1, r.2.1, create_flag)

/-- The loop `for (i = 0; file->counters[CP_POSIX_OPENS]; i++)` with at most `fuel`
iterations. -/
def coll_cycles (rnd : Nat → Nat) (c : coll_cycle_params) :
    Nat → Int → Int → gen_state → ℚ → Option (gen_state × ℚ)
  | fuel, i, create_flag, st, cur_time =>
    if st.file.CP_POSIX_OPENS = 0 then some (st, cur_time)
    else
      match fuel with
      | 0 => none
      | k + 1 =>
        (coll_cycle rnd c i create_flag st cur_time).bind fun r =>
          coll_cycles rnd c k (i + 1) r.2.2 r.1 r.2.1

/-- The set-up of the delays (source lines 763-764 and 801-811) for the record after the
adjustment of its open count; `open_counter` is the integer counter the source reads as
`file->counters[CP_F_OPEN_TIMESTAMP]`, `meta_opens`, and `total_io_ops` the open count and
the number of I/O operations before the adjustment.  No value when `nprocs` is zero: the
two integers passed to `calc_io_delay_pcts` are then conversions of non-finite doubles.  A
delay, delay fractions or a meta time per operation that are not finite are carried on as
zeros. -/
def coll_cycle_setup (nprocs opt_agg_count : Int) (unspecified_time : ℚ) (open_counter : Int)
    (meta_opens total_io_ops : Int) (extra_opens : Int) (extra_open_stride : Option Int)
    (file : darshan_file) : Option coll_cycle_params :=
  (fdiv file.CP_F_POSIX_READ_TIME (nprocs : ℚ)).bind fun read_share =>
  (fdiv file.CP_F_POSIX_WRITE_TIME (nprocs : ℚ)).bind fun write_share =>
  (fdiv file.CP_F_POSIX_META_TIME (nprocs : ℚ)).bind fun meta_share =>
  (ceil_ddiv file.CP_POSIX_OPENS nprocs).bind fun cycles =>
  (fdiv (total_io_ops : ℚ) (nprocs : ℚ)).map fun ops_per_rank =>
    let delay_per_cycle :=
      finite_quotient (fsub (fsub (fsub (fsub file.CP_F_CLOSE_TIMESTAMP (open_counter : ℚ))
        read_share) write_share) meta_share) (cycles : ℚ)
    { nprocs := nprocs
      opt_agg_count := opt_agg_count
      unspecified_time := unspecified_time
      extra_opens := extra_opens
      extra_open_stride := extra_open_stride
      delay_per_cycle := delay_per_cycle
      pcts := finite_pcts (calc_io_delay_pcts file cycles (round_half_away ops_per_rank)
        delay_per_cycle zero_pcts)
      meta_op_time := finite_quotient file.CP_F_POSIX_META_TIME
        (((2 * meta_opens + file.CP_POSIX_READS + file.CP_POSIX_WRITES : Int) : ℚ)) }

/-- The function `generate_psx_coll_file_events` acting on the generator state, with the
globals `nprocs` and `opt_agg_count` as arguments.  `open_counter` gives the integer
counter stored at index `CP_F_OPEN_TIMESTAMP` of `counters`: the source subtracts it, not
the floating-point open timestamp, when it computes `delay_per_cycle`.  When the adjusted
open count is zero the cycle loop is not entered and the delays, which may then be
non-finite, are not used. -/
def generate_psx_coll_file_events (rnd : Nat → Nat) (nprocs opt_agg_count : Int)
    (unspecified_time : ℚ) (open_counter : darshan_file → Int) (st : gen_state) :
    Option gen_state :=
  if st.file.CP_POSIX_OPENS = 0 then some st
  else if ¬ (st.file.CP_POSIX_OPENS ≥ st.file.CP_COLL_OPENS) then none
  else
    (coll_adjust_opens nprocs st.file).bind fun a =>
      if a.1.CP_POSIX_OPENS = 0 then some { st with file := a.1 }
      else
        (coll_cycle_setup nprocs opt_agg_count unspecified_time (open_counter a.1)
          st.file.CP_POSIX_OPENS (st.file.CP_POSIX_READS + st.file.CP_POSIX_WRITES)
          a.2.1 a.2.2 a.1).bind fun c =>
        (coll_cycles rnd c (a.1.CP_POSIX_OPENS.toNat + 1) 0
          (if st.file.CP_BYTES_WRITTEN ≠ 0 then 1 else 0) { st with file := a.1 }
          st.file.CP_F_OPEN_TIMESTAMP).map fun r => r.1

/-! ## check_file_counters -/

/-- The subtraction of `start_time` from one timestamp, clamped at zero
(source lines 608-630). -/
def adjust_timestamp (start_time : Int) (t : ℚ) : ℚ :=
  if t - (start_time : ℚ) < 0 then 0 else t - (start_time : ℚ)

/-- The function `check_file_counters`, with the globals `start_time` and `app_run_time`
as arguments; stops in an assertion when a required counter holds the sentinel -1. -/
def check_file_counters (start_time app_run_time : Int) (file : darshan_file) :
    Option darshan_file :=
  if file.CP_POSIX_OPENS = -1 ∨ file.CP_F_OPEN_TIMESTAMP = -1 ∨ file.CP_COLL_OPENS = -1 ∨
      file.CP_F_CLOSE_TIMESTAMP = -1 ∨ file.CP_POSIX_READS = -1 ∨ file.CP_POSIX_WRITES = -1 ∨
      file.CP_F_POSIX_READ_TIME = -1 ∨ file.CP_F_POSIX_WRITE_TIME = -1 ∨
      file.CP_F_POSIX_META_TIME = -1 ∨ file.CP_F_READ_START_TIMESTAMP = -1 ∨
      file.CP_F_WRITE_START_TIMESTAMP = -1 ∨ file.CP_F_READ_END_TIMESTAMP = -1 ∨
      file.CP_F_WRITE_END_TIMESTAMP = -1 ∨ file.CP_BYTES_READ = -1 ∨
      file.CP_BYTES_WRITTEN = -1 ∨ file.CP_RW_SWITCHES = -1 then none
  else
    let f1 : darshan_file :=
      if file.CP_F_OPEN_TIMESTAMP > (start_time : ℚ) then
        { file with
          CP_F_OPEN_TIMESTAMP := adjust_timestamp start_time file.CP_F_OPEN_TIMESTAMP
          CP_F_READ_START_TIMESTAMP :=
            adjust_timestamp start_time file.CP_F_READ_START_TIMESTAMP
          CP_F_WRITE_START_TIMESTAMP :=
            adjust_timestamp start_time file.CP_F_WRITE_START_TIMESTAMP
          CP_F_CLOSE_TIMESTAMP := adjust_timestamp start_time file.CP_F_CLOSE_TIMESTAMP
          CP_F_READ_END_TIMESTAMP := adjust_timestamp start_time file.CP_F_READ_END_TIMESTAMP
          CP_F_WRITE_END_TIMESTAMP :=
            adjust_timestamp start_time file.CP_F_WRITE_END_TIMESTAMP }
      else file
    let f2 : darshan_file :=
      if f1.CP_F_CLOSE_TIMESTAMP = 0 then { f1 with CP_F_CLOSE_TIMESTAMP := (app_run_time : ℚ) }
      else f1
    some { f2 with
      CP_POSIX_OPENS := f2.CP_POSIX_OPENS + f2.CP_POSIX_FOPENS
      CP_POSIX_READS := f2.CP_POSIX_READS + f2.CP_POSIX_FREADS
      CP_POSIX_WRITES := f2.CP_POSIX_WRITES + f2.CP_POSIX_FWRITES }

/-! ## Generation pass for one record -/

/-- The generation of the events of one record in `main` (source lines 259-268):
`check_file_counters`, then the independent or the collective generator by rank. -/
def generate_file_events (rnd : Nat → Nat) (nprocs opt_agg_count : Int)
    (unspecified_time : ℚ) (open_counter : darshan_file → Int) (start_time app_run_time : Int)
    (created_files_hash : List hash_entry_t) (st : gen_state) : Option gen_state :=
  (check_file_counters start_time app_run_time st.file).bind fun f =>
    if f.rank > -1 then generate_psx_ind_file_events rnd created_files_hash { st with file := f }
    else
      generate_psx_coll_file_events rnd nprocs opt_agg_count unspecified_time open_counter
        { st with file := f }

/-! ## merge_file_events -/

/-- The globals `merge_file_events` works on: the rank event list with its capacity, the
file event buffer, and the static `last_close_time`. -/
structure merge_state where
  rank_event_list : List darshan_event
  rank_event_list_max : Int
  file_event_list : List darshan_event
  last_close_time : ℚ
  deriving DecidableEq

/-- The interleaving loop (source lines 1692-1723) on the parts of the two lists not yet
consumed; `fuel` bounds the number of iterations in which both lists still hold events. -/
def merge_loop : Nat → List darshan_event → List darshan_event → Option (List darshan_event)
  | _, [], [] => some []
  | _, [], f :: fs => some (f :: fs)
  | _, r :: rs, [] => some (r :: rs)
  | 0, _ :: _, _ :: _ => none
  | fuel + 1, r :: rs, f :: fs =>
    if r.start_time < f.start_time then (merge_loop fuel rs (f :: fs)).map fun l => r :: l
    else (merge_loop fuel (r :: rs) fs).map fun l => f :: l

/-- The function `merge_file_events` (allocation of the temporary list is taken to
succeed); stops in the capacity assertions. -/
def merge_file_events (file : darshan_file) (m : merge_state) : Option merge_state :=
  if m.file_event_list.length = 0 then some m
  else if m.rank_event_list.length = 0 then
    if (m.file_event_list.length : Int) ≤ m.rank_event_list_max then
      some { m with rank_event_list := m.file_event_list
                    file_event_list := []
                    last_close_time := file.CP_F_CLOSE_TIMESTAMP }
    else none
  else
    (if m.last_close_time < file.CP_F_OPEN_TIMESTAMP then
        some (m.rank_event_list ++ m.file_event_list)
      else
        merge_loop (m.rank_event_list.length + m.file_event_list.length)
          m.rank_event_list m.file_event_list).bind fun temp_list =>
      if (temp_list.length : Int) ≤ m.rank_event_list_max then
        some { m with rank_event_list := temp_list
                      file_event_list := []
                      last_close_time :=
                        if file.CP_F_CLOSE_TIMESTAMP > m.last_close_time then
                          file.CP_F_CLOSE_TIMESTAMP
                        else m.last_close_time }
      else none

/-- A run of `merge_file_events` calls for one rank: each step places the events
generated for a file in the file event buffer and merges them. -/
def merge_sequence : merge_state → List (darshan_file × List darshan_event) → Option merge_state
  | m, [] => some m
  | m, (file, events) :: rest =>
    (merge_file_events file { m with file_event_list := events }).bind fun m1 =>
      merge_sequence m1 rest

/-- Non-decreasing `start_time` across consecutive events. -/
def time_ordered : List darshan_event → Prop
  | [] => True
  | [_] => True
  | a :: b :: l => a.start_time ≤ b.start_time ∧ time_ordered (b :: l)

instance : DecidablePred time_ordered := fun l => by
  induction l with
  | nil => exact isTrue trivial
  | cons a l ih =>
    cases l with
    | nil => exact isTrue trivial
    | cons b l =>
      have : Decidable (time_ordered (b :: l)) := ih
      exact inferInstanceAs (Decidable (a.start_time ≤ b.start_time ∧ time_ordered (b :: l)))

/-! ## preprocess_events -/

/-- How a run of `preprocess_events` ends when it does not succeed. -/
inductive pre_error where
  /-- The function returned -1. -/
  | returned_error
  /-- A trap or an access outside the header. -/
  | undefined
  deriving DecidableEq

/-- The number `file_event_cnt` of events the sizing pass reserves for one record
(source lines 468-491), computed in `uint64_t`. -/
def file_event_cnt (nprocs : Int) (f : darshan_file) : Nat :=
  let psx_open_cnt : Nat := u64 (f.CP_POSIX_OPENS + f.CP_POSIX_FOPENS)
  let psx_read_cnt : Nat := u64 (f.CP_POSIX_READS + f.CP_POSIX_FREADS)
  let psx_write_cnt : Nat := u64 (f.CP_POSIX_WRITES + f.CP_POSIX_FWRITES)
  let base : Int :=
    (psx_read_cnt : Int) + (psx_write_cnt : Int) + Int.tdiv f.CP_COLL_OPENS nprocs +
      Int.tdiv f.CP_COLL_WRITES nprocs + Int.tdiv f.CP_COLL_READS nprocs
  if f.rank > -1 then u64 (base + 2 * (psx_open_cnt : Int))
  else if f.CP_COLL_OPENS ≠ 0 then
    u64 (base + (2 * Int.tdiv f.CP_COLL_OPENS nprocs +
      2 * ((psx_open_cnt : Int) - f.CP_COLL_OPENS)))
  else
    u64 (base + (2 * ((psx_open_cnt / u64 nprocs : Nat) : Int) +
      2 * ((psx_open_cnt % u64 nprocs : Nat) : Int)))

/-- The local and global variables of `preprocess_events` that change from record to
record. -/
structure pre_state where
  last_rank : Int
  rank_event_cnt : Nat
  coll_event_cnt : Nat
  cur_offset : Nat
  header_buf : List Nat
  rank_event_list_max : Nat
  file_event_list_max : Nat
  total_events : Nat
  created_files_hash : List hash_entry_t
  deriving DecidableEq

/-- The assignment `header_buf[ndx] = v`; undefined outside the allocated header. -/
def header_store (header_buf : List Nat) (ndx : Int) (v : Nat) : Except pre_error (List Nat) :=
  if 0 ≤ ndx ∧ ndx.toNat < header_buf.length then Except.ok (header_buf.set ndx.toNat v)
  else Except.error pre_error.undefined

/-- The work done when the rank changes between two records (source lines 436-455). -/
def pre_rank_change (sizeof_event : Nat) (next_rank : Int) (s : pre_state) :
    Except pre_error pre_state :=
  if s.last_rank ≠ next_rank then
    (if s.last_rank = -1 then Except.ok { s with coll_event_cnt := s.rank_event_cnt }
     else
      (header_store s.header_buf (s.last_rank + 1) s.cur_offset).map fun h =>
        { s with header_buf := h
                 cur_offset :=
                   (s.cur_offset + s.rank_event_cnt * sizeof_event) % 18446744073709551616 }).map
      fun s1 =>
        { s1 with
          rank_event_list_max :=
            if s1.rank_event_cnt > s1.rank_event_list_max then s1.rank_event_cnt
            else s1.rank_event_list_max
          rank_event_cnt := 0 }
  else Except.ok s

/-- The update of the creation-time table for one record (source lines 504-534). -/
def pre_hash_update (start_time : Int) (f : darshan_file) (tbl : List hash_entry_t) :
    List hash_entry_t :=
  if f.CP_BYTES_WRITTEN > 0 ∧ f.rank > -1 then
    match HASH_FIND tbl f.hash with
    | none =>
      tbl ++ [{ hash := f.hash
                time :=
                  if f.CP_F_OPEN_TIMESTAMP > (start_time : ℚ) then
                    f.CP_F_OPEN_TIMESTAMP - (start_time : ℚ)
                  else f.CP_F_OPEN_TIMESTAMP }]
    | some _ =>
      tbl.map fun e =>
        if e.hash = f.hash ∧ f.CP_F_OPEN_TIMESTAMP < e.time then
          { e with time := f.CP_F_OPEN_TIMESTAMP }
        else e
  else tbl

/-- One iteration of the record loop of `preprocess_events` (source lines 436-534). -/
def pre_step (nprocs start_time : Int) (sizeof_event : Nat) (f : darshan_file) (s : pre_state) :
    Except pre_error pre_state :=
  (pre_rank_change sizeof_event f.rank s).bind fun s1 =>
    if f.rank ≠ -1 ∧ f.rank < s1.last_rank then Except.error pre_error.returned_error
    else if nprocs = 0 then Except.error pre_error.undefined
    else
      Except.ok
        { s1 with
          last_rank := f.rank
          total_events := s1.total_events + file_event_cnt nprocs f
          file_event_list_max :=
            if file_event_cnt nprocs f > s1.file_event_list_max then file_event_cnt nprocs f
            else s1.file_event_list_max
          rank_event_cnt := (s1.rank_event_cnt + file_event_cnt nprocs f) % 18446744073709551616
          created_files_hash := pre_hash_update start_time f s1.created_files_hash }

/-- The record loop over the whole log. -/
def pre_loop (nprocs start_time : Int) (sizeof_event : Nat) :
    List darshan_file → pre_state → Except pre_error pre_state
  | [], s => Except.ok s
  | f :: rest, s =>
    (pre_step nprocs start_time sizeof_event f s).bind
      (pre_loop nprocs start_time sizeof_event rest)

/-- The end of `preprocess_events` (source lines 549-579); writing the header to the
output file is taken to succeed. -/
def pre_finish (nprocs : Int) (sizeof_event : Nat) (s : pre_state) :
    Except pre_error pre_state :=
  (if s.last_rank > -1 then
      (header_store s.header_buf (s.last_rank + 1) s.cur_offset).map fun h =>
        { s with header_buf := h
                 cur_offset :=
                   (s.cur_offset + s.rank_event_cnt * sizeof_event) % 18446744073709551616 }
    else Except.ok { s with coll_event_cnt := s.rank_event_cnt }).bind fun s1 =>
  (if s1.coll_event_cnt ≠ 0 then
      (header_store s1.header_buf (nprocs + 1) s1.cur_offset).map fun h =>
        { s1 with header_buf := h }
    else Except.ok s1).map fun s2 =>
    { s2 with
      rank_event_list_max :=
        if s2.rank_event_cnt > s2.rank_event_list_max then s2.rank_event_cnt
        else s2.rank_event_list_max }

/-- The state at the start of the record loop: header of `nprocs + 2` slots with
`header_buf[0] = nprocs`, `cur_offset` just behind the header. -/
def pre_init (nprocs : Int) (first_rank : Int) : pre_state :=
  { last_rank := first_rank
    rank_event_cnt := 0
    coll_event_cnt := 0
    cur_offset := u64 ((nprocs + 2) * 8)
    header_buf := u64 nprocs :: List.replicate (nprocs + 1).toNat 0
    rank_event_list_max := 0
    file_event_list_max := 0
    total_events := 0
    created_files_hash := [] }

/-- The function `preprocess_events` on a log given as the list of its file records, for a
job with `nprocs` processes; `sizeof_event` is `sizeof(struct darshan_event)`.  Reading
the log is taken to succeed; an empty log makes the function return -1. -/
def preprocess_events (nprocs start_time : Int) (sizeof_event : Nat) (log : List darshan_file) :
    Except pre_error pre_state :=
  match log with
  | [] => Except.error pre_error.returned_error
  | f :: rest =>
    (pre_loop nprocs start_time sizeof_event (f :: rest) (pre_init nprocs f.rank)).bind
      (pre_finish nprocs sizeof_event)

/-! ## Sample inputs -/

/-- A record with every counter zero. -/
def zero_file : darshan_file :=
  { rank := 0, hash := 0, CP_INDEP_OPENS := 0, CP_COLL_OPENS := 0, CP_INDEP_READS := 0,
    CP_INDEP_WRITES := 0, CP_COLL_READS := 0, CP_COLL_WRITES := 0, CP_POSIX_READS := 0,
    CP_POSIX_WRITES := 0, CP_POSIX_OPENS := 0, CP_POSIX_FOPENS := 0, CP_POSIX_FREADS := 0,
    CP_POSIX_FWRITES := 0, CP_BYTES_READ := 0, CP_BYTES_WRITTEN := 0, CP_MAX_BYTE_READ := 0,
    CP_MAX_BYTE_WRITTEN := 0, CP_SEQ_READS := 0, CP_SEQ_WRITES := 0, CP_RW_SWITCHES := 0,
    size_read_bins := [0, 0, 0, 0, 0, 0, 0, 0, 0, 0],
    size_write_bins := [0, 0, 0, 0, 0, 0, 0, 0, 0, 0],
    common_accesses := [0, 0, 0, 0], common_access_counts := [0, 0, 0, 0],
    CP_F_OPEN_TIMESTAMP := 0, CP_F_CLOSE_TIMESTAMP := 0, CP_F_READ_START_TIMESTAMP := 0,
    CP_F_WRITE_START_TIMESTAMP := 0, CP_F_READ_END_TIMESTAMP := 0,
    CP_F_WRITE_END_TIMESTAMP := 0, CP_F_POSIX_READ_TIME := 0, CP_F_POSIX_WRITE_TIME := 0,
    CP_F_POSIX_META_TIME := 0 }

/-- The generator state of a fresh process for a record: empty file event buffer of the
given capacity, every static at its initial value, no `rand()` call made. -/
def initial_state (file : darshan_file) (file_event_list_max : Int) : gen_state :=
  { file := file, file_event_list := [], file_event_list_max := file_event_list_max,
    ind_rw := -1, ind_next_switch_ndx := 0, ind_rd_bw := 0, ind_wr_bw := 0,
    coll_rw := -1, coll_next_switch_ndx := 0, coll_rd_bw := 0, coll_wr_bw := 0,
    seq_rd_flag := -1, seq_wr_flag := -1, next_rd_off := 0, next_wr_off := 0,
    rd_common_accesses := [0, 0, 0, 0], wr_common_accesses := [0, 0, 0, 0],
    all_common_flag := -1, rand_cnt := 0 }

/-- A file read once, whose single read starts when the file is opened (time 5) and ends
when it is closed (time 7). -/
def read_spanning_file : darshan_file :=
  { zero_file with
    CP_POSIX_OPENS := 1, CP_POSIX_READS := 1,
    CP_F_OPEN_TIMESTAMP := 5, CP_F_READ_START_TIMESTAMP := 5,
    CP_F_READ_END_TIMESTAMP := 7, CP_F_CLOSE_TIMESTAMP := 7 }

/-- A file written once, whose single write starts when the file is opened (time 1) and
ends when it is closed (time 4). -/
def write_spanning_file : darshan_file :=
  { zero_file with
    CP_POSIX_OPENS := 1, CP_POSIX_WRITES := 1,
    CP_F_OPEN_TIMESTAMP := 1, CP_F_WRITE_START_TIMESTAMP := 1,
    CP_F_WRITE_END_TIMESTAMP := 4, CP_F_CLOSE_TIMESTAMP := 4 }

/-- The timestamps of a record are consistent: when an I/O start timestamp is recorded,
the open timestamp is not after the first I/O and the last I/O is not after the close. -/
def consistent_timestamps (file : darshan_file) : Prop :=
  first_io_time file ≠ 0 →
    file.CP_F_OPEN_TIMESTAMP ≤ first_io_time file ∧ last_io_time file ≤ file.CP_F_CLOSE_TIMESTAMP

/-- An event that starts (and ends) at time `t`. -/
def event_at (t : ℚ) : darshan_event :=
  { rank := 0, type := event_type.POSIX_OPEN, start_time := t, end_time := t,
    event_params := event_params.open 0 0 }

/-- The merge globals of a rank whose event list is empty. -/
def empty_merge_state (rank_event_list_max : Int) : merge_state :=
  { rank_event_list := [], rank_event_list_max := rank_event_list_max,
    file_event_list := [], last_close_time := 0 }

/-- Every event of a file event buffer starts between the open and the close timestamp of
its file. -/
def within_file_span (file : darshan_file) (events : List darshan_event) : Prop :=
  ∀ e ∈ events,
    file.CP_F_OPEN_TIMESTAMP ≤ e.start_time ∧ e.start_time ≤ file.CP_F_CLOSE_TIMESTAMP

instance (file : darshan_file) (events : List darshan_event) :
    Decidable (within_file_span file events) := by
  unfold within_file_span
  exact inferInstance

/-- Two files of one rank with overlapping spans, each with two events. -/
def overlapping_calls : List (darshan_file × List darshan_event) :=
  [({ zero_file with CP_F_OPEN_TIMESTAMP := 1, CP_F_CLOSE_TIMESTAMP := 3 },
    [event_at 1, event_at 3]),
   ({ zero_file with CP_F_OPEN_TIMESTAMP := 2, CP_F_CLOSE_TIMESTAMP := 4 },
    [event_at 2, event_at 4])]

/-! ## Vocabulary for the trace header -/

/-- Slot `ndx` of a header. -/
def header_slot (header_buf : List Nat) (ndx : Int) : Nat := header_buf.getD ndx.toNat 0

/-- The sizing-pass event count of rank `r`: the sum of `file_event_cnt` over the records
of rank `r` in the log. -/
def rank_event_count (nprocs : Int) : List darshan_file → Int → Nat
  | [], _ => 0
  | f :: l, r =>
    (if f.rank = r then file_event_cnt nprocs f else 0) + rank_event_count nprocs l r

/-- The sum of the sizing-pass event counts of all independent ranks below `r`. -/
def events_below (nprocs : Int) : List darshan_file → Int → Nat
  | [], _ => 0
  | f :: l, r =>
    (if 0 ≤ f.rank ∧ f.rank < r then file_event_cnt nprocs f else 0) + events_below nprocs l r

/-- The sum of the sizing-pass event counts of all independent ranks. -/
def independent_events (nprocs : Int) : List darshan_file → Nat
  | [] => 0
  | f :: l => (if 0 ≤ f.rank then file_event_cnt nprocs f else 0) + independent_events nprocs l

/-- The sum of `file_event_cnt` over all records of a log. -/
def all_events (nprocs : Int) : List darshan_file → Nat
  | [] => 0
  | f :: l => file_event_cnt nprocs f + all_events nprocs l

/-- Some record of the log has rank `r`. -/
def has_rank (log : List darshan_file) (r : Int) : Prop := ∃ f ∈ log, f.rank = r

instance (log : List darshan_file) (r : Int) : Decidable (has_rank log r) := by
  unfold has_rank
  exact inferInstance

/-- The records that may follow when the largest independent rank seen so far is `m` and
the previous record had rank `last`: a collective record (rank -1), a record continuing
the group of `last`, or a record of a rank above `m`; ranks stay below `nprocs`. -/
def ranks_grouped_from (nprocs : Int) : Int → Int → List darshan_file → Prop
  | _, _, [] => True
  | m, last, f :: l =>
    (f.rank = -1 ∨ (0 ≤ f.rank ∧ f.rank < nprocs ∧ (f.rank = last ∨ m < f.rank))) ∧
    ranks_grouped_from nprocs (max m f.rank) f.rank l

/-- The records of every rank `r ≥ 0` are contiguous in the log and these groups come in
increasing rank order; groups of collective records may stand anywhere between them. -/
def ranks_grouped (nprocs : Int) (log : List darshan_file) : Prop :=
  ranks_grouped_from nprocs (-1) (-1) log

instance (nprocs : Int) : ∀ (m last : Int) (l : List darshan_file),
    Decidable (ranks_grouped_from nprocs m last l)
  | _, _, [] => isTrue trivial
  | m, last, f :: l =>
    have : Decidable (ranks_grouped_from nprocs (max m f.rank) f.rank l) :=
      instDecidableRanks_grouped_from nprocs (max m f.rank) f.rank l
    inferInstanceAs (Decidable
      ((f.rank = -1 ∨ (0 ≤ f.rank ∧ f.rank < nprocs ∧ (f.rank = last ∨ m < f.rank))) ∧
        ranks_grouped_from nprocs (max m f.rank) f.rank l))

instance (nprocs : Int) (log : List darshan_file) : Decidable (ranks_grouped nprocs log) := by
  unfold ranks_grouped
  exact inferInstance

/-- The log is grouped by rank in increasing rank order, followed by at most one group of
collective (rank -1) records: independent records `ind` sorted by rank, then collective
records `coll`. -/
def rank_ordered (nprocs : Int) (ind coll : List darshan_file) : Prop :=
  (∀ f ∈ ind, 0 ≤ f.rank ∧ f.rank < nprocs) ∧
  ind.Pairwise (fun a b => a.rank ≤ b.rank) ∧
  (∀ f ∈ coll, f.rank = -1)

/-- An independent record of the given rank with the given numbers of opens and reads. -/
def sample_record (rank opens reads : Int) : darshan_file :=
  { zero_file with rank := rank, CP_POSIX_OPENS := opens, CP_POSIX_READS := reads }

/-- The event count of the current group that the next rank change adds to `cur_offset`:
the running count of an independent rank, nothing for a collective group. -/
def pending (s : pre_state) : Nat := if 0 ≤ s.last_rank then s.rank_event_cnt else 0

/-- Two independent records, of ranks 0 and 1. -/
def ordered_sample_ind : List darshan_file := [sample_record 0 1 1, sample_record 1 1 0]

/-- One collective record. -/
def ordered_sample_coll : List darshan_file := [sample_record (-1) 2 0]

/-- A log in which a collective record separates two records of rank 0. -/
def split_group_log : List darshan_file :=
  [sample_record 0 1 1, sample_record (-1) 1 0, sample_record 0 1 1]

/-- A log with a collective record between the records of rank 0 and rank 1. -/
def interleaved_log : List darshan_file :=
  [sample_record 0 1 1, sample_record (-1) 2 0, sample_record 1 1 0]

/-! ## Vocabulary for the independent generator -/

/-- The part of the generator state that `determine_io_params` never writes. -/
structure ctl_view where
  rank : Int
  hash : Nat
  opens : Int
  reads : Int
  writes : Int
  rw_switches : Int
  indep_opens : Int
  coll_opens : Int
  indep_reads : Int
  indep_writes : Int
  coll_reads : Int
  coll_writes : Int
  events : List darshan_event
  events_max : Int
  ind_rw : Int
  ind_next_switch_ndx : Int
  ind_rd_bw : ℚ
  ind_wr_bw : ℚ
  coll_rw : Int
  coll_next_switch_ndx : Int
  coll_rd_bw : ℚ
  coll_wr_bw : ℚ

/-- The view of a state on the fields of `ctl_view`. -/
def gen_state.ctl (st : gen_state) : ctl_view :=
  { rank := st.file.rank, hash := st.file.hash, opens := st.file.CP_POSIX_OPENS,
    reads := st.file.CP_POSIX_READS, writes := st.file.CP_POSIX_WRITES,
    rw_switches := st.file.CP_RW_SWITCHES, indep_opens := st.file.CP_INDEP_OPENS,
    coll_opens := st.file.CP_COLL_OPENS, indep_reads := st.file.CP_INDEP_READS,
    indep_writes := st.file.CP_INDEP_WRITES, coll_reads := st.file.CP_COLL_READS,
    coll_writes := st.file.CP_COLL_WRITES, events := st.file_event_list,
    events_max := st.file_event_list_max, ind_rw := st.ind_rw,
    ind_next_switch_ndx := st.ind_next_switch_ndx, ind_rd_bw := st.ind_rd_bw,
    ind_wr_bw := st.ind_wr_bw, coll_rw := st.coll_rw,
    coll_next_switch_ndx := st.coll_next_switch_ndx, coll_rd_bw := st.coll_rd_bw,
    coll_wr_bw := st.coll_wr_bw }

/-- Number of events of a given type in a list. -/
def count_type (t : event_type) (l : List darshan_event) : Nat :=
  l.countP (fun e => decide (e.type = t))

/-- Every event of the list is a read or a write. -/
def all_io (l : List darshan_event) : Prop :=
  ∀ e ∈ l, e.type = event_type.POSIX_READ ∨ e.type = event_type.POSIX_WRITE

/-- The kind of an event, with reads and writes identified. -/
inductive event_class where
  | open_ev
  | io_ev
  | close_ev
  | barrier_ev
  deriving DecidableEq

/-- The class of an event. -/
def class_of (e : darshan_event) : event_class :=
  match e.type with
  | event_type.POSIX_OPEN => event_class.open_ev
  | event_type.POSIX_CLOSE => event_class.close_ev
  | event_type.POSIX_READ => event_class.io_ev
  | event_type.POSIX_WRITE => event_class.io_ev
  | event_type.BARRIER => event_class.barrier_ev

/-- The shape the specification gives the buffer of an independent file with `n` opens
left and `rem` I/O operations still unissued: per open one OPEN, then
`ceil(rem / opens left)` READ/WRITE events, then one CLOSE. -/
def cycle_shape : Nat → Int → List event_class
  | 0, _ => []
  | n + 1, rem =>
    event_class.open_ev ::
      (List.replicate (Int.ceil ((rem : ℚ) / (((n : Int) + 1 : Int) : ℚ))).toNat
          event_class.io_ev ++
        event_class.close_ev ::
          cycle_shape n (rem - Int.ceil ((rem : ℚ) / (((n : Int) + 1 : Int) : ℚ))))

/-- Everything `determine_io_params` writes: its statics, the `rand()` position, and the
byte totals, size bins and slot counts of the record. -/
structure synth_view where
  seq_rd_flag : Int
  seq_wr_flag : Int
  next_rd_off : Nat
  next_wr_off : Nat
  rd_common_accesses : List Int
  wr_common_accesses : List Int
  all_common_flag : Int
  rand_cnt : Nat
  bytes_read : Int
  bytes_written : Int
  size_read_bins : List Int
  size_write_bins : List Int
  common_access_counts : List Int
  deriving DecidableEq

/-- The view of a state on the fields of `synth_view`. -/
def gen_state.synth (st : gen_state) : synth_view :=
  { seq_rd_flag := st.seq_rd_flag, seq_wr_flag := st.seq_wr_flag,
    next_rd_off := st.next_rd_off, next_wr_off := st.next_wr_off,
    rd_common_accesses := st.rd_common_accesses, wr_common_accesses := st.wr_common_accesses,
    all_common_flag := st.all_common_flag, rand_cnt := st.rand_cnt,
    bytes_read := st.file.CP_BYTES_READ, bytes_written := st.file.CP_BYTES_WRITTEN,
    size_read_bins := st.file.size_read_bins, size_write_bins := st.file.size_write_bins,
    common_access_counts := st.file.common_access_counts }

/-- Scenario A: a record on rank 0 with one open, `n` reads, no writes, open timestamp 0,
close timestamp `T`, and every other counter zero. -/
def scenario_a_file (n : Nat) (T : ℚ) (hash : Nat) : darshan_file :=
  { zero_file with hash := hash, CP_POSIX_OPENS := 1, CP_POSIX_READS := (n : Int),
                   CP_F_CLOSE_TIMESTAMP := T }

/-! ## Vocabulary for Scenario A and sample runs -/

/-- A record with two opens, two reads, one write and one read/write switch. -/
def mixed_file : darshan_file :=
  { zero_file with CP_POSIX_OPENS := 2, CP_POSIX_READS := 2, CP_POSIX_WRITES := 1,
                   CP_RW_SWITCHES := 1, CP_F_READ_START_TIMESTAMP := 1,
                   CP_F_WRITE_START_TIMESTAMP := 2, CP_F_READ_END_TIMESTAMP := 3,
                   CP_F_WRITE_END_TIMESTAMP := 5, CP_F_CLOSE_TIMESTAMP := 10 }

/-- The state `generate_psx_ind_file_events` leaves for `mixed_file` with a random stream
of zeros, an empty creation-time table and a buffer of capacity 7. -/
def mixed_result : gen_state :=
  (generate_psx_ind_file_events (fun _ => 0) [] (initial_state mixed_file 7)).getD
    (initial_state mixed_file 7)

/-! ## Vocabulary for the sizing contract and the collective generator -/

/-- An independent record on rank 0 with one read and no open. -/
def unopened_read_file : darshan_file := { zero_file with CP_POSIX_READS := 1 }

/-- A collective record of a two-process job: each rank opened the file once through a
collective MPI open; the ranks made three POSIX reads, two of them through independent MPI
reads. -/
def mpi_mixed_file : darshan_file :=
  { zero_file with rank := -1, CP_POSIX_OPENS := 2, CP_COLL_OPENS := 2, CP_INDEP_READS := 2,
                   CP_POSIX_READS := 3, CP_F_CLOSE_TIMESTAMP := 10 }

/-- A collective record of a two-process job: each rank opened the file once through an
independent MPI open and read it once through an independent MPI read. -/
def indep_open_file : darshan_file :=
  { zero_file with rank := -1, CP_POSIX_OPENS := 2, CP_INDEP_OPENS := 2, CP_INDEP_READS := 2,
                   CP_POSIX_READS := 2, CP_F_CLOSE_TIMESTAMP := 10 }

/-- The sum of the three quotients `CP_COLL_OPENS / nprocs + CP_COLL_WRITES / nprocs +
CP_COLL_READS / nprocs` the sizing pass adds for every record. -/
def coll_sizing_terms (nprocs : Int) (f : darshan_file) : Int :=
  Int.tdiv f.CP_COLL_OPENS nprocs + Int.tdiv f.CP_COLL_WRITES nprocs +
    Int.tdiv f.CP_COLL_READS nprocs

/-- The state `generate_file_events` leaves for `mixed_file` in a two-process job. -/
def mixed_pass_result : gen_state :=
  (generate_file_events (fun _ => 0) 2 16 0 (fun f => f.CP_INDEP_OPENS) 0 10 []
    (initial_state mixed_file 7)).getD (initial_state mixed_file 7)

/-- The READ and WRITE events of the buffer stay in step with the two POSIX counters
between two states: every READ stored has lowered `CP_POSIX_READS` by one, every WRITE
`CP_POSIX_WRITES`, and a counter that was non-negative still is. -/
def io_sync (st st' : gen_state) : Prop :=
  ((count_type event_type.POSIX_READ st'.file_event_list : Int) + st'.file.CP_POSIX_READS =
    count_type event_type.POSIX_READ st.file_event_list + st.file.CP_POSIX_READS) ∧
  ((count_type event_type.POSIX_WRITE st'.file_event_list : Int) + st'.file.CP_POSIX_WRITES =
    count_type event_type.POSIX_WRITE st.file_event_list + st.file.CP_POSIX_WRITES) ∧
  (0 ≤ st.file.CP_POSIX_READS → 0 ≤ st'.file.CP_POSIX_READS) ∧
  (0 ≤ st.file.CP_POSIX_WRITES → 0 ≤ st'.file.CP_POSIX_WRITES)

/-- A collective record of a two-process job without MPI counters: two opens and two
reads. -/
def shared_read_file : darshan_file :=
  { zero_file with rank := -1, CP_POSIX_OPENS := 2, CP_POSIX_READS := 2,
                   CP_F_CLOSE_TIMESTAMP := 10 }

/-- The state `generate_psx_coll_file_events` leaves for `shared_read_file` in a
two-process job with a random stream of zeros and a buffer of capacity 8. -/
def shared_read_result : gen_state :=
  (generate_psx_coll_file_events (fun _ => 0) 2 16 0 (fun f => f.CP_INDEP_OPENS)
    (initial_state shared_read_file 8)).getD (initial_state shared_read_file 8)

/-! ## Vocabulary for the merge paths and the I/O parameter synthesizer -/

/-- A CLOSE event that starts (and ends) at time `t`. -/
def close_event_at (t : ℚ) : darshan_event :=
  { rank := 0, type := event_type.POSIX_CLOSE, start_time := t, end_time := t,
    event_params := event_params.close 0 }

/-- A rank whose three-event file buffer is merged into its empty event list. -/
def three_event_state : merge_state :=
  { rank_event_list := [], rank_event_list_max := 3,
    file_event_list := [event_at 5, event_at 6, close_event_at 7], last_close_time := 0 }

/-- A rank with two events closed at time 2 and a file buffer of two events. -/
def two_plus_two_state : merge_state :=
  { rank_event_list := [event_at 1, close_event_at 2], rank_event_list_max := 4,
    file_event_list := [event_at 2, close_event_at 3], last_close_time := 2 }

/-- A file opened at time 2 and closed at time 3. -/
def file_two_three : darshan_file :=
  { zero_file with CP_F_OPEN_TIMESTAMP := 2, CP_F_CLOSE_TIMESTAMP := 3 }

/-- A file opened at time 5/2 and closed at time 3. -/
def file_late_open : darshan_file :=
  { zero_file with CP_F_OPEN_TIMESTAMP := 5 / 2, CP_F_CLOSE_TIMESTAMP := 3 }

/-- The merge globals left by an earlier rank whose last file closed at time 10, with the
event list emptied for the next rank and a one-event file buffer. -/
def next_rank_state : merge_state :=
  { rank_event_list := [], rank_event_list_max := 4,
    file_event_list := [event_at 5], last_close_time := 10 }

/-- The index of the size bin that holds a size: the last of the ten lower bounds of
`bin_min_size` that is at most the size. -/
def size_bin (sz : Nat) : Nat :=
  if sz < 100 then 0
  else if sz < 1024 then 1
  else if sz < 10 * 1024 then 2
  else if sz < 100 * 1024 then 3
  else if sz < 1024 * 1024 then 4
  else if sz < 4 * 1024 * 1024 then 5
  else if sz < 10 * 1024 * 1024 then 6
  else if sz < 100 * 1024 * 1024 then 7
  else if sz < 1024 * 1024 * 1024 then 8
  else 9

/-- The size bins `size_bins` of the requested direction (source lines 1448 and 1468). -/
def size_bins_of (file : darshan_file) (write_flag : Int) : List Int :=
  if write_flag ≠ 0 then file.size_write_bins else file.size_read_bins

/-- The size bins of the direction that was not requested. -/
def other_size_bins_of (file : darshan_file) (write_flag : Int) : List Int :=
  if write_flag ≠ 0 then file.size_read_bins else file.size_write_bins

/-- A record with one read of 2048 bytes left. -/
def one_read_file : darshan_file :=
  { zero_file with CP_POSIX_OPENS := 1, CP_POSIX_READS := 1, CP_BYTES_READ := 2048,
                   CP_MAX_BYTE_READ := 2047 }

/-- The state, size and offset `determine_io_params` returns for a read on
`one_read_file`. -/
def one_read_result : gen_state × Nat × Int :=
  (determine_io_params (fun _ => 0) (initial_state one_read_file 3) 0 0 1).getD
    (initial_state one_read_file 3, 0, 0)

/-- A record whose four common access sizes 10, 20, 30, 40 were each seen once and account
for all 100 bytes read, with four reads and two opens. -/
def apportion_short_file : darshan_file :=
  { zero_file with CP_POSIX_OPENS := 2, CP_POSIX_READS := 4, CP_BYTES_READ := 100,
                   CP_MAX_BYTE_READ := 99, common_accesses := [10, 20, 30, 40],
                   common_access_counts := [1, 1, 1, 1] }

/-- A record read and written with the access sizes 10 (twice) and 5 (twice): 20 bytes
read and 10 bytes written. -/
def shared_slot_file : darshan_file :=
  { zero_file with CP_POSIX_OPENS := 1, CP_POSIX_READS := 3, CP_POSIX_WRITES := 2,
                   CP_BYTES_READ := 20, CP_BYTES_WRITTEN := 10, CP_MAX_BYTE_READ := 99,
                   CP_MAX_BYTE_WRITTEN := 99, common_accesses := [10, 5, 0, 0],
                   common_access_counts := [2, 2, 0, 0] }

/-- The state after one read and one write on `shared_slot_file` have been given their
sizes by `determine_io_params` (with `io_cycles = 1`). -/
def shared_slot_state : gen_state :=
  (((determine_io_params (fun _ => 0) (initial_state shared_slot_file 8) 0 0 1).bind
    fun r => determine_io_params (fun _ => 0) r.1 1 0 1).map fun r => r.1).getD
    (initial_state shared_slot_file 8)

/-- The remaining per-cycle shares of the requested direction (`rd_common_accesses` or
`wr_common_accesses`). -/
def common_shares_of (st : gen_state) (write_flag : Int) : List Int :=
  if write_flag ≠ 0 then st.wr_common_accesses else st.rd_common_accesses

/-- The state, size and offset `determine_io_params` returns for the first read on
`shared_slot_file`. -/
def shared_slot_first : gen_state × Nat × Int :=
  (determine_io_params (fun _ => 0) (initial_state shared_slot_file 8) 0 0 1).getD
    (initial_state shared_slot_file 8, 0, 0)

/-! ## Vocabulary for the created flag and the rank order check -/

/-- The synthetic `created` flag of an event: the `create_flag` of an OPEN is non-zero. -/
def created (e : darshan_event) : Bool :=
  match e.event_params with
  | event_params.open _ cf => decide (cf ≠ 0)
  | _ => false

/-- The buffer of `st'` is the buffer of `st` followed by events that all satisfy `P`. -/
def appends (P : darshan_event → Prop) (st st' : gen_state) : Prop :=
  ∃ l, st'.file_event_list = st.file_event_list ++ l ∧ ∀ e ∈ l, P e

/-- The keys of the creation-time table are pairwise different, as in a hash table. -/
def unique_keys (tbl : List hash_entry_t) : Prop :=
  tbl.Pairwise (fun a b => a.hash ≠ b.hash)

/-- A creation-time table with one entry: the file with hash 0 was created at time 0. -/
def sample_created_table : List hash_entry_t := [{ hash := 0, time := 0 }]

/-- The state `generate_psx_ind_file_events` leaves for `mixed_file` when the creation-time
table says the file was created at its open timestamp. -/
def mixed_created_result : gen_state :=
  (generate_psx_ind_file_events (fun _ => 0) sample_created_table
    (initial_state mixed_file 7)).getD (initial_state mixed_file 7)

/-- Some record of the list, or the record directly after a record of rank `last`, has a
rank other than -1 that is lower than the rank of the record directly before it. -/
def rank_drop_after (last : Int) : List darshan_file → Prop
  | [] => False
  | f :: rest => (f.rank ≠ -1 ∧ f.rank < last) ∨ rank_drop_after f.rank rest

/-- Some record of the log with a rank other than -1 directly follows a record of a higher
rank. -/
def has_rank_drop : List darshan_file → Prop
  | [] => False
  | f :: rest => rank_drop_after f.rank rest

/-- The ranks of the records with rank `≥ 0`, in log order. -/
def independent_ranks (log : List darshan_file) : List Int :=
  (log.filter (fun f => decide (f.rank ≥ 0))).map (fun f => f.rank)

/-- A log in which a collective record stands between a record of rank 1 and a record of
rank 0. -/
def descending_log : List darshan_file :=
  [sample_record 1 1 1, sample_record (-1) 2 0, sample_record 0 1 1]

/-- A log in which a record of rank 0 directly follows a record of rank 1. -/
def dropping_log : List darshan_file :=
  [sample_record 1 1 1, sample_record 0 1 1]

/-- A record of a file written by `rank`, with hash 7 and the given open timestamp. -/
def written_record (rank : Int) (open_ts : ℚ) : darshan_file :=
  { zero_file with rank := rank, hash := 7, CP_POSIX_OPENS := 1, CP_POSIX_WRITES := 1,
                   CP_BYTES_WRITTEN := 8, CP_F_OPEN_TIMESTAMP := open_ts,
                   CP_F_CLOSE_TIMESTAMP := open_ts + 10 }

/-! ## Vocabulary for Scenario B -/

/-- The fields of the record that the I/O loop of the collective generator leaves alone
as long as it issues no independent operation: rank, open count, collective open count,
and the two counters of independent MPI reads and writes. -/
def coll_keep (st : gen_state) : Int × Int × Int × Int × Int :=
  (st.file.rank, st.file.CP_POSIX_OPENS, st.file.CP_COLL_OPENS, st.file.CP_INDEP_READS,
   st.file.CP_INDEP_WRITES)

/-- Every event of the list is a BARRIER, a READ or a WRITE. -/
def all_coll_io (l : List darshan_event) : Prop :=
  ∀ e ∈ l, e.type = event_type.BARRIER ∨ e.type = event_type.POSIX_READ ∨
    e.type = event_type.POSIX_WRITE

/-- Scenario B with reads: a collective record of a four-process job, opened once by
every rank through a collective open, with one collective read per rank. -/
def scenario_b_file : darshan_file :=
  { zero_file with rank := -1, CP_POSIX_OPENS := 4, CP_COLL_OPENS := 4, CP_COLL_READS := 4,
                   CP_POSIX_READS := 4, CP_F_CLOSE_TIMESTAMP := 10 }

/-- Scenario B with two collective reads per rank. -/
def scenario_b_two_reads : darshan_file :=
  { zero_file with rank := -1, CP_POSIX_OPENS := 4, CP_COLL_OPENS := 4, CP_COLL_READS := 8,
                   CP_POSIX_READS := 8, CP_F_CLOSE_TIMESTAMP := 10 }

/-- The state `generate_psx_coll_file_events` leaves for `scenario_b_two_reads`. -/
def scenario_b_result : gen_state :=
  (generate_psx_coll_file_events (fun _ => 0) 4 16 0 (fun f => f.CP_INDEP_OPENS)
    (initial_state scenario_b_two_reads 16)).getD (initial_state scenario_b_two_reads 16)

/-! ## Vocabulary for the offsets and flags of the I/O parameter synthesizer -/

/-- The function-local statics of `determine_io_params` (source lines 1401-1407). -/
structure io_statics where
  seq_rd_flag : Int
  seq_wr_flag : Int
  next_rd_off : Nat
  next_wr_off : Nat
  rd_common_accesses : List Int
  wr_common_accesses : List Int
  all_common_flag : Int
  deriving DecidableEq

/-- The statics of `determine_io_params` held in a generator state. -/
def gen_state.statics (st : gen_state) : io_statics :=
  { seq_rd_flag := st.seq_rd_flag, seq_wr_flag := st.seq_wr_flag,
    next_rd_off := st.next_rd_off, next_wr_off := st.next_wr_off,
    rd_common_accesses := st.rd_common_accesses, wr_common_accesses := st.wr_common_accesses,
    all_common_flag := st.all_common_flag }

/-- The initializers of the statics: both sequential flags and the all-common flag -1,
both cursors 0, the eight share counters 0. -/
def initial_io_statics : io_statics :=
  { seq_rd_flag := -1, seq_wr_flag := -1, next_rd_off := 0, next_wr_off := 0,
    rd_common_accesses := [0, 0, 0, 0], wr_common_accesses := [0, 0, 0, 0],
    all_common_flag := -1 }

/-- The sequential flag of the requested direction. -/
def seq_flag_of (st : gen_state) (write_flag : Int) : Int :=
  if write_flag ≠ 0 then st.seq_wr_flag else st.seq_rd_flag

/-- The sequential cursor (`next_wr_off` or `next_rd_off`) of the requested direction. -/
def next_off_of (st : gen_state) (write_flag : Int) : Nat :=
  if write_flag ≠ 0 then st.next_wr_off else st.next_rd_off

/-- The operation count (`CP_POSIX_WRITES` or `CP_POSIX_READS`) of the requested
direction. -/
def ops_of (file : darshan_file) (write_flag : Int) : Int :=
  if write_flag ≠ 0 then file.CP_POSIX_WRITES else file.CP_POSIX_READS

/-- The recorded sequential-access count of the requested direction. -/
def seq_count_of (file : darshan_file) (write_flag : Int) : Int :=
  if write_flag ≠ 0 then file.CP_SEQ_WRITES else file.CP_SEQ_READS

/-- The sequential flag of the requested direction as a call of `determine_io_params`
uses it: the value after the initialisation at source lines 1451-1463 / 1471-1483. -/
def seq_flag_after (st : gen_state) (write_flag : Int) : Option Int :=
  (init_seq_flag (init_all_common_flag st) write_flag).map fun s => seq_flag_of s write_flag

/-- The fields read by the choice of the offset. -/
def offset_inputs (st : gen_state) : Int × Int × Nat × Nat × Int × Int × Int × Int × Nat :=
  (st.seq_rd_flag, st.seq_wr_flag, st.next_rd_off, st.next_wr_off, st.file.CP_MAX_BYTE_READ,
   st.file.CP_MAX_BYTE_WRITTEN, st.file.CP_POSIX_READS, st.file.CP_POSIX_WRITES, st.rand_cnt)

/-- A sequential read file: two reads of 10 bytes, the last byte read at 19, one of the
reads recorded as sequential, the byte total explained by the first common-access slot. -/
def seq_read_file : darshan_file :=
  { zero_file with CP_POSIX_OPENS := 1, CP_POSIX_READS := 2, CP_BYTES_READ := 20,
                   CP_MAX_BYTE_READ := 19, CP_SEQ_READS := 1, common_accesses := [10, 0, 0, 0],
                   common_access_counts := [2, 0, 0, 0] }

/-- The result of the first call of `determine_io_params` for `seq_read_file`. -/
def seq_read_first : gen_state × Nat × Int :=
  (determine_io_params (fun _ => 5) (initial_state seq_read_file 3) 0 0 1).getD
    (initial_state seq_read_file 3, 0, 0)

/-- A record whose last byte read holds a negative value: two reads of 10 bytes explained
by the first common-access slot, `CP_MAX_BYTE_READ = -2`. -/
def negative_last_byte_file : darshan_file :=
  { zero_file with CP_POSIX_OPENS := 1, CP_POSIX_READS := 2, CP_BYTES_READ := 20,
                   CP_MAX_BYTE_READ := -2, common_accesses := [10, 0, 0, 0],
                   common_access_counts := [2, 0, 0, 0] }

/-- A read file that is not sequential: two reads of 10 bytes inside the first 100 bytes,
none recorded as sequential. -/
def random_read_file : darshan_file :=
  { zero_file with CP_POSIX_OPENS := 1, CP_POSIX_READS := 2, CP_BYTES_READ := 20,
                   CP_MAX_BYTE_READ := 99, CP_SEQ_READS := 0, common_accesses := [10, 0, 0, 0],
                   common_access_counts := [2, 0, 0, 0] }

/-- The result of the first call of `determine_io_params` for `random_read_file` when
`rand()` returns 1234. -/
def random_read_first : gen_state × Nat × Int :=
  (determine_io_params (fun _ => 1234) (initial_state random_read_file 3) 0 0 1).getD
    (initial_state random_read_file 3, 0, 0)

/-- A record with two reads whose last byte read holds -1 and whose other counters
are zero. -/
def unset_last_byte_file : darshan_file :=
  { zero_file with CP_POSIX_OPENS := 1, CP_POSIX_READS := 2, CP_MAX_BYTE_READ := -1 }

/-! ## Vocabulary for the reset of the statics and the cycles of the collective generator -/

/-- The state after an I/O operation of a file: no read or write count is negative, and
when none is left the statics of `determine_io_params` are in their initial state. -/
def statics_clean (st : gen_state) : Prop :=
  0 ≤ st.file.CP_POSIX_READS + st.file.CP_POSIX_WRITES ∧
  (st.file.CP_POSIX_READS + st.file.CP_POSIX_WRITES = 0 → st.statics = initial_io_statics)

/-- A record with one open, two reads and one write of 10 bytes each. -/
def three_op_file : darshan_file :=
  { zero_file with CP_POSIX_OPENS := 1, CP_POSIX_READS := 2, CP_POSIX_WRITES := 1,
                   CP_BYTES_READ := 20, CP_BYTES_WRITTEN := 10, CP_MAX_BYTE_READ := 19,
                   CP_MAX_BYTE_WRITTEN := 9, CP_RW_SWITCHES := 1,
                   CP_F_READ_START_TIMESTAMP := 1, CP_F_WRITE_START_TIMESTAMP := 2,
                   CP_F_READ_END_TIMESTAMP := 3, CP_F_WRITE_END_TIMESTAMP := 4,
                   CP_F_CLOSE_TIMESTAMP := 10, common_accesses := [10, 0, 0, 0],
                   common_access_counts := [3, 0, 0, 0] }

/-- The state `generate_psx_ind_file_events` leaves for `three_op_file`. -/
def three_op_result : gen_state :=
  (generate_psx_ind_file_events (fun _ => 0) [] (initial_state three_op_file 8)).getD
    (initial_state three_op_file 8)

/-- The threshold `ind_coll_switch` of iteration `i` of the loop of
`generate_psx_coll_io_events` (source line 1239): the quotient of two `int64_t` values,
truncated before it is stored in the `double`; a trap when the divisor is zero. -/
def ind_coll_switch (c : coll_io_consts) (i : Int) (s : coll_loop_state) : Option Int :=
  cdiv s.ind_io_ops_this_cycle (c.total_io_ops_this_cycle - i)

/-- A collective record of a four-process job opened at time 2 and closed at time 10 by
one collective open of every rank. -/
def late_open_coll_file : darshan_file :=
  { zero_file with rank := -1, CP_POSIX_OPENS := 4, CP_COLL_OPENS := 4,
                   CP_F_OPEN_TIMESTAMP := 2, CP_F_CLOSE_TIMESTAMP := 10 }

/-- A collective record of a two-process job with three collective opens per rank
(`CP_COLL_OPENS = 6`), two further opens (`CP_POSIX_OPENS = 8`), and three collective
writes of 10 bytes per rank. -/
def surplus_open_file : darshan_file :=
  { zero_file with rank := -1, CP_POSIX_OPENS := 8, CP_COLL_OPENS := 6, CP_COLL_WRITES := 6,
                   CP_POSIX_WRITES := 6, CP_BYTES_WRITTEN := 60, CP_MAX_BYTE_WRITTEN := 59,
                   CP_F_WRITE_START_TIMESTAMP := 1, CP_F_WRITE_END_TIMESTAMP := 9,
                   CP_F_CLOSE_TIMESTAMP := 10, common_accesses := [10, 0, 0, 0],
                   common_access_counts := [6, 0, 0, 0] }

/-- A collective record of a two-process job with one collective open per rank, one
collective read per rank and one independent read. -/
def mixed_coll_file : darshan_file :=
  { zero_file with rank := -1, CP_POSIX_OPENS := 2, CP_COLL_OPENS := 2, CP_INDEP_READS := 1,
                   CP_COLL_READS := 2, CP_POSIX_READS := 3, CP_BYTES_READ := 30,
                   CP_MAX_BYTE_READ := 29, CP_F_READ_START_TIMESTAMP := 1,
                   CP_F_READ_END_TIMESTAMP := 9, CP_F_CLOSE_TIMESTAMP := 10,
                   common_accesses := [10, 0, 0, 0], common_access_counts := [3, 0, 0, 0] }

/-- The state of the I/O loop of `mixed_coll_file` at its first iteration: one independent
and one collective operation to issue in the cycle. -/
def mixed_coll_loop_state : coll_loop_state :=
  { st := { initial_state mixed_coll_file 8 with coll_rw := 0 }, cur_time := 0,
    max_cur_time := 0, total_coll_io_ops := 1, ind_io_ops_this_cycle := 1,
    coll_io_ops_this_cycle := 1, next_ind_io_rank := 0, rw_switch := none }

/-- The constants of the I/O loop of `mixed_coll_file`. -/
def mixed_coll_consts : coll_io_consts :=
  { nprocs := 2, aggregator_cnt := 2, ranks_per_aggregator := 1, total_ind_io_ops := 1,
    total_io_ops_this_cycle := 2, inter_io_delay := 0, meta_op_time := 0 }

/-- The first iteration of the I/O loop of `mixed_coll_file` when `rand()` returns 0. -/
def mixed_coll_first : coll_loop_state :=
  (coll_io_body (fun _ => 0) mixed_coll_consts 0 mixed_coll_loop_state).getD
    mixed_coll_loop_state

/-- The state in which `main` starts the generation for the next record (source lines
257-318): the record is overwritten by the one read from the log, the file event buffer
has been emptied by `merge_file_events`, and the statics keep their values. -/
def next_file_state (s : gen_state) (file : darshan_file) : gen_state :=
  { s with file := file, file_event_list := [] }

/-- A record on rank 0 with two opens and one read of 10 bytes that took 2 seconds. -/
def two_open_read_file : darshan_file :=
  { zero_file with CP_POSIX_OPENS := 2, CP_POSIX_READS := 1, CP_BYTES_READ := 10,
                   CP_MAX_BYTE_READ := 9, CP_F_READ_START_TIMESTAMP := 1,
                   CP_F_READ_END_TIMESTAMP := 2, CP_F_CLOSE_TIMESTAMP := 10,
                   CP_F_POSIX_READ_TIME := 2 }

/-- A record on rank 0 with one open and one read of 10 bytes that took 5 seconds. -/
def slow_read_file : darshan_file :=
  { zero_file with hash := 1, CP_POSIX_OPENS := 1, CP_POSIX_READS := 1, CP_BYTES_READ := 10,
                   CP_MAX_BYTE_READ := 9, CP_F_READ_START_TIMESTAMP := 1,
                   CP_F_READ_END_TIMESTAMP := 6, CP_F_CLOSE_TIMESTAMP := 10,
                   CP_F_POSIX_READ_TIME := 5 }

/-- A record on rank 0 with one open and one write of 10 bytes. -/
def one_write_file : darshan_file :=
  { zero_file with hash := 2, CP_POSIX_OPENS := 1, CP_POSIX_WRITES := 1,
                   CP_BYTES_WRITTEN := 10, CP_MAX_BYTE_WRITTEN := 9,
                   CP_F_WRITE_START_TIMESTAMP := 1, CP_F_WRITE_END_TIMESTAMP := 2,
                   CP_F_CLOSE_TIMESTAMP := 10 }

/-- A collective record of a two-process job with one collective open per rank
(`CP_COLL_OPENS = 2`), one independent MPI open and two further opens
(`CP_POSIX_OPENS = 5`), and 10 bytes written. -/
def zero_stride_file : darshan_file :=
  { zero_file with rank := -1, CP_POSIX_OPENS := 5, CP_COLL_OPENS := 2, CP_INDEP_OPENS := 1,
                   CP_POSIX_WRITES := 1, CP_BYTES_WRITTEN := 10, CP_MAX_BYTE_WRITTEN := 9,
                   CP_F_WRITE_START_TIMESTAMP := 1, CP_F_WRITE_END_TIMESTAMP := 2,
                   CP_F_CLOSE_TIMESTAMP := 10 }

/-- The normalisation of one timestamp `t` of a record whose open timestamp is `open_ts`,
in the words of the specification: `max(t - start_time, 0)` when the open timestamp
exceeds the job start time, `t` otherwise. -/
def normalized_timestamp (start_time : Int) (open_ts t : ℚ) : ℚ :=
  if open_ts > (start_time : ℚ) then max (t - (start_time : ℚ)) 0 else t

/-- A collective record of a four-process job: one collective open and one collective read
per rank, three reads of 10 bytes left to issue. -/
def round_robin_file : darshan_file :=
  { zero_file with rank := -1, CP_POSIX_OPENS := 4, CP_COLL_OPENS := 4, CP_COLL_READS := 4,
                   CP_POSIX_READS := 3, CP_BYTES_READ := 30, CP_MAX_BYTE_READ := 29,
                   CP_F_CLOSE_TIMESTAMP := 10, common_accesses := [10, 0, 0, 0],
                   common_access_counts := [3, 0, 0, 0] }

/-- The constants of the I/O loop of `round_robin_file` with two aggregators. -/
def round_robin_consts : coll_io_consts :=
  { nprocs := 4, aggregator_cnt := 2, ranks_per_aggregator := 2, total_ind_io_ops := 0,
    total_io_ops_this_cycle := 1, inter_io_delay := 0, meta_op_time := 0 }

/-- The state of the I/O loop of `round_robin_file` at its only iteration. -/
def round_robin_loop_state : coll_loop_state :=
  { st := { initial_state round_robin_file 16 with coll_rw := 0 }, cur_time := 0,
    max_cur_time := 0, total_coll_io_ops := 1, ind_io_ops_this_cycle := 0,
    coll_io_ops_this_cycle := 1, next_ind_io_rank := 0, rw_switch := none }

/-- The collective operation drawn for `round_robin_file`. -/
def round_robin_pick : coll_pick :=
  (coll_pick_collective round_robin_consts round_robin_loop_state
    round_robin_loop_state.st).getD
    { st := round_robin_loop_state.st, ind_coll := 0, rank := 0, io_cnt := 0,
      ind_io_ops_this_cycle := 0, coll_io_ops_this_cycle := 0, next_ind_io_rank := 0 }

/-- The kind of event issued for a value of the static direction flag `rw`
(`if (!rw)` at source line 1051): READ for 0, WRITE otherwise. -/
def io_kind (rw : Int) : event_type :=
  if rw = 0 then event_type.POSIX_READ else event_type.POSIX_WRITE

/-- The direction the next I/O operation of the file has: the flag `rw` itself, or, while
it still holds -1, the value the initialisation of source lines 1025-1036 gives it. -/
def ind_direction (st : gen_state) : Int :=
  if st.ind_rw = -1 then
    (if st.file.CP_F_WRITE_START_TIMESTAMP = 0 then 0
     else if st.file.CP_F_READ_START_TIMESTAMP = 0 then 1
     else if st.file.CP_F_READ_START_TIMESTAMP < st.file.CP_F_WRITE_START_TIMESTAMP then 0
     else 1)
  else st.ind_rw

/-- A record with two opens, three reads of 10 bytes and no read/write switch. -/
def no_switch_file : darshan_file :=
  { zero_file with CP_POSIX_OPENS := 2, CP_POSIX_READS := 3, CP_BYTES_READ := 30,
                   CP_MAX_BYTE_READ := 29, CP_F_READ_START_TIMESTAMP := 1,
                   CP_F_READ_END_TIMESTAMP := 9, CP_F_CLOSE_TIMESTAMP := 10,
                   common_accesses := [10, 0, 0, 0], common_access_counts := [3, 0, 0, 0] }

/-- The cycle parameters of `no_switch_file`. -/
def no_switch_params : ind_cycle_params :=
  (ind_cycle_setup no_switch_file).getD
    { delay_per_open := 0, pcts := zero_pcts, inter_open_delay := 0, meta_op_time := 0 }

/-- The result of the cycle loop for `no_switch_file`. -/
def no_switch_result : gen_state × ℚ :=
  (ind_cycles (fun _ => 0) no_switch_params 2 0 0 (initial_state no_switch_file 8) 0).getD
    (initial_state no_switch_file 8, 0)

/-! ## Vocabulary for the stable merge, the byte totals and the buffer capacity -/

/-- The stable two-way merge by ascending `start_time` of the specification, as the
library merge: the timeline `L` and the file's events `F` are interleaved, and of two
heads the file's event is taken first unless the timeline's starts strictly earlier. -/
def stable_merge (L F : List darshan_event) : List darshan_event :=
  List.merge F L (fun f r => decide (f.start_time ≤ r.start_time))

/-- A timeline and a file event buffer in which the file's events are not in ascending
order of `start_time`. -/
def unsorted_file_state : merge_state :=
  { rank_event_list := [event_at 1, event_at 5], rank_event_list_max := 10,
    file_event_list := [close_event_at 9, close_event_at 5], last_close_time := 10 }

/-- A timeline and a file event buffer, both in ascending order, with one tie at
`start_time` 3. -/
def tie_state : merge_state :=
  { rank_event_list := [event_at 1, event_at 3], rank_event_list_max := 10,
    file_event_list := [close_event_at 2, close_event_at 3], last_close_time := 10 }

/-- The operation count of the direction that is not requested. -/
def other_ops_of (file : darshan_file) (write_flag : Int) : Int :=
  if write_flag ≠ 0 then file.CP_POSIX_READS else file.CP_POSIX_WRITES

/-- The size carried by a READ or WRITE event; 0 for the other events. -/
def io_size (e : darshan_event) : Nat :=
  match e.event_params with
  | event_params.read _ sz _ => sz
  | event_params.write _ sz _ => sz
  | _ => 0

/-- The sum of the sizes of the events of type `t` in a list. -/
def bytes_of (t : event_type) (l : List darshan_event) : Nat :=
  ((l.filter (fun e => decide (e.type = t))).map io_size).sum

/-- A state whose record has operations of the requested direction only, with either an
operation left or the byte total of the direction at zero. -/
def single_kind (w : Int) (st : gen_state) : Prop :=
  other_ops_of st.file w = 0 ∧ (1 ≤ ops_of st.file w ∨ total_io_size st w = 0)

/-- Between two states of a single-kind record: the sizes of the events of the direction
stored in between, plus the byte total still to issue, make up the byte total of the first
state modulo `2^64`. -/
def bytes_step (w : Int) (st st' : gen_state) : Prop :=
  single_kind w st' ∧
  ∃ l, st'.file_event_list = st.file_event_list ++ l ∧
    (bytes_of (io_kind w) l + u64 (total_io_size st' w)) % 18446744073709551616 =
      u64 (total_io_size st w)

/-- A record with two opens and three reads of 10 bytes. -/
def read_only_file : darshan_file :=
  { zero_file with CP_POSIX_OPENS := 2, CP_POSIX_READS := 3, CP_BYTES_READ := 30,
                   CP_MAX_BYTE_READ := 29, CP_F_READ_START_TIMESTAMP := 1,
                   CP_F_READ_END_TIMESTAMP := 9, CP_F_CLOSE_TIMESTAMP := 10,
                   common_accesses := [10, 0, 0, 0], common_access_counts := [3, 0, 0, 0] }

/-- The state `generate_psx_ind_file_events` leaves for `read_only_file`. -/
def read_only_result : gen_state :=
  (generate_psx_ind_file_events (fun _ => 0) [] (initial_state read_only_file 8)).getD
    (initial_state read_only_file 8)

/-- A generator state with the capacity `file_event_list_max` of its file event buffer
replaced. -/
def with_capacity (M : Int) (st : gen_state) : gen_state :=
  { st with file_event_list_max := M }

/-- The loop state of `generate_psx_ind_io_events` with the capacity of the buffer
replaced. -/
def with_loop_capacity (M : Int) (s : io_loop_state) : io_loop_state :=
  { s with st := with_capacity M s.st }

/-- A record whose event count `2 * opens + reads + writes` is `2^64`. -/
def wrap_file : darshan_file :=
  { zero_file with CP_POSIX_OPENS := 9223372036854775807, CP_POSIX_READS := 2 }

/-- An independent record with one open that also counts one collective open. -/
def one_coll_open_file : darshan_file :=
  { zero_file with CP_POSIX_OPENS := 1, CP_COLL_OPENS := 1, CP_F_CLOSE_TIMESTAMP := 10 }

/-- Slot `i` is the first of the four common-access slots with the property `p`. -/
def first_slot (p : Nat → Prop) (i : Nat) : Prop := i < 4 ∧ p i ∧ ∀ j, j < i → ¬ p j

/-- A record of a job that starts at time 100 and ends at time 200: opened at 150, read
from 160 to 170, never written, and without a recorded close time. -/
def late_job_file : darshan_file :=
  { zero_file with CP_POSIX_OPENS := 1, CP_POSIX_READS := 1,
                   CP_F_OPEN_TIMESTAMP := 150, CP_F_READ_START_TIMESTAMP := 160,
                   CP_F_READ_END_TIMESTAMP := 170 }

/-- The record `check_file_counters` makes of `late_job_file`. -/
def late_job_checked : darshan_file :=
  (check_file_counters 100 (200 - 100 + 1) late_job_file).getD zero_file

theorem bit_length_spec : ∀ (fuel n : Nat), n ≤ fuel → 0 < n →
    2 ^ (bit_length fuel n - 1) ≤ n ∧ n < 2 ^ bit_length fuel n := by
  intro fuel
  induction fuel with
  | zero => intro n h1 h2; omega
  | succ f ih =>
    intro n h1 h2
    unfold bit_length
    rw [if_neg (by omega)]
    by_cases h : n / 2 = 0
    · have hn : n = 1 := by omega
      subst hn
      cases f with
      | zero => simp [bit_length]
      | succ f => simp [bit_length]
    · obtain ⟨a, b⟩ := ih (n / 2) (by omega) (by omega)
      have hpos : 0 < bit_length f (n / 2) := by
        cases f with
        | zero => omega
        | succ f => unfold bit_length; rw [if_neg h]; omega
      constructor
      · rw [Nat.add_sub_cancel]
        have : 2 ^ bit_length f (n / 2) = 2 * 2 ^ (bit_length f (n / 2) - 1) := by
          rw [← pow_succ']
          congr 1
          omega
        rw [this]
        omega
      · rw [pow_succ]
        omega


theorem bit_length_pos (n : Nat) (h : 0 < n) : 0 < bit_length n n := by
  cases n with
  | zero => omega
  | succ k => unfold bit_length; rw [if_neg (by omega)]; omega

theorem binade_spec (n d : Nat) (hn : 0 < n) (hd : 0 < d) :
    (2 : ℚ) ^ (binade n d) ≤ (n : ℚ) / d ∧ (n : ℚ) / d < (2 : ℚ) ^ (binade n d + 1) := by
  obtain ⟨a1, a2⟩ := bit_length_spec n n le_rfl hn
  obtain ⟨b1, b2⟩ := bit_length_spec d d le_rfl hd
  have ha := bit_length_pos n hn
  have hb := bit_length_pos d hd
  have hdq : (0 : ℚ) < (d : ℚ) := by exact_mod_cast hd
  have hnq : (0 : ℚ) < (n : ℚ) := by exact_mod_cast hn
  have a1q : (2 : ℚ) ^ ((bit_length n n : Int) - 1) ≤ (n : ℚ) := by
    have : ((2 ^ (bit_length n n - 1) : Nat) : ℚ) ≤ (n : ℚ) := by exact_mod_cast a1
    rw [show (bit_length n n : Int) - 1 = ((bit_length n n - 1 : Nat) : Int) by omega,
      zpow_natCast]
    exact_mod_cast this
  have a2q : (n : ℚ) < (2 : ℚ) ^ (bit_length n n : Int) := by
    rw [zpow_natCast]; exact_mod_cast a2
  have b1q : (2 : ℚ) ^ ((bit_length d d : Int) - 1) ≤ (d : ℚ) := by
    have : ((2 ^ (bit_length d d - 1) : Nat) : ℚ) ≤ (d : ℚ) := by exact_mod_cast b1
    rw [show (bit_length d d : Int) - 1 = ((bit_length d d - 1 : Nat) : Int) by omega,
      zpow_natCast]
    exact_mod_cast this
  have b2q : (d : ℚ) < (2 : ℚ) ^ (bit_length d d : Int) := by
    rw [zpow_natCast]; exact_mod_cast b2
  have h2 : (0 : ℚ) < 2 := by norm_num
  have h2ne : (2 : ℚ) ≠ 0 := by norm_num
  -- coarse bounds
  have lo : (2 : ℚ) ^ ((bit_length n n : Int) - (bit_length d d : Int) - 1) ≤ (n : ℚ) / d := by
    rw [le_div_iff₀ hdq]
    calc (2 : ℚ) ^ ((bit_length n n : Int) - (bit_length d d : Int) - 1) * d
        ≤ (2 : ℚ) ^ ((bit_length n n : Int) - (bit_length d d : Int) - 1) *
            (2 : ℚ) ^ (bit_length d d : Int) :=
          mul_le_mul_of_nonneg_left b2q.le (zpow_nonneg h2.le _)
      _ = (2 : ℚ) ^ ((bit_length n n : Int) - 1) := by
          rw [← zpow_add₀ h2ne]; congr 1; ring
      _ ≤ n := a1q
  have hi : (n : ℚ) / d < (2 : ℚ) ^ ((bit_length n n : Int) - (bit_length d d : Int) + 1) := by
    rw [div_lt_iff₀ hdq]
    calc (n : ℚ) < (2 : ℚ) ^ (bit_length n n : Int) := a2q
      _ = (2 : ℚ) ^ ((bit_length n n : Int) - (bit_length d d : Int) + 1) *
            (2 : ℚ) ^ ((bit_length d d : Int) - 1) := by
          rw [← zpow_add₀ h2ne]; congr 1; ring
      _ ≤ (2 : ℚ) ^ ((bit_length n n : Int) - (bit_length d d : Int) + 1) * d :=
          mul_le_mul_of_nonneg_left b1q (zpow_nonneg h2.le _)
  unfold binade
  simp only
  generalize (bit_length n n : Int) - (bit_length d d : Int) = e0 at lo hi ⊢
  by_cases he : 0 ≤ e0
  · rw [if_pos he]
    have hz : (2 : ℚ) ^ e0 = ((2 ^ e0.toNat : Nat) : ℚ) := by
      conv_lhs => rw [← Int.toNat_of_nonneg he]
      rw [zpow_natCast]; push_cast; rfl
    by_cases ht : d * 2 ^ e0.toNat ≤ n
    · rw [if_pos ht]
      refine ⟨?_, hi⟩
      rw [le_div_iff₀ hdq, hz]
      have : ((d * 2 ^ e0.toNat : Nat) : ℚ) ≤ (n : ℚ) := by exact_mod_cast ht
      push_cast at this ⊢
      linarith
    · rw [if_neg ht]
      refine ⟨lo, ?_⟩
      rw [sub_add_cancel, div_lt_iff₀ hdq, hz]
      have : (n : ℚ) < ((d * 2 ^ e0.toNat : Nat) : ℚ) := by exact_mod_cast (not_le.mp ht)
      push_cast at this ⊢
      linarith
  · rw [if_neg he]
    have hneg : 0 ≤ -e0 := by omega
    have hz : (2 : ℚ) ^ e0 = 1 / ((2 ^ (-e0).toNat : Nat) : ℚ) := by
      have : e0 = -(((-e0).toNat : Nat) : Int) := by
        rw [Int.toNat_of_nonneg hneg]; ring
      conv_lhs => rw [this]
      rw [zpow_neg, zpow_natCast]; push_cast; rw [one_div]
    have hp : (0 : ℚ) < ((2 ^ (-e0).toNat : Nat) : ℚ) := by positivity
    by_cases ht : d ≤ n * 2 ^ (-e0).toNat
    · rw [if_pos ht]
      refine ⟨?_, hi⟩
      rw [le_div_iff₀ hdq, hz, div_mul_eq_mul_div, one_mul, div_le_iff₀ hp]
      exact_mod_cast ht
    · rw [if_neg ht]
      refine ⟨lo, ?_⟩
      rw [sub_add_cancel, div_lt_iff₀ hdq, hz, div_mul_eq_mul_div, one_mul, lt_div_iff₀ hp]
      exact_mod_cast (not_le.mp ht)

theorem round_half_even_spec (n d : Nat) (hd : 0 < d) :
    |(round_half_even n d : ℚ) - (n : ℚ) / d| ≤ 1 / 2 := by
  have hdq : (0 : ℚ) < (d : ℚ) := by exact_mod_cast hd
  have hdiv : (n : ℚ) / d = (n / d : Nat) + ((n % d : Nat) : ℚ) / d := by
    have := Nat.div_add_mod n d
    have hq : (n : ℚ) = (d : ℚ) * ((n / d : Nat) : ℚ) + ((n % d : Nat) : ℚ) := by
      exact_mod_cast this.symm
    rw [hq]; field_simp; ring
  have hr0 : (0 : ℚ) ≤ ((n % d : Nat) : ℚ) / d := by positivity
  have hr1 : ((n % d : Nat) : ℚ) / d < 1 := by
    rw [div_lt_one hdq]; exact_mod_cast Nat.mod_lt n hd
  rw [hdiv, abs_le]
  unfold round_half_even
  by_cases h1 : 2 * (n % d) < d
  · rw [if_pos h1]
    have : ((n % d : Nat) : ℚ) / d ≤ 1 / 2 := by
      rw [div_le_iff₀ hdq]
      have : ((2 * (n % d) : Nat) : ℚ) < (d : ℚ) := by exact_mod_cast h1
      push_cast at this; linarith
    constructor <;> linarith
  · rw [if_neg h1]
    have hge : (1 : ℚ) / 2 ≤ ((n % d : Nat) : ℚ) / d := by
      rw [le_div_iff₀ hdq]
      have : (d : ℚ) ≤ ((2 * (n % d) : Nat) : ℚ) := by exact_mod_cast (not_lt.mp h1)
      push_cast at this; linarith
    by_cases h2 : d < 2 * (n % d)
    · rw [if_pos h2]; push_cast; constructor <;> linarith
    · rw [if_neg h2]
      have heq : ((n % d : Nat) : ℚ) / d = 1 / 2 := by
        have : 2 * (n % d) = d := by omega
        have hq : (2 : ℚ) * ((n % d : Nat) : ℚ) = (d : ℚ) := by exact_mod_cast this
        rw [div_eq_iff hdq.ne']; linarith
      split_ifs
      · constructor <;> linarith
      · push_cast; constructor <;> linarith

theorem round_half_even_exact (n : Nat) : round_half_even n 1 = n := by
  unfold round_half_even
  simp [Nat.mod_one]

/-- The rounding error of one operation: at most `2^-53` of the exact value. -/
theorem round_pos_spec (n d : Nat) (hn : 0 < n) (hd : 0 < d) :
    |round_pos n d - (n : ℚ) / d| ≤ ((n : ℚ) / d) / 2 ^ 53 := by
  obtain ⟨e1, e2⟩ := binade_spec n d hn hd
  have hdq : (0 : ℚ) < (d : ℚ) := by exact_mod_cast hd
  have h2ne : (2 : ℚ) ≠ 0 := by norm_num
  unfold round_pos
  by_cases hs : 0 ≤ 52 - binade n d
  · rw [if_pos hs]
    have hp : (0 : ℚ) < ((2 ^ (52 - binade n d).toNat : Nat) : ℚ) := by positivity
    have hr := round_half_even_spec (n * 2 ^ (52 - binade n d).toNat) d hd
    have hz : (2 : ℚ) ^ (binade n d) * ((2 ^ (52 - binade n d).toNat : Nat) : ℚ) = 2 ^ 52 := by
      have : ((2 ^ (52 - binade n d).toNat : Nat) : ℚ) = (2 : ℚ) ^ (52 - binade n d) := by
        conv_rhs => rw [← Int.toNat_of_nonneg hs]
        rw [zpow_natCast]; push_cast; rfl
      rw [this, ← zpow_add₀ h2ne]
      rw [show binade n d + (52 - binade n d) = ((52 : Nat) : Int) by ring, zpow_natCast]
    rw [Nat.cast_mul] at hr
    generalize ((2 ^ (52 - binade n d).toNat : Nat) : ℚ) = P at hp hr hz ⊢
    generalize (round_half_even (n * 2 ^ (52 - binade n d).toNat) d : ℚ) = m at hr ⊢
    generalize (2 : ℚ) ^ (binade n d) = E at e1 hz
    have hx : (2 : ℚ) ^ 52 ≤ (n : ℚ) / d * P := by
      rw [← hz]; exact mul_le_mul_of_nonneg_right e1 hp.le
    have key : m / P - (n : ℚ) / d = (m - (n : ℚ) * P / d) / P := by
      field_simp
      ring
    rw [key, abs_div, abs_of_pos hp, div_le_iff₀ hp]
    calc |m - (n : ℚ) * P / d| ≤ 1 / 2 := hr
      _ = (2 : ℚ) ^ 52 / 2 ^ 53 := by norm_num
      _ ≤ ((n : ℚ) / d * P) / 2 ^ 53 := by
          apply div_le_div_of_nonneg_right hx (by positivity)
      _ = (n : ℚ) / d / 2 ^ 53 * P := by ring
  · rw [if_neg hs]
    have hs' : 0 ≤ binade n d - 52 := by omega
    have hp : (0 : ℚ) < ((2 ^ (binade n d - 52).toNat : Nat) : ℚ) := by positivity
    have hr := round_half_even_spec n (d * 2 ^ (binade n d - 52).toNat) (by positivity)
    have hz : (2 : ℚ) ^ (binade n d) = 2 ^ 52 * ((2 ^ (binade n d - 52).toNat : Nat) : ℚ) := by
      have : ((2 ^ (binade n d - 52).toNat : Nat) : ℚ) = (2 : ℚ) ^ (binade n d - 52) := by
        conv_rhs => rw [← Int.toNat_of_nonneg hs']
        rw [zpow_natCast]; push_cast; rfl
      rw [this, ← zpow_natCast (2 : ℚ) 52, ← zpow_add₀ h2ne]
      congr 1
      push_cast
      ring
    rw [Nat.cast_mul] at hr
    generalize ((2 ^ (binade n d - 52).toNat : Nat) : ℚ) = Q at hp hr hz ⊢
    generalize (round_half_even n (d * 2 ^ (binade n d - 52).toNat) : ℚ) = m at hr ⊢
    rw [hz] at e1
    have key : m * Q - (n : ℚ) / d = (m - (n : ℚ) / (d * Q)) * Q := by
      field_simp
      ring
    rw [key, abs_mul, abs_of_pos hp]
    calc |m - (n : ℚ) / (d * Q)| * Q ≤ 1 / 2 * Q := mul_le_mul_of_nonneg_right hr hp.le
      _ = (2 ^ 52 * Q) / 2 ^ 53 := by ring
      _ ≤ ((n : ℚ) / d) / 2 ^ 53 := div_le_div_of_nonneg_right e1 (by positivity)

theorem round_pos_pos (n d : Nat) (hn : 0 < n) (hd : 0 < d) : 0 < round_pos n d := by
  have h := round_pos_spec n d hn hd
  have hx : (0 : ℚ) < (n : ℚ) / d := by positivity
  rw [abs_le] at h
  have : (n : ℚ) / d / 2 ^ 53 < (n : ℚ) / d := by
    rw [div_lt_iff₀ (by positivity)]
    have : (1 : ℚ) < 2 ^ 53 := by norm_num
    nlinarith
  linarith [h.1]

theorem rat_eq_natAbs_div (q : ℚ) (h : 0 < q) : q = (q.num.natAbs : ℚ) / q.den := by
  have hnum : 0 < q.num := Rat.num_pos.mpr h
  have h1 : ((q.num.natAbs : Int)) = q.num := Int.natAbs_of_nonneg hnum.le
  have h2 : (q.num.natAbs : ℚ) = (q.num : ℚ) := by
    rw [← h1, Int.cast_natCast, Int.natAbs_cast]
  rw [h2]
  exact (Rat.num_div_den q).symm

/-- One rounding changes a value by at most `2^-53` of its magnitude. -/
theorem round_double_err (q : ℚ) : |round_double q - q| ≤ |q| / 2 ^ 53 := by
  unfold round_double
  by_cases h0 : q = 0
  · rw [if_pos h0, h0]; simp
  · rw [if_neg h0]
    by_cases hp : 0 < q
    · rw [if_pos hp]
      have hn : 0 < q.num.natAbs := Int.natAbs_pos.mpr (Rat.num_ne_zero.mpr h0)
      have := round_pos_spec q.num.natAbs q.den hn q.den_pos
      rw [← rat_eq_natAbs_div q hp] at this
      rw [abs_of_pos hp]
      exact this
    · rw [if_neg hp]
      have hneg : 0 < -q := by
        rcases lt_trichotomy q 0 with h | h | h
        · linarith
        · exact absurd h h0
        · exact absurd h hp
      have hn : 0 < q.num.natAbs := Int.natAbs_pos.mpr (Rat.num_ne_zero.mpr h0)
      have := round_pos_spec q.num.natAbs q.den hn q.den_pos
      have e : (q.num.natAbs : ℚ) / q.den = -q := by
        have := rat_eq_natAbs_div (-q) hneg
        rw [Rat.num_neg_eq_neg_num, Int.natAbs_neg, Rat.den_neg_eq_den] at this
        exact this.symm
      rw [e] at this
      rw [abs_of_neg (by linarith : q < 0)]
      rw [show -round_pos q.num.natAbs q.den - q = -(round_pos q.num.natAbs q.den - -q) by ring,
        abs_neg]
      exact this

theorem round_double_nonneg (q : ℚ) (h : 0 ≤ q) : 0 ≤ round_double q := by
  unfold round_double
  split_ifs with h0 hp
  · exact le_refl 0
  · exact (round_pos_pos _ _ (Int.natAbs_pos.mpr (Rat.num_ne_zero.mpr h0)) q.den_pos).le
  · exact absurd (lt_of_le_of_ne h (Ne.symm h0)) hp

theorem round_double_natCast (n : Nat) (h : n < 2 ^ 53) : round_double (n : ℚ) = n := by
  unfold round_double
  by_cases h0 : (n : ℚ) = 0
  · rw [if_pos h0, h0]
  · rw [if_neg h0]
    have hn : 0 < n := Nat.pos_of_ne_zero (by exact_mod_cast h0)
    rw [if_pos (by exact_mod_cast hn)]
    rw [Rat.num_natCast, Rat.den_natCast, Int.natAbs_ofNat]
    obtain ⟨a1, a2⟩ := bit_length_spec n n le_rfl hn
    have ha := bit_length_pos n hn
    have hb : bit_length 1 1 = 1 := by decide
    have hbin : binade n 1 = (bit_length n n : Int) - 1 := by
      unfold binade
      simp only [hb, Nat.cast_one]
      rw [if_pos (by omega), one_mul]
      have : ((bit_length n n : Int) - 1).toNat = bit_length n n - 1 := by omega
      rw [this, if_pos a1]
    have hle : bit_length n n ≤ 53 := by
      by_contra hc
      have : 2 ^ 53 ≤ 2 ^ (bit_length n n - 1) :=
        Nat.pow_le_pow_right (by norm_num) (by omega)
      omega
    unfold round_pos
    rw [hbin, if_pos (by omega), round_half_even_exact]
    push_cast
    field_simp

theorem round_double_one : round_double 1 = 1 := by decide!

theorem round_double_neg (q : ℚ) : round_double (-q) = -round_double q := by
  unfold round_double
  by_cases h0 : q = 0
  · subst h0
    simp
  · have hn0 : -q ≠ 0 := neg_ne_zero.mpr h0
    rw [if_neg h0, if_neg hn0, Rat.num_neg_eq_neg_num, Int.natAbs_neg, Rat.den_neg_eq_den]
    rcases lt_or_gt_of_ne h0 with h | h
    · rw [if_pos (by linarith : 0 < -q), if_neg (by linarith : ¬ 0 < q), neg_neg]
    · rw [if_neg (by linarith : ¬ 0 < -q), if_pos h]

/-- An integer below `2^53` in magnitude is a double. -/
theorem round_double_intCast (k : Int) (h1 : -9007199254740992 < k)
    (h2 : k < 9007199254740992) : round_double (k : ℚ) = k := by
  by_cases hk : 0 ≤ k
  · have := round_double_natCast k.toNat (by omega)
    have e : ((k.toNat : Nat) : ℚ) = (k : ℚ) := by
      have : ((k.toNat : Nat) : Int) = k := Int.toNat_of_nonneg hk
      exact_mod_cast this
    rw [e] at this
    exact this
  · have := round_double_natCast (-k).toNat (by omega)
    have e : (((-k).toNat : Nat) : ℚ) = -(k : ℚ) := by
      have : (((-k).toNat : Nat) : Int) = -k := Int.toNat_of_nonneg (by omega)
      exact_mod_cast this
    rw [e, round_double_neg] at this
    linarith

theorem fquo_self (a : ℚ) (h : a ≠ 0) : fquo a a = 1 := by
  unfold fquo
  rw [div_self h]
  exact round_double_one

theorem fquo_intCast_one (k : Int) (h1 : -9007199254740992 < k)
    (h2 : k < 9007199254740992) : fquo (k : ℚ) 1 = k := by
  unfold fquo
  rw [div_one]
  exact round_double_intCast k h1 h2

theorem fmul_zero_left (a : ℚ) : fmul 0 a = 0 := by
  unfold fmul
  rw [zero_mul]
  rfl

theorem fmul_zero_right (a : ℚ) : fmul a 0 = 0 := by
  unfold fmul
  rw [mul_zero]
  rfl

theorem fquo_zero_left (a : ℚ) : fquo 0 a = 0 := by
  unfold fquo
  rw [zero_div]
  rfl

theorem fsub_nonneg (a b : ℚ) (h : b ≤ a) : 0 ≤ fsub a b :=
  round_double_nonneg _ (sub_nonneg.mpr h)

theorem fquo_nonneg (a b : ℚ) (ha : 0 ≤ a) (hb : 0 ≤ b) : 0 ≤ fquo a b :=
  round_double_nonneg _ (div_nonneg ha hb)

theorem round_double_abs_le (q : ℚ) : |round_double q| ≤ |q| * (1 + 1 / 2 ^ 53) := by
  have h := round_double_err q
  have h2 : |round_double q| ≤ |round_double q - q| + |q| := by
    have := abs_add (round_double q - q) q
    rwa [sub_add_cancel] at this
  have : |q| * (1 + 1 / 2 ^ 53) = |q| / 2 ^ 53 + |q| := by ring
  rw [this]
  linarith

theorem fdiv_eq_some {a b c : ℚ} (h : fdiv a b = some c) : b ≠ 0 ∧ c = fquo a b := by
  unfold fdiv at h
  split at h
  · cases h
  · exact ⟨by assumption, by cases h; rfl⟩

/-- In exact arithmetic both adjustments of `calc_io_delay_pcts` (source lines 948-964)
give four fractions that sum to exactly 1: the first for inter-open and inter-I/O fractions
whose sum is not zero, the second for a preliminary sum `io + ii + f + c` that is not
zero. -/
theorem calc_io_delay_pcts_total_eq_one (io ii f c : ℚ) :
    (io + ii ≠ 0 →
      f + c + io / (io + ii) * (1 - f - c) + ii / (io + ii) * (1 - f - c) = 1) ∧
    (io + ii + f + c ≠ 0 →
      (f + f / (io + ii + f + c) * (1 - (io + ii + f + c))) +
        (c + c / (io + ii + f + c) * (1 - (io + ii + f + c))) +
        (io + io / (io + ii + f + c) * (1 - (io + ii + f + c))) +
        (ii + ii / (io + ii + f + c) * (1 - (io + ii + f + c))) = 1) := by
  constructor
  · intro h
    field_simp
    ring
  · intro h
    field_simp
    ring

theorem DEF_INTER_DELAY_PCT_bounds :
    0 ≤ DEF_INTER_IO_DELAY_PCT ∧ 0 ≤ DEF_INTER_CYC_DELAY_PCT ∧ DEF_INTER_CYC_DELAY_PCT ≤ 1 := by
  decide!

theorem prelim_delay_pcts_nonneg (file : darshan_file) (num_opens num_io_ops : Int)
    (delay_per_cycle : ℚ) (hd : delay_per_cycle > 0) (hc : consistent_timestamps file) :
    0 ≤ (prelim_delay_pcts file num_opens num_io_ops delay_per_cycle zero_pcts).first_io_pct ∧
    0 ≤ (prelim_delay_pcts file num_opens num_io_ops delay_per_cycle zero_pcts).close_pct ∧
    0 ≤ (prelim_delay_pcts file num_opens num_io_ops delay_per_cycle zero_pcts).inter_open_pct ∧
    0 ≤ (prelim_delay_pcts file num_opens num_io_ops delay_per_cycle zero_pcts).inter_io_pct := by
  obtain ⟨b1, b2, b3⟩ := DEF_INTER_DELAY_PCT_bounds
  have hio : 0 ≤ (if num_opens > 1 then DEF_INTER_CYC_DELAY_PCT else zero_pcts.inter_open_pct) ∧
      (if num_opens > 1 then DEF_INTER_CYC_DELAY_PCT else zero_pcts.inter_open_pct) ≤ 1 := by
    split_ifs
    · exact ⟨b2, b3⟩
    · exact ⟨le_refl 0, by show (0 : ℚ) ≤ 1; norm_num⟩
  have hii : 0 ≤ (if num_io_ops > 1 then DEF_INTER_IO_DELAY_PCT else zero_pcts.inter_io_pct) := by
    split_ifs
    · exact b1
    · exact le_refl 0
  unfold prelim_delay_pcts
  by_cases hf : first_io_time file = 0
  · simp only [hf, ne_eq, not_true_eq_false, if_false]
    exact ⟨le_refl _, fsub_nonneg _ _ hio.2, hio.1, hii⟩
  · obtain ⟨h1, h2⟩ := hc hf
    simp only [ne_eq, hf, not_false_eq_true, if_true]
    exact ⟨fquo_nonneg _ _ (fsub_nonneg _ _ h1) hd.le,
      fquo_nonneg _ _ (fsub_nonneg _ _ h2) hd.le, hio.1, hii⟩

/-- In exact arithmetic both adjustments of `calc_io_delay_pcts` (source lines 948-964)
keep non-negative preliminary fractions non-negative: the first is applied when their sum
is below 1, the second divides by their sum, when that is not zero. -/
theorem calc_io_delay_pcts_nonneg_of_finite (io ii f c : ℚ) (hio : 0 ≤ io) (hii : 0 ≤ ii)
    (hf : 0 ≤ f) (hc : 0 ≤ c) :
    (io + ii + f + c < 1 →
      0 ≤ io / (io + ii) * (1 - f - c) ∧ 0 ≤ ii / (io + ii) * (1 - f - c)) ∧
    (io + ii + f + c ≠ 0 →
      ∀ x, 0 ≤ x → 0 ≤ x + x / (io + ii + f + c) * (1 - (io + ii + f + c))) := by
  constructor
  · intro h
    have hrest : 0 ≤ 1 - f - c := by linarith
    have hsum : 0 ≤ io + ii := by linarith
    exact ⟨mul_nonneg (div_nonneg hio hsum) hrest, mul_nonneg (div_nonneg hii hsum) hrest⟩
  · intro hne x hx
    have htot : 0 < io + ii + f + c :=
      lt_of_le_of_ne (by linarith) (Ne.symm hne)
    have : x + x / (io + ii + f + c) * (1 - (io + ii + f + c)) = x / (io + ii + f + c) := by
      field_simp
      ring
    rw [this]
    exact div_nonneg hx htot.le

/-- C3: for the record `read_spanning_file` (one open, one read that starts at the open
timestamp and ends at the close timestamp) the independent generator's call of
`calc_io_delay_pcts` has a positive delay per cycle (2), all four preliminary fractions
sum to 0, and the adjustment divides by that sum: the function yields no finite fractions,
so their sum is not 1. -/
theorem calc_io_delay_pcts_zero_total :
    (read_spanning_file.CP_F_CLOSE_TIMESTAMP - read_spanning_file.CP_F_OPEN_TIMESTAMP
        - read_spanning_file.CP_F_POSIX_READ_TIME - read_spanning_file.CP_F_POSIX_WRITE_TIME
        - read_spanning_file.CP_F_POSIX_META_TIME) / (read_spanning_file.CP_POSIX_OPENS : ℚ) = 2 ∧
    (0 : ℚ) < 2 ∧
    (prelim_delay_pcts read_spanning_file 1 1 2 zero_pcts).total = 0 ∧
    calc_io_delay_pcts read_spanning_file 1 1 2 zero_pcts = none := by
  decide!

/-- C4: the record `write_spanning_file` (one open, one write that starts at the open
timestamp and ends at the close timestamp) has consistent timestamps and a positive delay
per cycle (3), yet `calc_io_delay_pcts` divides by a zero sum of preliminary fractions and
yields no finite fractions: none of the four results is a number that is at least 0. -/
theorem calc_io_delay_pcts_consistent_zero_total :
    consistent_timestamps write_spanning_file ∧ (0 : ℚ) < 3 ∧
    (prelim_delay_pcts write_spanning_file 1 1 3 zero_pcts).total = 0 ∧
    calc_io_delay_pcts write_spanning_file 1 1 3 zero_pcts = none := by
  refine ⟨?_, by decide!, by decide!, by decide!⟩
  unfold consistent_timestamps
  decide!

/-! ## Rank merge engine -/

theorem time_ordered_iff_pairwise (l : List darshan_event) :
    time_ordered l ↔ l.Pairwise (fun a b => a.start_time ≤ b.start_time) := by
  induction l with
  | nil => simp [time_ordered]
  | cons a l ih =>
    cases l with
    | nil => simp [time_ordered]
    | cons b l =>
      simp only [time_ordered, ih, List.pairwise_cons]
      constructor
      · rintro ⟨hab, hb, hl⟩
        refine ⟨?_, hb, hl⟩
        intro c hc
        rcases List.mem_cons.mp hc with rfl | hc
        · exact hab
        · exact le_trans hab (hb c hc)
      · rintro ⟨ha, hb, hl⟩
        exact ⟨ha b (List.mem_cons_self _ _), hb, hl⟩

theorem merge_loop_mem : ∀ (fuel : Nat) (rs fs l : List darshan_event),
    merge_loop fuel rs fs = some l → ∀ e ∈ l, e ∈ rs ∨ e ∈ fs := by
  intro fuel
  induction fuel with
  | zero =>
    intro rs fs l h e he
    cases rs <;> cases fs <;> simp [merge_loop] at h <;> subst h <;> simp_all
  | succ k ih =>
    intro rs fs l h e he
    cases rs with
    | nil => cases fs <;> simp [merge_loop] at h <;> subst h <;> simp_all
    | cons r rs =>
      cases fs with
      | nil => simp [merge_loop] at h; subst h; simp_all
      | cons f fs =>
        simp only [merge_loop] at h
        split at h
        · obtain ⟨l1, h1, rfl⟩ := Option.map_eq_some'.mp h
          rcases List.mem_cons.mp he with rfl | he
          · simp
          · rcases ih _ _ _ h1 e he with h2 | h2
            · exact Or.inl (List.mem_cons_of_mem _ h2)
            · exact Or.inr h2
        · obtain ⟨l1, h1, rfl⟩ := Option.map_eq_some'.mp h
          rcases List.mem_cons.mp he with rfl | he
          · simp
          · rcases ih _ _ _ h1 e he with h2 | h2
            · exact Or.inl h2
            · exact Or.inr (List.mem_cons_of_mem _ h2)

theorem merge_loop_pairwise : ∀ (fuel : Nat) (rs fs l : List darshan_event),
    rs.Pairwise (fun a b => a.start_time ≤ b.start_time) →
    fs.Pairwise (fun a b => a.start_time ≤ b.start_time) →
    merge_loop fuel rs fs = some l →
    l.Pairwise (fun a b => a.start_time ≤ b.start_time) := by
  intro fuel
  induction fuel with
  | zero =>
    intro rs fs l hr hf h
    cases rs <;> cases fs <;> simp [merge_loop] at h <;> subst h <;> simp_all
  | succ k ih =>
    intro rs fs l hr hf h
    cases rs with
    | nil => cases fs <;> simp [merge_loop] at h <;> subst h <;> simp_all
    | cons r rs =>
      cases fs with
      | nil => simp [merge_loop] at h; subst h; simp_all
      | cons f fs =>
        simp only [merge_loop] at h
        split at h
        · rename_i hlt
          obtain ⟨l1, h1, rfl⟩ := Option.map_eq_some'.mp h
          rw [List.pairwise_cons] at hr ⊢
          refine ⟨?_, ih _ _ _ hr.2 hf h1⟩
          intro e he
          rcases merge_loop_mem _ _ _ _ h1 e he with h2 | h2
          · exact hr.1 e h2
          · rcases List.mem_cons.mp h2 with rfl | h3
            · exact hlt.le
            · exact le_trans hlt.le ((List.pairwise_cons.mp hf).1 e h3)
        · rename_i hge
          obtain ⟨l1, h1, rfl⟩ := Option.map_eq_some'.mp h
          have hfr : f.start_time ≤ r.start_time := not_lt.mp hge
          rw [List.pairwise_cons] at hf ⊢
          refine ⟨?_, ih _ _ _ hr hf.2 h1⟩
          intro e he
          rcases merge_loop_mem _ _ _ _ h1 e he with h2 | h2
          · rcases List.mem_cons.mp h2 with rfl | h3
            · exact hfr
            · exact le_trans hfr ((List.pairwise_cons.mp hr).1 e h3)
          · exact hf.1 e h2

/-- The invariant of a rank's merges: the rank event list is ordered by `start_time` and
none of its events starts after `last_close_time`. -/
theorem merge_file_events_ordered (file : darshan_file) (m m1 : merge_state)
    (events : List darshan_event)
    (hord : m.rank_event_list.Pairwise (fun a b => a.start_time ≤ b.start_time))
    (hclose : ∀ e ∈ m.rank_event_list, e.start_time ≤ m.last_close_time)
    (hev : events.Pairwise (fun a b => a.start_time ≤ b.start_time))
    (hspan : within_file_span file events)
    (h : merge_file_events file { m with file_event_list := events } = some m1) :
    m1.rank_event_list.Pairwise (fun a b => a.start_time ≤ b.start_time) ∧
    ∀ e ∈ m1.rank_event_list, e.start_time ≤ m1.last_close_time := by
  unfold merge_file_events at h
  simp only at h
  split at h
  · cases h; exact ⟨hord, hclose⟩
  · split at h
    · split at h
      · cases h
        exact ⟨hev, fun e he => (hspan e he).2⟩
      · cases h
    · obtain ⟨temp, ht, h⟩ := Option.bind_eq_some.mp h
      split at h
      · cases h
        simp only
        split at ht
        · rename_i hlt
          cases ht
          constructor
          · rw [List.pairwise_append]
            refine ⟨hord, hev, ?_⟩
            intro a ha b hb
            exact le_trans (hclose a ha) (le_trans hlt.le (hspan b hb).1)
          · intro e he
            rcases List.mem_append.mp he with h1 | h1
            · have := hclose e h1
              split_ifs with hc
              · exact le_trans this hc.le
              · exact this
            · have := (hspan e h1).2
              split_ifs with hc
              · exact this
              · exact le_trans this (not_lt.mp hc)
        · constructor
          · exact merge_loop_pairwise _ _ _ _ hord hev ht
          · intro e he
            rcases merge_loop_mem _ _ _ _ ht e he with h1 | h1
            · have := hclose e h1
              split_ifs with hc
              · exact le_trans this hc.le
              · exact this
            · have := (hspan e h1).2
              split_ifs with hc
              · exact this
              · exact le_trans this (not_lt.mp hc)
      · cases h

theorem merge_sequence_invariant :
    ∀ (calls : List (darshan_file × List darshan_event)) (m0 m : merge_state),
    m0.rank_event_list.Pairwise (fun a b => a.start_time ≤ b.start_time) →
    (∀ e ∈ m0.rank_event_list, e.start_time ≤ m0.last_close_time) →
    (∀ c ∈ calls, time_ordered c.2 ∧ within_file_span c.1 c.2) →
    merge_sequence m0 calls = some m →
    m.rank_event_list.Pairwise (fun a b => a.start_time ≤ b.start_time) := by
  intro calls
  induction calls with
  | nil =>
    intro m0 m hord _ _ h
    simp only [merge_sequence] at h
    cases h
    exact hord
  | cons c rest ih =>
    intro m0 m hord hclose hcalls h
    obtain ⟨file, events⟩ := c
    simp only [merge_sequence] at h
    obtain ⟨m1, h1, h2⟩ := Option.bind_eq_some.mp h
    have hc := hcalls (file, events) (List.mem_cons_self _ _)
    obtain ⟨ho, hcl⟩ := merge_file_events_ordered file m0 m1 events hord hclose
      ((time_ordered_iff_pairwise _).mp hc.1) hc.2 h1
    exact ih m1 m ho hcl (fun c hc => hcalls c (List.mem_cons_of_mem _ hc)) h2

/-- C2 (counterexample): two merges for one rank, each with a one-event (hence ordered)
file buffer.  The first file closes at time 1 and its event starts at 5; the second file
opens at 2 > `last_close_time`, so its event (start 3) is appended without comparing
timestamps.  The rank event list ends as start times 5, 3. -/
theorem merge_sequence_append_breaks_order :
    time_ordered [event_at 5] ∧ time_ordered [event_at 3] ∧
    (merge_sequence (empty_merge_state 10)
      [({ zero_file with CP_F_CLOSE_TIMESTAMP := 1 }, [event_at 5]),
       ({ zero_file with CP_F_OPEN_TIMESTAMP := 2, CP_F_CLOSE_TIMESTAMP := 4 },
        [event_at 3])]).map (fun m => m.rank_event_list) = some [event_at 5, event_at 3] ∧
    ¬ time_ordered [event_at 5, event_at 3] := by
  decide!

/-- C2 (amended): after any sequence of `merge_file_events` calls for one rank that starts
from an empty rank event list, each call given a file event buffer that is non-decreasing
in `start_time` and whose events all start between the open and the close timestamp of
their file, the rank event list is non-decreasing in `start_time`. -/
theorem merge_sequence_time_ordered (m0 m : merge_state)
    (calls : List (darshan_file × List darshan_event))
    (hempty : m0.rank_event_list = [])
    (hcalls : ∀ c ∈ calls, time_ordered c.2 ∧ within_file_span c.1 c.2)
    (h : merge_sequence m0 calls = some m) :
    time_ordered m.rank_event_list := by
  rw [time_ordered_iff_pairwise]
  refine merge_sequence_invariant calls m0 m ?_ ?_ hcalls h
  · rw [hempty]; exact List.Pairwise.nil
  · rw [hempty]; intro e he; cases he

/-- Witness for `merge_sequence_time_ordered`: two files with overlapping spans, merged by
interleaving into start times 1, 2, 3, 4. -/
theorem merge_sequence_time_ordered_witness :
    merge_sequence (empty_merge_state 10) overlapping_calls =
      some { rank_event_list := [event_at 1, event_at 2, event_at 3, event_at 4]
             rank_event_list_max := 10, file_event_list := [], last_close_time := 4 } ∧
    time_ordered [event_at 1, event_at 2, event_at 3, event_at 4] :=
  ⟨by decide!,
   merge_sequence_time_ordered (empty_merge_state 10)
    { rank_event_list := [event_at 1, event_at 2, event_at 3, event_at 4]
      rank_event_list_max := 10, file_event_list := [], last_close_time := 4 }
    overlapping_calls rfl (by decide!) (by decide!)⟩

/-! ## Sizing pass: header layout -/


theorem header_slot_set_eq (h : List Nat) (i : Int) (v : Nat)
    (hlt : i.toNat < h.length) : header_slot (h.set i.toNat v) i = v := by
  unfold header_slot
  rw [List.getD_eq_getElem?_getD, List.getElem?_set_self hlt]
  rfl

theorem header_slot_set_ne (h : List Nat) (i j : Int) (v : Nat) (hi : 0 ≤ i) (hj : 0 ≤ j)
    (hne : i ≠ j) : header_slot (h.set i.toNat v) j = header_slot h j := by
  unfold header_slot
  have : i.toNat ≠ j.toNat := by
    intro h'
    apply hne
    have := congrArg (fun n : Nat => (n : Int)) h'
    simp only [Int.toNat_of_nonneg hi, Int.toNat_of_nonneg hj] at this
    exact this
  rw [List.getD_eq_getElem?_getD, List.getD_eq_getElem?_getD, List.getElem?_set_ne this]

theorem ranks_grouped_from_ge (nprocs : Int) : ∀ (l : List darshan_file) (m last : Int),
    ranks_grouped_from nprocs m last l → (0 ≤ last → last = m) → -1 ≤ m →
    ∀ g ∈ l, 0 ≤ g.rank → m ≤ g.rank := by
  intro l
  induction l with
  | nil => intro m last _ _ _ g hg; cases hg
  | cons f l ih =>
    intro m last hwf hlast hm g hg hg0
    obtain ⟨hf, hrest⟩ := hwf
    have hfm : 0 ≤ f.rank → m ≤ f.rank := by
      intro h0
      rcases hf with h | ⟨_, _, h | h⟩
      · omega
      · have := hlast (h ▸ h0); omega
      · omega
    rcases List.mem_cons.mp hg with rfl | hg
    · exact hfm hg0
    · have := ih (max m f.rank) f.rank hrest
        (by intro h0; have := hfm h0; omega) (by omega) g hg hg0
      omega

theorem ranks_grouped_from_no_rank (nprocs : Int) : ∀ (l : List darshan_file) (m last : Int),
    ranks_grouped_from nprocs m last l → ∀ r : Int, 0 ≤ r → r ≤ m → r ≠ last →
    ¬ has_rank l r := by
  intro l
  induction l with
  | nil => intro m last _ r _ _ _ h; obtain ⟨g, hg, _⟩ := h; cases hg
  | cons f l ih =>
    intro m last hwf r hr0 hrm hrl h
    obtain ⟨hf, hrest⟩ := hwf
    have hfr : f.rank ≠ r := by
      rcases hf with h | ⟨_, _, h | h⟩ <;> omega
    obtain ⟨g, hg, hgr⟩ := h
    rcases List.mem_cons.mp hg with rfl | hg
    · exact hfr hgr
    · exact ih (max m f.rank) f.rank hrest r hr0 (by omega) (fun h => hfr h.symm) ⟨g, hg, hgr⟩

theorem events_below_eq_zero (nprocs : Int) (r : Int) : ∀ (l : List darshan_file),
    (∀ g ∈ l, 0 ≤ g.rank → r ≤ g.rank) → events_below nprocs l r = 0 := by
  intro l
  induction l with
  | nil => intro _; rfl
  | cons f l ih =>
    intro h
    have hf := h f (List.mem_cons_self _ _)
    have : ¬ (0 ≤ f.rank ∧ f.rank < r) := by
      intro ⟨h0, h1⟩
      have := hf h0
      omega
    simp only [events_below, this, if_false, Nat.zero_add]
    exact ih (fun g hg => h g (List.mem_cons_of_mem _ hg))

theorem has_rank_cons (f : darshan_file) (l : List darshan_file) (r : Int) :
    has_rank (f :: l) r ↔ f.rank = r ∨ has_rank l r := by
  unfold has_rank
  simp

/-- The end of the sizing pass, made explicit. -/
theorem pre_finish_eq (nprocs : Int) (S : Nat) (s : pre_state)
    (hlen : s.header_buf.length = (nprocs + 2).toNat) (hn : 1 ≤ nprocs)
    (hlt : s.last_rank < nprocs) :
    ∃ s', pre_finish nprocs S s = Except.ok s' ∧
      s'.coll_event_cnt = (if s.last_rank > -1 then s.coll_event_cnt else s.rank_event_cnt) ∧
      s'.header_buf =
        (if s'.coll_event_cnt ≠ 0 then
          (if s.last_rank > -1 then s.header_buf.set (s.last_rank + 1).toNat s.cur_offset
            else s.header_buf).set (nprocs + 1).toNat
            (if s.last_rank > -1 then
              (s.cur_offset + s.rank_event_cnt * S) % 18446744073709551616
            else s.cur_offset)
        else
          (if s.last_rank > -1 then s.header_buf.set (s.last_rank + 1).toNat s.cur_offset
            else s.header_buf)) := by
  have h1 : (nprocs + 1).toNat < (nprocs + 2).toNat := by omega
  have h2 : 0 ≤ nprocs + 1 := by omega
  unfold pre_finish
  by_cases hr : s.last_rank > -1
  · have h3 : (s.last_rank + 1).toNat < (nprocs + 2).toNat := by omega
    have h4 : 0 ≤ s.last_rank + 1 := by omega
    by_cases hc : s.coll_event_cnt = 0
    · simp [hr, hc, header_store, hlen, h3, h4, Except.bind, Except.map]
    · simp [hr, hc, header_store, hlen, h3, h4, h1, h2, Except.bind, Except.map]
  · by_cases hc : s.rank_event_cnt = 0
    · simp [hr, hc, header_store, hlen, Except.bind, Except.map]
    · simp [hr, hc, header_store, hlen, h1, h2, Except.bind, Except.map]

/-- The effect of one record on the variables that decide the header. -/
theorem pre_step_eq (nprocs start_time : Int) (S : Nat) (f : darshan_file) (s : pre_state)
    (hn : nprocs ≠ 0) (hok : ¬ (f.rank ≠ -1 ∧ f.rank < s.last_rank))
    (hidx : s.last_rank ≠ -1 → 0 ≤ s.last_rank + 1 ∧ (s.last_rank + 1).toNat < s.header_buf.length) :
    ∃ s1, pre_step nprocs start_time S f s = Except.ok s1 ∧ s1.last_rank = f.rank ∧
      s1.header_buf =
        (if s.last_rank ≠ f.rank ∧ s.last_rank ≠ -1 then
          s.header_buf.set (s.last_rank + 1).toNat s.cur_offset
        else s.header_buf) ∧
      s1.cur_offset =
        (if s.last_rank ≠ f.rank ∧ s.last_rank ≠ -1 then
          (s.cur_offset + s.rank_event_cnt * S) % 18446744073709551616
        else s.cur_offset) ∧
      s1.rank_event_cnt =
        ((if s.last_rank ≠ f.rank then 0 else s.rank_event_cnt) + file_event_cnt nprocs f)
          % 18446744073709551616 ∧
      s1.coll_event_cnt =
        (if s.last_rank ≠ f.rank ∧ s.last_rank = -1 then s.rank_event_cnt
        else s.coll_event_cnt) := by
  unfold pre_step pre_rank_change
  by_cases h1 : s.last_rank = f.rank
  · simp [h1, Except.bind, hn]
  · by_cases h2 : s.last_rank = -1
    · have h1' : ¬ (-1 : Int) = f.rank := by rw [← h2]; exact h1
      have hok' : ¬ (¬ f.rank = -1 ∧ f.rank < -1) := by rw [h2] at hok; exact hok
      simp [h1, h2, h1', Except.bind, Except.map, hn, hok']
    · obtain ⟨h3, h4⟩ := hidx h2
      have hok' : ¬ (¬ f.rank = -1 ∧ f.rank < s.last_rank) := hok
      simp [h1, h2, Except.bind, Except.map, hn, header_store, h3, h4, hok']

theorem pre_loop_header_nil (nprocs : Int) (S : Nat) (hn : 1 ≤ nprocs)
    (s : pre_state) (m : Int)
    (hlast : 0 ≤ s.last_rank → s.last_rank = m) (hl : s.last_rank = -1 ∨ 0 ≤ s.last_rank)
    (hmn : m < nprocs) (hlen : s.header_buf.length = (nprocs + 2).toNat)
    (hfit : s.cur_offset + S * (pending s + 0) < 18446744073709551616) :
    ∃ s', pre_finish nprocs S s = Except.ok s' ∧
      s'.header_buf.length = (nprocs + 2).toNat ∧
      header_slot s'.header_buf 0 = header_slot s.header_buf 0 ∧
      (∀ r : Int, 0 ≤ r → r < nprocs → header_slot s'.header_buf (r + 1) =
        if r = s.last_rank then s.cur_offset else header_slot s.header_buf (r + 1)) ∧
      header_slot s'.header_buf (nprocs + 1) =
        (if s'.coll_event_cnt ≠ 0 then s.cur_offset + S * (pending s + 0)
         else header_slot s.header_buf (nprocs + 1)) := by
  have hlt : s.last_rank < nprocs := by
    rcases hl with h | h
    · omega
    · have := hlast h; omega
  obtain ⟨s', hs', hcoll, hhdr⟩ := pre_finish_eq nprocs S s hlen hn hlt
  refine ⟨s', hs', ?_, ?_, ?_, ?_⟩
  · rw [hhdr]; split_ifs <;> simp [hlen]
  · rw [hhdr]
    split_ifs
    · rw [header_slot_set_ne _ _ _ _ (by omega) (by omega) (by omega),
        header_slot_set_ne _ _ _ _ (by omega) (by omega) (by omega)]
    · rw [header_slot_set_ne _ _ _ _ (by omega) (by omega) (by omega)]
    · rw [header_slot_set_ne _ _ _ _ (by omega) (by omega) (by omega)]
    · rfl
  · intro r hr0 hrn
    rw [hhdr]
    by_cases hr : s.last_rank > -1
    · simp only [hr, if_true]
      by_cases hrl : r = s.last_rank
      · subst hrl
        simp only [if_true]
        split_ifs
        · rw [header_slot_set_ne _ _ _ _ (by omega) (by omega) (by omega),
            header_slot_set_eq _ _ _ (by rw [hlen]; omega)]
        · rw [header_slot_set_eq _ _ _ (by rw [hlen]; omega)]
      · simp only [hrl, if_false]
        split_ifs
        · rw [header_slot_set_ne _ _ _ _ (by omega) (by omega) (by omega),
            header_slot_set_ne _ _ _ _ (by omega) (by omega) (by omega)]
        · rw [header_slot_set_ne _ _ _ _ (by omega) (by omega) (by omega)]
    · have hrl : r ≠ s.last_rank := by omega
      simp only [hr, hrl, if_false]
      split_ifs
      · rw [header_slot_set_ne _ _ _ _ (by omega) (by omega) (by omega)]
      · rfl
  · rw [hhdr]
    have hpos : (nprocs + 1).toNat < (nprocs + 2).toNat := by omega
    by_cases hc : s'.coll_event_cnt = 0
    · simp only [hc, ne_eq, not_true_eq_false, if_false]
      split_ifs
      · rw [header_slot_set_ne _ _ _ _ (by omega) (by omega) (by omega)]
      · rfl
    · simp only [hc, ne_eq, not_false_eq_true, if_true]
      rw [header_slot_set_eq _ _ _ (by split_ifs <;> simp [hlen] <;> omega)]
      by_cases hr : s.last_rank > -1
      · have h0 : 0 ≤ s.last_rank := by omega
        simp only [hr, if_true, pending, h0] at hfit ⊢
        rw [Nat.mod_eq_of_lt (by nlinarith)]
        ring
      · have h0 : ¬ 0 ≤ s.last_rank := by omega
        simp only [hr, if_false, pending, h0]
        ring

theorem le_mul_of_pos_nat (S x : Nat) (hS : 0 < S) : x ≤ S * x :=
  Nat.le_mul_of_pos_left x hS

theorem pre_loop_header (nprocs start_time : Int) (S : Nat) (hn : 1 ≤ nprocs) (hS : 0 < S) :
    ∀ (rest : List darshan_file) (s : pre_state) (m : Int),
    ranks_grouped_from nprocs m s.last_rank rest →
    (0 ≤ s.last_rank → s.last_rank = m) → (s.last_rank = -1 ∨ 0 ≤ s.last_rank) →
    -1 ≤ m → m < nprocs →
    s.header_buf.length = (nprocs + 2).toNat →
    s.cur_offset + S * (pending s + independent_events nprocs rest) < 18446744073709551616 →
    ∃ s', (pre_loop nprocs start_time S rest s).bind (pre_finish nprocs S) = Except.ok s' ∧
      s'.header_buf.length = (nprocs + 2).toNat ∧
      header_slot s'.header_buf 0 = header_slot s.header_buf 0 ∧
      (∀ r : Int, 0 ≤ r → r < nprocs → header_slot s'.header_buf (r + 1) =
        if r = s.last_rank then s.cur_offset
        else if has_rank rest r then
          s.cur_offset + S * (pending s + events_below nprocs rest r)
        else header_slot s.header_buf (r + 1)) ∧
      header_slot s'.header_buf (nprocs + 1) =
        (if s'.coll_event_cnt ≠ 0 then
          s.cur_offset + S * (pending s + independent_events nprocs rest)
         else header_slot s.header_buf (nprocs + 1)) := by
  intro rest
  induction rest with
  | nil =>
    intro s m _ hlast hl _ hmn hlen hfit
    obtain ⟨s', h1, h2, h3, h4, h5⟩ :=
      pre_loop_header_nil nprocs S hn s m hlast hl hmn hlen hfit
    refine ⟨s', h1, h2, h3, ?_, h5⟩
    intro r hr0 hrn
    rw [h4 r hr0 hrn]
    have : ¬ has_rank [] r := by
      intro ⟨g, hg, _⟩; cases hg
    simp only [this, if_false]
  | cons f rest ih =>
    intro s m hwf hlast hl hm hmn hlen hfit
    obtain ⟨hf, hrest⟩ := hwf
    -- facts on the rank of the record
    have hfm : 0 ≤ f.rank → m ≤ f.rank := by
      intro h0
      rcases hf with h | ⟨_, _, h | h⟩
      · omega
      · have := hlast (h ▸ h0); omega
      · omega
    have hfn : f.rank < nprocs := by
      rcases hf with h | ⟨_, h, _⟩ <;> omega
    have hf1 : f.rank = -1 ∨ 0 ≤ f.rank := by
      rcases hf with h | ⟨h, _, _⟩
      · exact Or.inl h
      · exact Or.inr h
    have hlm : s.last_rank ≤ m := by
      rcases hl with h | h
      · omega
      · have := hlast h; omega
    have hok : ¬ (f.rank ≠ -1 ∧ f.rank < s.last_rank) := by
      intro ⟨h1, h2⟩
      have h0 : 0 ≤ f.rank := by omega
      have := hfm h0
      omega
    have hidx : s.last_rank ≠ -1 →
        0 ≤ s.last_rank + 1 ∧ (s.last_rank + 1).toNat < s.header_buf.length := by
      intro h
      rw [hlen]
      omega
    obtain ⟨s1, hs1, e_last, e_hdr, e_cur, e_cnt, e_coll⟩ :=
      pre_step_eq nprocs start_time S f s (by omega) hok hidx
    have hrest1 : ranks_grouped_from nprocs (max m f.rank) s1.last_rank rest := by
      rw [e_last]; exact hrest
    have hlast1 : 0 ≤ s1.last_rank → s1.last_rank = max m f.rank := by
      rw [e_last]; intro h0; have := hfm h0; omega
    have hl1 : s1.last_rank = -1 ∨ 0 ≤ s1.last_rank := by rw [e_last]; exact hf1
    have hlen1 : s1.header_buf.length = (nprocs + 2).toNat := by
      rw [e_hdr]; split_ifs <;> simp [hlen]
    -- the quantity that stays constant
    have hc := le_mul_of_pos_nat S (pending s + independent_events nprocs (f :: rest)) hS
    have hP : pending s ≤ S * pending s := le_mul_of_pos_nat S _ hS
    have hC : file_event_cnt nprocs f ≤ S * file_event_cnt nprocs f := le_mul_of_pos_nat S _ hS
    have hpend1 : pending s1 = if 0 ≤ f.rank then s1.rank_event_cnt else 0 := by
      unfold pending; rw [e_last]
    have e1 : S * (pending s + ((if 0 ≤ f.rank then file_event_cnt nprocs f else 0) +
        independent_events nprocs rest)) = S * pending s +
        S * (if 0 ≤ f.rank then file_event_cnt nprocs f else 0) +
        S * independent_events nprocs rest := by ring
    simp only [independent_events] at hfit
    rw [e1] at hfit
    -- the pending count and the offset after the record
    have hFG : pending s1 =
          (if s.last_rank = f.rank then pending s else 0) +
            (if 0 ≤ f.rank then file_event_cnt nprocs f else 0) ∧
        s1.cur_offset = s.cur_offset + (if s.last_rank = f.rank then 0 else S * pending s) := by
      rw [hpend1]
      by_cases h1 : s.last_rank = f.rank
      · have e_cur' : s1.cur_offset = s.cur_offset := by
          rw [e_cur, if_neg (fun h => h.1 h1)]
        have e_cnt' : s1.rank_event_cnt =
            (s.rank_event_cnt + file_event_cnt nprocs f) % 18446744073709551616 := by
          rw [e_cnt, if_neg (not_not.mpr h1)]
        rw [e_cur', e_cnt', if_pos h1, if_pos h1]
        refine ⟨?_, rfl⟩
        by_cases h0 : 0 ≤ f.rank
        · have hp : pending s = s.rank_event_cnt := by
            unfold pending; rw [h1, if_pos h0]
          simp only [h0, if_true] at hfit ⊢
          rw [hp] at hfit hP ⊢
          rw [Nat.mod_eq_of_lt (by omega)]
        · have hp : pending s = 0 := by
            unfold pending; rw [h1, if_neg h0]
          simp only [h0, if_false, hp]
      · have e_cnt' : s1.rank_event_cnt =
            (0 + file_event_cnt nprocs f) % 18446744073709551616 := by
          rw [e_cnt, if_pos h1]
        rw [e_cnt', if_neg h1, if_neg h1]
        constructor
        · by_cases h0 : 0 ≤ f.rank
          · simp only [h0, if_true] at hfit ⊢
            rw [Nat.mod_eq_of_lt (by omega)]
          · simp only [h0, if_false]
        · by_cases h2 : s.last_rank = -1
          · have hp : pending s = 0 := by
              unfold pending; rw [h2]; rfl
            rw [e_cur, if_neg (fun h => h.2 h2), hp]
            simp
          · have h3 : (0 : Int) ≤ s.last_rank := by omega
            have hp : pending s = s.rank_event_cnt := by
              unfold pending; rw [if_pos h3]
            rw [e_cur, if_pos ⟨h1, h2⟩, hp]
            rw [hp] at hfit
            rw [Nat.mod_eq_of_lt (by rw [Nat.mul_comm]; omega), Nat.mul_comm]
    obtain ⟨hF, hG⟩ := hFG
    have hfit1 : s1.cur_offset + S * (pending s1 + independent_events nprocs rest)
        < 18446744073709551616 := by
      rw [hF, hG]
      by_cases h1 : s.last_rank = f.rank
      · rw [if_pos h1, if_pos h1]
        have : s.cur_offset + 0 + S * (pending s + (if 0 ≤ f.rank then file_event_cnt nprocs f
            else 0) + independent_events nprocs rest) = s.cur_offset + S * pending s +
            S * (if 0 ≤ f.rank then file_event_cnt nprocs f else 0) +
            S * independent_events nprocs rest := by ring
        rw [this]; omega
      · rw [if_neg h1, if_neg h1]
        have : s.cur_offset + S * pending s + S * (0 + (if 0 ≤ f.rank then
            file_event_cnt nprocs f else 0) + independent_events nprocs rest) =
            s.cur_offset + S * pending s +
            S * (if 0 ≤ f.rank then file_event_cnt nprocs f else 0) +
            S * independent_events nprocs rest := by ring
        rw [this]; omega
    have hge := ranks_grouped_from_ge nprocs rest (max m f.rank) f.rank hrest
      (by intro h0; have := hfm h0; omega) (by omega)
    obtain ⟨s', hs', r1, r2, r3, r4⟩ :=
      ih s1 (max m f.rank) hrest1 hlast1 hl1 (by omega) (by omega) hlen1 hfit1
    have hslot : ∀ j : Int, 0 ≤ j → (s.last_rank ≠ -1 → j ≠ s.last_rank + 1) →
        header_slot s1.header_buf j = header_slot s.header_buf j := by
      intro j hj hne
      rw [e_hdr]
      split_ifs with h
      · rw [header_slot_set_ne _ _ _ _ (by omega) hj (fun h' => hne h.2 h'.symm)]
      · rfl
    refine ⟨s', ?_, r1, ?_, ?_, ?_⟩
    · simp only [pre_loop, hs1]
      exact hs'
    · rw [r2, hslot 0 (le_refl _) (by omega)]
    · intro r hr0 hrn
      rw [r3 r hr0 hrn, e_last]
      by_cases hrl : r = s.last_rank
      · rw [if_pos hrl]
        by_cases h1 : s.last_rank = f.rank
        · rw [if_pos (hrl.trans h1), hG, if_pos h1]; rfl
        · have hrf : r ≠ f.rank := fun h => h1 (hrl.symm.trans h)
          have hno : ¬ has_rank rest r :=
            ranks_grouped_from_no_rank nprocs rest (max m f.rank) f.rank hrest r hr0
              (by have := hlast (hrl ▸ hr0); omega) hrf
          rw [if_neg hrf, if_neg hno, e_hdr, if_pos ⟨h1, by omega⟩, ← hrl,
            header_slot_set_eq _ _ _ (by rw [hlen]; omega)]
      · rw [if_neg hrl]
        by_cases hrf : r = f.rank
        · have h1 : s.last_rank ≠ f.rank := fun h => hrl (hrf.trans h.symm)
          rw [if_pos hrf, if_pos ((has_rank_cons f rest r).mpr (Or.inl hrf.symm)), hG, if_neg h1]
          have hz : events_below nprocs rest r = 0 :=
            events_below_eq_zero nprocs r rest
              (fun g hg h0 => by have := hge g hg h0; omega)
          have hnot : ¬ (0 ≤ f.rank ∧ f.rank < r) := by omega
          simp only [events_below, hz, hnot, if_false, Nat.add_zero]
        · rw [if_neg hrf]
          by_cases hhas : has_rank rest r
          · rw [if_pos hhas, if_pos ((has_rank_cons f rest r).mpr (Or.inr hhas)), hF, hG]
            obtain ⟨g, hg, hgr⟩ := hhas
            have hgm := hge g hg (by omega)
            have hcnt : (if 0 ≤ f.rank ∧ f.rank < r then file_event_cnt nprocs f else 0) =
                (if 0 ≤ f.rank then file_event_cnt nprocs f else 0) := by
              by_cases h0 : 0 ≤ f.rank
              · rw [if_pos h0, if_pos ⟨h0, by omega⟩]
              · rw [if_neg h0, if_neg (fun h => h0 h.1)]
            simp only [events_below, hcnt]
            by_cases h1 : s.last_rank = f.rank
            · rw [if_pos h1, if_pos h1]; ring
            · rw [if_neg h1, if_neg h1]; ring
          · have hno : ¬ has_rank (f :: rest) r := by
              rw [has_rank_cons]
              rintro (h | h)
              · exact hrf h.symm
              · exact hhas h
            rw [if_neg hhas, if_neg hno]
            exact hslot (r + 1) (by omega) (by omega)
    · rw [r4, hslot (nprocs + 1) (by omega) (by omega), hF, hG]
      by_cases hc : s'.coll_event_cnt = 0
      · simp only [hc, ne_eq, not_true_eq_false, if_false]
      · simp only [hc, ne_eq, not_false_eq_true, if_true, independent_events]
        by_cases h1 : s.last_rank = f.rank
        · rw [if_pos h1, if_pos h1]; ring
        · rw [if_neg h1, if_neg h1]; ring

theorem pre_rank_change_ok (S : Nat) (r : Int) (s s1 : pre_state)
    (h : pre_rank_change S r s = Except.ok s1) :
    s1.last_rank = s.last_rank ∧
    s1.coll_event_cnt =
      (if s.last_rank ≠ r ∧ s.last_rank = -1 then s.rank_event_cnt else s.coll_event_cnt) ∧
    s1.rank_event_cnt = (if s.last_rank ≠ r then 0 else s.rank_event_cnt) := by
  unfold pre_rank_change at h
  by_cases h1 : s.last_rank = r
  · rw [if_neg (not_not.mpr h1)] at h
    have := Except.ok.inj h
    subst this
    simp [h1]
  · rw [if_pos h1] at h
    by_cases h2 : s.last_rank = -1
    · rw [if_pos h2] at h
      simp only [Except.map] at h
      have := Except.ok.inj h
      subst this
      have h1' : ¬ ((-1 : Int) = r) := by rw [← h2]; exact h1
      simp [h2, h1']
    · rw [if_neg h2] at h
      unfold header_store at h
      split_ifs at h with h3
      · simp only [Except.map] at h
        have := Except.ok.inj h
        subst this
        simp [h1, h2]
      · simp [Except.map] at h

/-- What a successful step did to the rank, the collective count and the running count. -/
theorem pre_step_ok (nprocs start_time : Int) (S : Nat) (f : darshan_file) (s s1 : pre_state)
    (h : pre_step nprocs start_time S f s = Except.ok s1) :
    s1.last_rank = f.rank ∧
    s1.coll_event_cnt =
      (if s.last_rank ≠ f.rank ∧ s.last_rank = -1 then s.rank_event_cnt
       else s.coll_event_cnt) ∧
    s1.rank_event_cnt =
      ((if s.last_rank ≠ f.rank then 0 else s.rank_event_cnt) + file_event_cnt nprocs f)
        % 18446744073709551616 := by
  unfold pre_step at h
  cases hrc : pre_rank_change S f.rank s with
  | error e => rw [hrc] at h; simp [Except.bind] at h
  | ok s0 =>
    obtain ⟨e1, e2, e3⟩ := pre_rank_change_ok S f.rank s s0 hrc
    rw [hrc] at h
    simp only [Except.bind] at h
    split_ifs at h <;>
      exact Except.ok.inj h ▸ ⟨rfl, e2, by simp only [e3]⟩

theorem pre_loop_append (nprocs start_time : Int) (S : Nat) :
    ∀ (l1 l2 : List darshan_file) (s : pre_state),
    pre_loop nprocs start_time S (l1 ++ l2) s =
      (pre_loop nprocs start_time S l1 s).bind (pre_loop nprocs start_time S l2) := by
  intro l1
  induction l1 with
  | nil => intro l2 s; rfl
  | cons f l1 ih =>
    intro l2 s
    simp only [List.cons_append, pre_loop]
    cases hst : pre_step nprocs start_time S f s with
    | error e => rfl
    | ok s1 => exact ih l2 s1

/-- Independent records leave the collective count alone. -/
theorem pre_loop_independent (nprocs start_time : Int) (S : Nat) :
    ∀ (ind : List darshan_file) (s s' : pre_state),
    (∀ f ∈ ind, 0 ≤ f.rank) → 0 ≤ s.last_rank →
    pre_loop nprocs start_time S ind s = Except.ok s' →
    s'.coll_event_cnt = s.coll_event_cnt ∧ 0 ≤ s'.last_rank := by
  intro ind
  induction ind with
  | nil =>
    intro s s' _ h0 h
    cases h
    exact ⟨rfl, h0⟩
  | cons f ind ih =>
    intro s s' hind h0 h
    simp only [pre_loop] at h
    cases hst : pre_step nprocs start_time S f s with
    | error e => rw [hst] at h; cases h
    | ok s1 =>
      rw [hst] at h
      obtain ⟨e1, e2, _⟩ := pre_step_ok nprocs start_time S f s s1 hst
      have hf := hind f (List.mem_cons_self _ _)
      obtain ⟨r1, r2⟩ := ih s1 s' (fun g hg => hind g (List.mem_cons_of_mem _ hg))
        (by rw [e1]; exact hf) h
      refine ⟨?_, r2⟩
      rw [r1, e2, if_neg (fun hh => by omega)]

theorem except_bind_ok {ε α β : Type} {e : Except ε α} {g : α → Except ε β} {y : β}
    (h : e.bind g = Except.ok y) : ∃ x, e = Except.ok x ∧ g x = Except.ok y := by
  cases e with
  | error err => cases h
  | ok x => exact ⟨x, rfl, h⟩

theorem except_map_ok {ε α β : Type} {e : Except ε α} {g : α → β} {y : β}
    (h : e.map g = Except.ok y) : ∃ x, e = Except.ok x ∧ g x = y := by
  cases e with
  | error err => cases h
  | ok x => exact ⟨x, rfl, Except.ok.inj h⟩

/-- The collective count a successful end of the sizing pass leaves. -/
theorem pre_finish_coll (nprocs : Int) (S : Nat) (s s' : pre_state)
    (h : pre_finish nprocs S s = Except.ok s') :
    s'.coll_event_cnt = (if s.last_rank > -1 then s.coll_event_cnt else s.rank_event_cnt) := by
  unfold pre_finish at h
  obtain ⟨s1, hA, h2⟩ := except_bind_ok h
  obtain ⟨s2, hB, rfl⟩ := except_map_ok h2
  have e2 : s2.coll_event_cnt = s1.coll_event_cnt := by
    split_ifs at hB
    · obtain ⟨hd, _, rfl⟩ := except_map_ok hB
      rfl
    · cases hB
      rfl
  have e1 : s1.coll_event_cnt =
      (if s.last_rank > -1 then s.coll_event_cnt else s.rank_event_cnt) := by
    split_ifs at hA with hr
    · obtain ⟨hd, _, rfl⟩ := except_map_ok hA
      rw [if_pos hr]
    · cases hA
      rw [if_neg hr]
  show s2.coll_event_cnt = _
  rw [e2, e1]

/-- Collective records at the end of the log: the final collective count is the running
count plus their event counts. -/
theorem pre_loop_collective (nprocs start_time : Int) (S : Nat) :
    ∀ (coll : List darshan_file) (s s' : pre_state),
    (∀ f ∈ coll, f.rank = -1) → s.last_rank = -1 → s.rank_event_cnt < 18446744073709551616 →
    (pre_loop nprocs start_time S coll s).bind (pre_finish nprocs S) = Except.ok s' →
    s'.coll_event_cnt =
      (s.rank_event_cnt + rank_event_count nprocs coll (-1)) % 18446744073709551616 := by
  intro coll
  induction coll with
  | nil =>
    intro s s' _ hl hlt h
    have h' : pre_finish nprocs S s = Except.ok s' := h
    rw [pre_finish_coll nprocs S s s' h', if_neg (by rw [hl]; omega)]
    simp only [rank_event_count, Nat.add_zero]
    rw [Nat.mod_eq_of_lt hlt]
  | cons f coll ih =>
    intro s s' hcoll hl _ h
    simp only [pre_loop] at h
    cases hst : pre_step nprocs start_time S f s with
    | error e => rw [hst] at h; cases h
    | ok s1 =>
      rw [hst] at h
      obtain ⟨e1, _, e3⟩ := pre_step_ok nprocs start_time S f s s1 hst
      have hf := hcoll f (List.mem_cons_self _ _)
      have := ih s1 s' (fun g hg => hcoll g (List.mem_cons_of_mem _ hg))
        (by rw [e1]; exact hf) (by rw [e3]; omega) h
      rw [this, e3, if_neg (by rw [hl, hf]; simp)]
      simp only [rank_event_count, hf, if_true]
      omega

theorem rank_event_count_append (nprocs : Int) (r : Int) : ∀ (l1 l2 : List darshan_file),
    rank_event_count nprocs (l1 ++ l2) r =
      rank_event_count nprocs l1 r + rank_event_count nprocs l2 r := by
  intro l1
  induction l1 with
  | nil => intro l2; simp [rank_event_count]
  | cons f l1 ih =>
    intro l2
    rw [List.cons_append, rank_event_count, rank_event_count, ih]
    omega

theorem rank_event_count_eq_zero (nprocs : Int) (r : Int) : ∀ (l : List darshan_file),
    (∀ f ∈ l, f.rank ≠ r) → rank_event_count nprocs l r = 0 := by
  intro l
  induction l with
  | nil => intro _; rfl
  | cons f l ih =>
    intro h
    simp only [rank_event_count, if_neg (h f (List.mem_cons_self _ _)), Nat.zero_add]
    exact ih (fun g hg => h g (List.mem_cons_of_mem _ hg))

/-- For a log of independent records followed by collective records, the collective count
the sizing pass ends with is the sum of the event counts of the collective records. -/
theorem preprocess_events_coll_count (nprocs start_time : Int) (S : Nat)
    (ind coll : List darshan_file) (s : pre_state)
    (hind : ∀ f ∈ ind, 0 ≤ f.rank) (hcoll : ∀ f ∈ coll, f.rank = -1)
    (h : preprocess_events nprocs start_time S (ind ++ coll) = Except.ok s) :
    s.coll_event_cnt = rank_event_count nprocs (ind ++ coll) (-1) % 18446744073709551616 := by
  rw [rank_event_count_append,
    rank_event_count_eq_zero nprocs (-1) ind (fun f hf => by have := hind f hf; omega),
    Nat.zero_add]
  cases ind with
  | nil =>
    cases coll with
    | nil => simp [preprocess_events] at h
    | cons g coll =>
      simp only [List.nil_append, preprocess_events] at h
      have := pre_loop_collective nprocs start_time S (g :: coll) (pre_init nprocs g.rank) s
        hcoll (hcoll g (List.mem_cons_self _ _)) (by simp [pre_init]) h
      rw [this]
      simp [pre_init]
  | cons f ind =>
    simp only [List.cons_append, preprocess_events] at h
    rw [← List.cons_append, pre_loop_append] at h
    cases hmid : pre_loop nprocs start_time S (f :: ind) (pre_init nprocs f.rank) with
    | error e => rw [hmid] at h; cases h
    | ok smid =>
      rw [hmid] at h
      have h' : (pre_loop nprocs start_time S coll smid).bind (pre_finish nprocs S)
          = Except.ok s := h
      obtain ⟨a1, a2⟩ := pre_loop_independent nprocs start_time S (f :: ind)
        (pre_init nprocs f.rank) smid hind
        (by simp only [pre_init]; exact hind f (List.mem_cons_self _ _)) hmid
      have a1' : smid.coll_event_cnt = 0 := by rw [a1]; rfl
      cases coll with
      | nil =>
        have h'' : pre_finish nprocs S smid = Except.ok s := h'
        rw [pre_finish_coll nprocs S smid s h'', if_pos (by omega), a1']
        rfl
      | cons g coll =>
        simp only [pre_loop] at h'
        cases hst : pre_step nprocs start_time S g smid with
        | error e => rw [hst] at h'; cases h'
        | ok s1 =>
          rw [hst] at h'
          obtain ⟨e1, _, e3⟩ := pre_step_ok nprocs start_time S g smid s1 hst
          have hg := hcoll g (List.mem_cons_self _ _)
          have := pre_loop_collective nprocs start_time S coll s1 s
            (fun x hx => hcoll x (List.mem_cons_of_mem _ hx)) (by rw [e1]; exact hg)
            (by rw [e3]; omega) h'
          rw [this, e3, if_pos (by rw [hg]; omega)]
          simp only [rank_event_count, hg, if_true]
          omega

theorem independent_events_le_all (nprocs : Int) : ∀ (l : List darshan_file),
    independent_events nprocs l ≤ all_events nprocs l := by
  intro l
  induction l with
  | nil => exact le_refl _
  | cons f l ih =>
    simp only [independent_events, all_events]
    split_ifs <;> omega

theorem rank_event_count_le_all (nprocs : Int) (r : Int) : ∀ (l : List darshan_file),
    rank_event_count nprocs l r ≤ all_events nprocs l := by
  intro l
  induction l with
  | nil => exact le_refl _
  | cons f l ih =>
    simp only [rank_event_count, all_events]
    split_ifs <;> omega

theorem header_slot_init (nprocs : Int) (hn : 1 ≤ nprocs) (j : Int) (hj : 1 ≤ j) :
    header_slot (u64 nprocs :: List.replicate (nprocs + 1).toNat 0) j = 0 := by
  unfold header_slot
  obtain ⟨k, hk⟩ : ∃ k : Nat, j.toNat = k + 1 := ⟨j.toNat - 1, by omega⟩
  rw [hk, List.getD_cons_succ, List.getD_eq_getElem?_getD]
  by_cases h : k < (nprocs + 1).toNat
  · rw [List.getElem?_replicate_of_lt h]; rfl
  · rw [List.getElem?_eq_none (by simp; omega)]; rfl

/-- Layout of the header for a log whose independent ranks come in contiguous groups of
increasing rank (collective groups anywhere between), when all offsets fit in 64 bits. -/
theorem preprocess_events_layout (nprocs start_time : Int) (S : Nat) (log : List darshan_file)
    (hn : 1 ≤ nprocs) (hS : 0 < S) (hne : log ≠ []) (hgrp : ranks_grouped nprocs log)
    (hfit : 8 * (nprocs + 2).toNat + S * independent_events nprocs log
      < 18446744073709551616) :
    ∃ s, preprocess_events nprocs start_time S log = Except.ok s ∧
      s.header_buf.length = (nprocs + 2).toNat ∧
      header_slot s.header_buf 0 = nprocs.toNat ∧
      (∀ r : Int, 0 ≤ r → r < nprocs → header_slot s.header_buf (r + 1) =
        if has_rank log r then 8 * (nprocs + 2).toNat + S * events_below nprocs log r
        else 0) ∧
      header_slot s.header_buf (nprocs + 1) =
        (if s.coll_event_cnt ≠ 0 then
          8 * (nprocs + 2).toNat + S * independent_events nprocs log
         else 0) := by
  cases log with
  | nil => exact absurd rfl hne
  | cons f rest =>
    obtain ⟨hf, hrest⟩ := hgrp
    have hf1 : f.rank = -1 ∨ 0 ≤ f.rank := by
      rcases hf with h | ⟨h, _⟩
      · exact Or.inl h
      · exact Or.inr h
    have hfn : f.rank < nprocs := by
      rcases hf with h | ⟨_, h, _⟩ <;> omega
    have hcur : (pre_init nprocs f.rank).cur_offset = 8 * (nprocs + 2).toNat := by
      simp only [pre_init, u64]
      omega
    have hpend : pending (pre_init nprocs f.rank) = 0 := by
      simp [pending, pre_init]
    have hmax : max (max (-1) f.rank) f.rank = max (-1) f.rank := by
      simp
    obtain ⟨s, hs, r1, r2, r3, r4⟩ := pre_loop_header nprocs start_time S hn hS (f :: rest)
      (pre_init nprocs f.rank) (max (-1) f.rank)
      ⟨by
        rcases hf with h | ⟨h1, h2, _⟩
        · exact Or.inl h
        · exact Or.inr ⟨h1, h2, Or.inl rfl⟩,
       by rw [hmax]; exact hrest⟩
      (by intro h0; simp only [pre_init] at h0 ⊢; omega)
      (by simp only [pre_init]; exact hf1)
      (by omega) (by omega)
      (by simp only [pre_init, List.length_cons, List.length_replicate]; omega)
      (by rw [hcur, hpend, Nat.zero_add]; exact hfit)
    rw [hcur, hpend] at r3 r4
    refine ⟨s, hs, r1, ?_, ?_, ?_⟩
    · rw [r2]
      simp only [pre_init, header_slot, u64]
      show (nprocs % 18446744073709551616).toNat = nprocs.toNat
      omega
    · intro r hr0 hrn
      rw [r3 r hr0 hrn]
      simp only [pre_init, Nat.zero_add]
      by_cases hrf : r = f.rank
      · have hge := ranks_grouped_from_ge nprocs rest (max (-1) f.rank) f.rank hrest
          (by intro h0; omega) (by omega)
        have hz : events_below nprocs rest r = 0 :=
          events_below_eq_zero nprocs r rest
            (fun g hg h0 => by have := hge g hg h0; omega)
        have hnot : ¬ (0 ≤ f.rank ∧ f.rank < r) := by omega
        rw [if_pos hrf, if_pos ((has_rank_cons f rest r).mpr (Or.inl hrf.symm))]
        simp only [events_below, hz, hnot, if_false, Nat.add_zero, Nat.mul_zero]
      · rw [if_neg hrf]
        by_cases hhas : has_rank (f :: rest) r
        · rw [if_pos hhas, if_pos hhas]
        · rw [if_neg hhas, if_neg hhas]
          exact header_slot_init nprocs hn (r + 1) (by omega)
    · rw [r4]
      simp only [pre_init, Nat.zero_add]
      by_cases hc : s.coll_event_cnt = 0
      · simp only [hc, ne_eq, not_true_eq_false, if_false]
        exact header_slot_init nprocs hn (nprocs + 1) (by omega)
      · simp only [hc, ne_eq, not_false_eq_true, if_true]

theorem ranks_grouped_from_collective (nprocs : Int) : ∀ (coll : List darshan_file) (m last : Int),
    (∀ f ∈ coll, f.rank = -1) → ranks_grouped_from nprocs m last coll := by
  intro coll
  induction coll with
  | nil => intro _ _ _; trivial
  | cons f coll ih =>
    intro m last h
    exact ⟨Or.inl (h f (List.mem_cons_self _ _)),
      ih _ _ (fun g hg => h g (List.mem_cons_of_mem _ hg))⟩

theorem ranks_grouped_from_ordered (nprocs : Int) (coll : List darshan_file)
    (hcoll : ∀ f ∈ coll, f.rank = -1) : ∀ (ind : List darshan_file) (m last : Int),
    (∀ f ∈ ind, 0 ≤ f.rank ∧ f.rank < nprocs) →
    ind.Pairwise (fun a b => a.rank ≤ b.rank) →
    (∀ f ∈ ind, (f.rank = last ∧ m ≤ last) ∨ m < f.rank) →
    ranks_grouped_from nprocs m last (ind ++ coll) := by
  intro ind
  induction ind with
  | nil => intro m last _ _ _; exact ranks_grouped_from_collective nprocs coll m last hcoll
  | cons f ind ih =>
    intro m last hrange hpair hrel
    have hf := hrange f (List.mem_cons_self _ _)
    have hfr := hrel f (List.mem_cons_self _ _)
    rw [List.pairwise_cons] at hpair
    refine ⟨Or.inr ⟨hf.1, hf.2, ?_⟩, ?_⟩
    · rcases hfr with h | h
      · exact Or.inl h.1
      · exact Or.inr h
    · apply ih _ _ (fun g hg => hrange g (List.mem_cons_of_mem _ hg)) hpair.2
      intro g hg
      have hle := hpair.1 g hg
      have hmax : max m f.rank = f.rank := by
        rcases hfr with h | h <;> omega
      rw [hmax]
      by_cases hgf : g.rank = f.rank
      · exact Or.inl ⟨hgf, le_refl _⟩
      · exact Or.inr (by omega)

theorem rank_ordered_grouped (nprocs : Int) (ind coll : List darshan_file)
    (h : rank_ordered nprocs ind coll) : ranks_grouped nprocs (ind ++ coll) := by
  obtain ⟨h1, h2, h3⟩ := h
  apply ranks_grouped_from_ordered nprocs coll h3 ind (-1) (-1) h1 h2
  intro f hf
  exact Or.inr (by have := (h1 f hf).1; omega)

/-- C5: for a log of independent records sorted by rank (ranks in `[0, nprocs)`) followed
by collective records, with `nprocs ≥ 1` and all offsets fitting in 64 bits,
`preprocess_events` succeeds with a header of `nprocs + 2` slots; slot 0 holds `nprocs`;
slot `r + 1` holds `8 * (nprocs + 2) + S * (events of all ranks below r)` for a rank with
records and 0 for a rank without; slot `nprocs + 1` holds
`8 * (nprocs + 2) + S * (events of all independent ranks)` when the collective event count
is non-zero and 0 otherwise. -/
theorem preprocess_events_header (nprocs start_time : Int) (S : Nat)
    (ind coll : List darshan_file) (hn : 1 ≤ nprocs) (hS : 0 < S) (hne : ind ++ coll ≠ [])
    (hord : rank_ordered nprocs ind coll)
    (hfit : 8 * (nprocs + 2).toNat + S * all_events nprocs (ind ++ coll)
      < 18446744073709551616) :
    ∃ s, preprocess_events nprocs start_time S (ind ++ coll) = Except.ok s ∧
      s.header_buf.length = (nprocs + 2).toNat ∧
      header_slot s.header_buf 0 = nprocs.toNat ∧
      (∀ r : Int, 0 ≤ r → r < nprocs → header_slot s.header_buf (r + 1) =
        if has_rank (ind ++ coll) r then
          8 * (nprocs + 2).toNat + S * events_below nprocs (ind ++ coll) r
        else 0) ∧
      header_slot s.header_buf (nprocs + 1) =
        (if rank_event_count nprocs (ind ++ coll) (-1) ≠ 0 then
          8 * (nprocs + 2).toNat + S * independent_events nprocs (ind ++ coll)
         else 0) := by
  have hle := independent_events_le_all nprocs (ind ++ coll)
  have hfit' : 8 * (nprocs + 2).toNat + S * independent_events nprocs (ind ++ coll)
      < 18446744073709551616 :=
    lt_of_le_of_lt (Nat.add_le_add_left (Nat.mul_le_mul_left S hle) _) hfit
  obtain ⟨s, hs, r1, r2, r3, r4⟩ := preprocess_events_layout nprocs start_time S (ind ++ coll)
    hn hS hne (rank_ordered_grouped nprocs ind coll hord) hfit'
  refine ⟨s, hs, r1, r2, r3, ?_⟩
  have hcnt := preprocess_events_coll_count nprocs start_time S ind coll s
    (fun f hf => (hord.1 f hf).1) hord.2.2 hs
  have hb : rank_event_count nprocs (ind ++ coll) (-1) < 18446744073709551616 := by
    have h1 := rank_event_count_le_all nprocs (-1) (ind ++ coll)
    have h2 := le_mul_of_pos_nat S (all_events nprocs (ind ++ coll)) hS
    omega
  rw [Nat.mod_eq_of_lt hb] at hcnt
  rw [r4, hcnt]

/-- Witness for `preprocess_events_header`. -/
theorem preprocess_events_header_witness :
    (preprocess_events 2 0 64 (ordered_sample_ind ++ ordered_sample_coll)).toOption.map
      (fun s => s.header_buf) = some [2, 32, 224, 352] ∧
    ∃ s, preprocess_events 2 0 64 (ordered_sample_ind ++ ordered_sample_coll) = Except.ok s ∧
      s.header_buf.length = ((2 : Int) + 2).toNat ∧
      header_slot s.header_buf 0 = (2 : Int).toNat ∧
      (∀ r : Int, 0 ≤ r → r < 2 → header_slot s.header_buf (r + 1) =
        if has_rank (ordered_sample_ind ++ ordered_sample_coll) r then
          8 * ((2 : Int) + 2).toNat +
            64 * events_below 2 (ordered_sample_ind ++ ordered_sample_coll) r
        else 0) ∧
      header_slot s.header_buf ((2 : Int) + 1) =
        (if rank_event_count 2 (ordered_sample_ind ++ ordered_sample_coll) (-1) ≠ 0 then
          8 * ((2 : Int) + 2).toNat +
            64 * independent_events 2 (ordered_sample_ind ++ ordered_sample_coll)
         else 0) :=
  ⟨by decide!,
   preprocess_events_header 2 0 64 ordered_sample_ind ordered_sample_coll (by decide)
    (by decide) (by decide!) (by unfold rank_ordered; decide!) (by decide!)⟩

theorem events_below_add_le (nprocs : Int) (r r' : Int) (h0 : 0 ≤ r) (hlt : r < r') :
    ∀ (l : List darshan_file),
    events_below nprocs l r + rank_event_count nprocs l r ≤ events_below nprocs l r' := by
  intro l
  induction l with
  | nil => exact le_refl _
  | cons f l ih =>
    simp only [events_below, rank_event_count]
    by_cases h1 : f.rank = r
    · have h2 : ¬ (0 ≤ f.rank ∧ f.rank < r) := by omega
      have h3 : 0 ≤ f.rank ∧ f.rank < r' := by omega
      rw [if_neg h2, if_pos h1, if_pos h3]
      omega
    · rw [if_neg h1]
      by_cases h2 : 0 ≤ f.rank ∧ f.rank < r
      · have h3 : 0 ≤ f.rank ∧ f.rank < r' := by omega
        rw [if_pos h2, if_pos h3]
        omega
      · rw [if_neg h2]
        split_ifs <;> omega

theorem events_below_add_le_independent (nprocs : Int) (r : Int) (h0 : 0 ≤ r) :
    ∀ (l : List darshan_file),
    events_below nprocs l r + rank_event_count nprocs l r ≤ independent_events nprocs l := by
  intro l
  induction l with
  | nil => exact le_refl _
  | cons f l ih =>
    simp only [events_below, rank_event_count, independent_events]
    by_cases h1 : f.rank = r
    · have h2 : ¬ (0 ≤ f.rank ∧ f.rank < r) := by omega
      have h3 : 0 ≤ f.rank := by omega
      rw [if_neg h2, if_pos h1, if_pos h3]
      omega
    · rw [if_neg h1]
      by_cases h2 : 0 ≤ f.rank ∧ f.rank < r
      · rw [if_pos h2, if_pos h2.1]
        omega
      · rw [if_neg h2]
        split_ifs <;> omega

/-- C6 (counterexample): a log accepted by `preprocess_events` in which the records of
rank 0 stand in two groups separated by a collective record.  The header ends as
`[1, 216, 408]`: rank 0 has 6 events of 64 bytes, so its region would end at 600, beyond
the start 408 of the next (collective) region. -/
theorem preprocess_events_split_group_overlaps :
    (preprocess_events 1 0 64 split_group_log).toOption.map
      (fun s => (s.header_buf, s.coll_event_cnt)) = some ([1, 216, 408], 2) ∧
    has_rank split_group_log 0 ∧ rank_event_count 1 split_group_log 0 = 6 ∧
    ¬ (header_slot [1, 216, 408] (0 + 1) + rank_event_count 1 split_group_log 0 * 64
        ≤ header_slot [1, 216, 408] (1 + 1)) := by
  decide!

/-- C6 (amended): for every log in which the records of each rank `r ≥ 0` are contiguous
and these groups come in increasing rank order (collective groups anywhere between),
with ranks below `nprocs ≥ 1` and all offsets fitting in 64 bits, `preprocess_events`
succeeds, and for every rank `r` with records the end `header[r+1] + event_count[r] * S`
of its region is at most the start of the region of every later rank with records and at
most the start of the collective region when there is one; no region starts inside the
header. -/
theorem preprocess_events_regions (nprocs start_time : Int) (S : Nat) (log : List darshan_file)
    (hn : 1 ≤ nprocs) (hS : 0 < S) (hne : log ≠ []) (hgrp : ranks_grouped nprocs log)
    (hfit : 8 * (nprocs + 2).toNat + S * independent_events nprocs log
      < 18446744073709551616) :
    ∃ s, preprocess_events nprocs start_time S log = Except.ok s ∧
      (∀ r r' : Int, 0 ≤ r → r < r' → r' < nprocs → has_rank log r → has_rank log r' →
        header_slot s.header_buf (r + 1) + rank_event_count nprocs log r * S
          ≤ header_slot s.header_buf (r' + 1)) ∧
      (∀ r : Int, 0 ≤ r → r < nprocs → has_rank log r → s.coll_event_cnt ≠ 0 →
        header_slot s.header_buf (r + 1) + rank_event_count nprocs log r * S
          ≤ header_slot s.header_buf (nprocs + 1)) ∧
      (∀ r : Int, 0 ≤ r → r < nprocs → has_rank log r →
        8 * (nprocs + 2).toNat ≤ header_slot s.header_buf (r + 1)) := by
  obtain ⟨s, hs, _, _, r3, r4⟩ :=
    preprocess_events_layout nprocs start_time S log hn hS hne hgrp hfit
  refine ⟨s, hs, ?_, ?_, ?_⟩
  · intro r r' h0 hlt hn' hr hr'
    rw [r3 r h0 (by omega), r3 r' (by omega) hn', if_pos hr, if_pos hr']
    have := events_below_add_le nprocs r r' h0 hlt log
    have := Nat.mul_le_mul_left S this
    rw [Nat.mul_add] at this
    rw [Nat.mul_comm (rank_event_count nprocs log r) S]
    omega
  · intro r h0 hn' hr hc
    rw [r3 r h0 hn', r4, if_pos hr, if_pos hc]
    have := events_below_add_le_independent nprocs r h0 log
    have := Nat.mul_le_mul_left S this
    rw [Nat.mul_add] at this
    rw [Nat.mul_comm (rank_event_count nprocs log r) S]
    omega
  · intro r h0 hn' hr
    rw [r3 r h0 hn', if_pos hr]
    omega

/-- Witness for `preprocess_events_regions`: rank 0, a collective group, then rank 1. -/
theorem preprocess_events_regions_witness :
    (preprocess_events 2 0 64 interleaved_log).toOption.map (fun s => s.header_buf)
      = some [2, 32, 224, 352] ∧
    ∃ s, preprocess_events 2 0 64 interleaved_log = Except.ok s ∧
      (∀ r r' : Int, 0 ≤ r → r < r' → r' < 2 → has_rank interleaved_log r →
        has_rank interleaved_log r' →
        header_slot s.header_buf (r + 1) + rank_event_count 2 interleaved_log r * 64
          ≤ header_slot s.header_buf (r' + 1)) ∧
      (∀ r : Int, 0 ≤ r → r < 2 → has_rank interleaved_log r → s.coll_event_cnt ≠ 0 →
        header_slot s.header_buf (r + 1) + rank_event_count 2 interleaved_log r * 64
          ≤ header_slot s.header_buf ((2 : Int) + 1)) ∧
      (∀ r : Int, 0 ≤ r → r < 2 → has_rank interleaved_log r →
        8 * ((2 : Int) + 2).toNat ≤ header_slot s.header_buf (r + 1)) :=
  ⟨by decide!,
   preprocess_events_regions 2 0 64 interleaved_log (by decide) (by decide) (by decide!)
    (by decide!) (by decide!)⟩

/-! ## Independent generator -/

theorem init_all_common_flag_ctl (st : gen_state) : (init_all_common_flag st).ctl = st.ctl := by
  unfold init_all_common_flag
  split_ifs <;> rfl

theorem init_seq_flag_ctl (st st' : gen_state) (w : Int) (h : init_seq_flag st w = some st') :
    st'.ctl = st.ctl := by
  unfold init_seq_flag at h
  split_ifs at h
  · obtain ⟨f, _, rfl⟩ := Option.map_eq_some'.mp h; rfl
  · cases h; rfl
  · obtain ⟨f, _, rfl⟩ := Option.map_eq_some'.mp h; rfl
  · cases h; rfl

theorem set_common_draw_ctl (st : gen_state) (w : Int) (d : common_draw) :
    (set_common_draw st w d).ctl = st.ctl := by
  unfold set_common_draw
  split_ifs <;> rfl

theorem choose_io_size_ctl (st st' : gen_state) (w k : Int) (sz : Nat)
    (h : choose_io_size st w k = some (st', sz)) : st'.ctl = st.ctl := by
  unfold choose_io_size at h
  simp only at h
  split_ifs at h <;> cases h <;> first | rfl | exact set_common_draw_ctl _ _ _

theorem account_io_size_ctl (st : gen_state) (w : Int) (sz : Nat) :
    (account_io_size st w sz).ctl = st.ctl := by
  unfold account_io_size
  split_ifs <;> rfl

theorem choose_io_offset_ctl (rnd : Nat → Nat) (st : gen_state) (w : Int) (sz : Nat) :
    (choose_io_offset rnd st w sz).1.ctl = st.ctl := by
  unfold choose_io_offset
  split_ifs <;> rfl

theorem reset_io_statics_ctl (st : gen_state) : (reset_io_statics st).ctl = st.ctl := by
  unfold reset_io_statics
  split_ifs <;> rfl

/-- `determine_io_params` leaves the control view of the state unchanged. -/
theorem determine_io_params_ctl (rnd : Nat → Nat) (st st' : gen_state) (w c k : Int)
    (sz : Nat) (off : Int) (h : determine_io_params rnd st w c k = some (st', sz, off)) :
    st'.ctl = st.ctl := by
  unfold determine_io_params at h
  obtain ⟨r, h1, h2⟩ := Option.map_eq_some'.mp h
  obtain ⟨r1, r2⟩ := r
  unfold determine_io_size at h1
  obtain ⟨st2, h3, h4⟩ := Option.bind_eq_some.mp h1
  have e1 := init_seq_flag_ctl _ _ _ h3
  have e2 := choose_io_size_ctl _ _ _ _ _ h4
  unfold determine_io_offset at h2
  simp only [Prod.mk.injEq] at h2
  obtain ⟨rfl, _, _⟩ := h2
  rw [reset_io_statics_ctl, choose_io_offset_ctl, account_io_size_ctl, e2, e1,
    init_all_common_flag_ctl]

/-! ### Event writers -/

theorem store_event_eq (st st' : gen_state) (e : darshan_event)
    (h : store_event st e = some st') :
    st' = { st with file_event_list := st.file_event_list ++ [e] } := by
  unfold store_event at h
  split_ifs at h
  cases h
  rfl

theorem count_type_append (t : event_type) (l1 l2 : List darshan_event) :
    count_type t (l1 ++ l2) = count_type t l1 + count_type t l2 := by
  unfold count_type
  exact List.countP_append _ _ _

theorem ind_toggle_frame (rnd : Nat → Nat) (st : gen_state) (x : fval) :
    (ind_toggle rnd st x).file.CP_POSIX_OPENS = st.file.CP_POSIX_OPENS ∧
    (ind_toggle rnd st x).file.CP_POSIX_READS = st.file.CP_POSIX_READS ∧
    (ind_toggle rnd st x).file.CP_POSIX_WRITES = st.file.CP_POSIX_WRITES ∧
    (ind_toggle rnd st x).file_event_list = st.file_event_list ∧
    (ind_toggle rnd st x).file_event_list_max = st.file_event_list_max := by
  unfold ind_toggle
  split_ifs <;> exact ⟨rfl, rfl, rfl, rfl, rfl⟩

theorem ind_io_count_frame (st : gen_state) :
    (ind_io_count st).file.CP_POSIX_OPENS = st.file.CP_POSIX_OPENS ∧
    (ind_io_count st).file_event_list = st.file_event_list ∧
    (ind_io_count st).file_event_list_max = st.file_event_list_max ∧
    (ind_io_count st).file.CP_POSIX_READS =
      (if st.ind_rw = 0 then st.file.CP_POSIX_READS - 1 else st.file.CP_POSIX_READS) ∧
    (ind_io_count st).file.CP_POSIX_WRITES =
      (if st.ind_rw = 0 then st.file.CP_POSIX_WRITES else st.file.CP_POSIX_WRITES - 1) := by
  unfold ind_io_count
  split_ifs <;> exact ⟨rfl, rfl, rfl, rfl, rfl⟩

theorem ind_io_event_type (st : gen_state) (m t : ℚ) (sz : Nat) (off : Int) :
    (ind_io_event st m t sz off).1.type =
      (if st.ind_rw = 0 then event_type.POSIX_READ else event_type.POSIX_WRITE) := by
  unfold ind_io_event
  split_ifs <;> rfl

/-- What one iteration of the I/O loop does to the counters and the buffer. -/
theorem ind_io_body_spec (rnd : Nat → Nat) (ops : Int) (d m : ℚ) (i : Int)
    (s s' : io_loop_state) (h : ind_io_body rnd ops d m i s = some s') :
    s'.psx_rw_ops_remaining = s.psx_rw_ops_remaining - 1 ∧
    s'.st.file.CP_POSIX_OPENS = s.st.file.CP_POSIX_OPENS ∧
    s'.st.file_event_list_max = s.st.file_event_list_max ∧
    0 ≤ s'.st.file.CP_POSIX_READS ∧ 0 ≤ s'.st.file.CP_POSIX_WRITES ∧
    s'.rw_switch ≠ none ∧
    ∃ e, s'.st.file_event_list = s.st.file_event_list ++ [e] ∧
      ((e.type = event_type.POSIX_READ ∧
          s'.st.file.CP_POSIX_READS = s.st.file.CP_POSIX_READS - 1 ∧
          s'.st.file.CP_POSIX_WRITES = s.st.file.CP_POSIX_WRITES) ∨
       (e.type = event_type.POSIX_WRITE ∧
          s'.st.file.CP_POSIX_WRITES = s.st.file.CP_POSIX_WRITES - 1 ∧
          s'.st.file.CP_POSIX_READS = s.st.file.CP_POSIX_READS)) := by
  unfold ind_io_body at h
  obtain ⟨r, hr, h⟩ := Option.bind_eq_some.mp h
  obtain ⟨st1, sz, off⟩ := r
  have hctl := determine_io_params_ctl rnd s.st st1 _ _ _ sz off hr
  simp only at h
  by_cases hneg : (ind_io_count st1).file.CP_POSIX_READS < 0 ∨
      (ind_io_count st1).file.CP_POSIX_WRITES < 0
  · rw [if_pos hneg] at h; cases h
  · rw [if_neg hneg] at h
    obtain ⟨st2, hst, rfl⟩ := Option.map_eq_some'.mp h
    have e2 := store_event_eq _ _ _ hst
    have c_opens : st1.file.CP_POSIX_OPENS = s.st.file.CP_POSIX_OPENS :=
      congrArg ctl_view.opens hctl
    have c_reads : st1.file.CP_POSIX_READS = s.st.file.CP_POSIX_READS :=
      congrArg ctl_view.reads hctl
    have c_writes : st1.file.CP_POSIX_WRITES = s.st.file.CP_POSIX_WRITES :=
      congrArg ctl_view.writes hctl
    have c_ev : st1.file_event_list = s.st.file_event_list := congrArg ctl_view.events hctl
    have c_max : st1.file_event_list_max = s.st.file_event_list_max :=
      congrArg ctl_view.events_max hctl
    push_neg at hneg
    obtain ⟨t1, t2, t3, t4, t5⟩ := ind_toggle_frame rnd st2
      (ind_rw_switch st2 (s.psx_rw_ops_remaining - 1))
    obtain ⟨k1, k2, k3, k4, k5⟩ := ind_io_count_frame st1
    have f_opens : st2.file.CP_POSIX_OPENS = (ind_io_count st1).file.CP_POSIX_OPENS := by
      rw [e2]
    have f_reads : st2.file.CP_POSIX_READS = (ind_io_count st1).file.CP_POSIX_READS := by
      rw [e2]
    have f_writes : st2.file.CP_POSIX_WRITES = (ind_io_count st1).file.CP_POSIX_WRITES := by
      rw [e2]
    have f_max : st2.file_event_list_max = (ind_io_count st1).file_event_list_max := by
      rw [e2]
    have f_ev : st2.file_event_list = (ind_io_count st1).file_event_list ++
        [(ind_io_event st1 m s.cur_time sz off).1] := by
      rw [e2]
    refine ⟨rfl, ?_, ?_, ?_, ?_, by simp, ?_⟩
    · show (ind_toggle rnd st2 _).file.CP_POSIX_OPENS = _
      rw [t1, f_opens, k1, c_opens]
    · show (ind_toggle rnd st2 _).file_event_list_max = _
      rw [t5, f_max, k3, c_max]
    · show 0 ≤ (ind_toggle rnd st2 _).file.CP_POSIX_READS
      rw [t2, f_reads]; exact hneg.1
    · show 0 ≤ (ind_toggle rnd st2 _).file.CP_POSIX_WRITES
      rw [t3, f_writes]; exact hneg.2
    · refine ⟨(ind_io_event st1 m s.cur_time sz off).1, ?_, ?_⟩
      · show (ind_toggle rnd st2 _).file_event_list = _
        rw [t4, f_ev, k2, c_ev]
      · show (_ ∧ (ind_toggle rnd st2 _).file.CP_POSIX_READS = _ ∧
            (ind_toggle rnd st2 _).file.CP_POSIX_WRITES = _) ∨
          (_ ∧ (ind_toggle rnd st2 _).file.CP_POSIX_WRITES = _ ∧
            (ind_toggle rnd st2 _).file.CP_POSIX_READS = _)
        rw [t2, t3, f_reads, f_writes, k4, k5, ind_io_event_type, c_reads, c_writes]
        by_cases hrw : st1.ind_rw = 0
        · left; simp [hrw]
        · right; simp [hrw]

theorem count_type_all_io (l : List darshan_event) (h : all_io l) :
    count_type event_type.POSIX_READ l + count_type event_type.POSIX_WRITE l = l.length := by
  induction l with
  | nil => rfl
  | cons e l ih =>
    have he := h e (List.mem_cons_self _ _)
    have ih' := ih (fun x hx => h x (List.mem_cons_of_mem _ hx))
    unfold count_type at ih' ⊢
    rcases he with he | he
    · simp [List.countP_cons, he]
      omega
    · simp [List.countP_cons, he]
      omega

theorem count_type_singleton (t : event_type) (e : darshan_event) :
    count_type t [e] = if e.type = t then 1 else 0 := by
  unfold count_type
  simp [List.countP_cons]

/-- The I/O loop: `k` iterations append `k` read/write events and lower the two counters
by the numbers of reads and writes appended. -/
theorem ind_io_loop_spec (rnd : Nat → Nat) (ops : Int) (d m : ℚ) :
    ∀ (k : Nat) (i : Int) (s s' : io_loop_state),
    ind_io_loop rnd ops d m k i s = some s' →
    s'.st.file.CP_POSIX_OPENS = s.st.file.CP_POSIX_OPENS ∧
    s'.st.file_event_list_max = s.st.file_event_list_max ∧
    (∃ l, s'.st.file_event_list = s.st.file_event_list ++ l ∧ l.length = k ∧ all_io l ∧
      s'.st.file.CP_POSIX_READS =
        s.st.file.CP_POSIX_READS - (count_type event_type.POSIX_READ l : Int) ∧
      s'.st.file.CP_POSIX_WRITES =
        s.st.file.CP_POSIX_WRITES - (count_type event_type.POSIX_WRITE l : Int)) ∧
    (0 < k → 0 ≤ s'.st.file.CP_POSIX_READS ∧ 0 ≤ s'.st.file.CP_POSIX_WRITES ∧
      s'.rw_switch ≠ none) ∧
    (k = 0 → s' = s) := by
  intro k
  induction k with
  | zero =>
    intro i s s' h
    simp only [ind_io_loop] at h
    cases h
    refine ⟨rfl, rfl, ⟨[], by simp, rfl, ?_, by simp [count_type], by simp [count_type]⟩,
      fun h => absurd h (lt_irrefl _), fun _ => rfl⟩
    intro e he; cases he
  | succ k ih =>
    intro i s s' h
    simp only [ind_io_loop] at h
    obtain ⟨s1, hb, hl⟩ := Option.bind_eq_some.mp h
    obtain ⟨b1, b2, b3, b4, b5, b6, e, b7, b8⟩ := ind_io_body_spec rnd ops d m i s s1 hb
    obtain ⟨l1, l2, ⟨l, l3, l4, l5, l6, l7⟩, l8, l9⟩ := ih (i + 1) s1 s' hl
    refine ⟨by rw [l1, b2], by rw [l2, b3], ⟨e :: l, ?_, ?_, ?_, ?_, ?_⟩, ?_, ?_⟩
    · rw [l3, b7]; simp
    · simp [l4]
    · intro x hx
      rcases List.mem_cons.mp hx with rfl | hx
      · rcases b8 with h1 | h1
        · exact Or.inl h1.1
        · exact Or.inr h1.1
      · exact l5 x hx
    · have : count_type event_type.POSIX_READ (e :: l) =
          count_type event_type.POSIX_READ [e] + count_type event_type.POSIX_READ l :=
        count_type_append _ [e] l
      rw [l6, this, count_type_singleton]
      rcases b8 with h1 | h1
      · rw [h1.2.1, if_pos h1.1]; push_cast; ring
      · rw [h1.2.2, if_neg (by rw [h1.1]; decide)]; push_cast; ring
    · have : count_type event_type.POSIX_WRITE (e :: l) =
          count_type event_type.POSIX_WRITE [e] + count_type event_type.POSIX_WRITE l :=
        count_type_append _ [e] l
      rw [l7, this, count_type_singleton]
      rcases b8 with h1 | h1
      · rw [h1.2.2, if_neg (by rw [h1.1]; decide)]; push_cast; ring
      · rw [h1.2.1, if_pos h1.1]; push_cast; ring
    · intro _
      by_cases hk : k = 0
      · have := l9 hk
        subst this
        exact ⟨b4, b5, b6⟩
      · exact l8 (Nat.pos_of_ne_zero hk)
    · intro hk; exact absurd hk (Nat.succ_ne_zero k)

theorem ind_io_init_frame (st st1 : gen_state) (h : ind_io_init st = some st1) :
    st1.file = st.file ∧ st1.file_event_list = st.file_event_list ∧
    st1.file_event_list_max = st.file_event_list_max := by
  unfold ind_io_init at h
  by_cases hrw : st.ind_rw = -1
  · rw [if_pos hrw] at h
    obtain ⟨n, _, rfl⟩ := Option.map_eq_some'.mp h
    exact ⟨rfl, rfl, rfl⟩
  · rw [if_neg hrw] at h
    cases h
    exact ⟨rfl, rfl, rfl⟩

theorem ind_io_finish_frame (ndx : Int) (s : io_loop_state) (st2 : gen_state)
    (h : ind_io_finish ndx s = some st2) :
    st2.file.CP_POSIX_OPENS = s.st.file.CP_POSIX_OPENS ∧
    st2.file.CP_POSIX_READS = s.st.file.CP_POSIX_READS ∧
    st2.file.CP_POSIX_WRITES = s.st.file.CP_POSIX_WRITES ∧
    st2.file_event_list = s.st.file_event_list ∧
    st2.file_event_list_max = s.st.file_event_list_max := by
  unfold ind_io_finish at h
  simp only at h
  split_ifs at h
  · cases h; exact ⟨rfl, rfl, rfl, rfl, rfl⟩
  · split at h
    · cases h
    · split_ifs at h
      · obtain ⟨n, _, rfl⟩ := Option.map_eq_some'.mp h
        exact ⟨rfl, rfl, rfl, rfl, rfl⟩
      · cases h; exact ⟨rfl, rfl, rfl, rfl, rfl⟩

theorem ceil_div_bounds (rem opens : Int) (hrem : 0 ≤ rem) (hopens : 1 ≤ opens) :
    0 ≤ Int.ceil ((rem : ℚ) / (opens : ℚ)) ∧ Int.ceil ((rem : ℚ) / (opens : ℚ)) ≤ rem := by
  have ho : (1 : ℚ) ≤ (opens : ℚ) := by exact_mod_cast hopens
  have hr : (0 : ℚ) ≤ (rem : ℚ) := by exact_mod_cast hrem
  constructor
  · exact Int.ceil_nonneg (div_nonneg hr (by linarith))
  · rw [Int.ceil_le]
    exact div_le_self hr ho

theorem ceil_div_one (rem : Int) : Int.ceil ((rem : ℚ) / ((1 : Int) : ℚ)) = rem := by
  simp

/-- The I/O events of one cycle of an independent file. -/
theorem generate_psx_ind_io_events_spec (rnd : Nat → Nat) (st st' : gen_state) (ndx : Int)
    (d m t t' : ℚ) (hopens : 1 ≤ st.file.CP_POSIX_OPENS)
    (hrem : 0 ≤ st.file.CP_POSIX_READS + st.file.CP_POSIX_WRITES)
    (h : generate_psx_ind_io_events rnd st ndx d m t = some (st', t')) :
    st'.file.CP_POSIX_OPENS = st.file.CP_POSIX_OPENS ∧
    st'.file_event_list_max = st.file_event_list_max ∧
    ∃ l, st'.file_event_list = st.file_event_list ++ l ∧
      (l.length : Int) = Int.ceil (((st.file.CP_POSIX_READS + st.file.CP_POSIX_WRITES : Int) : ℚ)
        / (st.file.CP_POSIX_OPENS : ℚ)) ∧
      all_io l ∧
      st'.file.CP_POSIX_READS =
        st.file.CP_POSIX_READS - (count_type event_type.POSIX_READ l : Int) ∧
      st'.file.CP_POSIX_WRITES =
        st.file.CP_POSIX_WRITES - (count_type event_type.POSIX_WRITE l : Int) ∧
      (l ≠ [] → 0 ≤ st'.file.CP_POSIX_READS ∧ 0 ≤ st'.file.CP_POSIX_WRITES) := by
  unfold generate_psx_ind_io_events at h
  simp only at h
  by_cases h0 : st.file.CP_POSIX_READS + st.file.CP_POSIX_WRITES = 0
  · rw [if_pos h0] at h
    cases h
    refine ⟨rfl, rfl, [], by simp, ?_, ?_, by simp [count_type], by simp [count_type],
      fun h => absurd rfl h⟩
    · rw [h0]; simp
    · intro e he; cases he
  · rw [if_neg h0] at h
    obtain ⟨ops, hops, h⟩ := Option.bind_eq_some.mp h
    obtain ⟨st1, hinit, h⟩ := Option.bind_eq_some.mp h
    obtain ⟨s, hloop, h⟩ := Option.bind_eq_some.mp h
    obtain ⟨st2, hfin, h⟩ := Option.map_eq_some'.mp h
    simp only [Prod.mk.injEq] at h
    obtain ⟨rfl, rfl⟩ := h
    unfold ceil_ddiv at hops
    split_ifs at hops
    cases hops
    obtain ⟨i1, i2, i3⟩ := ind_io_init_frame st st1 hinit
    obtain ⟨f1, f2, f3, f4, f5⟩ := ind_io_finish_frame ndx s st2 hfin
    obtain ⟨l1, l2, ⟨l, l3, l4, l5, l6, l7⟩, l8, _⟩ := ind_io_loop_spec rnd _ d m _ 0 _ s hloop
    simp only at l1 l2 l3 l6 l7 l8
    obtain ⟨c1, c2⟩ := ceil_div_bounds _ _ hrem hopens
    refine ⟨by rw [f1, l1, i1], by rw [f5, l2, i3], l, by rw [f4, l3, i2], ?_, l5,
      by rw [f2, l6, i1], by rw [f3, l7, i1], ?_⟩
    · rw [l4]
      exact Int.toNat_of_nonneg c1
    · intro hl
      have hk : 0 < l.length := List.length_pos.mpr hl
      rw [l4] at hk
      have := l8 hk
      rw [f2, f3]
      exact ⟨this.1, this.2.1⟩

theorem generate_psx_open_event_eq (st st' : gen_state) (cf : Int) (m t t' : ℚ)
    (h : generate_psx_open_event st cf m t = some (st', t')) :
    t' = fadd t m ∧ ∃ e, e.type = event_type.POSIX_OPEN ∧ e.start_time = t ∧
      e.end_time = fadd t m ∧
      st' = { st with file_event_list := st.file_event_list ++ [e] } := by
  unfold generate_psx_open_event at h
  obtain ⟨st1, hs, h⟩ := Option.map_eq_some'.mp h
  simp only [Prod.mk.injEq] at h
  obtain ⟨rfl, rfl⟩ := h
  exact ⟨rfl, _, rfl, rfl, rfl, store_event_eq _ _ _ hs⟩

theorem generate_psx_close_event_eq (st st' : gen_state) (m t t' : ℚ)
    (h : generate_psx_close_event st m t = some (st', t')) :
    t' = fadd t m ∧ ∃ e, e.type = event_type.POSIX_CLOSE ∧ e.start_time = t ∧
      e.end_time = fadd t m ∧
      st' = { st with file_event_list := st.file_event_list ++ [e] } := by
  unfold generate_psx_close_event at h
  obtain ⟨st1, hs, h⟩ := Option.map_eq_some'.mp h
  simp only [Prod.mk.injEq] at h
  obtain ⟨rfl, rfl⟩ := h
  exact ⟨rfl, _, rfl, rfl, rfl, store_event_eq _ _ _ hs⟩

theorem map_class_of_all_io (l : List darshan_event) (h : all_io l) :
    l.map class_of = List.replicate l.length event_class.io_ev := by
  induction l with
  | nil => rfl
  | cons e l ih =>
    have he := h e (List.mem_cons_self _ _)
    have ih' := ih (fun x hx => h x (List.mem_cons_of_mem _ hx))
    simp only [List.map_cons, List.length_cons, List.replicate_succ, ih']
    congr 1
    unfold class_of
    rcases he with he | he <;> rw [he]

/-- One open-I/O-close cycle of an independent file. -/
theorem ind_cycle_spec (rnd : Nat → Nat) (c : ind_cycle_params) (i cf : Int)
    (st st' : gen_state) (t t' : ℚ) (hopens : 1 ≤ st.file.CP_POSIX_OPENS)
    (hrem : 0 ≤ st.file.CP_POSIX_READS + st.file.CP_POSIX_WRITES)
    (h : ind_cycle rnd c i cf st t = some (st', t')) :
    st'.file.CP_POSIX_OPENS = st.file.CP_POSIX_OPENS - 1 ∧
    st'.file_event_list_max = st.file_event_list_max ∧
    ∃ l, st'.file_event_list = st.file_event_list ++ l ∧
      l.map class_of = event_class.open_ev ::
        (List.replicate (Int.ceil
          (((st.file.CP_POSIX_READS + st.file.CP_POSIX_WRITES : Int) : ℚ)
            / (st.file.CP_POSIX_OPENS : ℚ))).toNat event_class.io_ev ++
          [event_class.close_ev]) ∧
      st'.file.CP_POSIX_READS =
        st.file.CP_POSIX_READS - (count_type event_type.POSIX_READ l : Int) ∧
      st'.file.CP_POSIX_WRITES =
        st.file.CP_POSIX_WRITES - (count_type event_type.POSIX_WRITE l : Int) ∧
      st'.file.CP_POSIX_READS + st'.file.CP_POSIX_WRITES =
        st.file.CP_POSIX_READS + st.file.CP_POSIX_WRITES -
          Int.ceil (((st.file.CP_POSIX_READS + st.file.CP_POSIX_WRITES : Int) : ℚ)
            / (st.file.CP_POSIX_OPENS : ℚ)) ∧
      (0 ≤ st.file.CP_POSIX_READS ∧ 0 ≤ st.file.CP_POSIX_WRITES →
        0 ≤ st'.file.CP_POSIX_READS ∧ 0 ≤ st'.file.CP_POSIX_WRITES) := by
  unfold ind_cycle at h
  obtain ⟨r1, h1, h⟩ := Option.bind_eq_some.mp h
  obtain ⟨r2, h2, h⟩ := Option.bind_eq_some.mp h
  obtain ⟨r3, h3, h⟩ := Option.map_eq_some'.mp h
  obtain ⟨s1, t1⟩ := r1
  obtain ⟨s2, t2⟩ := r2
  obtain ⟨s3, t3⟩ := r3
  simp only [Prod.mk.injEq] at h h2 h3
  obtain ⟨rfl, _⟩ := h
  obtain ⟨_, eo, ho, _, _, hs1⟩ := generate_psx_open_event_eq _ _ _ _ _ _ h1
  obtain ⟨_, ec, hc, _, _, hs3⟩ := generate_psx_close_event_eq _ _ _ _ _ h3
  have o1 : s1.file = st.file := by rw [hs1]
  have o2 : s1.file_event_list = st.file_event_list ++ [eo] := by rw [hs1]
  have o3 : s1.file_event_list_max = st.file_event_list_max := by rw [hs1]
  have c1 : s3.file = s2.file := by rw [hs3]
  have c2 : s3.file_event_list = s2.file_event_list ++ [ec] := by rw [hs3]
  have c3 : s3.file_event_list_max = s2.file_event_list_max := by rw [hs3]
  obtain ⟨g1, g2, l, g3, g4, g5, g6, g7, g8⟩ :=
    generate_psx_ind_io_events_spec rnd s1 s2 i _ _ _ t2 (by rw [o1]; exact hopens)
      (by rw [o1]; exact hrem) h2
  rw [o1] at g1 g4 g6 g7
  rw [o2] at g3
  rw [o3] at g2
  show (s3.file.CP_POSIX_OPENS - 1 = _) ∧ s3.file_event_list_max = _ ∧
    ∃ l, s3.file_event_list = _ ∧ _ ∧ s3.file.CP_POSIX_READS = _ ∧
      s3.file.CP_POSIX_WRITES = _ ∧ s3.file.CP_POSIX_READS + s3.file.CP_POSIX_WRITES = _ ∧
      (_ → 0 ≤ s3.file.CP_POSIX_READS ∧ 0 ≤ s3.file.CP_POSIX_WRITES)
  rw [c1, c2, c3]
  have hcnt := count_type_all_io l g5
  have hlen : l.length = (Int.ceil (((st.file.CP_POSIX_READS + st.file.CP_POSIX_WRITES : Int) : ℚ)
      / (st.file.CP_POSIX_OPENS : ℚ))).toNat := by
    rw [← g4]; simp
  have cr : count_type event_type.POSIX_READ (eo :: (l ++ [ec])) =
      count_type event_type.POSIX_READ l := by
    have e1 : count_type event_type.POSIX_READ (eo :: (l ++ [ec])) =
        count_type event_type.POSIX_READ [eo] + (count_type event_type.POSIX_READ l +
          count_type event_type.POSIX_READ [ec]) := by
      rw [← count_type_append, ← count_type_append]; rfl
    rw [e1, count_type_singleton, count_type_singleton, if_neg (by rw [ho]; decide),
      if_neg (by rw [hc]; decide)]
    omega
  have cw : count_type event_type.POSIX_WRITE (eo :: (l ++ [ec])) =
      count_type event_type.POSIX_WRITE l := by
    have e1 : count_type event_type.POSIX_WRITE (eo :: (l ++ [ec])) =
        count_type event_type.POSIX_WRITE [eo] + (count_type event_type.POSIX_WRITE l +
          count_type event_type.POSIX_WRITE [ec]) := by
      rw [← count_type_append, ← count_type_append]; rfl
    rw [e1, count_type_singleton, count_type_singleton, if_neg (by rw [ho]; decide),
      if_neg (by rw [hc]; decide)]
    omega
  refine ⟨by rw [g1], g2, eo :: (l ++ [ec]), ?_, ?_, ?_, ?_, ?_, ?_⟩
  · rw [g3]; simp
  · simp only [List.map_cons, List.map_append, List.map_nil, map_class_of_all_io l g5, hlen]
    congr 1
    · unfold class_of; rw [ho]
    · congr 1
      unfold class_of; rw [hc]
  · rw [cr]; exact g6
  · rw [cw]; exact g7
  · rw [g6, g7, ← g4]
    have : ((count_type event_type.POSIX_READ l : Int) +
        (count_type event_type.POSIX_WRITE l : Int)) = (l.length : Int) := by
      exact_mod_cast hcnt
    omega
  · intro h0
    by_cases hl : l = []
    · subst hl
      simp only [count_type, List.countP_nil, Nat.cast_zero, sub_zero] at g6 g7
      rw [g6, g7]; exact h0
    · exact g8 hl

/-- The cycle loop of an independent file with `n` opens left. -/
theorem ind_cycles_spec (rnd : Nat → Nat) (c : ind_cycle_params) :
    ∀ (n : Nat) (i cf : Int) (st st' : gen_state) (t t' : ℚ),
    st.file.CP_POSIX_OPENS = (n : Int) →
    0 ≤ st.file.CP_POSIX_READS + st.file.CP_POSIX_WRITES →
    ind_cycles rnd c n i cf st t = some (st', t') →
    st'.file.CP_POSIX_OPENS = 0 ∧
    st'.file_event_list_max = st.file_event_list_max ∧
    ∃ l, st'.file_event_list = st.file_event_list ++ l ∧
      l.map class_of = cycle_shape n (st.file.CP_POSIX_READS + st.file.CP_POSIX_WRITES) ∧
      st'.file.CP_POSIX_READS =
        st.file.CP_POSIX_READS - (count_type event_type.POSIX_READ l : Int) ∧
      st'.file.CP_POSIX_WRITES =
        st.file.CP_POSIX_WRITES - (count_type event_type.POSIX_WRITE l : Int) ∧
      (1 ≤ n → st'.file.CP_POSIX_READS + st'.file.CP_POSIX_WRITES = 0) ∧
      (0 ≤ st.file.CP_POSIX_READS ∧ 0 ≤ st.file.CP_POSIX_WRITES →
        0 ≤ st'.file.CP_POSIX_READS ∧ 0 ≤ st'.file.CP_POSIX_WRITES) := by
  intro n
  induction n with
  | zero =>
    intro i cf st st' t t' hop _ h
    unfold ind_cycles at h
    rw [if_pos (by simpa using hop)] at h
    simp only [Option.some.injEq, Prod.mk.injEq] at h
    obtain ⟨rfl, _⟩ := h
    refine ⟨by simpa using hop, rfl, [], by simp, rfl, by simp [count_type],
      by simp [count_type], fun h => absurd h (by decide), fun h => h⟩
  | succ n ih =>
    intro i cf st st' t t' hop hrem h
    unfold ind_cycles at h
    have hne : st.file.CP_POSIX_OPENS ≠ 0 := by rw [hop]; push_cast; omega
    rw [if_neg hne] at h
    simp only at h
    obtain ⟨r, hc, h⟩ := Option.bind_eq_some.mp h
    obtain ⟨s1, t1⟩ := r
    simp only at h
    obtain ⟨a1, a2, l1, a3, a4, a5, a6, a7, a8⟩ :=
      ind_cycle_spec rnd c i cf st s1 t t1 (by rw [hop]; push_cast; omega) hrem hc
    obtain ⟨cb1, cb2⟩ := ceil_div_bounds _ _ hrem
      (show 1 ≤ st.file.CP_POSIX_OPENS by rw [hop]; push_cast; omega)
    have hop1 : s1.file.CP_POSIX_OPENS = (n : Int) := by
      rw [a1, hop]; push_cast; omega
    have hrem1 : 0 ≤ s1.file.CP_POSIX_READS + s1.file.CP_POSIX_WRITES := by
      rw [a7]; omega
    obtain ⟨b1, b2, l2, b3, b4, b5, b6, b7, b8⟩ := ih (i + 1) 0 s1 st' t1 t' hop1 hrem1 h
    have hcast : (st.file.CP_POSIX_OPENS : ℚ) = (((n : Int) + 1 : Int) : ℚ) := by
      rw [hop]; push_cast; ring
    refine ⟨b1, by rw [b2, a2], l1 ++ l2, by rw [b3, a3, List.append_assoc], ?_, ?_, ?_, ?_, ?_⟩
    · rw [List.map_append, a4, b4, a7, hcast]
      simp only [cycle_shape, List.cons_append, List.append_assoc, List.singleton_append,
        List.nil_append]
    · rw [b5, a5, count_type_append]; push_cast; ring
    · rw [b6, a6, count_type_append]; push_cast; ring
    · intro _
      by_cases hn : 1 ≤ n
      · exact b7 hn
      · have hn0 : n = 0 := by omega
        subst hn0
        have hs : st' = s1 := by
          unfold ind_cycles at h
          rw [if_pos (by simpa using hop1)] at h
          simp only [Option.some.injEq, Prod.mk.injEq] at h
          exact h.1.symm
        rw [hs, a7, hcast]
        simp
    · intro h0
      exact b8 (a8 h0)

theorem cycle_shape_length : ∀ (n : Nat) (rem : Int), 0 ≤ rem → 1 ≤ n →
    ((cycle_shape n rem).length : Int) = 2 * n + rem := by
  intro n
  induction n with
  | zero => intro rem _ h; omega
  | succ n ih =>
    intro rem hrem _
    obtain ⟨c1, c2⟩ := ceil_div_bounds rem ((n : Int) + 1) hrem (by omega)
    have hnat := Int.toNat_of_nonneg c1
    by_cases hn : 1 ≤ n
    · simp only [cycle_shape, List.length_cons, List.length_append, List.length_replicate]
      generalize Int.ceil ((rem : ℚ) / (((n : Int) + 1 : Int) : ℚ)) = x at *
      have := ih (rem - x) (by omega) hn
      push_cast
      omega
    · have hn0 : n = 0 := by omega
      subst hn0
      have hx : Int.ceil ((rem : ℚ) / ((((0 : Nat) : Int) + 1 : Int) : ℚ)) = rem := by
        simp
      simp only [cycle_shape, List.length_cons, List.length_append, List.length_replicate,
        List.length_nil]
      rw [hx] at hnat ⊢
      push_cast
      omega

theorem cycle_shape_zero : ∀ (n : Nat),
    cycle_shape n 0 = (List.replicate n [event_class.open_ev, event_class.close_ev]).flatten := by
  intro n
  induction n with
  | zero => rfl
  | succ n ih =>
    simp only [cycle_shape, List.replicate_succ, List.flatten_cons]
    simp [ih]

/-- A cycle of a file with no I/O operation left: only the OPEN and the CLOSE are stored
and the open count goes down; `determine_io_params` is not reached. -/
theorem ind_cycle_no_io (rnd : Nat → Nat) (c : ind_cycle_params) (i cf : Int)
    (st st' : gen_state) (t t' : ℚ)
    (hrem : st.file.CP_POSIX_READS + st.file.CP_POSIX_WRITES = 0)
    (h : ind_cycle rnd c i cf st t = some (st', t')) :
    st'.synth = st.synth ∧
    st'.file.CP_POSIX_READS = st.file.CP_POSIX_READS ∧
    st'.file.CP_POSIX_WRITES = st.file.CP_POSIX_WRITES := by
  unfold ind_cycle at h
  obtain ⟨r1, h1, h⟩ := Option.bind_eq_some.mp h
  obtain ⟨r2, h2, h⟩ := Option.bind_eq_some.mp h
  obtain ⟨r3, h3, h⟩ := Option.map_eq_some'.mp h
  obtain ⟨s1, t1⟩ := r1
  obtain ⟨s2, t2⟩ := r2
  obtain ⟨s3, t3⟩ := r3
  simp only [Prod.mk.injEq] at h h2 h3
  obtain ⟨rfl, _⟩ := h
  obtain ⟨_, eo, ho, _, _, hs1⟩ := generate_psx_open_event_eq _ _ _ _ _ _ h1
  obtain ⟨_, ec, hc, _, _, hs3⟩ := generate_psx_close_event_eq _ _ _ _ _ h3
  have o1 : s1.file = st.file := by rw [hs1]
  unfold generate_psx_ind_io_events at h2
  simp only at h2
  rw [if_pos (by rw [o1]; exact hrem)] at h2
  simp only [Option.some.injEq, Prod.mk.injEq] at h2
  obtain ⟨rfl, _⟩ := h2
  rw [hs3, hs1]
  exact ⟨rfl, rfl, rfl⟩

theorem ind_cycles_no_io (rnd : Nat → Nat) (c : ind_cycle_params) :
    ∀ (n : Nat) (i cf : Int) (st st' : gen_state) (t t' : ℚ),
    st.file.CP_POSIX_READS + st.file.CP_POSIX_WRITES = 0 →
    ind_cycles rnd c n i cf st t = some (st', t') →
    st'.synth = st.synth := by
  intro n
  induction n with
  | zero =>
    intro i cf st st' t t' _ h
    unfold ind_cycles at h
    split_ifs at h
    simp only [Option.some.injEq, Prod.mk.injEq] at h
    rw [← h.1]
  | succ n ih =>
    intro i cf st st' t t' hrem h
    unfold ind_cycles at h
    split_ifs at h
    · simp only [Option.some.injEq, Prod.mk.injEq] at h
      rw [← h.1]
    · simp only at h
      obtain ⟨r, hc, h⟩ := Option.bind_eq_some.mp h
      obtain ⟨s1, t1⟩ := r
      obtain ⟨a1, a2, a3⟩ := ind_cycle_no_io rnd c i cf st s1 t t1 hrem hc
      rw [ih (i + 1) 0 s1 st' t1 t' (by rw [a2, a3]; exact hrem) h, a1]

/-- C1: for a record with at least one open and non-negative read and write counts `R` and
`W`, if `generate_psx_ind_file_events` completes then the file event buffer has gained
exactly `R` READ events and exactly `W` WRITE events, and both counters are 0 on exit;
this holds for every random stream, creation-time table and state of the statics. -/
theorem generate_psx_ind_file_events_counts (rnd : Nat → Nat) (tbl : List hash_entry_t)
    (st st' : gen_state) (hopens : 1 ≤ st.file.CP_POSIX_OPENS)
    (hR : 0 ≤ st.file.CP_POSIX_READS) (hW : 0 ≤ st.file.CP_POSIX_WRITES)
    (h : generate_psx_ind_file_events rnd tbl st = some st') :
    (count_type event_type.POSIX_READ st'.file_event_list : Int) =
      count_type event_type.POSIX_READ st.file_event_list + st.file.CP_POSIX_READS ∧
    (count_type event_type.POSIX_WRITE st'.file_event_list : Int) =
      count_type event_type.POSIX_WRITE st.file_event_list + st.file.CP_POSIX_WRITES ∧
    st'.file.CP_POSIX_READS = 0 ∧ st'.file.CP_POSIX_WRITES = 0 := by
  unfold generate_psx_ind_file_events at h
  rw [if_neg (by omega)] at h
  obtain ⟨c, _, h⟩ := Option.bind_eq_some.mp h
  obtain ⟨r, hcy, rfl⟩ := Option.map_eq_some'.mp h
  obtain ⟨s1, t1⟩ := r
  obtain ⟨_, _, l, a3, _, a5, a6, a7, a8⟩ :=
    ind_cycles_spec rnd c st.file.CP_POSIX_OPENS.toNat 0 _ st s1 _ t1
      (by rw [Int.toNat_of_nonneg (by omega)]) (by omega) hcy
  have h7 := a7 (by omega)
  have h8 := a8 ⟨hR, hW⟩
  simp only
  have hr0 : s1.file.CP_POSIX_READS = 0 := by omega
  have hw0 : s1.file.CP_POSIX_WRITES = 0 := by omega
  refine ⟨?_, ?_, hr0, hw0⟩
  · rw [a3, count_type_append]; push_cast; omega
  · rw [a3, count_type_append]; push_cast; omega

/-- C8: when `generate_psx_ind_file_events` completes on a record with `n` opens and
`R + W ≥ 0` I/O operations, the events it stored are, in classes (READ and WRITE
identified), exactly the shape `cycle_shape n (R + W)`: `n` groups of one OPEN,
`ceil(rem_i / opens left)` READ/WRITE events and one CLOSE.  With `n = 0` the state is
unchanged; with `R + W = 0` the stored events are `n` OPEN/CLOSE pairs and nothing that
`determine_io_params` writes has changed (it is never called); with `n ≥ 1` the number of
stored events is `2n + R + W`. -/
theorem generate_psx_ind_file_events_shape (rnd : Nat → Nat) (tbl : List hash_entry_t)
    (st st' : gen_state)
    (hrem : 0 ≤ st.file.CP_POSIX_READS + st.file.CP_POSIX_WRITES)
    (h : generate_psx_ind_file_events rnd tbl st = some st') :
    (∃ l, st'.file_event_list = st.file_event_list ++ l ∧
      l.map class_of = cycle_shape st.file.CP_POSIX_OPENS.toNat
        (st.file.CP_POSIX_READS + st.file.CP_POSIX_WRITES) ∧
      (st.file.CP_POSIX_READS + st.file.CP_POSIX_WRITES = 0 →
        l.map class_of = (List.replicate st.file.CP_POSIX_OPENS.toNat
          [event_class.open_ev, event_class.close_ev]).flatten) ∧
      (1 ≤ st.file.CP_POSIX_OPENS → (l.length : Int) =
        2 * st.file.CP_POSIX_OPENS + st.file.CP_POSIX_READS + st.file.CP_POSIX_WRITES)) ∧
    (st.file.CP_POSIX_OPENS = 0 → st' = st) ∧
    (st.file.CP_POSIX_READS + st.file.CP_POSIX_WRITES = 0 → st'.synth = st.synth) := by
  unfold generate_psx_ind_file_events at h
  by_cases h0 : st.file.CP_POSIX_OPENS = 0
  · rw [if_pos h0] at h
    cases h
    refine ⟨⟨[], by simp, by simp [h0, cycle_shape], fun _ => by simp [h0],
      fun h1 => by omega⟩, fun _ => rfl, fun _ => rfl⟩
  · rw [if_neg h0] at h
    obtain ⟨c, _, h⟩ := Option.bind_eq_some.mp h
    obtain ⟨r, hcy, rfl⟩ := Option.map_eq_some'.mp h
    obtain ⟨s1, t1⟩ := r
    have hpos : 0 ≤ st.file.CP_POSIX_OPENS := by
      by_contra hneg
      have hz : st.file.CP_POSIX_OPENS.toNat = 0 := by omega
      rw [hz] at hcy
      unfold ind_cycles at hcy
      rw [if_neg h0] at hcy
      cases hcy
    obtain ⟨_, _, l, a3, a4, _, _, _, _⟩ :=
      ind_cycles_spec rnd c st.file.CP_POSIX_OPENS.toNat 0 _ st s1 _ t1
        (by rw [Int.toNat_of_nonneg hpos]) hrem hcy
    refine ⟨⟨l, a3, a4, ?_, ?_⟩, fun h => absurd h h0, ?_⟩
    · intro hz
      rw [a4, hz, cycle_shape_zero]
    · intro h1
      have := cycle_shape_length st.file.CP_POSIX_OPENS.toNat _ hrem (by omega)
      rw [← a4, List.length_map, Int.toNat_of_nonneg hpos] at this
      omega
    · intro hz
      exact ind_cycles_no_io rnd c _ 0 _ st s1 _ t1 hz hcy

/-! ## Scenario A and sample runs of the independent generator -/

theorem uniform_nonneg (r : Nat) : 0 ≤ uniform r := by
  unfold uniform RAND_MAX
  positivity

theorem ind_rw_switch_no_switches (x : gen_state) (rem : Int)
    (hx : x.file.CP_RW_SWITCHES = 0) : ind_rw_switch x rem = fval.fin 0 := by
  unfold ind_rw_switch
  simp only [hx]
  simp

theorem ind_toggle_zero (rnd : Nat → Nat) (x : gen_state) :
    ind_toggle rnd x (fval.fin 0) = { x with rand_cnt := x.rand_cnt + 1 } := by
  unfold ind_toggle
  rw [if_neg]
  simp only [fval.draw_lt, decide_eq_true_eq, not_lt]
  exact uniform_nonneg _

/-- Scenario A with `n = 3` and `T = 10`, the numbers of the specification: the run stores
OPEN, READ, READ, READ, CLOSE, and the CLOSE ends at time 10. -/
theorem scenario_a_three_reads :
    ∃ st', generate_psx_ind_file_events (fun _ => 0) []
        (initial_state (scenario_a_file 3 10 0) 5) = some st' ∧
      st'.file_event_list.map darshan_event.type =
        [event_type.POSIX_OPEN, event_type.POSIX_READ, event_type.POSIX_READ,
         event_type.POSIX_READ, event_type.POSIX_CLOSE] ∧
      (st'.file_event_list.map darshan_event.end_time).getLast? = some 10 := by
  exact ⟨(generate_psx_ind_file_events (fun _ => 0) []
      (initial_state (scenario_a_file 3 10 0) 5)).getD (initial_state zero_file 0),
    by decide!, by decide!, by decide!⟩

/-- A run whose delay fractions are not finite: on `read_spanning_file` the adjustment of
`calc_io_delay_pcts` divides by a zero sum, and the generator completes and stores OPEN,
READ, CLOSE, takes the read and open counters to zero and leaves the statics of the I/O
parameter synthesizer at their initial values. -/
theorem read_spanning_file_run :
    calc_io_delay_pcts read_spanning_file 1 1 2 zero_pcts = none ∧
    (generate_psx_ind_file_events (fun _ => 0) [] (initial_state read_spanning_file 3)).map
      (fun s => s.file_event_list.map darshan_event.type) =
      some [event_type.POSIX_OPEN, event_type.POSIX_READ, event_type.POSIX_CLOSE] ∧
    (generate_psx_ind_file_events (fun _ => 0) [] (initial_state read_spanning_file 3)).map
      (fun s => (s.file.CP_POSIX_OPENS, s.file.CP_POSIX_READS, s.file.CP_POSIX_WRITES)) =
      some (0, 0, 0) ∧
    (generate_psx_ind_file_events (fun _ => 0) [] (initial_state read_spanning_file 3)).map
      (fun s => (s.seq_rd_flag, s.seq_wr_flag, s.all_common_flag)) = some (-1, -1, -1) := by
  decide!

/-- The run on `mixed_file` completes, and stores OPEN, READ, READ, CLOSE, OPEN, WRITE,
CLOSE. -/
theorem mixed_file_run :
    generate_psx_ind_file_events (fun _ => 0) [] (initial_state mixed_file 7) =
      some mixed_result ∧
    mixed_result.file_event_list.map darshan_event.type =
      [event_type.POSIX_OPEN, event_type.POSIX_READ, event_type.POSIX_READ,
       event_type.POSIX_CLOSE, event_type.POSIX_OPEN, event_type.POSIX_WRITE,
       event_type.POSIX_CLOSE] := by
  decide!

theorem generate_psx_ind_file_events_counts_witness :
    (1 ≤ (initial_state mixed_file 7).file.CP_POSIX_OPENS ∧
      0 ≤ (initial_state mixed_file 7).file.CP_POSIX_READS ∧
      0 ≤ (initial_state mixed_file 7).file.CP_POSIX_WRITES ∧
      generate_psx_ind_file_events (fun _ => 0) [] (initial_state mixed_file 7) =
        some mixed_result) ∧
    ((count_type event_type.POSIX_READ mixed_result.file_event_list : Int) =
        count_type event_type.POSIX_READ (initial_state mixed_file 7).file_event_list +
          (initial_state mixed_file 7).file.CP_POSIX_READS ∧
      (count_type event_type.POSIX_WRITE mixed_result.file_event_list : Int) =
        count_type event_type.POSIX_WRITE (initial_state mixed_file 7).file_event_list +
          (initial_state mixed_file 7).file.CP_POSIX_WRITES ∧
      mixed_result.file.CP_POSIX_READS = 0 ∧ mixed_result.file.CP_POSIX_WRITES = 0) :=
  ⟨⟨by decide, by decide, by decide, mixed_file_run.1⟩,
    generate_psx_ind_file_events_counts (fun _ => 0) [] (initial_state mixed_file 7)
      mixed_result (by decide) (by decide) (by decide) mixed_file_run.1⟩

theorem generate_psx_ind_file_events_shape_witness :
    (0 ≤ (initial_state mixed_file 7).file.CP_POSIX_READS +
        (initial_state mixed_file 7).file.CP_POSIX_WRITES ∧
      generate_psx_ind_file_events (fun _ => 0) [] (initial_state mixed_file 7) =
        some mixed_result) ∧
    ((∃ l, mixed_result.file_event_list = (initial_state mixed_file 7).file_event_list ++ l ∧
      l.map class_of = cycle_shape (initial_state mixed_file 7).file.CP_POSIX_OPENS.toNat
        ((initial_state mixed_file 7).file.CP_POSIX_READS +
          (initial_state mixed_file 7).file.CP_POSIX_WRITES) ∧
      ((initial_state mixed_file 7).file.CP_POSIX_READS +
          (initial_state mixed_file 7).file.CP_POSIX_WRITES = 0 →
        l.map class_of = (List.replicate (initial_state mixed_file 7).file.CP_POSIX_OPENS.toNat
          [event_class.open_ev, event_class.close_ev]).flatten) ∧
      (1 ≤ (initial_state mixed_file 7).file.CP_POSIX_OPENS → (l.length : Int) =
        2 * (initial_state mixed_file 7).file.CP_POSIX_OPENS +
          (initial_state mixed_file 7).file.CP_POSIX_READS +
          (initial_state mixed_file 7).file.CP_POSIX_WRITES)) ∧
    ((initial_state mixed_file 7).file.CP_POSIX_OPENS = 0 →
      mixed_result = initial_state mixed_file 7) ∧
    ((initial_state mixed_file 7).file.CP_POSIX_READS +
        (initial_state mixed_file 7).file.CP_POSIX_WRITES = 0 →
      mixed_result.synth = (initial_state mixed_file 7).synth)) :=
  ⟨⟨by decide, mixed_file_run.1⟩,
    generate_psx_ind_file_events_shape (fun _ => 0) [] (initial_state mixed_file 7)
      mixed_result (by decide) mixed_file_run.1⟩

/-! ## Sizing contract and collective generator -/

theorem u64_cast (x : Int) : ((u64 x : Nat) : Int) = x % 18446744073709551616 := by
  unfold u64
  exact Int.toNat_of_nonneg (Int.emod_nonneg _ (by norm_num))

theorem generate_psx_ind_file_events_length (rnd : Nat → Nat) (tbl : List hash_entry_t)
    (st st' : gen_state) (hopens : 1 ≤ st.file.CP_POSIX_OPENS)
    (hrem : 0 ≤ st.file.CP_POSIX_READS + st.file.CP_POSIX_WRITES)
    (h : generate_psx_ind_file_events rnd tbl st = some st') :
    ∃ l, st'.file_event_list = st.file_event_list ++ l ∧
      (l.length : Int) =
        2 * st.file.CP_POSIX_OPENS + st.file.CP_POSIX_READS + st.file.CP_POSIX_WRITES := by
  unfold generate_psx_ind_file_events at h
  rw [if_neg (by omega)] at h
  obtain ⟨c, _, h⟩ := Option.bind_eq_some.mp h
  obtain ⟨r, hcy, rfl⟩ := Option.map_eq_some'.mp h
  obtain ⟨s1, t1⟩ := r
  obtain ⟨_, _, l, a3, a4, _, _, _, _⟩ :=
    ind_cycles_spec rnd c st.file.CP_POSIX_OPENS.toNat 0 _ st s1 _ t1
      (by rw [Int.toNat_of_nonneg (by omega)]) hrem hcy
  refine ⟨l, a3, ?_⟩
  have := cycle_shape_length st.file.CP_POSIX_OPENS.toNat _ hrem (by omega)
  rw [← a4, List.length_map, Int.toNat_of_nonneg (by omega)] at this
  omega

theorem check_file_counters_counts (s a : Int) (f f' : darshan_file)
    (h : check_file_counters s a f = some f') :
    f'.rank = f.rank ∧ f'.CP_POSIX_OPENS = f.CP_POSIX_OPENS + f.CP_POSIX_FOPENS ∧
    f'.CP_POSIX_READS = f.CP_POSIX_READS + f.CP_POSIX_FREADS ∧
    f'.CP_POSIX_WRITES = f.CP_POSIX_WRITES + f.CP_POSIX_FWRITES := by
  unfold check_file_counters at h
  split at h
  · cases h
  · simp only [Option.some.injEq] at h
    subst h
    refine ⟨?_, ?_, ?_, ?_⟩ <;> (simp only; split_ifs <;> rfl)

theorem file_event_cnt_independent (nprocs : Int) (f : darshan_file) (hrank : f.rank > -1) :
    file_event_cnt nprocs f =
      u64 (2 * (f.CP_POSIX_OPENS + f.CP_POSIX_FOPENS) + (f.CP_POSIX_READS + f.CP_POSIX_FREADS)
        + (f.CP_POSIX_WRITES + f.CP_POSIX_FWRITES) + coll_sizing_terms nprocs f) := by
  unfold file_event_cnt coll_sizing_terms
  simp only
  rw [if_pos hrank]
  have hinj : ∀ a b : Int, a % 18446744073709551616 = b % 18446744073709551616 →
      u64 a = u64 b := by
    intro a b hab
    unfold u64
    rw [hab]
  apply hinj
  rw [u64_cast, u64_cast, u64_cast]
  omega

/-- C7: three records on which the generation pass completes and stores fewer events than
the sizing pass counted for them.  The independent record `unopened_read_file`
(no open, one read) stores no event while `file_event_cnt` is 1; the collective record
`mpi_mixed_file` of a two-process job stores BARRIER, OPEN, READ, READ, CLOSE, five events,
while `file_event_cnt` is 6; the collective record `indep_open_file` of a two-process job
stores no event while `file_event_cnt` is 4. -/
theorem generate_file_events_count_differs :
    ((generate_file_events (fun _ => 0) 2 16 0 (fun f => f.CP_INDEP_OPENS) 0 10 []
        (initial_state unopened_read_file 8)).map (fun s => s.file_event_list.length) = some 0 ∧
      file_event_cnt 2 unopened_read_file = 1) ∧
    ((generate_file_events (fun _ => 0) 2 16 0 (fun f => f.CP_INDEP_OPENS) 0 10 []
        (initial_state mpi_mixed_file 8)).map
          (fun s => s.file_event_list.map darshan_event.type) =
        some [event_type.BARRIER, event_type.POSIX_OPEN, event_type.POSIX_READ,
          event_type.POSIX_READ, event_type.POSIX_CLOSE] ∧
      file_event_cnt 2 mpi_mixed_file = 6) ∧
    ((generate_file_events (fun _ => 0) 2 16 0 (fun f => f.CP_INDEP_OPENS) 0 10 []
        (initial_state indep_open_file 8)).map (fun s => s.file_event_list.length) = some 0 ∧
      file_event_cnt 2 indep_open_file = 4) := by
  decide!

/-- The sizing contract for independent records: for an independent record (rank > -1) with
at least one open and a non-negative number of I/O operations (stdio counts included), if
the generation pass completes from an empty buffer then it stores exactly
`2 * opens + reads + writes` events;
`file_event_cnt` of the sizing pass is that number plus the three quotients
`CP_COLL_OPENS / nprocs + CP_COLL_WRITES / nprocs + CP_COLL_READS / nprocs`, reduced modulo
`2^64`.  The two counts are therefore equal when the quotients add up to zero and
`2 * opens + reads + writes < 2^64`. -/
theorem generate_file_events_sizing (rnd : Nat → Nat) (nprocs opt_agg_count : Int)
    (unspecified_time : ℚ) (open_counter : darshan_file → Int) (start_time app_run_time : Int)
    (tbl : List hash_entry_t) (st st' : gen_state)
    (hrank : st.file.rank > -1)
    (hopens : 1 ≤ st.file.CP_POSIX_OPENS + st.file.CP_POSIX_FOPENS)
    (hio : 0 ≤ (st.file.CP_POSIX_READS + st.file.CP_POSIX_FREADS) +
      (st.file.CP_POSIX_WRITES + st.file.CP_POSIX_FWRITES))
    (hempty : st.file_event_list = [])
    (h : generate_file_events rnd nprocs opt_agg_count unspecified_time open_counter
      start_time app_run_time tbl st = some st') :
    (st'.file_event_list.length : Int) =
      2 * (st.file.CP_POSIX_OPENS + st.file.CP_POSIX_FOPENS) +
        (st.file.CP_POSIX_READS + st.file.CP_POSIX_FREADS) +
        (st.file.CP_POSIX_WRITES + st.file.CP_POSIX_FWRITES) ∧
    file_event_cnt nprocs st.file =
      u64 ((st'.file_event_list.length : Int) + coll_sizing_terms nprocs st.file) ∧
    (coll_sizing_terms nprocs st.file = 0 →
      2 * (st.file.CP_POSIX_OPENS + st.file.CP_POSIX_FOPENS) +
        (st.file.CP_POSIX_READS + st.file.CP_POSIX_FREADS) +
        (st.file.CP_POSIX_WRITES + st.file.CP_POSIX_FWRITES) < 18446744073709551616 →
      file_event_cnt nprocs st.file = st'.file_event_list.length) := by
  unfold generate_file_events at h
  obtain ⟨f, hf, h⟩ := Option.bind_eq_some.mp h
  obtain ⟨k1, k2, k3, k4⟩ := check_file_counters_counts _ _ _ _ hf
  rw [if_pos (by rw [k1]; exact hrank)] at h
  obtain ⟨l, l1, l2⟩ := generate_psx_ind_file_events_length rnd tbl _ st' (by
    show 1 ≤ f.CP_POSIX_OPENS
    rw [k2]; exact hopens) (by
    show 0 ≤ f.CP_POSIX_READS + f.CP_POSIX_WRITES
    rw [k3, k4]; exact hio) h
  have l1' : st'.file_event_list = st.file_event_list ++ l := l1
  have l2' : (l.length : Int) = 2 * f.CP_POSIX_OPENS + f.CP_POSIX_READS + f.CP_POSIX_WRITES :=
    l2
  rw [hempty, List.nil_append] at l1'
  rw [k2, k3, k4] at l2'
  have hlen : (st'.file_event_list.length : Int) =
      2 * (st.file.CP_POSIX_OPENS + st.file.CP_POSIX_FOPENS) +
        (st.file.CP_POSIX_READS + st.file.CP_POSIX_FREADS) +
        (st.file.CP_POSIX_WRITES + st.file.CP_POSIX_FWRITES) := by
    rw [l1']; exact l2'
  have hcnt := file_event_cnt_independent nprocs st.file hrank
  refine ⟨hlen, ?_, ?_⟩
  · rw [hcnt, hlen]
  · intro hq hlt
    rw [hcnt, hq, ← hlen]
    have h0 : (0 : Int) ≤ (st'.file_event_list.length : Int) := Int.natCast_nonneg _
    have hlt' : (st'.file_event_list.length : Int) < 18446744073709551616 := by
      rw [hlen]; exact hlt
    have := u64_cast ((st'.file_event_list.length : Int) + 0)
    rw [add_zero, Int.emod_eq_of_lt h0 hlt'] at this
    rw [add_zero]
    exact_mod_cast this

theorem generate_file_events_sizing_witness :
    ((initial_state mixed_file 7).file.rank > -1 ∧
      1 ≤ (initial_state mixed_file 7).file.CP_POSIX_OPENS +
        (initial_state mixed_file 7).file.CP_POSIX_FOPENS ∧
      generate_file_events (fun _ => 0) 2 16 0 (fun f => f.CP_INDEP_OPENS) 0 10 []
        (initial_state mixed_file 7) = some mixed_pass_result) ∧
    mixed_pass_result.file_event_list.length = 7 ∧
    file_event_cnt 2 (initial_state mixed_file 7).file = 7 ∧
    ((mixed_pass_result.file_event_list.length : Int) =
      2 * ((initial_state mixed_file 7).file.CP_POSIX_OPENS +
          (initial_state mixed_file 7).file.CP_POSIX_FOPENS) +
        ((initial_state mixed_file 7).file.CP_POSIX_READS +
          (initial_state mixed_file 7).file.CP_POSIX_FREADS) +
        ((initial_state mixed_file 7).file.CP_POSIX_WRITES +
          (initial_state mixed_file 7).file.CP_POSIX_FWRITES) ∧
    file_event_cnt 2 (initial_state mixed_file 7).file =
      u64 ((mixed_pass_result.file_event_list.length : Int) +
        coll_sizing_terms 2 (initial_state mixed_file 7).file) ∧
    (coll_sizing_terms 2 (initial_state mixed_file 7).file = 0 →
      2 * ((initial_state mixed_file 7).file.CP_POSIX_OPENS +
          (initial_state mixed_file 7).file.CP_POSIX_FOPENS) +
        ((initial_state mixed_file 7).file.CP_POSIX_READS +
          (initial_state mixed_file 7).file.CP_POSIX_FREADS) +
        ((initial_state mixed_file 7).file.CP_POSIX_WRITES +
          (initial_state mixed_file 7).file.CP_POSIX_FWRITES) < 18446744073709551616 →
      file_event_cnt 2 (initial_state mixed_file 7).file =
        mixed_pass_result.file_event_list.length)) :=
  ⟨⟨by decide, by decide, by decide!⟩, by decide!, by decide!,
    generate_file_events_sizing (fun _ => 0) 2 16 0 (fun f => f.CP_INDEP_OPENS) 0 10 []
      (initial_state mixed_file 7) mixed_pass_result (by decide) (by decide) (by decide) rfl
      (by decide!)⟩

theorem io_sync_refl (st : gen_state) : io_sync st st :=
  ⟨rfl, rfl, fun h => h, fun h => h⟩

theorem io_sync_trans {a b c : gen_state} (h1 : io_sync a b) (h2 : io_sync b c) :
    io_sync a c :=
  ⟨h2.1.trans h1.1, h2.2.1.trans h1.2.1, fun h => h2.2.2.1 (h1.2.2.1 h),
    fun h => h2.2.2.2 (h1.2.2.2 h)⟩

theorem io_sync_of_frame {st st' : gen_state}
    (he : st'.file_event_list = st.file_event_list)
    (hr : st'.file.CP_POSIX_READS = st.file.CP_POSIX_READS)
    (hw : st'.file.CP_POSIX_WRITES = st.file.CP_POSIX_WRITES) : io_sync st st' := by
  unfold io_sync
  rw [he, hr, hw]
  exact ⟨rfl, rfl, fun h => h, fun h => h⟩

theorem io_sync_store_other (st st' : gen_state) (e : darshan_event)
    (h : store_event st e = some st') (h1 : e.type ≠ event_type.POSIX_READ)
    (h2 : e.type ≠ event_type.POSIX_WRITE) : io_sync st st' := by
  have hs := store_event_eq st st' e h
  have he : st'.file_event_list = st.file_event_list ++ [e] := by rw [hs]
  have hf : st'.file = st.file := by rw [hs]
  unfold io_sync
  rw [he, hf, count_type_append, count_type_append, count_type_singleton,
    count_type_singleton, if_neg h1, if_neg h2]
  exact ⟨by simp, by simp, fun h => h, fun h => h⟩

theorem generate_psx_open_event_sync (st st' : gen_state) (cf : Int) (m t t' : ℚ)
    (h : generate_psx_open_event st cf m t = some (st', t')) : io_sync st st' := by
  unfold generate_psx_open_event at h
  obtain ⟨st1, hs, h⟩ := Option.map_eq_some'.mp h
  simp only [Prod.mk.injEq] at h
  obtain ⟨rfl, _⟩ := h
  exact io_sync_store_other _ _ _ hs (by simp) (by simp)

theorem generate_psx_close_event_sync (st st' : gen_state) (m t t' : ℚ)
    (h : generate_psx_close_event st m t = some (st', t')) : io_sync st st' := by
  unfold generate_psx_close_event at h
  obtain ⟨st1, hs, h⟩ := Option.map_eq_some'.mp h
  simp only [Prod.mk.injEq] at h
  obtain ⟨rfl, _⟩ := h
  exact io_sync_store_other _ _ _ hs (by simp) (by simp)

theorem generate_barrier_event_sync (st st' : gen_state) (root : Int) (t t' : ℚ)
    (h : generate_barrier_event st root t = some (st', t')) : io_sync st st' := by
  unfold generate_barrier_event at h
  obtain ⟨st1, hs, h⟩ := Option.map_eq_some'.mp h
  simp only [Prod.mk.injEq] at h
  obtain ⟨rfl, _⟩ := h
  exact io_sync_store_other _ _ _ hs (by simp) (by simp)

theorem determine_io_params_sync (rnd : Nat → Nat) (st st' : gen_state) (w c k : Int)
    (sz : Nat) (off : Int) (h : determine_io_params rnd st w c k = some (st', sz, off)) :
    io_sync st st' ∧ st'.coll_rw = st.coll_rw := by
  have hctl := determine_io_params_ctl rnd st st' w c k sz off h
  exact ⟨io_sync_of_frame (congrArg ctl_view.events hctl) (congrArg ctl_view.reads hctl)
    (congrArg ctl_view.writes hctl), congrArg ctl_view.coll_rw hctl⟩

theorem coll_io_event_type (st : gen_state) (rank : Int) (m t : ℚ) (sz : Nat) (off : Int) :
    (coll_io_event st rank m t sz off).type =
      (if st.coll_rw = 0 then event_type.POSIX_READ else event_type.POSIX_WRITE) := by
  unfold coll_io_event
  split_ifs <;> rfl

/-- One READ or WRITE of the collective generator keeps events and counters in step. -/
theorem coll_io_op_sync (rnd : Nat → Nat) (c : coll_io_consts) (ind_coll tc : Int) (t : ℚ)
    (x y : gen_state × Int × ℚ) (h : coll_io_op rnd c ind_coll tc t x = some y) :
    io_sync x.1 y.1 := by
  unfold coll_io_op at h
  obtain ⟨k, _, h⟩ := Option.bind_eq_some.mp h
  obtain ⟨r, hr, h⟩ := Option.bind_eq_some.mp h
  obtain ⟨st1, sz, off⟩ := r
  obtain ⟨hsync, hrw⟩ := determine_io_params_sync rnd _ _ _ _ _ _ _ hr
  simp only at h
  by_cases hneg : (coll_io_count st1).file.CP_POSIX_READS < 0 ∨
      (coll_io_count st1).file.CP_POSIX_WRITES < 0
  · rw [if_pos hneg] at h; cases h
  · rw [if_neg hneg] at h
    obtain ⟨st2, hst, rfl⟩ := Option.map_eq_some'.mp h
    push_neg at hneg
    have e2 := store_event_eq _ _ _ hst
    have he : st2.file_event_list = (coll_io_count st1).file_event_list ++
        [coll_io_event st1 x.2.1 c.meta_op_time t sz off] := by rw [e2]
    have hf : st2.file = (coll_io_count st1).file := by rw [e2]
    refine io_sync_trans hsync ?_
    show io_sync st1 st2
    unfold io_sync
    rw [he, hf, count_type_append, count_type_append, count_type_singleton,
      count_type_singleton, coll_io_event_type]
    rw [hf] at *
    by_cases h0 : st1.coll_rw = 0
    · have hc : coll_io_count st1 = { st1 with file :=
          { st1.file with CP_POSIX_READS := st1.file.CP_POSIX_READS - 1 } } := by
        unfold coll_io_count; rw [if_pos h0]
      rw [hc] at hneg ⊢
      rw [if_pos h0, if_pos rfl, if_neg (by decide)]
      refine ⟨?_, ?_, fun _ => hneg.1, fun _ => hneg.2⟩
      · show ((count_type event_type.POSIX_READ st1.file_event_list + 1 : Nat) : Int) +
          (st1.file.CP_POSIX_READS - 1) = _
        push_cast; ring
      · show ((count_type event_type.POSIX_WRITE st1.file_event_list + 0 : Nat) : Int) +
          st1.file.CP_POSIX_WRITES = _
        push_cast; ring
    · have hc : coll_io_count st1 = { st1 with file :=
          { st1.file with CP_POSIX_WRITES := st1.file.CP_POSIX_WRITES - 1 } } := by
        unfold coll_io_count; rw [if_neg h0]
      rw [hc] at hneg ⊢
      rw [if_neg h0, if_neg (by decide), if_pos rfl]
      refine ⟨?_, ?_, fun _ => hneg.1, fun _ => hneg.2⟩
      · show ((count_type event_type.POSIX_READ st1.file_event_list + 0 : Nat) : Int) +
          st1.file.CP_POSIX_READS = _
        push_cast; ring
      · show ((count_type event_type.POSIX_WRITE st1.file_event_list + 1 : Nat) : Int) +
          (st1.file.CP_POSIX_WRITES - 1) = _
        push_cast; ring

theorem coll_io_ops_sync (rnd : Nat → Nat) (c : coll_io_consts) (ind_coll tc : Int) (t : ℚ) :
    ∀ (k : Nat) (x y : gen_state × Int × ℚ),
    coll_io_ops rnd c ind_coll tc t k x = some y → io_sync x.1 y.1 := by
  intro k
  induction k with
  | zero =>
    intro x y h
    simp only [coll_io_ops, Option.some.injEq] at h
    subst h
    exact io_sync_refl _
  | succ k ih =>
    intro x y h
    simp only [coll_io_ops] at h
    obtain ⟨z, hz, h⟩ := Option.bind_eq_some.mp h
    exact io_sync_trans (coll_io_op_sync rnd c ind_coll tc t x z hz) (ih z y h)

theorem coll_pick_independent_sync (c : coll_io_consts) (s : coll_loop_state)
    (st : gen_state) (p : coll_pick) (h : coll_pick_independent c s st = some p) :
    io_sync st p.st := by
  unfold coll_pick_independent at h
  obtain ⟨r, _, rfl⟩ := Option.map_eq_some'.mp h
  show io_sync st (if st.coll_rw = 0 then _ else _)
  split_ifs <;> exact io_sync_of_frame rfl rfl rfl

theorem coll_pick_collective_sync (c : coll_io_consts) (s : coll_loop_state)
    (st : gen_state) (p : coll_pick) (h : coll_pick_collective c s st = some p) :
    io_sync st p.st := by
  unfold coll_pick_collective at h
  obtain ⟨b, hb, h⟩ := Option.bind_eq_some.mp h
  obtain ⟨st1, t1⟩ := b
  have hs := generate_barrier_event_sync _ _ _ _ _ hb
  simp only at h
  refine io_sync_trans hs ?_
  by_cases h0 : st1.coll_rw = 0
  · rw [if_pos h0] at h
    obtain ⟨q, _, h⟩ := Option.bind_eq_some.mp h
    obtain ⟨n, _, rfl⟩ := Option.map_eq_some'.mp h
    exact io_sync_of_frame rfl rfl rfl
  · rw [if_neg h0] at h
    obtain ⟨q, _, h⟩ := Option.bind_eq_some.mp h
    obtain ⟨n, _, rfl⟩ := Option.map_eq_some'.mp h
    exact io_sync_of_frame rfl rfl rfl

theorem coll_toggle_sync (rnd : Nat → Nat) (c : coll_io_consts) (st : gen_state) (x : fval) :
    io_sync st (coll_toggle rnd c st x) := by
  unfold coll_toggle
  split_ifs <;> exact io_sync_of_frame rfl rfl rfl

/-- One iteration of the I/O loop of the collective generator keeps events and counters in
step. -/
theorem coll_io_body_sync (rnd : Nat → Nat) (c : coll_io_consts) (i : Int)
    (s s' : coll_loop_state) (h : coll_io_body rnd c i s = some s') :
    io_sync s.st s'.st := by
  unfold coll_io_body at h
  obtain ⟨sw, _, h⟩ := Option.bind_eq_some.mp h
  obtain ⟨p, hp, h⟩ := Option.bind_eq_some.mp h
  obtain ⟨r, hr, h⟩ := Option.bind_eq_some.mp h
  simp only at h
  obtain ⟨x, _, rfl⟩ := Option.map_eq_some'.mp h
  have h0 : io_sync s.st { s.st with rand_cnt := s.st.rand_cnt + 1 } :=
    io_sync_of_frame rfl rfl rfl
  have h1 : io_sync { s.st with rand_cnt := s.st.rand_cnt + 1 } p.st := by
    by_cases hu : uniform (rnd s.st.rand_cnt) < (sw : ℚ)
    · rw [if_pos hu] at hp
      exact coll_pick_independent_sync c s _ p hp
    · rw [if_neg hu] at hp
      exact coll_pick_collective_sync c s _ p hp
  have h2 := coll_io_ops_sync rnd c _ _ _ _ _ _ hr
  exact io_sync_trans h0 (io_sync_trans h1 (io_sync_trans h2 (coll_toggle_sync rnd c r.1 x)))

theorem coll_io_loop_sync (rnd : Nat → Nat) (c : coll_io_consts) :
    ∀ (k : Nat) (i : Int) (s s' : coll_loop_state),
    coll_io_loop rnd c k i s = some s' → io_sync s.st s'.st := by
  intro k
  induction k with
  | zero =>
    intro i s s' h
    simp only [coll_io_loop, Option.some.injEq] at h
    subst h
    exact io_sync_refl _
  | succ k ih =>
    intro i s s' h
    simp only [coll_io_loop] at h
    obtain ⟨s1, hb, h⟩ := Option.bind_eq_some.mp h
    exact io_sync_trans (coll_io_body_sync rnd c i s s1 hb) (ih (i + 1) s1 s' h)

theorem coll_io_init_sync (nprocs agg : Int) (st st1 : gen_state)
    (h : coll_io_init nprocs agg st = some st1) : io_sync st st1 := by
  unfold coll_io_init at h
  by_cases hrw : st.coll_rw = -1
  · rw [if_pos hrw] at h
    obtain ⟨a, _, h⟩ := Option.bind_eq_some.mp h
    obtain ⟨b, _, h⟩ := Option.bind_eq_some.mp h
    obtain ⟨n, _, rfl⟩ := Option.map_eq_some'.mp h
    exact io_sync_of_frame rfl rfl rfl
  · rw [if_neg hrw] at h
    cases h
    exact io_sync_refl _

theorem coll_io_finish_sync (c : coll_io_consts) (ndx : Int) (s : coll_loop_state)
    (st2 : gen_state) (h : coll_io_finish c ndx s = some st2) : io_sync s.st st2 := by
  unfold coll_io_finish at h
  simp only at h
  by_cases h1 : s.st.file.CP_POSIX_OPENS ≤ c.nprocs
  · rw [if_pos h1] at h
    cases h
    exact io_sync_of_frame rfl rfl rfl
  · rw [if_neg h1] at h
    split at h
    · cases h
    · rename_i x rwsw heq
      by_cases hz : rwsw.is_zero = true
      · rw [if_pos hz] at h
        obtain ⟨q, _, h⟩ := Option.bind_eq_some.mp h
        by_cases hq : q ≠ 0 ∧ s.st.coll_next_switch_ndx = ndx + 1
        · rw [if_pos hq] at h
          obtain ⟨a, _, h⟩ := Option.bind_eq_some.mp h
          obtain ⟨b, _, h⟩ := Option.bind_eq_some.mp h
          obtain ⟨n, _, rfl⟩ := Option.map_eq_some'.mp h
          exact io_sync_of_frame rfl rfl rfl
        · rw [if_neg hq] at h
          cases h
          exact io_sync_refl _
      · rw [if_neg hz] at h
        cases h
        exact io_sync_refl _

/-- The I/O events of one cycle of a collective file keep events and counters in step. -/
theorem generate_psx_coll_io_events_sync (rnd : Nat → Nat) (nprocs agg : Int) (u : ℚ)
    (st st' : gen_state) (ndx : Int) (d m t t' : ℚ)
    (h : generate_psx_coll_io_events rnd nprocs agg u st ndx d m t = some (st', t')) :
    io_sync st st' := by
  unfold generate_psx_coll_io_events at h
  obtain ⟨tt, _, h⟩ := Option.bind_eq_some.mp h
  by_cases h0 : tt.1 + tt.2.1 = 0
  · rw [if_pos h0] at h
    simp only [Option.some.injEq, Prod.mk.injEq] at h
    rw [← h.1]
    exact io_sync_refl _
  · rw [if_neg h0] at h
    simp only at h
    obtain ⟨a, _, h⟩ := Option.bind_eq_some.mp h
    obtain ⟨b, _, h⟩ := Option.bind_eq_some.mp h
    obtain ⟨n, _, h⟩ := Option.bind_eq_some.mp h
    obtain ⟨st1, hinit, h⟩ := Option.bind_eq_some.mp h
    obtain ⟨s, hloop, h⟩ := Option.bind_eq_some.mp h
    obtain ⟨st2, hfin, h⟩ := Option.map_eq_some'.mp h
    simp only [Prod.mk.injEq] at h
    rw [← h.1]
    exact io_sync_trans (coll_io_init_sync _ _ _ _ hinit)
      (io_sync_trans (coll_io_loop_sync rnd _ _ _ _ _ hloop) (coll_io_finish_sync _ _ _ _ hfin))

theorem coll_extra_open_sync (c : coll_cycle_params) (i cf : Int) (st : gen_state) (t : ℚ)
    (r : gen_state × ℚ × Int) (h : coll_extra_open c i cf st t = some r) :
    io_sync st r.1 := by
  unfold coll_extra_open at h
  by_cases he : c.extra_opens ≠ 0
  · rw [if_pos he] at h
    split at h
    · cases h
    · obtain ⟨q, _, h⟩ := Option.bind_eq_some.mp h
      by_cases hq : q = 0
      · rw [if_pos hq] at h
        obtain ⟨r1, h1, h⟩ := Option.bind_eq_some.mp h
        obtain ⟨r2, h2, rfl⟩ := Option.map_eq_some'.mp h
        obtain ⟨s1, t1⟩ := r1
        obtain ⟨s2, t2⟩ := r2
        have a1 : io_sync st { st with file := { st.file with rank := 0 } } :=
          io_sync_of_frame rfl rfl rfl
        have a2 := generate_psx_open_event_sync _ _ _ _ _ _ h1
        have a3 := generate_psx_close_event_sync _ _ _ _ _ h2
        have a4 : io_sync s2 { s2 with file := { s2.file with rank := -1 } } :=
          io_sync_of_frame rfl rfl rfl
        exact io_sync_trans a1 (io_sync_trans a2 (io_sync_trans a3 a4))
      · rw [if_neg hq] at h
        cases h
        exact io_sync_refl _
  · rw [if_neg he] at h
    cases h
    exact io_sync_refl _

theorem coll_full_cycle_sync (rnd : Nat → Nat) (c : coll_cycle_params) (i cf : Int)
    (st : gen_state) (t : ℚ) (r : gen_state × ℚ × Int)
    (h : coll_full_cycle rnd c i cf st t = some r) : io_sync st r.1 := by
  unfold coll_full_cycle at h
  obtain ⟨r0, h0, h⟩ := Option.bind_eq_some.mp h
  obtain ⟨rb, hb, h⟩ := Option.bind_eq_some.mp h
  obtain ⟨r1, h1, h⟩ := Option.bind_eq_some.mp h
  obtain ⟨r2, h2, h⟩ := Option.bind_eq_some.mp h
  obtain ⟨r3, h3, rfl⟩ := Option.map_eq_some'.mp h
  obtain ⟨sb, tb⟩ := rb
  obtain ⟨s1, t1⟩ := r1
  obtain ⟨s2, t2⟩ := r2
  obtain ⟨s3, t3⟩ := r3
  have a0 := coll_extra_open_sync c i cf st t r0 h0
  have ab : io_sync r0.1 sb := by
    by_cases hc : r0.1.file.CP_COLL_OPENS ≠ 0
    · rw [if_pos hc] at hb
      exact generate_barrier_event_sync _ _ _ _ _ hb
    · rw [if_neg hc] at hb
      simp only [Option.some.injEq, Prod.mk.injEq] at hb
      rw [← hb.1]
      exact io_sync_refl _
  have a1 := generate_psx_open_event_sync _ _ _ _ _ _ h1
  have a2 := generate_psx_coll_io_events_sync _ _ _ _ _ _ _ _ _ _ _ h2
  have a3 := generate_psx_close_event_sync _ _ _ _ _ h3
  have a4 : io_sync s3 { s3 with file :=
      { s3.file with CP_POSIX_OPENS := s3.file.CP_POSIX_OPENS - c.nprocs } } :=
    io_sync_of_frame rfl rfl rfl
  exact io_sync_trans a0 (io_sync_trans ab (io_sync_trans a1 (io_sync_trans a2
    (io_sync_trans a3 a4))))

theorem coll_rank_opens_sync (m t0 : ℚ) : ∀ (k : Nat) (j : Int) (st : gen_state) (t : ℚ)
    (r : gen_state × ℚ), coll_rank_opens m t0 k j st t = some r → io_sync st r.1 := by
  intro k
  induction k with
  | zero =>
    intro j st t r h
    simp only [coll_rank_opens, Option.some.injEq] at h
    subst h
    exact io_sync_refl _
  | succ k ih =>
    intro j st t r h
    simp only [coll_rank_opens] at h
    obtain ⟨r1, h1, h⟩ := Option.bind_eq_some.mp h
    obtain ⟨s1, t1⟩ := r1
    have a1 : io_sync st { st with file := { st.file with rank := j } } :=
      io_sync_of_frame rfl rfl rfl
    have a2 := generate_psx_open_event_sync _ _ _ _ _ _ h1
    exact io_sync_trans a1 (io_sync_trans a2 (ih _ _ _ _ h))

theorem coll_rank_closes_sync (m t0 : ℚ) : ∀ (k : Nat) (j : Int) (st : gen_state) (t : ℚ)
    (r : gen_state × ℚ), coll_rank_closes m t0 k j st t = some r → io_sync st r.1 := by
  intro k
  induction k with
  | zero =>
    intro j st t r h
    simp only [coll_rank_closes, Option.some.injEq] at h
    subst h
    exact io_sync_refl _
  | succ k ih =>
    intro j st t r h
    simp only [coll_rank_closes] at h
    obtain ⟨r1, h1, h⟩ := Option.bind_eq_some.mp h
    obtain ⟨s1, t1⟩ := r1
    have a1 : io_sync st { st with file := { st.file with rank := j } } :=
      io_sync_of_frame rfl rfl rfl
    have a2 := generate_psx_close_event_sync _ _ _ _ _ h1
    exact io_sync_trans a1 (io_sync_trans a2 (ih _ _ _ _ h))

theorem coll_partial_cycle_sync (rnd : Nat → Nat) (c : coll_cycle_params) (i : Int)
    (st : gen_state) (t : ℚ) (r : gen_state × ℚ × Int)
    (h : coll_partial_cycle rnd c i st t = some r) : io_sync st r.1 := by
  unfold coll_partial_cycle at h
  obtain ⟨r1, h1, h⟩ := Option.bind_eq_some.mp h
  obtain ⟨r2, h2, h⟩ := Option.bind_eq_some.mp h
  obtain ⟨r3, h3, rfl⟩ := Option.map_eq_some'.mp h
  obtain ⟨s1, t1⟩ := r1
  obtain ⟨s2, t2⟩ := r2
  obtain ⟨s3, t3⟩ := r3
  have a1 := coll_rank_opens_sync _ _ _ _ _ _ _ h1
  have a1' : io_sync s1 { s1 with file := { s1.file with rank := -1 } } :=
    io_sync_of_frame rfl rfl rfl
  have a2 := generate_psx_coll_io_events_sync _ _ _ _ _ _ _ _ _ _ _ h2
  have a3 := coll_rank_closes_sync _ _ _ _ _ _ _ h3
  have a4 : io_sync s3 { s3 with file := { s3.file with CP_POSIX_OPENS := 0, rank := -1 } } :=
    io_sync_of_frame rfl rfl rfl
  exact io_sync_trans a1 (io_sync_trans a1' (io_sync_trans a2 (io_sync_trans a3 a4)))

theorem coll_cycle_sync (rnd : Nat → Nat) (c : coll_cycle_params) (i cf : Int)
    (st : gen_state) (t : ℚ) (r : gen_state × ℚ × Int)
    (h : coll_cycle rnd c i cf st t = some r) : io_sync st r.1 := by
  unfold coll_cycle at h
  by_cases hc : st.file.CP_POSIX_OPENS ≥ c.nprocs
  · rw [if_pos hc] at h
    exact coll_full_cycle_sync rnd c i cf st t r h
  · rw [if_neg hc] at h
    obtain ⟨r1, h1, rfl⟩ := Option.map_eq_some'.mp h
    exact coll_partial_cycle_sync rnd c i st t r1 h1

theorem coll_cycles_sync (rnd : Nat → Nat) (c : coll_cycle_params) :
    ∀ (fuel : Nat) (i cf : Int) (st : gen_state) (t : ℚ) (r : gen_state × ℚ),
    coll_cycles rnd c fuel i cf st t = some r → io_sync st r.1 := by
  intro fuel
  induction fuel with
  | zero =>
    intro i cf st t r h
    unfold coll_cycles at h
    split_ifs at h
    simp only [Option.some.injEq] at h
    subst h
    exact io_sync_refl _
  | succ k ih =>
    intro i cf st t r h
    unfold coll_cycles at h
    split_ifs at h
    · simp only [Option.some.injEq] at h
      subst h
      exact io_sync_refl _
    · simp only at h
      obtain ⟨r1, h1, h⟩ := Option.bind_eq_some.mp h
      exact io_sync_trans (coll_cycle_sync rnd c i cf st t r1 h1) (ih _ _ _ _ _ h)

theorem coll_adjust_opens_frame (nprocs : Int) (file : darshan_file)
    (a : darshan_file × Int × Option Int) (h : coll_adjust_opens nprocs file = some a) :
    a.1.CP_POSIX_READS = file.CP_POSIX_READS ∧ a.1.CP_POSIX_WRITES = file.CP_POSIX_WRITES := by
  unfold coll_adjust_opens at h
  simp only at h
  split_ifs at h
  all_goals first
    | (cases h; exact ⟨rfl, rfl⟩)
    | (obtain ⟨q, _, h⟩ := Option.bind_eq_some.mp h
       split_ifs at h <;> (cases h; exact ⟨rfl, rfl⟩))

/-- The collective generator keeps READ/WRITE events and the POSIX counters in step. -/
theorem generate_psx_coll_file_events_io_sync (rnd : Nat → Nat) (nprocs agg : Int) (u : ℚ)
    (oc : darshan_file → Int) (st st' : gen_state)
    (h : generate_psx_coll_file_events rnd nprocs agg u oc st = some st') :
    io_sync st st' := by
  unfold generate_psx_coll_file_events at h
  by_cases h0 : st.file.CP_POSIX_OPENS = 0
  · rw [if_pos h0] at h
    cases h
    exact io_sync_refl _
  · rw [if_neg h0] at h
    by_cases h1 : ¬ (st.file.CP_POSIX_OPENS ≥ st.file.CP_COLL_OPENS)
    · rw [if_pos h1] at h
      cases h
    · rw [if_neg h1] at h
      obtain ⟨a, ha, h⟩ := Option.bind_eq_some.mp h
      obtain ⟨f1, f2⟩ := coll_adjust_opens_frame nprocs st.file a ha
      have a0 : io_sync st { st with file := a.1 } := io_sync_of_frame rfl f1 f2
      by_cases h2 : a.1.CP_POSIX_OPENS = 0
      · rw [if_pos h2] at h
        cases h
        exact a0
      · rw [if_neg h2] at h
        obtain ⟨c, _, h⟩ := Option.bind_eq_some.mp h
        obtain ⟨r, hr, rfl⟩ := Option.map_eq_some'.mp h
        exact io_sync_trans a0 (coll_cycles_sync rnd c _ _ _ _ _ _ hr)

/-- The run on `shared_read_file` completes and stores OPEN, READ, READ, CLOSE. -/
theorem shared_read_file_run :
    generate_psx_coll_file_events (fun _ => 0) 2 16 0 (fun f => f.CP_INDEP_OPENS)
      (initial_state shared_read_file 8) = some shared_read_result ∧
    shared_read_result.file_event_list.map darshan_event.type =
      [event_type.POSIX_OPEN, event_type.POSIX_READ, event_type.POSIX_READ,
       event_type.POSIX_CLOSE] ∧
    shared_read_result.file.CP_POSIX_READS = 0 := by
  decide!

/-- C9: two collective records (rank -1, two opens) of a two-process job on which the
generator completes and emits fewer READ events than the record has POSIX reads.  On
`indep_open_file` (both opens independent MPI opens, two independent MPI reads, two POSIX
reads) it stores no event at all and leaves the read counter at 2.  On `mpi_mixed_file`
(two collective opens, three POSIX reads of which two are independent MPI reads) it emits
two READ events and leaves the read counter at 1. -/
theorem generate_psx_coll_file_events_reads_left :
    (indep_open_file.rank = -1 ∧ 1 ≤ indep_open_file.CP_POSIX_OPENS ∧
      indep_open_file.CP_POSIX_READS = 2 ∧
      (generate_psx_coll_file_events (fun _ => 0) 2 16 0 (fun f => f.CP_INDEP_OPENS)
        (initial_state indep_open_file 8)).map
          (fun s => (s.file_event_list.length, s.file.CP_POSIX_READS,
            s.file.CP_POSIX_WRITES)) = some (0, 2, 0)) ∧
    (mpi_mixed_file.rank = -1 ∧ 1 ≤ mpi_mixed_file.CP_POSIX_OPENS ∧
      mpi_mixed_file.CP_POSIX_READS = 3 ∧
      (generate_psx_coll_file_events (fun _ => 0) 2 16 0 (fun f => f.CP_INDEP_OPENS)
        (initial_state mpi_mixed_file 8)).map
          (fun s => (count_type event_type.POSIX_READ s.file_event_list,
            s.file.CP_POSIX_READS, s.file.CP_POSIX_WRITES)) = some (2, 1, 0)) := by
  decide!

/-- The bookkeeping of the collective generator: whenever `generate_psx_coll_file_events`
completes, the number of READ events it has stored equals the decrease of `CP_POSIX_READS`
during the call and the number
of WRITE events the decrease of `CP_POSIX_WRITES`; a counter that is non-negative on entry
is non-negative on exit, so at most `R` READ and `W` WRITE events are stored, and exactly
`R` and `W` precisely when the counter is 0 on exit. -/
theorem generate_psx_coll_file_events_counts (rnd : Nat → Nat) (nprocs opt_agg_count : Int)
    (unspecified_time : ℚ) (open_counter : darshan_file → Int) (st st' : gen_state)
    (h : generate_psx_coll_file_events rnd nprocs opt_agg_count unspecified_time open_counter
      st = some st') :
    ((count_type event_type.POSIX_READ st'.file_event_list : Int) =
      count_type event_type.POSIX_READ st.file_event_list +
        (st.file.CP_POSIX_READS - st'.file.CP_POSIX_READS)) ∧
    ((count_type event_type.POSIX_WRITE st'.file_event_list : Int) =
      count_type event_type.POSIX_WRITE st.file_event_list +
        (st.file.CP_POSIX_WRITES - st'.file.CP_POSIX_WRITES)) ∧
    (0 ≤ st.file.CP_POSIX_READS → 0 ≤ st'.file.CP_POSIX_READS ∧
      (count_type event_type.POSIX_READ st'.file_event_list : Int) ≤
        count_type event_type.POSIX_READ st.file_event_list + st.file.CP_POSIX_READS) ∧
    (0 ≤ st.file.CP_POSIX_WRITES → 0 ≤ st'.file.CP_POSIX_WRITES ∧
      (count_type event_type.POSIX_WRITE st'.file_event_list : Int) ≤
        count_type event_type.POSIX_WRITE st.file_event_list + st.file.CP_POSIX_WRITES) ∧
    ((count_type event_type.POSIX_READ st'.file_event_list : Int) =
        count_type event_type.POSIX_READ st.file_event_list + st.file.CP_POSIX_READS ↔
      st'.file.CP_POSIX_READS = 0) ∧
    ((count_type event_type.POSIX_WRITE st'.file_event_list : Int) =
        count_type event_type.POSIX_WRITE st.file_event_list + st.file.CP_POSIX_WRITES ↔
      st'.file.CP_POSIX_WRITES = 0) := by
  obtain ⟨h1, h2, h3, h4⟩ :=
    generate_psx_coll_file_events_io_sync rnd nprocs opt_agg_count unspecified_time
      open_counter st st' h
  refine ⟨by omega, by omega, fun h0 => ⟨h3 h0, ?_⟩, fun h0 => ⟨h4 h0, ?_⟩, ?_, ?_⟩
  · have := h3 h0
    omega
  · have := h4 h0
    omega
  · constructor <;> intro hx <;> omega
  · constructor <;> intro hx <;> omega

theorem generate_psx_coll_file_events_counts_witness :
    generate_psx_coll_file_events (fun _ => 0) 2 16 0 (fun f => f.CP_INDEP_OPENS)
      (initial_state shared_read_file 8) = some shared_read_result ∧
    (((count_type event_type.POSIX_READ shared_read_result.file_event_list : Int) =
      count_type event_type.POSIX_READ (initial_state shared_read_file 8).file_event_list +
        ((initial_state shared_read_file 8).file.CP_POSIX_READS -
          shared_read_result.file.CP_POSIX_READS)) ∧
    ((count_type event_type.POSIX_WRITE shared_read_result.file_event_list : Int) =
      count_type event_type.POSIX_WRITE (initial_state shared_read_file 8).file_event_list +
        ((initial_state shared_read_file 8).file.CP_POSIX_WRITES -
          shared_read_result.file.CP_POSIX_WRITES)) ∧
    (0 ≤ (initial_state shared_read_file 8).file.CP_POSIX_READS →
      0 ≤ shared_read_result.file.CP_POSIX_READS ∧
      (count_type event_type.POSIX_READ shared_read_result.file_event_list : Int) ≤
        count_type event_type.POSIX_READ (initial_state shared_read_file 8).file_event_list +
          (initial_state shared_read_file 8).file.CP_POSIX_READS) ∧
    (0 ≤ (initial_state shared_read_file 8).file.CP_POSIX_WRITES →
      0 ≤ shared_read_result.file.CP_POSIX_WRITES ∧
      (count_type event_type.POSIX_WRITE shared_read_result.file_event_list : Int) ≤
        count_type event_type.POSIX_WRITE (initial_state shared_read_file 8).file_event_list +
          (initial_state shared_read_file 8).file.CP_POSIX_WRITES) ∧
    ((count_type event_type.POSIX_READ shared_read_result.file_event_list : Int) =
        count_type event_type.POSIX_READ (initial_state shared_read_file 8).file_event_list +
          (initial_state shared_read_file 8).file.CP_POSIX_READS ↔
      shared_read_result.file.CP_POSIX_READS = 0) ∧
    ((count_type event_type.POSIX_WRITE shared_read_result.file_event_list : Int) =
        count_type event_type.POSIX_WRITE (initial_state shared_read_file 8).file_event_list +
          (initial_state shared_read_file 8).file.CP_POSIX_WRITES ↔
      shared_read_result.file.CP_POSIX_WRITES = 0)) :=
  ⟨shared_read_file_run.1,
    generate_psx_coll_file_events_counts (fun _ => 0) 2 16 0 (fun f => f.CP_INDEP_OPENS)
      (initial_state shared_read_file 8) shared_read_result shared_read_file_run.1⟩

/-! ## Merge paths and I/O parameter synthesizer -/

theorem merge_loop_all_lt : ∀ (rs fs : List darshan_event) (fuel : Nat),
    rs.length + fs.length ≤ fuel →
    (∀ r ∈ rs, ∀ f ∈ fs, r.start_time < f.start_time) →
    merge_loop fuel rs fs = some (rs ++ fs) := by
  intro rs
  induction rs with
  | nil =>
    intro fs fuel _ _
    cases fs <;> cases fuel <;> simp [merge_loop]
  | cons r rs ih =>
    intro fs fuel hfuel hlt
    cases fs with
    | nil => cases fuel <;> simp [merge_loop]
    | cons f fs =>
      cases fuel with
      | zero => simp at hfuel
      | succ k =>
        have h1 : r.start_time < f.start_time :=
          hlt r (List.mem_cons_self _ _) f (List.mem_cons_self _ _)
        simp only [merge_loop, if_pos h1]
        rw [ih (f :: fs) k (by simp only [List.length_cons] at hfuel ⊢; omega)
          (fun a ha b hb => hlt a (List.mem_cons_of_mem _ ha) b hb)]
        rfl

theorem length_ne_zero_of_ne_nil {α : Type} {l : List α} (h : l ≠ []) : ¬ l.length = 0 := by
  intro h0
  exact h (List.length_eq_zero.mp h0)

/-- C12: a non-empty file event buffer merged into an empty rank event list (the buffer
fitting the capacity `rank_event_list_max` of the list, which the source asserts): the
call completes, the rank event list becomes the buffer element for element, the buffer is
emptied, and `last_close_time` becomes the close timestamp of the file. -/
theorem merge_file_events_copy (file : darshan_file) (m : merge_state)
    (hL : m.rank_event_list = []) (hF : m.file_event_list ≠ [])
    (hcap : (m.file_event_list.length : Int) ≤ m.rank_event_list_max) :
    merge_file_events file m =
      some { m with rank_event_list := m.file_event_list
                    file_event_list := []
                    last_close_time := file.CP_F_CLOSE_TIMESTAMP } := by
  unfold merge_file_events
  rw [if_neg (length_ne_zero_of_ne_nil hF), if_pos (by rw [hL]; rfl), if_pos hcap]

theorem merge_file_events_copy_witness :
    (three_event_state.rank_event_list = [] ∧ three_event_state.file_event_list ≠ []) ∧
    merge_file_events read_spanning_file three_event_state =
      some { rank_event_list := [event_at 5, event_at 6, close_event_at 7]
             rank_event_list_max := 3, file_event_list := [], last_close_time := 7 } :=
  ⟨⟨rfl, by decide⟩,
    merge_file_events_copy read_spanning_file three_event_state rfl (by decide) (by decide)⟩

/-- C13: a non-empty file event buffer `F` merged into a non-empty rank event list `L`
when the open timestamp of the file is strictly later than `last_close_time` (and
`L` and `F` together fit the capacity the source asserts): the call completes and the
rank event list becomes exactly `L ++ F`, whatever the `start_time` values are. -/
theorem merge_file_events_append (file : darshan_file) (m : merge_state)
    (hL : m.rank_event_list ≠ []) (hF : m.file_event_list ≠ [])
    (hlt : m.last_close_time < file.CP_F_OPEN_TIMESTAMP)
    (hcap : ((m.rank_event_list ++ m.file_event_list).length : Int) ≤ m.rank_event_list_max) :
    merge_file_events file m =
      some { m with rank_event_list := m.rank_event_list ++ m.file_event_list
                    file_event_list := []
                    last_close_time :=
                      if file.CP_F_CLOSE_TIMESTAMP > m.last_close_time then
                        file.CP_F_CLOSE_TIMESTAMP
                      else m.last_close_time } := by
  unfold merge_file_events
  rw [if_neg (length_ne_zero_of_ne_nil hF), if_neg (length_ne_zero_of_ne_nil hL), if_pos hlt]
  simp only [Option.some_bind]
  rw [if_pos hcap]

theorem merge_file_events_append_witness :
    (two_plus_two_state.rank_event_list ≠ [] ∧ two_plus_two_state.file_event_list ≠ [] ∧
      two_plus_two_state.last_close_time < file_late_open.CP_F_OPEN_TIMESTAMP) ∧
    merge_file_events file_late_open two_plus_two_state =
      some { two_plus_two_state with
        rank_event_list := two_plus_two_state.rank_event_list ++
          two_plus_two_state.file_event_list
        file_event_list := []
        last_close_time :=
          if file_late_open.CP_F_CLOSE_TIMESTAMP > two_plus_two_state.last_close_time then
            file_late_open.CP_F_CLOSE_TIMESTAMP
          else two_plus_two_state.last_close_time } :=
  ⟨⟨by decide, by decide, by decide!⟩,
    merge_file_events_append file_late_open two_plus_two_state (by decide) (by decide)
      (by decide!) (by decide)⟩

/-- C14 (counterexample): a file whose open timestamp equals `last_close_time` (both 2).
The rank event list `[OPEN at 1, CLOSE at 2]` and the buffer `[OPEN at 2, CLOSE at 3]` are
interleaved: the OPEN of the buffer is placed before the CLOSE of the rank list. -/
theorem merge_file_events_equal_interleaves :
    two_plus_two_state.rank_event_list ≠ [] ∧ two_plus_two_state.file_event_list ≠ [] ∧
    file_two_three.CP_F_OPEN_TIMESTAMP ≥ two_plus_two_state.last_close_time ∧
    (merge_file_events file_two_three two_plus_two_state).map
        (fun m => m.rank_event_list) =
      some [event_at 1, event_at 2, close_event_at 2, close_event_at 3] ∧
    two_plus_two_state.rank_event_list ++ two_plus_two_state.file_event_list =
      [event_at 1, close_event_at 2, event_at 2, close_event_at 3] ∧
    [event_at 1, event_at 2, close_event_at 2, close_event_at 3] ≠
      [event_at 1, close_event_at 2, event_at 2, close_event_at 3] := by
  decide!

/-- C14 (amended): a non-empty buffer `F` merged into a non-empty rank event list `L`
(together fitting the capacity the source asserts) yields `L ++ F` without interleaving
when the open timestamp of the file is strictly later than `last_close_time`, or when
every event of `L` starts strictly before every event of `F`. -/
theorem merge_file_events_no_interleave (file : darshan_file) (m : merge_state)
    (hL : m.rank_event_list ≠ []) (hF : m.file_event_list ≠ [])
    (hsep : m.last_close_time < file.CP_F_OPEN_TIMESTAMP ∨
      ∀ r ∈ m.rank_event_list, ∀ f ∈ m.file_event_list, r.start_time < f.start_time)
    (hcap : ((m.rank_event_list ++ m.file_event_list).length : Int) ≤ m.rank_event_list_max) :
    (merge_file_events file m).map (fun m' => (m'.rank_event_list, m'.file_event_list)) =
      some (m.rank_event_list ++ m.file_event_list, []) := by
  unfold merge_file_events
  rw [if_neg (length_ne_zero_of_ne_nil hF), if_neg (length_ne_zero_of_ne_nil hL)]
  have htemp : (if m.last_close_time < file.CP_F_OPEN_TIMESTAMP then
        some (m.rank_event_list ++ m.file_event_list)
      else
        merge_loop (m.rank_event_list.length + m.file_event_list.length)
          m.rank_event_list m.file_event_list) =
      some (m.rank_event_list ++ m.file_event_list) := by
    by_cases hlt : m.last_close_time < file.CP_F_OPEN_TIMESTAMP
    · rw [if_pos hlt]
    · rw [if_neg hlt]
      rcases hsep with h1 | h2
      · exact absurd h1 hlt
      · exact merge_loop_all_lt _ _ _ (le_refl _) h2
  rw [htemp]
  simp only [Option.some_bind]
  rw [if_pos hcap]
  rfl

theorem merge_file_events_no_interleave_witness :
    (two_plus_two_state.rank_event_list ≠ [] ∧ two_plus_two_state.file_event_list ≠ [] ∧
      two_plus_two_state.last_close_time < file_late_open.CP_F_OPEN_TIMESTAMP) ∧
    (merge_file_events file_late_open two_plus_two_state).map
        (fun m' => (m'.rank_event_list, m'.file_event_list)) =
      some (two_plus_two_state.rank_event_list ++ two_plus_two_state.file_event_list, []) :=
  ⟨⟨by decide, by decide, by decide!⟩,
    merge_file_events_no_interleave file_late_open two_plus_two_state (by decide) (by decide)
      (Or.inl (by decide!)) (by decide)⟩

theorem merge_loop_ne_nil : ∀ (fuel : Nat) (rs fs l : List darshan_event),
    merge_loop fuel rs fs = some l → rs ≠ [] → l ≠ [] := by
  intro fuel rs fs l h hrs
  cases rs with
  | nil => exact absurd rfl hrs
  | cons r rs =>
    cases fs with
    | nil =>
      cases fuel <;> simp [merge_loop] at h <;> subst h <;> simp
    | cons f fs =>
      cases fuel with
      | zero => simp [merge_loop] at h
      | succ k =>
        simp only [merge_loop] at h
        split_ifs at h
        · obtain ⟨x, _, rfl⟩ := Option.map_eq_some'.mp h
          simp
        · obtain ⟨x, _, rfl⟩ := Option.map_eq_some'.mp h
          simp

/-- What one completing call of `merge_file_events` does to `last_close_time`. -/
theorem merge_file_events_last_close (file : darshan_file) (m m' : merge_state)
    (h : merge_file_events file m = some m') :
    m'.last_close_time =
      (if m.file_event_list = [] then m.last_close_time
       else if m.rank_event_list = [] then file.CP_F_CLOSE_TIMESTAMP
       else max m.last_close_time file.CP_F_CLOSE_TIMESTAMP) ∧
    (m.rank_event_list ≠ [] → m'.rank_event_list ≠ []) := by
  unfold merge_file_events at h
  by_cases hF : m.file_event_list = []
  · rw [if_pos (by rw [hF]; rfl)] at h
    cases h
    exact ⟨by rw [if_pos hF], fun h => h⟩
  · rw [if_neg (length_ne_zero_of_ne_nil hF)] at h
    by_cases hL : m.rank_event_list = []
    · rw [if_pos (by rw [hL]; rfl)] at h
      split_ifs at h
      cases h
      exact ⟨by rw [if_neg hF, if_pos hL], fun h => absurd hL h⟩
    · rw [if_neg (length_ne_zero_of_ne_nil hL)] at h
      obtain ⟨temp, ht, h⟩ := Option.bind_eq_some.mp h
      by_cases hcap : (temp.length : Int) ≤ m.rank_event_list_max
      · rw [if_pos hcap] at h
        cases h
        refine ⟨?_, fun _ => ?_⟩
        · rw [if_neg hF, if_neg hL]
          show (if file.CP_F_CLOSE_TIMESTAMP > m.last_close_time then
            file.CP_F_CLOSE_TIMESTAMP else m.last_close_time) = _
          split_ifs with hc
          · exact (max_eq_right (le_of_lt hc)).symm
          · exact (max_eq_left (not_lt.mp hc)).symm
        · show temp ≠ []
          by_cases hlt : m.last_close_time < file.CP_F_OPEN_TIMESTAMP
          · rw [if_pos hlt] at ht
            cases ht
            simp [hL]
          · rw [if_neg hlt] at ht
            exact merge_loop_ne_nil _ _ _ _ ht hL
      · rw [if_neg hcap] at h
        cases h

theorem merge_sequence_last_close_mono :
    ∀ (calls : List (darshan_file × List darshan_event)) (m m' : merge_state),
    merge_sequence m calls = some m' → m.rank_event_list ≠ [] →
    m.last_close_time ≤ m'.last_close_time := by
  intro calls
  induction calls with
  | nil =>
    intro m m' h _
    simp only [merge_sequence, Option.some.injEq] at h
    rw [h]
  | cons c rest ih =>
    intro m m' h hne
    obtain ⟨file, events⟩ := c
    simp only [merge_sequence] at h
    obtain ⟨m1, h1, h2⟩ := Option.bind_eq_some.mp h
    obtain ⟨a1, a2⟩ := merge_file_events_last_close file _ m1 h1
    have hstep : m.last_close_time ≤ m1.last_close_time := by
      rw [a1]
      show m.last_close_time ≤ (if events = [] then m.last_close_time
        else if m.rank_event_list = [] then file.CP_F_CLOSE_TIMESTAMP
        else max m.last_close_time file.CP_F_CLOSE_TIMESTAMP)
      rw [if_neg hne]
      split_ifs
      · exact le_refl _
      · exact le_max_left _ _
    exact le_trans hstep (ih m1 m' h2 (a2 hne))

/-- C15 (counterexample): a call on an empty rank event list sets `last_close_time` to the
close timestamp of the file without comparing: from 10 it goes down to 7, which is not
`max 10 7`. -/
theorem merge_file_events_lowers_last_close_time :
    next_rank_state.last_close_time = 10 ∧ read_spanning_file.CP_F_CLOSE_TIMESTAMP = 7 ∧
    (merge_file_events read_spanning_file next_rank_state).map
      (fun m => m.last_close_time) = some 7 ∧
    (7 : ℚ) ≠ max 10 7 ∧ (7 : ℚ) < 10 := by
  refine ⟨rfl, rfl, by decide!, ?_, ?_⟩ <;> norm_num

/-- C15 (amended): after a completing call of `merge_file_events`, `last_close_time` is
unchanged when the file buffer is empty, is the close timestamp of the file when the
buffer is not empty and the rank event list is empty, and is the maximum of its previous
value and the close timestamp when neither is empty.  Over every further sequence of
merges that starts with a non-empty rank event list `last_close_time` never decreases. -/
theorem merge_file_events_last_close_time (file : darshan_file) (m m' m2 : merge_state)
    (calls : List (darshan_file × List darshan_event))
    (h : merge_file_events file m = some m')
    (hseq : merge_sequence m' calls = some m2) :
    m'.last_close_time =
      (if m.file_event_list = [] then m.last_close_time
       else if m.rank_event_list = [] then file.CP_F_CLOSE_TIMESTAMP
       else max m.last_close_time file.CP_F_CLOSE_TIMESTAMP) ∧
    (m.rank_event_list ≠ [] → m.last_close_time ≤ m'.last_close_time) ∧
    (m'.rank_event_list ≠ [] → m'.last_close_time ≤ m2.last_close_time) := by
  obtain ⟨a1, _⟩ := merge_file_events_last_close file m m' h
  refine ⟨a1, fun hne => ?_, fun hne => merge_sequence_last_close_mono calls m' m2 hseq hne⟩
  rw [a1, if_neg hne]
  split_ifs
  · exact le_refl _
  · exact le_max_left _ _

theorem merge_file_events_last_close_time_witness :
    (merge_file_events file_two_three two_plus_two_state =
        some { rank_event_list := [event_at 1, event_at 2, close_event_at 2, close_event_at 3]
               rank_event_list_max := 4, file_event_list := [], last_close_time := 3 } ∧
      merge_sequence
        { rank_event_list := [event_at 1, event_at 2, close_event_at 2, close_event_at 3]
          rank_event_list_max := 4, file_event_list := [], last_close_time := 3 } [] =
        some { rank_event_list := [event_at 1, event_at 2, close_event_at 2, close_event_at 3]
               rank_event_list_max := 4, file_event_list := [], last_close_time := 3 }) ∧
    (3 : ℚ) =
      (if two_plus_two_state.file_event_list = [] then two_plus_two_state.last_close_time
       else if two_plus_two_state.rank_event_list = [] then
         file_two_three.CP_F_CLOSE_TIMESTAMP
       else max two_plus_two_state.last_close_time file_two_three.CP_F_CLOSE_TIMESTAMP) ∧
    (two_plus_two_state.rank_event_list ≠ [] →
      two_plus_two_state.last_close_time ≤ (3 : ℚ)) ∧
    ([event_at 1, event_at 2, close_event_at 2, close_event_at 3] ≠ [] → (3 : ℚ) ≤ 3) :=
  ⟨⟨by decide!, rfl⟩,
    merge_file_events_last_close_time file_two_three two_plus_two_state
      { rank_event_list := [event_at 1, event_at 2, close_event_at 2, close_event_at 3]
        rank_event_list_max := 4, file_event_list := [], last_close_time := 3 }
      { rank_event_list := [event_at 1, event_at 2, close_event_at 2, close_event_at 3]
        rank_event_list_max := 4, file_event_list := [], last_close_time := 3 }
      [] (by decide!) rfl⟩

theorem size_bin_cases (sz : Nat) :
    (sz < 100 ∧ size_bin sz = 0) ∨
    (100 ≤ sz ∧ sz < 1024 ∧ size_bin sz = 1) ∨
    (1024 ≤ sz ∧ sz < 10240 ∧ size_bin sz = 2) ∨
    (10240 ≤ sz ∧ sz < 102400 ∧ size_bin sz = 3) ∨
    (102400 ≤ sz ∧ sz < 1048576 ∧ size_bin sz = 4) ∨
    (1048576 ≤ sz ∧ sz < 4194304 ∧ size_bin sz = 5) ∨
    (4194304 ≤ sz ∧ sz < 10485760 ∧ size_bin sz = 6) ∨
    (10485760 ≤ sz ∧ sz < 104857600 ∧ size_bin sz = 7) ∨
    (104857600 ≤ sz ∧ sz < 1073741824 ∧ size_bin sz = 8) ∨
    (1073741824 ≤ sz ∧ size_bin sz = 9) := by
  unfold size_bin
  by_cases h0 : sz < 100
  · left
    exact ⟨by omega, if_pos h0⟩
  · rw [if_neg h0]
    by_cases h1 : sz < 1024
    · right; left
      exact ⟨by omega, by omega, if_pos h1⟩
    · rw [if_neg h1]
      by_cases h2 : sz < 10 * 1024
      · right; right; left
        exact ⟨by omega, by omega, if_pos h2⟩
      · rw [if_neg h2]
        by_cases h3 : sz < 100 * 1024
        · right; right; right; left
          exact ⟨by omega, by omega, if_pos h3⟩
        · rw [if_neg h3]
          by_cases h4 : sz < 1024 * 1024
          · right; right; right; right; left
            exact ⟨by omega, by omega, if_pos h4⟩
          · rw [if_neg h4]
            by_cases h5 : sz < 4 * 1024 * 1024
            · right; right; right; right; right; left
              exact ⟨by omega, by omega, if_pos h5⟩
            · rw [if_neg h5]
              by_cases h6 : sz < 10 * 1024 * 1024
              · right; right; right; right; right; right; left
                exact ⟨by omega, by omega, if_pos h6⟩
              · rw [if_neg h6]
                by_cases h7 : sz < 100 * 1024 * 1024
                · right; right; right; right; right; right; right; left
                  exact ⟨by omega, by omega, if_pos h7⟩
                · rw [if_neg h7]
                  by_cases h8 : sz < 1024 * 1024 * 1024
                  · right; right; right; right; right; right; right; right; left
                    exact ⟨by omega, by omega, if_pos h8⟩
                  · rw [if_neg h8]
                    right; right; right; right; right; right; right; right; right
                    exact ⟨by omega, rfl⟩

theorem size_bin_lt (sz : Nat) : size_bin sz < 10 := by
  rcases size_bin_cases sz with ⟨h2, e⟩ | ⟨h1, h2, e⟩ | ⟨h1, h2, e⟩ | ⟨h1, h2, e⟩ | ⟨h1, h2, e⟩ | ⟨h1, h2, e⟩ | ⟨h1, h2, e⟩ | ⟨h1, h2, e⟩ | ⟨h1, h2, e⟩ | ⟨h1, e⟩
  all_goals (rw [e]; norm_num)

theorem in_bin_mid (sz j lo hi : Nat) (hj : j ≠ 9) (hlo : bin_min_size.getD j 0 = lo)
    (hhi : bin_min_size.getD (j + 1) 0 = hi) :
    IO_IS_IN_SIZE_BIN_RANGE sz j bin_min_size = true ↔ lo ≤ sz ∧ sz < hi := by
  unfold IO_IS_IN_SIZE_BIN_RANGE
  rw [if_neg hj, hlo, hhi]
  simp

theorem in_bin_last (sz lo : Nat) (hlo : bin_min_size.getD 9 0 = lo) :
    IO_IS_IN_SIZE_BIN_RANGE sz 9 bin_min_size = true ↔ lo ≤ sz := by
  unfold IO_IS_IN_SIZE_BIN_RANGE
  rw [if_pos rfl, hlo]
  simp

theorem in_size_bin_iff (sz j : Nat) (hj : j < 10) :
    IO_IS_IN_SIZE_BIN_RANGE sz j bin_min_size = true ↔ j = size_bin sz := by
  rcases size_bin_cases sz with ⟨h2, e⟩ | ⟨h1, h2, e⟩ | ⟨h1, h2, e⟩ | ⟨h1, h2, e⟩ | ⟨h1, h2, e⟩ | ⟨h1, h2, e⟩ | ⟨h1, h2, e⟩ | ⟨h1, h2, e⟩ | ⟨h1, h2, e⟩ | ⟨h1, e⟩
  all_goals
    rw [e]
    interval_cases j
    · rw [in_bin_mid sz 0 0 100 (by decide) rfl rfl]
      constructor <;> intro h <;> omega
    · rw [in_bin_mid sz 1 100 1024 (by decide) rfl rfl]
      constructor <;> intro h <;> omega
    · rw [in_bin_mid sz 2 1024 10240 (by decide) rfl rfl]
      constructor <;> intro h <;> omega
    · rw [in_bin_mid sz 3 10240 102400 (by decide) rfl rfl]
      constructor <;> intro h <;> omega
    · rw [in_bin_mid sz 4 102400 1048576 (by decide) rfl rfl]
      constructor <;> intro h <;> omega
    · rw [in_bin_mid sz 5 1048576 4194304 (by decide) rfl rfl]
      constructor <;> intro h <;> omega
    · rw [in_bin_mid sz 6 4194304 10485760 (by decide) rfl rfl]
      constructor <;> intro h <;> omega
    · rw [in_bin_mid sz 7 10485760 104857600 (by decide) rfl rfl]
      constructor <;> intro h <;> omega
    · rw [in_bin_mid sz 8 104857600 1073741824 (by decide) rfl rfl]
      constructor <;> intro h <;> omega
    · rw [in_bin_last sz 1073741824 rfl]
      constructor <;> intro h <;> omega

theorem size_bin_unique (sz : Nat) :
    ∃! i, i < 10 ∧ IO_IS_IN_SIZE_BIN_RANGE sz i bin_min_size = true := by
  refine ⟨size_bin sz, ⟨size_bin_lt sz, (in_size_bin_iff sz _ (size_bin_lt sz)).mpr rfl⟩, ?_⟩
  rintro j ⟨hj, hin⟩
  exact (in_size_bin_iff sz j hj).mp hin

theorem getD_set_int (l : List Int) (i j : Nat) (v : Int) :
    (l.set i v).getD j 0 = if i = j ∧ i < l.length then v else l.getD j 0 := by
  simp only [List.getD_eq_getElem?_getD, List.getElem?_set]
  by_cases h : i = j
  · subst h
    by_cases h2 : i < l.length
    · simp [h2]
    · simp [h2]
      have : l[i]? = none := by simp; omega
      simp [this]
  · simp [h]

/-- The bin loop over a list of indices: the bin `j` is lowered by one exactly when `j` is
one of the indices and holds the size. -/
theorem decr_bins_foldl (sz : Nat) : ∀ (idxs : List Nat) (bins : List Int), idxs.Nodup →
    (idxs.foldl (fun bins i =>
        if IO_IS_IN_SIZE_BIN_RANGE sz i bin_min_size then bins.set i (bins.getD i 0 - 1)
        else bins) bins).length = bins.length ∧
    ∀ j, j < bins.length →
      (idxs.foldl (fun bins i =>
          if IO_IS_IN_SIZE_BIN_RANGE sz i bin_min_size then bins.set i (bins.getD i 0 - 1)
          else bins) bins).getD j 0 =
        bins.getD j 0 -
          (if j ∈ idxs ∧ IO_IS_IN_SIZE_BIN_RANGE sz j bin_min_size = true then 1 else 0) := by
  intro idxs
  induction idxs with
  | nil =>
    intro bins _
    exact ⟨rfl, fun j _ => by simp⟩
  | cons i rest ih =>
    intro bins hnd
    obtain ⟨hi, hrest⟩ := List.nodup_cons.mp hnd
    simp only [List.foldl_cons]
    by_cases hin : IO_IS_IN_SIZE_BIN_RANGE sz i bin_min_size = true
    · rw [if_pos hin]
      obtain ⟨l1, l2⟩ := ih (bins.set i (bins.getD i 0 - 1)) hrest
      rw [List.length_set] at l1 l2
      refine ⟨l1, fun j hj => ?_⟩
      rw [l2 j hj, getD_set_int]
      by_cases hij : i = j
      · subst hij
        rw [if_pos ⟨rfl, hj⟩, if_neg (fun h => hi h.1),
          if_pos ⟨List.mem_cons_self _ _, hin⟩]
        ring
      · rw [if_neg (fun h => hij h.1)]
        by_cases hc : j ∈ rest ∧ IO_IS_IN_SIZE_BIN_RANGE sz j bin_min_size = true
        · rw [if_pos hc, if_pos ⟨List.mem_cons_of_mem _ hc.1, hc.2⟩]
        · rw [if_neg hc, if_neg]
          rintro ⟨hm, hj2⟩
          rcases List.mem_cons.mp hm with h | h
          · exact hij h.symm
          · exact hc ⟨h, hj2⟩
    · rw [if_neg hin]
      obtain ⟨l1, l2⟩ := ih bins hrest
      refine ⟨l1, fun j hj => ?_⟩
      rw [l2 j hj]
      by_cases hc : j ∈ rest ∧ IO_IS_IN_SIZE_BIN_RANGE sz j bin_min_size = true
      · rw [if_pos hc, if_pos ⟨List.mem_cons_of_mem _ hc.1, hc.2⟩]
      · rw [if_neg hc, if_neg]
        rintro ⟨hm, hj2⟩
        rcases List.mem_cons.mp hm with h | h
        · rw [h] at hj2; exact hin hj2
        · exact hc ⟨h, hj2⟩

/-- The size bin update of `determine_io_params`: of ten bins, exactly the bin holding the
size is lowered by one. -/
theorem decr_size_bins_spec (sz : Nat) (bins : List Int) (hlen : bins.length = 10) :
    (decr_size_bins sz bins).length = 10 ∧
    ∀ j, j < 10 →
      (decr_size_bins sz bins).getD j 0 =
        bins.getD j 0 - (if j = size_bin sz then 1 else 0) := by
  obtain ⟨l1, l2⟩ := decr_bins_foldl sz (List.range 10) bins (List.nodup_range 10)
  unfold decr_size_bins
  refine ⟨by rw [l1, hlen], fun j hj => ?_⟩
  rw [l2 j (by rw [hlen]; exact hj)]
  by_cases hb : j = size_bin sz
  · rw [if_pos hb, if_pos ⟨List.mem_range.mpr hj, (in_size_bin_iff sz j hj).mpr hb⟩]
  · rw [if_neg hb, if_neg (fun h => hb ((in_size_bin_iff sz j hj).mp h.2))]

/-- What `determine_io_params` does to the two lists of size bins. -/
theorem determine_io_params_bins (rnd : Nat → Nat) (st st' : gen_state) (w c k : Int)
    (sz : Nat) (off : Int) (h : determine_io_params rnd st w c k = some (st', sz, off)) :
    size_bins_of st'.file w = decr_size_bins sz (size_bins_of st.file w) ∧
    other_size_bins_of st'.file w = other_size_bins_of st.file w := by
  unfold determine_io_params at h
  obtain ⟨r, h1, h2⟩ := Option.map_eq_some'.mp h
  obtain ⟨st2, sz2⟩ := r
  unfold determine_io_size at h1
  obtain ⟨st1, h3, h4⟩ := Option.bind_eq_some.mp h1
  have e0 : (init_all_common_flag st).file = st.file := by
    unfold init_all_common_flag; split_ifs <;> rfl
  have e1 : st1.file.size_read_bins = st.file.size_read_bins ∧
      st1.file.size_write_bins = st.file.size_write_bins := by
    unfold init_seq_flag at h3
    split_ifs at h3
    · obtain ⟨f, _, rfl⟩ := Option.map_eq_some'.mp h3; rw [← e0]; exact ⟨rfl, rfl⟩
    · cases h3; rw [← e0]; exact ⟨rfl, rfl⟩
    · obtain ⟨f, _, rfl⟩ := Option.map_eq_some'.mp h3; rw [← e0]; exact ⟨rfl, rfl⟩
    · cases h3; rw [← e0]; exact ⟨rfl, rfl⟩
  have e2 : st2.file.size_read_bins = st1.file.size_read_bins ∧
      st2.file.size_write_bins = st1.file.size_write_bins := by
    have hd : ∀ d, (set_common_draw st1 w d).file.size_read_bins = st1.file.size_read_bins ∧
        (set_common_draw st1 w d).file.size_write_bins = st1.file.size_write_bins := by
      intro d
      unfold set_common_draw
      split_ifs <;> exact ⟨rfl, rfl⟩
    unfold choose_io_size at h4
    simp only at h4
    split_ifs at h4 <;> cases h4 <;> first | exact ⟨rfl, rfl⟩ | exact hd _
  unfold determine_io_offset at h2
  simp only [Prod.mk.injEq] at h2
  obtain ⟨rfl, rfl, _⟩ := h2
  have e3 : ∀ x : gen_state, (reset_io_statics x).file = x.file := by
    intro x; unfold reset_io_statics; split_ifs <;> rfl
  have e4 : ∀ x : gen_state, (choose_io_offset rnd x w sz2).1.file = x.file := by
    intro x; unfold choose_io_offset; split_ifs <;> rfl
  rw [e3, e4]
  unfold size_bins_of other_size_bins_of account_io_size
  by_cases hw : w ≠ 0
  · rw [if_pos hw, if_pos hw, if_pos hw, if_pos hw, if_pos hw]
    exact ⟨by rw [← e1.2, ← e2.2], by rw [← e1.1, ← e2.1]⟩
  · rw [if_neg hw, if_neg hw, if_neg hw, if_neg hw, if_neg hw]
    exact ⟨by rw [← e1.1, ← e2.1], by rw [← e1.2, ← e2.2]⟩

/-- C19: for every size exactly one of the ten bins satisfies `IO_IS_IN_SIZE_BIN_RANGE`;
and every returning call of `determine_io_params` on a record with ten read bins and ten
write bins lowers by one exactly the bin of the requested direction that holds the
returned size (bin `j` changes by 1 when `j` is that bin and by 0 otherwise), and leaves
the bins of the other direction unchanged. -/
theorem determine_io_params_size_bins (rnd : Nat → Nat) (st st' : gen_state)
    (write_flag coll_flag io_cycles : Int) (io_sz : Nat) (io_off : Int)
    (hrd : st.file.size_read_bins.length = 10) (hwr : st.file.size_write_bins.length = 10)
    (h : determine_io_params rnd st write_flag coll_flag io_cycles =
      some (st', io_sz, io_off)) :
    (∀ s : Nat, ∃! i, i < 10 ∧ IO_IS_IN_SIZE_BIN_RANGE s i bin_min_size = true) ∧
    (size_bin io_sz < 10 ∧
      IO_IS_IN_SIZE_BIN_RANGE io_sz (size_bin io_sz) bin_min_size = true) ∧
    (size_bins_of st'.file write_flag).length = 10 ∧
    (∀ j, j < 10 →
      (size_bins_of st'.file write_flag).getD j 0 =
        (size_bins_of st.file write_flag).getD j 0 -
          (if j = size_bin io_sz then 1 else 0)) ∧
    other_size_bins_of st'.file write_flag = other_size_bins_of st.file write_flag := by
  obtain ⟨b1, b2⟩ := determine_io_params_bins rnd st st' _ _ _ _ _ h
  have hlen : (size_bins_of st.file write_flag).length = 10 := by
    unfold size_bins_of
    split_ifs
    · exact hwr
    · exact hrd
  obtain ⟨d1, d2⟩ := decr_size_bins_spec io_sz (size_bins_of st.file write_flag) hlen
  refine ⟨size_bin_unique, ⟨size_bin_lt io_sz,
    (in_size_bin_iff io_sz _ (size_bin_lt io_sz)).mpr rfl⟩, ?_, ?_, b2⟩
  · rw [b1]; exact d1
  · intro j hj
    rw [b1]
    exact d2 j hj

/-- The read on `one_read_file` returns the size 2048 and lowers the third read bin. -/
theorem one_read_file_run :
    determine_io_params (fun _ => 0) (initial_state one_read_file 3) 0 0 1 =
      some (one_read_result.1, one_read_result.2.1, one_read_result.2.2) ∧
    one_read_result.2.1 = 2048 ∧
    one_read_result.1.file.size_read_bins = [0, 0, -1, 0, 0, 0, 0, 0, 0, 0] := by
  decide!

theorem determine_io_params_size_bins_witness :
    determine_io_params (fun _ => 0) (initial_state one_read_file 3) 0 0 1 =
      some (one_read_result.1, one_read_result.2.1, one_read_result.2.2) ∧
    (∀ s : Nat, ∃! i, i < 10 ∧ IO_IS_IN_SIZE_BIN_RANGE s i bin_min_size = true) ∧
    (size_bin one_read_result.2.1 < 10 ∧
      IO_IS_IN_SIZE_BIN_RANGE one_read_result.2.1 (size_bin one_read_result.2.1)
        bin_min_size = true) ∧
    (size_bins_of one_read_result.1.file 0).length = 10 ∧
    (∀ j, j < 10 →
      (size_bins_of one_read_result.1.file 0).getD j 0 =
        (size_bins_of (initial_state one_read_file 3).file 0).getD j 0 -
          (if j = size_bin one_read_result.2.1 then 1 else 0)) ∧
    other_size_bins_of one_read_result.1.file 0 =
      other_size_bins_of (initial_state one_read_file 3).file 0 :=
  ⟨one_read_file_run.1,
    determine_io_params_size_bins (fun _ => 0) (initial_state one_read_file 3)
      one_read_result.1 0 0 1 one_read_result.2.1 one_read_result.2.2 rfl rfl
      one_read_file_run.1⟩

theorem drain_share_spec (accesses shares counts : List Int) :
    ((drain_share accesses shares counts).io_sz = 0 ∧
      (drain_share accesses shares counts).counts = counts) ∨
    ∃ i, i < 4 ∧ shares.getD i 0 ≠ 0 ∧
      (drain_share accesses shares counts).io_sz = u64 (accesses.getD i 0) ∧
      (drain_share accesses shares counts).counts = counts.set i (counts.getD i 0 - 1) := by
  unfold drain_share
  cases hf : (List.range 4).find? (fun i => decide (shares.getD i 0 ≠ 0)) with
  | none => left; exact ⟨rfl, rfl⟩
  | some i =>
    right
    have h1 := List.find?_some hf
    have h2 := List.mem_of_find?_eq_some hf
    exact ⟨i, List.mem_range.mp h2, by simpa using h1, rfl, rfl⟩

theorem reapportion_fold (accesses : List Int) (k : Int) (c0 : List Int) :
    ∀ (idxs : List Nat) (d : common_draw), idxs.Nodup →
    (∀ j ∈ idxs, d.counts.getD j 0 = c0.getD j 0) →
    (idxs.foldl (fun d i =>
        if d.io_sz = 0 ∧ Int.tdiv (d.counts.getD i 0) k ≠ 0 then
          ({ io_sz := u64 (accesses.getD i 0)
             shares := d.shares.set i (Int.tdiv (d.counts.getD i 0) k - 1)
             counts := d.counts.set i (d.counts.getD i 0 - 1) } : common_draw)
        else { d with shares := d.shares.set i (Int.tdiv (d.counts.getD i 0) k) }) d).io_sz
      = d.io_sz ∨
    ∃ i ∈ idxs,
      (idxs.foldl (fun d i =>
        if d.io_sz = 0 ∧ Int.tdiv (d.counts.getD i 0) k ≠ 0 then
          ({ io_sz := u64 (accesses.getD i 0)
             shares := d.shares.set i (Int.tdiv (d.counts.getD i 0) k - 1)
             counts := d.counts.set i (d.counts.getD i 0 - 1) } : common_draw)
        else { d with shares := d.shares.set i (Int.tdiv (d.counts.getD i 0) k) }) d).io_sz
        = u64 (accesses.getD i 0) ∧ Int.tdiv (c0.getD i 0) k ≠ 0 := by
  intro idxs
  induction idxs with
  | nil => intro d _ _; left; rfl
  | cons i rest ih =>
    intro d hnd hc
    obtain ⟨hi, hrest⟩ := List.nodup_cons.mp hnd
    simp only [List.foldl_cons]
    by_cases hp : d.io_sz = 0 ∧ Int.tdiv (d.counts.getD i 0) k ≠ 0
    · rw [if_pos hp]
      have hci := hc i (List.mem_cons_self _ _)
      rcases ih { io_sz := u64 (accesses.getD i 0)
                  shares := d.shares.set i (Int.tdiv (d.counts.getD i 0) k - 1)
                  counts := d.counts.set i (d.counts.getD i 0 - 1) } hrest (by
          intro j hj
          show (d.counts.set i (d.counts.getD i 0 - 1)).getD j 0 = _
          rw [getD_set_int, if_neg (by rintro ⟨rfl, _⟩; exact hi hj)]
          exact hc j (List.mem_cons_of_mem _ hj)) with h | ⟨i', hi', h1, h2⟩
      · right
        exact ⟨i, List.mem_cons_self _ _, h, by rw [← hci]; exact hp.2⟩
      · right
        exact ⟨i', List.mem_cons_of_mem _ hi', h1, h2⟩
    · rw [if_neg hp]
      rcases ih { d with shares := d.shares.set i (Int.tdiv (d.counts.getD i 0) k) } hrest
          (fun j hj => hc j (List.mem_cons_of_mem _ hj)) with h | ⟨i', hi', h1, h2⟩
      · left; exact h
      · right
        exact ⟨i', List.mem_cons_of_mem _ hi', h1, h2⟩

theorem reapportion_spec (accesses : List Int) (k : Int) (d : common_draw) :
    (reapportion accesses k d).io_sz = d.io_sz ∨
    ∃ i, i < 4 ∧ (reapportion accesses k d).io_sz = u64 (accesses.getD i 0) ∧
      d.counts.getD i 0 ≠ 0 := by
  rcases reapportion_fold accesses k d.counts (List.range 4) d (List.nodup_range 4)
      (fun _ _ => rfl) with h | ⟨i, hi, h1, h2⟩
  · left; exact h
  · right
    refine ⟨i, List.mem_range.mp hi, h1, ?_⟩
    intro h0
    rw [h0] at h2
    exact h2 (Int.zero_tdiv k)

theorem init_all_common_flag_frame (st : gen_state) :
    (init_all_common_flag st).file = st.file ∧
    (init_all_common_flag st).rd_common_accesses = st.rd_common_accesses ∧
    (init_all_common_flag st).wr_common_accesses = st.wr_common_accesses := by
  unfold init_all_common_flag
  split_ifs <;> exact ⟨rfl, rfl, rfl⟩

theorem init_seq_flag_frame (st st' : gen_state) (w : Int)
    (h : init_seq_flag st w = some st') :
    st'.file = st.file ∧ st'.all_common_flag = st.all_common_flag ∧
    st'.rd_common_accesses = st.rd_common_accesses ∧
    st'.wr_common_accesses = st.wr_common_accesses := by
  unfold init_seq_flag at h
  split_ifs at h
  · obtain ⟨f, _, rfl⟩ := Option.map_eq_some'.mp h; exact ⟨rfl, rfl, rfl, rfl⟩
  · cases h; exact ⟨rfl, rfl, rfl, rfl⟩
  · obtain ⟨f, _, rfl⟩ := Option.map_eq_some'.mp h; exact ⟨rfl, rfl, rfl, rfl⟩
  · cases h; exact ⟨rfl, rfl, rfl, rfl⟩

/-- The size chosen from the common-access slots. -/
theorem choose_io_size_common (st st' : gen_state) (w k : Int) (sz : Nat)
    (hflag : st.all_common_flag ≠ 0)
    (hops : st.file.CP_POSIX_READS + st.file.CP_POSIX_WRITES ≠ 1)
    (htot : total_io_size st w ≠ 0)
    (h : choose_io_size st w k = some (st', sz)) :
    sz = 0 ∨ ∃ i, i < 4 ∧ sz = u64 (st.file.common_accesses.getD i 0) ∧
      ((common_shares_of st w).getD i 0 ≠ 0 ∨ st.file.common_access_counts.getD i 0 ≠ 0) := by
  unfold choose_io_size at h
  rw [if_neg (by push_neg; exact ⟨htot, hops⟩), if_pos hflag] at h
  simp only at h
  have hd := drain_share_spec st.file.common_accesses (common_shares_of st w)
    st.file.common_access_counts
  unfold common_shares_of at hd ⊢
  by_cases hz : (drain_share st.file.common_accesses
      (if w ≠ 0 then st.wr_common_accesses else st.rd_common_accesses)
      st.file.common_access_counts).io_sz = 0
  · rw [if_pos hz] at h
    by_cases hk : k = 0
    · rw [if_pos hk] at h; cases h
    · rw [if_neg hk] at h
      simp only [Option.some.injEq, Prod.mk.injEq] at h
      obtain ⟨_, rfl⟩ := h
      rcases reapportion_spec st.file.common_accesses k (drain_share st.file.common_accesses
        (if w ≠ 0 then st.wr_common_accesses else st.rd_common_accesses)
        st.file.common_access_counts) with h1 | ⟨i, hi, h1, h2⟩
      · left; rw [h1, hz]
      · right
        refine ⟨i, hi, h1, ?_⟩
        rcases hd with ⟨_, hc⟩ | ⟨j, _, hs, _, hc⟩
        · right; rw [hc] at h2; exact h2
        · by_cases hij : j = i
          · left; rw [← hij]; exact hs
          · right
            rw [hc, getD_set_int, if_neg (fun hh => hij hh.1)] at h2
            exact h2
  · rw [if_neg hz] at h
    simp only [Option.some.injEq, Prod.mk.injEq] at h
    obtain ⟨_, rfl⟩ := h
    rcases hd with ⟨h0, _⟩ | ⟨j, hj, hs, he, _⟩
    · exact absurd h0 hz
    · right
      exact ⟨j, hj, he, Or.inl hs⟩

/-- C20, as stated, fails: two calls whose record satisfies the conditions (byte totals
explained by the four slots, more than one operation left, bytes left to read).  On
`apportion_short_file` with `io_cycles = 2` every per-cycle share `count / io_cycles` is
zero and the size returned is 0, which is none of the sizes 10, 20, 30, 40.  In
`shared_slot_state` the read share of slot 0 is still 1 while the write before has taken
the last count of that slot: the size 10 is taken from slot 0, whose count is 0, and no
slot with a non-zero count has the size 10. -/
theorem determine_io_params_common_size_fails :
    (common_access_bytes apportion_short_file =
        apportion_short_file.CP_BYTES_WRITTEN + apportion_short_file.CP_BYTES_READ ∧
      1 < apportion_short_file.CP_POSIX_READS + apportion_short_file.CP_POSIX_WRITES ∧
      apportion_short_file.CP_BYTES_READ ≠ 0 ∧
      (determine_io_params (fun _ => 0) (initial_state apportion_short_file 8) 0 0 2).map
        (fun r => r.2.1) = some 0 ∧
      (0 : Nat) ∉ apportion_short_file.common_accesses.map u64) ∧
    (common_access_bytes shared_slot_state.file =
        shared_slot_state.file.CP_BYTES_WRITTEN + shared_slot_state.file.CP_BYTES_READ ∧
      shared_slot_state.all_common_flag = 1 ∧
      1 < shared_slot_state.file.CP_POSIX_READS + shared_slot_state.file.CP_POSIX_WRITES ∧
      shared_slot_state.file.CP_BYTES_READ ≠ 0 ∧
      shared_slot_state.file.common_accesses = [10, 5, 0, 0] ∧
      shared_slot_state.file.common_access_counts = [0, 2, 0, 0] ∧
      (determine_io_params (fun _ => 0) shared_slot_state 0 0 1).map
        (fun r => (r.2.1, r.1.file.common_access_counts)) = some (10, [-1, 2, 0, 0])) := by
  decide!

theorem drain_share_first (accesses shares counts : List Int) (i : Nat)
    (hi : first_slot (fun j => shares.getD j 0 ≠ 0) i) :
    (drain_share accesses shares counts).io_sz = u64 (accesses.getD i 0) := by
  obtain ⟨h4, hne, hfirst⟩ := hi
  unfold drain_share
  cases hf : (List.range 4).find? (fun i => decide (shares.getD i 0 ≠ 0)) with
  | none =>
    have := List.find?_eq_none.mp hf i (List.mem_range.mpr h4)
    simp only [decide_eq_true_eq] at this
    exact absurd hne this
  | some j =>
    have h1 := List.find?_some hf
    simp only [decide_eq_true_eq] at h1
    have hji : j = i := by
      rcases lt_trichotomy j i with h | h | h
      · exact absurd h1 (hfirst j h)
      · exact h
      · exfalso
        have hr : List.range 4 = List.range i ++ i :: List.range' (i + 1) (4 - (i + 1)) := by
          interval_cases i <;> rfl
        rw [hr, List.find?_append] at hf
        have hpre : (List.range i).find? (fun i => decide (shares.getD i 0 ≠ 0)) = none := by
          apply List.find?_eq_none.mpr
          intro x hx
          simp only [decide_eq_true_eq]
          exact hfirst x (List.mem_range.mp hx)
        rw [hpre, Option.none_or, List.find?_cons_of_pos _ (by simpa using hne)] at hf
        cases hf
        exact lt_irrefl _ h
    rw [hji]

theorem drain_share_none (accesses shares counts : List Int)
    (h : ∀ i, i < 4 → shares.getD i 0 = 0) :
    drain_share accesses shares counts = { io_sz := 0, shares := shares, counts := counts } := by
  unfold drain_share
  have hf : (List.range 4).find? (fun i => decide (shares.getD i 0 ≠ 0)) = none := by
    apply List.find?_eq_none.mpr
    intro x hx
    simp only [decide_eq_true_eq, not_not]
    exact h x (List.mem_range.mp hx)
  rw [hf]

theorem reapportion_fold_keep (accesses : List Int) (k : Int) :
    ∀ (idxs : List Nat) (d : common_draw), d.io_sz ≠ 0 →
    (idxs.foldl (fun d i =>
        if d.io_sz = 0 ∧ Int.tdiv (d.counts.getD i 0) k ≠ 0 then
          ({ io_sz := u64 (accesses.getD i 0)
             shares := d.shares.set i (Int.tdiv (d.counts.getD i 0) k - 1)
             counts := d.counts.set i (d.counts.getD i 0 - 1) } : common_draw)
        else { d with shares := d.shares.set i (Int.tdiv (d.counts.getD i 0) k) }) d).io_sz
      = d.io_sz := by
  intro idxs
  induction idxs with
  | nil => intro d _; rfl
  | cons i rest ih =>
    intro d hd
    simp only [List.foldl_cons]
    rw [if_neg (fun hp => hd hp.1)]
    exact ih _ hd

theorem reapportion_fold_first (accesses : List Int) (k : Int) (c0 : List Int) (i : Nat)
    (post : List Nat) (hi : Int.tdiv (c0.getD i 0) k ≠ 0) (hsz : u64 (accesses.getD i 0) ≠ 0) :
    ∀ (pre : List Nat) (d : common_draw), (pre ++ i :: post).Nodup →
    (∀ j ∈ pre ++ i :: post, d.counts.getD j 0 = c0.getD j 0) → d.io_sz = 0 →
    (∀ j ∈ pre, Int.tdiv (c0.getD j 0) k = 0 ∨ u64 (accesses.getD j 0) = 0) →
    ((pre ++ i :: post).foldl (fun d i =>
        if d.io_sz = 0 ∧ Int.tdiv (d.counts.getD i 0) k ≠ 0 then
          ({ io_sz := u64 (accesses.getD i 0)
             shares := d.shares.set i (Int.tdiv (d.counts.getD i 0) k - 1)
             counts := d.counts.set i (d.counts.getD i 0 - 1) } : common_draw)
        else { d with shares := d.shares.set i (Int.tdiv (d.counts.getD i 0) k) }) d).io_sz
      = u64 (accesses.getD i 0) := by
  intro pre
  induction pre with
  | nil =>
    intro d _ hc h0 _
    simp only [List.nil_append, List.foldl_cons]
    have hci := hc i (by simp)
    rw [if_pos ⟨h0, by rw [hci]; exact hi⟩]
    rw [reapportion_fold_keep accesses k post _ hsz]
  | cons j rest ih =>
    intro d hnd hc h0 hpre
    simp only [List.cons_append, List.foldl_cons]
    have hnd' : j ∉ rest ++ i :: post ∧ (rest ++ i :: post).Nodup := by
      rw [List.cons_append] at hnd
      exact List.nodup_cons.mp hnd
    have hcj := hc j (by simp)
    by_cases hp : d.io_sz = 0 ∧ Int.tdiv (d.counts.getD j 0) k ≠ 0
    · rw [if_pos hp]
      have hz : u64 (accesses.getD j 0) = 0 := by
        rcases hpre j (List.mem_cons_self _ _) with h | h
        · rw [hcj] at hp; exact absurd h hp.2
        · exact h
      refine ih _ hnd'.2 ?_ hz (fun x hx => hpre x (List.mem_cons_of_mem _ hx))
      intro x hx
      show (d.counts.set j (d.counts.getD j 0 - 1)).getD x 0 = _
      rw [getD_set_int, if_neg (by rintro ⟨rfl, _⟩; exact hnd'.1 hx)]
      exact hc x (by rw [List.cons_append]; exact List.mem_cons_of_mem _ hx)
    · rw [if_neg hp]
      exact ih _ hnd'.2
        (fun x hx => hc x (by rw [List.cons_append]; exact List.mem_cons_of_mem _ hx)) h0
        (fun x hx => hpre x (List.mem_cons_of_mem _ hx))

theorem reapportion_fold_zero (accesses : List Int) (k : Int) (c0 : List Int) :
    ∀ (idxs : List Nat) (d : common_draw), idxs.Nodup →
    (∀ j ∈ idxs, d.counts.getD j 0 = c0.getD j 0) → d.io_sz = 0 →
    (∀ j ∈ idxs, Int.tdiv (c0.getD j 0) k = 0 ∨ u64 (accesses.getD j 0) = 0) →
    (idxs.foldl (fun d i =>
        if d.io_sz = 0 ∧ Int.tdiv (d.counts.getD i 0) k ≠ 0 then
          ({ io_sz := u64 (accesses.getD i 0)
             shares := d.shares.set i (Int.tdiv (d.counts.getD i 0) k - 1)
             counts := d.counts.set i (d.counts.getD i 0 - 1) } : common_draw)
        else { d with shares := d.shares.set i (Int.tdiv (d.counts.getD i 0) k) }) d).io_sz
      = 0 := by
  intro idxs
  induction idxs with
  | nil => intro d _ _ h0 _; exact h0
  | cons j rest ih =>
    intro d hnd hc h0 hall
    simp only [List.foldl_cons]
    have hnd' := List.nodup_cons.mp hnd
    have hcj := hc j (List.mem_cons_self _ _)
    by_cases hp : d.io_sz = 0 ∧ Int.tdiv (d.counts.getD j 0) k ≠ 0
    · rw [if_pos hp]
      have hz : u64 (accesses.getD j 0) = 0 := by
        rcases hall j (List.mem_cons_self _ _) with h | h
        · rw [hcj] at hp; exact absurd h hp.2
        · exact h
      refine ih _ hnd'.2 ?_ hz (fun x hx => hall x (List.mem_cons_of_mem _ hx))
      intro x hx
      show (d.counts.set j (d.counts.getD j 0 - 1)).getD x 0 = _
      rw [getD_set_int, if_neg (by rintro ⟨rfl, _⟩; exact hnd'.1 hx)]
      exact hc x (List.mem_cons_of_mem _ hx)
    · rw [if_neg hp]
      exact ih _ hnd'.2 (fun x hx => hc x (List.mem_cons_of_mem _ hx)) h0
        (fun x hx => hall x (List.mem_cons_of_mem _ hx))

/-- The second loop over the slots, entered with size 0: the size of the first slot whose
re-apportioned share and size are not zero, and 0 when there is no such slot. -/
theorem reapportion_first (accesses : List Int) (k : Int) (d : common_draw)
    (h0 : d.io_sz = 0) :
    (∀ j, first_slot (fun l => Int.tdiv (d.counts.getD l 0) k ≠ 0 ∧
        u64 (accesses.getD l 0) ≠ 0) j →
      (reapportion accesses k d).io_sz = u64 (accesses.getD j 0)) ∧
    ((∀ j, j < 4 → Int.tdiv (d.counts.getD j 0) k = 0 ∨ u64 (accesses.getD j 0) = 0) →
      (reapportion accesses k d).io_sz = 0) := by
  constructor
  · rintro j ⟨h4, ⟨hj1, hj2⟩, hfirst⟩
    have hr : List.range 4 = List.range j ++ j :: List.range' (j + 1) (4 - (j + 1)) := by
      interval_cases j <;> rfl
    have := reapportion_fold_first accesses k d.counts j (List.range' (j + 1) (4 - (j + 1)))
      hj1 hj2 (List.range j) d (by rw [← hr]; exact List.nodup_range 4) (fun _ _ => rfl) h0
      (by
        intro x hx
        have := hfirst x (List.mem_range.mp hx)
        by_contra hcon
        push_neg at hcon
        exact this hcon)
    rw [← hr] at this
    exact this
  · intro hall
    exact reapportion_fold_zero accesses k d.counts (List.range 4) d (List.nodup_range 4)
      (fun _ _ => rfl) h0 (fun j hj => hall j (List.mem_range.mp hj))

/-- The size chosen from the common-access slots, slot by slot. -/
theorem choose_io_size_first (st st' : gen_state) (w k : Int) (sz : Nat)
    (hflag : st.all_common_flag ≠ 0)
    (hops : st.file.CP_POSIX_READS + st.file.CP_POSIX_WRITES ≠ 1)
    (htot : total_io_size st w ≠ 0)
    (h : choose_io_size st w k = some (st', sz)) :
    (∀ i, first_slot (fun j => (common_shares_of st w).getD j 0 ≠ 0) i →
      u64 (st.file.common_accesses.getD i 0) ≠ 0 →
      sz = u64 (st.file.common_accesses.getD i 0)) ∧
    ((∀ i, i < 4 → (common_shares_of st w).getD i 0 = 0) →
      (∀ j, first_slot (fun l => Int.tdiv (st.file.common_access_counts.getD l 0) k ≠ 0 ∧
          u64 (st.file.common_accesses.getD l 0) ≠ 0) j →
        sz = u64 (st.file.common_accesses.getD j 0)) ∧
      ((∀ j, j < 4 → Int.tdiv (st.file.common_access_counts.getD j 0) k = 0 ∨
          u64 (st.file.common_accesses.getD j 0) = 0) → sz = 0)) := by
  unfold choose_io_size at h
  rw [if_neg (by push_neg; exact ⟨htot, hops⟩), if_pos hflag] at h
  simp only at h
  unfold common_shares_of
  constructor
  · intro i hi hsz
    have hd := drain_share_first st.file.common_accesses
      (if w ≠ 0 then st.wr_common_accesses else st.rd_common_accesses)
      st.file.common_access_counts i hi
    rw [if_neg (by rw [hd]; exact hsz)] at h
    simp only [Option.some.injEq, Prod.mk.injEq] at h
    rw [← h.2, hd]
  · intro hall
    have hd := drain_share_none st.file.common_accesses
      (if w ≠ 0 then st.wr_common_accesses else st.rd_common_accesses)
      st.file.common_access_counts hall
    rw [hd] at h
    rw [if_pos rfl] at h
    by_cases hk : k = 0
    · rw [if_pos hk] at h; cases h
    · rw [if_neg hk] at h
      simp only [Option.some.injEq, Prod.mk.injEq] at h
      obtain ⟨_, rfl⟩ := h
      exact reapportion_first st.file.common_accesses k
        { io_sz := 0
          shares := if w ≠ 0 then st.wr_common_accesses else st.rd_common_accesses
          counts := st.file.common_access_counts } rfl

/-- C20, amended: when the byte totals are explained by the four common-access slots (the
test made on the first call for a file succeeds, or the flag `all_common_flag` is already
set), more than one read or write remains and the requested direction has bytes left, the
size returned by `determine_io_params` is fixed slot by slot.  It is the size of the first
slot with a non-zero remaining per-cycle share of the requested direction, when that size
is not zero.  When every share is drained it is the size of the first slot whose
re-apportioned share `count / io_cycles` and size are not zero, and 0 when there is no such
slot.  A non-zero size is always the size of a slot with a non-zero share or a non-zero
remaining count. -/
theorem determine_io_params_common_size (rnd : Nat → Nat) (st st' : gen_state)
    (write_flag coll_flag io_cycles : Int) (io_sz : Nat) (io_off : Int)
    (hflag : (st.all_common_flag = -1 ∧
        common_access_bytes st.file = st.file.CP_BYTES_WRITTEN + st.file.CP_BYTES_READ) ∨
      (st.all_common_flag ≠ -1 ∧ st.all_common_flag ≠ 0))
    (hops : 1 < st.file.CP_POSIX_READS + st.file.CP_POSIX_WRITES)
    (htot : total_io_size st write_flag ≠ 0)
    (h : determine_io_params rnd st write_flag coll_flag io_cycles =
      some (st', io_sz, io_off)) :
    (∀ i, first_slot (fun j => (common_shares_of st write_flag).getD j 0 ≠ 0) i →
      u64 (st.file.common_accesses.getD i 0) ≠ 0 →
      io_sz = u64 (st.file.common_accesses.getD i 0)) ∧
    ((∀ i, i < 4 → (common_shares_of st write_flag).getD i 0 = 0) →
      (∀ j, first_slot (fun l =>
          Int.tdiv (st.file.common_access_counts.getD l 0) io_cycles ≠ 0 ∧
          u64 (st.file.common_accesses.getD l 0) ≠ 0) j →
        io_sz = u64 (st.file.common_accesses.getD j 0)) ∧
      ((∀ j, j < 4 → Int.tdiv (st.file.common_access_counts.getD j 0) io_cycles = 0 ∨
          u64 (st.file.common_accesses.getD j 0) = 0) → io_sz = 0)) ∧
    (io_sz ≠ 0 → ∃ i, i < 4 ∧ io_sz = u64 (st.file.common_accesses.getD i 0) ∧
      ((common_shares_of st write_flag).getD i 0 ≠ 0 ∨
        st.file.common_access_counts.getD i 0 ≠ 0)) := by
  unfold determine_io_params at h
  obtain ⟨r, h1, h2⟩ := Option.map_eq_some'.mp h
  obtain ⟨st2, sz2⟩ := r
  unfold determine_io_size at h1
  obtain ⟨st1, h3, h4⟩ := Option.bind_eq_some.mp h1
  unfold determine_io_offset at h2
  simp only [Prod.mk.injEq] at h2
  obtain ⟨_, rfl, _⟩ := h2
  obtain ⟨a1, a2, a3⟩ := init_all_common_flag_frame st
  obtain ⟨b1, b2, b3, b4⟩ := init_seq_flag_frame _ _ _ h3
  have hfile : st1.file = st.file := by rw [b1, a1]
  have hfl : st1.all_common_flag ≠ 0 := by
    rw [b2]
    unfold init_all_common_flag
    rcases hflag with ⟨hf, hsum⟩ | ⟨hf, hf0⟩
    · rw [if_pos hf]
      show (if common_access_bytes st.file =
          st.file.CP_BYTES_WRITTEN + st.file.CP_BYTES_READ then (1 : Int) else 0) ≠ 0
      rw [if_pos hsum]
      decide
    · rw [if_neg hf]
      exact hf0
  have hsh : common_shares_of st1 write_flag = common_shares_of st write_flag := by
    unfold common_shares_of
    rw [b3, b4, a2, a3]
  have htot1 : total_io_size st1 write_flag = total_io_size st write_flag := by
    unfold total_io_size
    rw [hfile]
  have hops1 : st1.file.CP_POSIX_READS + st1.file.CP_POSIX_WRITES ≠ 1 := by
    rw [hfile]; omega
  have hfirst := choose_io_size_first st1 st2 write_flag io_cycles sz2 hfl hops1
    (by rw [htot1]; exact htot) h4
  have hany := choose_io_size_common st1 st2 write_flag io_cycles sz2 hfl hops1
    (by rw [htot1]; exact htot) h4
  rw [hfile, hsh] at hfirst hany
  refine ⟨hfirst.1, hfirst.2, ?_⟩
  intro hne
  rcases hany with h0 | h0
  · exact absurd h0 hne
  · exact h0

/-- The first read on `shared_slot_file` returns the size 10 of slot 0. -/
theorem shared_slot_file_run :
    determine_io_params (fun _ => 0) (initial_state shared_slot_file 8) 0 0 1 =
      some (shared_slot_first.1, shared_slot_first.2.1, shared_slot_first.2.2) ∧
    shared_slot_first.2.1 = 10 := by
  decide!

theorem determine_io_params_common_size_witness :
    (((initial_state shared_slot_file 8).all_common_flag = -1 ∧
        common_access_bytes (initial_state shared_slot_file 8).file =
          (initial_state shared_slot_file 8).file.CP_BYTES_WRITTEN +
            (initial_state shared_slot_file 8).file.CP_BYTES_READ) ∧
      determine_io_params (fun _ => 0) (initial_state shared_slot_file 8) 0 0 1 =
        some (shared_slot_first.1, shared_slot_first.2.1, shared_slot_first.2.2) ∧
      shared_slot_first.2.1 = 10 ∧
      first_slot (fun l =>
        Int.tdiv ((initial_state shared_slot_file 8).file.common_access_counts.getD l 0) 1 ≠ 0 ∧
        u64 ((initial_state shared_slot_file 8).file.common_accesses.getD l 0) ≠ 0) 0) ∧
    ((∀ i, first_slot
        (fun j => (common_shares_of (initial_state shared_slot_file 8) 0).getD j 0 ≠ 0) i →
      u64 ((initial_state shared_slot_file 8).file.common_accesses.getD i 0) ≠ 0 →
      shared_slot_first.2.1 =
        u64 ((initial_state shared_slot_file 8).file.common_accesses.getD i 0)) ∧
    ((∀ i, i < 4 → (common_shares_of (initial_state shared_slot_file 8) 0).getD i 0 = 0) →
      (∀ j, first_slot (fun l =>
          Int.tdiv ((initial_state shared_slot_file 8).file.common_access_counts.getD l 0) 1
            ≠ 0 ∧
          u64 ((initial_state shared_slot_file 8).file.common_accesses.getD l 0) ≠ 0) j →
        shared_slot_first.2.1 =
          u64 ((initial_state shared_slot_file 8).file.common_accesses.getD j 0)) ∧
      ((∀ j, j < 4 →
          Int.tdiv ((initial_state shared_slot_file 8).file.common_access_counts.getD j 0) 1
            = 0 ∨
          u64 ((initial_state shared_slot_file 8).file.common_accesses.getD j 0) = 0) →
        shared_slot_first.2.1 = 0)) ∧
    (shared_slot_first.2.1 ≠ 0 → ∃ i, i < 4 ∧
      shared_slot_first.2.1 =
        u64 ((initial_state shared_slot_file 8).file.common_accesses.getD i 0) ∧
      ((common_shares_of (initial_state shared_slot_file 8) 0).getD i 0 ≠ 0 ∨
        (initial_state shared_slot_file 8).file.common_access_counts.getD i 0 ≠ 0))) :=
  ⟨⟨⟨rfl, by decide⟩, shared_slot_file_run.1, shared_slot_file_run.2,
      ⟨by decide, ⟨by decide, by decide⟩, fun j hj => absurd hj (Nat.not_lt_zero j)⟩⟩,
    determine_io_params_common_size (fun _ => 0) (initial_state shared_slot_file 8)
      shared_slot_first.1 0 0 1 shared_slot_first.2.1 shared_slot_first.2.2
      (Or.inl ⟨rfl, by decide⟩) (by decide) (by decide) shared_slot_file_run.1⟩

/-! ## Created flag, rank order check and creation-time table -/

theorem appends_refl (P : darshan_event → Prop) (st : gen_state) : appends P st st :=
  ⟨[], by simp, fun e he => by cases he⟩

theorem appends_trans {P : darshan_event → Prop} {a b c : gen_state}
    (h1 : appends P a b) (h2 : appends P b c) : appends P a c := by
  obtain ⟨l1, e1, p1⟩ := h1
  obtain ⟨l2, e2, p2⟩ := h2
  refine ⟨l1 ++ l2, by rw [e2, e1, List.append_assoc], fun e he => ?_⟩
  rcases List.mem_append.mp he with h | h
  · exact p1 e h
  · exact p2 e h

theorem appends_of_eq {P : darshan_event → Prop} {st st' : gen_state}
    (h : st'.file_event_list = st.file_event_list) : appends P st st' :=
  ⟨[], by rw [h]; simp, fun e he => by cases he⟩

theorem appends_store {P : darshan_event → Prop} (st st' : gen_state) (e : darshan_event)
    (h : store_event st e = some st') (he : P e) : appends P st st' := by
  have hs := store_event_eq st st' e h
  refine ⟨[e], by rw [hs], fun x hx => ?_⟩
  rw [List.mem_singleton.mp hx]
  exact he

theorem ind_io_event_created (st : gen_state) (m t : ℚ) (sz : Nat) (off : Int) :
    created (ind_io_event st m t sz off).1 = false := by
  unfold ind_io_event
  split_ifs <;> rfl

theorem ind_io_body_uncreated (rnd : Nat → Nat) (ops : Int) (d m : ℚ) (i : Int)
    (s s' : io_loop_state) (h : ind_io_body rnd ops d m i s = some s') :
    appends (fun e => created e = false) s.st s'.st := by
  unfold ind_io_body at h
  obtain ⟨r, hr, h⟩ := Option.bind_eq_some.mp h
  obtain ⟨st1, sz, off⟩ := r
  have hctl := determine_io_params_ctl rnd s.st st1 _ _ _ sz off hr
  simp only at h
  by_cases hneg : (ind_io_count st1).file.CP_POSIX_READS < 0 ∨
      (ind_io_count st1).file.CP_POSIX_WRITES < 0
  · rw [if_pos hneg] at h; cases h
  · rw [if_neg hneg] at h
    obtain ⟨st2, hst, rfl⟩ := Option.map_eq_some'.mp h
    have a1 : appends (fun e => created e = false) s.st st1 :=
      appends_of_eq (congrArg ctl_view.events hctl)
    have a2 : appends (fun e => created e = false) st1 (ind_io_count st1) :=
      appends_of_eq (ind_io_count_frame st1).2.1
    have a3 : appends (fun e => created e = false) (ind_io_count st1) st2 :=
      appends_store _ _ _ hst (ind_io_event_created _ _ _ _ _)
    have a4 : appends (fun e => created e = false) st2
        (ind_toggle rnd st2 (ind_rw_switch st2 (s.psx_rw_ops_remaining - 1))) :=
      appends_of_eq (ind_toggle_frame rnd st2 _).2.2.2.1
    exact appends_trans a1 (appends_trans a2 (appends_trans a3 a4))

theorem ind_io_loop_uncreated (rnd : Nat → Nat) (ops : Int) (d m : ℚ) :
    ∀ (k : Nat) (i : Int) (s s' : io_loop_state),
    ind_io_loop rnd ops d m k i s = some s' →
    appends (fun e => created e = false) s.st s'.st := by
  intro k
  induction k with
  | zero =>
    intro i s s' h
    simp only [ind_io_loop, Option.some.injEq] at h
    subst h
    exact appends_refl _ _
  | succ k ih =>
    intro i s s' h
    simp only [ind_io_loop] at h
    obtain ⟨s1, hb, hl⟩ := Option.bind_eq_some.mp h
    exact appends_trans (ind_io_body_uncreated rnd ops d m i s s1 hb) (ih (i + 1) s1 s' hl)

theorem generate_psx_ind_io_events_uncreated (rnd : Nat → Nat) (st st' : gen_state)
    (ndx : Int) (d m t t' : ℚ)
    (h : generate_psx_ind_io_events rnd st ndx d m t = some (st', t')) :
    appends (fun e => created e = false) st st' := by
  unfold generate_psx_ind_io_events at h
  simp only at h
  by_cases h0 : st.file.CP_POSIX_READS + st.file.CP_POSIX_WRITES = 0
  · rw [if_pos h0] at h
    simp only [Option.some.injEq, Prod.mk.injEq] at h
    rw [← h.1]
    exact appends_refl _ _
  · rw [if_neg h0] at h
    obtain ⟨ops, _, h⟩ := Option.bind_eq_some.mp h
    obtain ⟨st1, hinit, h⟩ := Option.bind_eq_some.mp h
    obtain ⟨s, hloop, h⟩ := Option.bind_eq_some.mp h
    obtain ⟨st2, hfin, h⟩ := Option.map_eq_some'.mp h
    simp only [Prod.mk.injEq] at h
    rw [← h.1]
    have a1 : appends (fun e => created e = false) st st1 :=
      appends_of_eq (ind_io_init_frame st st1 hinit).2.1
    have a2 := ind_io_loop_uncreated rnd _ d m _ 0 _ s hloop
    have a3 : appends (fun e => created e = false) s.st st2 :=
      appends_of_eq (ind_io_finish_frame ndx s st2 hfin).2.2.2.1
    exact appends_trans a1 (appends_trans a2 a3)

/-- One cycle of the independent generator: it stores an OPEN that carries the given
create flag, and after it only events without the `created` flag. -/
theorem ind_cycle_created (rnd : Nat → Nat) (c : ind_cycle_params) (i cf : Int)
    (st st' : gen_state) (t t' : ℚ) (h : ind_cycle rnd c i cf st t = some (st', t')) :
    ∃ eo rest, st'.file_event_list = st.file_event_list ++ eo :: rest ∧
      eo.type = event_type.POSIX_OPEN ∧ created eo = decide (cf ≠ 0) ∧
      ∀ e ∈ rest, created e = false := by
  unfold ind_cycle at h
  obtain ⟨r1, h1, h⟩ := Option.bind_eq_some.mp h
  obtain ⟨r2, h2, h⟩ := Option.bind_eq_some.mp h
  obtain ⟨r3, h3, h⟩ := Option.map_eq_some'.mp h
  obtain ⟨s1, t1⟩ := r1
  obtain ⟨s2, t2⟩ := r2
  obtain ⟨s3, t3⟩ := r3
  simp only [Prod.mk.injEq] at h
  obtain ⟨rfl, _⟩ := h
  unfold generate_psx_open_event at h1
  obtain ⟨x1, hs1, hx1⟩ := Option.map_eq_some'.mp h1
  simp only [Prod.mk.injEq] at hx1
  obtain ⟨rfl, _⟩ := hx1
  have e1 := store_event_eq _ _ _ hs1
  have ho : ∃ eo, x1.file_event_list = st.file_event_list ++ [eo] ∧
      eo.type = event_type.POSIX_OPEN ∧ created eo = decide (cf ≠ 0) :=
    ⟨{ rank := st.file.rank, type := event_type.POSIX_OPEN, start_time := t,
       end_time := fadd t c.meta_op_time,
       event_params := event_params.open st.file.hash cf }, by rw [e1], rfl, rfl⟩
  obtain ⟨eo, o1, o2, o3⟩ := ho
  unfold generate_psx_close_event at h3
  obtain ⟨x3, hs3, hx3⟩ := Option.map_eq_some'.mp h3
  simp only [Prod.mk.injEq] at hx3
  obtain ⟨rfl, _⟩ := hx3
  obtain ⟨l, hl, hP⟩ := generate_psx_ind_io_events_uncreated rnd _ _ _ _ _ _ _ h2
  have e3 := store_event_eq _ _ _ hs3
  have hc : ∃ ec, x3.file_event_list = s2.file_event_list ++ [ec] ∧ created ec = false :=
    ⟨{ rank := s2.file.rank, type := event_type.POSIX_CLOSE,
       start_time := fadd t2 (fmul c.pcts.close_pct c.delay_per_open),
       end_time := fadd (fadd t2 (fmul c.pcts.close_pct c.delay_per_open)) c.meta_op_time,
       event_params := event_params.close s2.file.hash }, by rw [e3], rfl⟩
  obtain ⟨ec, c1, c2⟩ := hc
  refine ⟨eo, l ++ [ec], ?_, o2, o3, ?_⟩
  · show x3.file_event_list = _
    rw [c1, hl, o1]
    simp
  · intro e he
    rcases List.mem_append.mp he with h | h
    · exact hP e h
    · rw [List.mem_singleton.mp h]
      exact c2

/-- The cycles after the first: no event with the `created` flag is stored. -/
theorem ind_cycles_uncreated (rnd : Nat → Nat) (c : ind_cycle_params) :
    ∀ (n : Nat) (i : Int) (st st' : gen_state) (t t' : ℚ),
    ind_cycles rnd c n i 0 st t = some (st', t') →
    appends (fun e => created e = false) st st' := by
  intro n
  induction n with
  | zero =>
    intro i st st' t t' h
    unfold ind_cycles at h
    split_ifs at h
    simp only [Option.some.injEq, Prod.mk.injEq] at h
    rw [← h.1]
    exact appends_refl _ _
  | succ n ih =>
    intro i st st' t t' h
    unfold ind_cycles at h
    split_ifs at h
    · simp only [Option.some.injEq, Prod.mk.injEq] at h
      rw [← h.1]
      exact appends_refl _ _
    · simp only at h
      obtain ⟨r, hc, h⟩ := Option.bind_eq_some.mp h
      obtain ⟨s1, t1⟩ := r
      obtain ⟨eo, rest, a1, _, a3, a4⟩ := ind_cycle_created rnd c i 0 st s1 t t1 hc
      have hstep : appends (fun e => created e = false) st s1 := by
        refine ⟨eo :: rest, a1, fun e he => ?_⟩
        rcases List.mem_cons.mp he with h | h
        · rw [h, a3]; rfl
        · exact a4 e h
      exact appends_trans hstep (ih (i + 1) s1 st' t1 t' h)

/-- All cycles: the first event stored is an OPEN carrying the given create flag, no later
event has the `created` flag. -/
theorem ind_cycles_created (rnd : Nat → Nat) (c : ind_cycle_params) (n : Nat) (i cf : Int)
    (st st' : gen_state) (t t' : ℚ) (hopens : st.file.CP_POSIX_OPENS ≠ 0)
    (h : ind_cycles rnd c n i cf st t = some (st', t')) :
    ∃ eo rest, st'.file_event_list = st.file_event_list ++ eo :: rest ∧
      eo.type = event_type.POSIX_OPEN ∧ created eo = decide (cf ≠ 0) ∧
      ∀ e ∈ rest, created e = false := by
  unfold ind_cycles at h
  rw [if_neg hopens] at h
  cases n with
  | zero => cases h
  | succ n =>
    simp only at h
    obtain ⟨r, hc, h⟩ := Option.bind_eq_some.mp h
    obtain ⟨s1, t1⟩ := r
    obtain ⟨eo, rest, a1, a2, a3, a4⟩ := ind_cycle_created rnd c i cf st s1 t t1 hc
    obtain ⟨l, b1, b2⟩ := ind_cycles_uncreated rnd c n (i + 1) s1 st' t1 t' h
    refine ⟨eo, rest ++ l, by rw [b1, a1]; simp, a2, a3, fun e he => ?_⟩
    rcases List.mem_append.mp he with h | h
    · exact a4 e h
    · exact b2 e h

theorem hash_find_unique (h : Nat) : ∀ (tbl : List hash_entry_t), unique_keys tbl →
    ∀ x ∈ tbl, x.hash = h → HASH_FIND tbl h = some x := by
  intro tbl
  induction tbl with
  | nil => intro _ x hx; cases hx
  | cons a rest ih =>
    intro hu x hx hh
    unfold unique_keys at hu
    obtain ⟨ha, hrest⟩ := List.pairwise_cons.mp hu
    unfold HASH_FIND
    rcases List.mem_cons.mp hx with rfl | hx'
    · simp [List.find?_cons, hh]
    · have hne : a.hash ≠ h := by rw [← hh]; exact ha x hx'
      have := ih hrest x hx' hh
      unfold HASH_FIND at this
      simp [List.find?_cons, hne, this]

theorem ind_create_flag_iff (tbl : List hash_entry_t) (file : darshan_file)
    (hu : unique_keys tbl) :
    ind_create_flag tbl file ≠ 0 ↔
      ∃ x ∈ tbl, x.hash = file.hash ∧ x.time = file.CP_F_OPEN_TIMESTAMP := by
  unfold ind_create_flag
  constructor
  · intro h
    cases hf : HASH_FIND tbl file.hash with
    | none => rw [hf] at h; exact absurd rfl h
    | some e =>
      rw [hf] at h
      simp only at h
      by_cases ht : e.time = file.CP_F_OPEN_TIMESTAMP
      · unfold HASH_FIND at hf
        have h1 := List.find?_some hf
        exact ⟨e, List.mem_of_find?_eq_some hf, by simpa using h1, ht⟩
      · rw [if_neg ht] at h
        exact absurd rfl h
  · rintro ⟨x, hx, hh, ht⟩
    rw [hash_find_unique file.hash tbl hu x hx hh]
    simp only
    rw [if_pos ht]
    decide

/-- C17: in the events `generate_psx_ind_file_events` stores for a record with at least
one open, the first event is an OPEN, no later event has the `created` flag, and the first
OPEN has it if and only if the creation-time table (a table with pairwise different keys)
holds an entry for the hash of the record whose time equals the open timestamp of the
record. -/
theorem generate_psx_ind_file_events_created (rnd : Nat → Nat) (tbl : List hash_entry_t)
    (st st' : gen_state) (hu : unique_keys tbl) (hopens : st.file.CP_POSIX_OPENS ≠ 0)
    (h : generate_psx_ind_file_events rnd tbl st = some st') :
    ∃ eo rest, st'.file_event_list = st.file_event_list ++ eo :: rest ∧
      eo.type = event_type.POSIX_OPEN ∧
      (created eo = true ↔
        ∃ x ∈ tbl, x.hash = st.file.hash ∧ x.time = st.file.CP_F_OPEN_TIMESTAMP) ∧
      ∀ e ∈ rest, created e = false := by
  unfold generate_psx_ind_file_events at h
  rw [if_neg hopens] at h
  obtain ⟨c, _, h⟩ := Option.bind_eq_some.mp h
  obtain ⟨r, hcy, rfl⟩ := Option.map_eq_some'.mp h
  obtain ⟨s1, t1⟩ := r
  obtain ⟨eo, rest, a1, a2, a3, a4⟩ := ind_cycles_created rnd c _ 0 _ st s1 _ t1 hopens hcy
  refine ⟨eo, rest, a1, a2, ?_, a4⟩
  rw [a3, ← ind_create_flag_iff tbl st.file hu]
  simp

/-- The run on `mixed_file` with `sample_created_table`: only the first of the two OPEN
events has the `created` flag. -/
theorem mixed_created_run :
    generate_psx_ind_file_events (fun _ => 0) sample_created_table
      (initial_state mixed_file 7) = some mixed_created_result ∧
    mixed_created_result.file_event_list.map (fun e => (e.type, created e)) =
      [(event_type.POSIX_OPEN, true), (event_type.POSIX_READ, false),
       (event_type.POSIX_READ, false), (event_type.POSIX_CLOSE, false),
       (event_type.POSIX_OPEN, false), (event_type.POSIX_WRITE, false),
       (event_type.POSIX_CLOSE, false)] := by
  decide!

theorem generate_psx_ind_file_events_created_witness :
    (unique_keys sample_created_table ∧
      (initial_state mixed_file 7).file.CP_POSIX_OPENS ≠ 0 ∧
      generate_psx_ind_file_events (fun _ => 0) sample_created_table
        (initial_state mixed_file 7) = some mixed_created_result) ∧
    ∃ eo rest, mixed_created_result.file_event_list =
        (initial_state mixed_file 7).file_event_list ++ eo :: rest ∧
      eo.type = event_type.POSIX_OPEN ∧
      (created eo = true ↔
        ∃ x ∈ sample_created_table, x.hash = (initial_state mixed_file 7).file.hash ∧
          x.time = (initial_state mixed_file 7).file.CP_F_OPEN_TIMESTAMP) ∧
      ∀ e ∈ rest, created e = false :=
  ⟨⟨List.pairwise_singleton _ _, by decide, mixed_created_run.1⟩,
    generate_psx_ind_file_events_created (fun _ => 0) sample_created_table
      (initial_state mixed_file 7) mixed_created_result (List.pairwise_singleton _ _)
      (by decide) mixed_created_run.1⟩

theorem pre_step_drop (nprocs start_time : Int) (S : Nat) (f : darshan_file) (s : pre_state)
    (hdrop : f.rank ≠ -1 ∧ f.rank < s.last_rank) (hf : -1 ≤ f.rank)
    (hidx : 0 ≤ s.last_rank + 1 ∧ (s.last_rank + 1).toNat < s.header_buf.length) :
    pre_step nprocs start_time S f s = Except.error pre_error.returned_error := by
  have h1 : s.last_rank ≠ f.rank := by omega
  have h2 : s.last_rank ≠ -1 := by omega
  unfold pre_step pre_rank_change header_store
  rw [if_pos h1, if_neg h2, if_pos hidx]
  simp only [Except.map, Except.bind]
  rw [if_pos hdrop]

/-- The record loop fails with -1 exactly when a rank drops between two consecutive
records. -/
theorem pre_loop_rank_drop (nprocs start_time : Int) (S : Nat) (hn : 1 ≤ nprocs) :
    ∀ (log : List darshan_file) (s : pre_state),
    s.header_buf.length = (nprocs + 2).toNat → -1 ≤ s.last_rank → s.last_rank < nprocs →
    (∀ f ∈ log, -1 ≤ f.rank ∧ f.rank < nprocs) →
    (rank_drop_after s.last_rank log →
      pre_loop nprocs start_time S log s = Except.error pre_error.returned_error) ∧
    (¬ rank_drop_after s.last_rank log →
      ∃ s', pre_loop nprocs start_time S log s = Except.ok s' ∧
        s'.header_buf.length = (nprocs + 2).toNat ∧ s'.last_rank < nprocs) := by
  intro log
  induction log with
  | nil =>
    intro s hlen _ hlt _
    exact ⟨fun h => absurd h (by simp [rank_drop_after]), fun _ => ⟨s, rfl, hlen, hlt⟩⟩
  | cons f rest ih =>
    intro s hlen hge hlt hr
    have hf := hr f (List.mem_cons_self _ _)
    have hidx : 0 ≤ s.last_rank + 1 ∧ (s.last_rank + 1).toNat < s.header_buf.length := by
      rw [hlen]; omega
    by_cases hd : f.rank ≠ -1 ∧ f.rank < s.last_rank
    · have hs := pre_step_drop nprocs start_time S f s hd hf.1 hidx
      refine ⟨fun _ => ?_, fun h => absurd (Or.inl hd) h⟩
      simp only [pre_loop, hs, Except.bind]
    · obtain ⟨s1, hs1, l1, l2, _⟩ := pre_step_eq nprocs start_time S f s (by omega) hd
        (fun _ => hidx)
      have hlen1 : s1.header_buf.length = (nprocs + 2).toNat := by
        rw [l2]
        split_ifs
        · rw [List.length_set]; exact hlen
        · exact hlen
      obtain ⟨i1, i2⟩ := ih s1 hlen1 (by rw [l1]; exact hf.1) (by rw [l1]; exact hf.2)
        (fun g hg => hr g (List.mem_cons_of_mem _ hg))
      rw [l1] at i1 i2
      have hloop : pre_loop nprocs start_time S (f :: rest) s =
          pre_loop nprocs start_time S rest s1 := by
        simp only [pre_loop, hs1, Except.bind]
      rw [hloop]
      constructor
      · intro h
        rcases h with h | h
        · exact absurd h hd
        · exact i1 h
      · intro h
        exact i2 (fun h' => h (Or.inr h'))

/-- C16 (counterexample): the log `descending_log` of a two-process job has the
non-collective ranks 1, 0 in log order, which is not non-decreasing, and
`preprocess_events` accepts it: the rank 0 is compared with the rank -1 of the collective
record before it. -/
theorem preprocess_events_accepts_descending_ranks :
    independent_ranks descending_log = [1, 0] ∧
    ¬ (independent_ranks descending_log).Pairwise (fun a b => a ≤ b) ∧
    (preprocess_events 2 0 64 descending_log).toOption.map (fun s => s.header_buf) =
      some [2, 224, 32, 416] := by
  decide!

/-- C16 (amended): for a non-empty log whose ranks lie in `[-1, nprocs)`, `nprocs ≥ 1`,
`preprocess_events` returns -1 when some record with a rank other than -1 directly
follows a record of a higher rank, and succeeds otherwise. -/
theorem preprocess_events_rank_drop (nprocs start_time : Int) (S : Nat)
    (log : List darshan_file) (hn : 1 ≤ nprocs) (hne : log ≠ [])
    (hr : ∀ f ∈ log, -1 ≤ f.rank ∧ f.rank < nprocs) :
    (has_rank_drop log →
      preprocess_events nprocs start_time S log = Except.error pre_error.returned_error) ∧
    (¬ has_rank_drop log →
      ∃ s, preprocess_events nprocs start_time S log = Except.ok s) := by
  cases log with
  | nil => exact absurd rfl hne
  | cons f rest =>
    have hf := hr f (List.mem_cons_self _ _)
    have hlen : (pre_init nprocs f.rank).header_buf.length = (nprocs + 2).toNat := by
      show (u64 nprocs :: List.replicate (nprocs + 1).toNat 0).length = _
      rw [List.length_cons, List.length_replicate]
      omega
    obtain ⟨i1, i2⟩ := pre_loop_rank_drop nprocs start_time S hn (f :: rest)
      (pre_init nprocs f.rank) hlen hf.1 hf.2 hr
    have hiff : rank_drop_after (pre_init nprocs f.rank).last_rank (f :: rest) ↔
        has_rank_drop (f :: rest) := by
      show ((f.rank ≠ -1 ∧ f.rank < f.rank) ∨ rank_drop_after f.rank rest) ↔
        rank_drop_after f.rank rest
      constructor
      · rintro (h | h)
        · exact absurd h.2 (lt_irrefl _)
        · exact h
      · exact fun h => Or.inr h
    constructor
    · intro h
      unfold preprocess_events
      simp only [i1 (hiff.mpr h), Except.bind]
    · intro h
      obtain ⟨s', hs', hl', hlt'⟩ := i2 (fun h' => h (hiff.mp h'))
      obtain ⟨s2, hs2, _⟩ := pre_finish_eq nprocs S s' hl' hn hlt'
      refine ⟨s2, ?_⟩
      unfold preprocess_events
      simp only [hs', Except.bind]
      exact hs2

theorem preprocess_events_rank_drop_witness :
    ((1 : Int) ≤ 2 ∧ dropping_log ≠ [] ∧ has_rank_drop dropping_log) ∧
    (has_rank_drop dropping_log →
      preprocess_events 2 0 64 dropping_log = Except.error pre_error.returned_error) ∧
    (¬ has_rank_drop dropping_log →
      ∃ s, preprocess_events 2 0 64 dropping_log = Except.ok s) :=
  ⟨⟨by decide, by decide, Or.inl ⟨by decide, by decide⟩⟩,
    preprocess_events_rank_drop 2 0 64 dropping_log (by decide) (by decide)
      (by decide)⟩

/-- C18 (failing input): a job started at time 100 in which the file with hash 7 is
written by rank 0, which opened it at time 300, and by rank 1, which opened it at time 150.
`check_file_counters` normalizes the two open timestamps to 200 and 50; the creation-time
table `preprocess_events` builds holds the time 150 for the hash, the raw timestamp of the
second record, not the minimum 50 of the normalized timestamps. -/
theorem preprocess_events_created_time_raw :
    (preprocess_events 2 100 64 [written_record 0 300, written_record 1 150]).toOption.map
        (fun s => s.created_files_hash) = some [{ hash := 7, time := 150 }] ∧
    (check_file_counters 100 1000 (written_record 0 300)).map
        (fun f => f.CP_F_OPEN_TIMESTAMP) = some 200 ∧
    (check_file_counters 100 1000 (written_record 1 150)).map
        (fun f => f.CP_F_OPEN_TIMESTAMP) = some 50 ∧
    (150 : ℚ) ≠ min 200 50 := by
  refine ⟨by decide!, by decide!, by decide!, by norm_num⟩

/-! ## Scenario B: a record opened once by every rank through a collective open -/

theorem determine_io_params_keep (rnd : Nat → Nat) (st st' : gen_state) (w c k : Int)
    (sz : Nat) (off : Int) (h : determine_io_params rnd st w c k = some (st', sz, off)) :
    coll_keep st' = coll_keep st ∧ st'.file_event_list = st.file_event_list ∧
    st'.coll_rw = st.coll_rw := by
  have hctl := determine_io_params_ctl rnd st st' w c k sz off h
  refine ⟨?_, congrArg ctl_view.events hctl, congrArg ctl_view.coll_rw hctl⟩
  unfold coll_keep
  rw [show st'.file.rank = st.file.rank from congrArg ctl_view.rank hctl,
    show st'.file.CP_POSIX_OPENS = st.file.CP_POSIX_OPENS from congrArg ctl_view.opens hctl,
    show st'.file.CP_COLL_OPENS = st.file.CP_COLL_OPENS from
      congrArg ctl_view.coll_opens hctl,
    show st'.file.CP_INDEP_READS = st.file.CP_INDEP_READS from
      congrArg ctl_view.indep_reads hctl,
    show st'.file.CP_INDEP_WRITES = st.file.CP_INDEP_WRITES from
      congrArg ctl_view.indep_writes hctl]

theorem coll_io_count_keep (st : gen_state) :
    coll_keep (coll_io_count st) = coll_keep st ∧
    (coll_io_count st).file_event_list = st.file_event_list := by
  unfold coll_io_count
  split_ifs <;> exact ⟨rfl, rfl⟩

/-- One pass of the inner loop stores one READ or WRITE. -/
theorem coll_io_op_shape (rnd : Nat → Nat) (c : coll_io_consts) (ind_coll tc : Int) (t : ℚ)
    (x y : gen_state × Int × ℚ) (h : coll_io_op rnd c ind_coll tc t x = some y) :
    coll_keep y.1 = coll_keep x.1 ∧
    ∃ e, y.1.file_event_list = x.1.file_event_list ++ [e] ∧ all_io [e] := by
  unfold coll_io_op at h
  obtain ⟨k, _, h⟩ := Option.bind_eq_some.mp h
  obtain ⟨r, hr, h⟩ := Option.bind_eq_some.mp h
  obtain ⟨st1, sz, off⟩ := r
  obtain ⟨k1, k2, _⟩ := determine_io_params_keep rnd _ _ _ _ _ _ _ hr
  simp only at h
  by_cases hneg : (coll_io_count st1).file.CP_POSIX_READS < 0 ∨
      (coll_io_count st1).file.CP_POSIX_WRITES < 0
  · rw [if_pos hneg] at h; cases h
  · rw [if_neg hneg] at h
    obtain ⟨st2, hst, rfl⟩ := Option.map_eq_some'.mp h
    have e2 := store_event_eq _ _ _ hst
    obtain ⟨c1, c2⟩ := coll_io_count_keep st1
    refine ⟨?_, coll_io_event st1 x.2.1 c.meta_op_time t sz off, ?_, ?_⟩
    · show coll_keep st2 = _
      rw [← k1, ← c1, e2]
      rfl
    · show st2.file_event_list = _
      rw [e2]
      show (coll_io_count st1).file_event_list ++ _ = _
      rw [c2, k2]
    · intro e he
      rw [List.mem_singleton.mp he, coll_io_event_type]
      split_ifs
      · exact Or.inl rfl
      · exact Or.inr rfl

theorem coll_io_ops_shape (rnd : Nat → Nat) (c : coll_io_consts) (ind_coll tc : Int) (t : ℚ) :
    ∀ (k : Nat) (x y : gen_state × Int × ℚ),
    coll_io_ops rnd c ind_coll tc t k x = some y →
    coll_keep y.1 = coll_keep x.1 ∧
    ∃ l, y.1.file_event_list = x.1.file_event_list ++ l ∧ all_io l := by
  intro k
  induction k with
  | zero =>
    intro x y h
    simp only [coll_io_ops, Option.some.injEq] at h
    subst h
    exact ⟨rfl, [], by simp, fun e he => by cases he⟩
  | succ k ih =>
    intro x y h
    simp only [coll_io_ops] at h
    obtain ⟨z, hz, h⟩ := Option.bind_eq_some.mp h
    obtain ⟨a1, e, a2, a3⟩ := coll_io_op_shape rnd c ind_coll tc t x z hz
    obtain ⟨b1, l, b2, b3⟩ := ih z y h
    refine ⟨by rw [b1, a1], e :: l, by rw [b2, a2]; simp, fun x hx => ?_⟩
    rcases List.mem_cons.mp hx with h | h
    · rw [h]; exact a3 e (List.mem_singleton.mpr rfl)
    · exact b3 x h

theorem count_type_barrier_all_io (l : List darshan_event) (h : all_io l) :
    count_type event_type.BARRIER l = 0 := by
  unfold count_type
  rw [List.countP_eq_zero]
  intro e he
  rcases h e he with h1 | h1 <;> simp [h1]

/-- A collective pick stores one BARRIER and leaves the kept fields and the number of
independent operations of the cycle alone. -/
theorem coll_pick_collective_shape (c : coll_io_consts) (s : coll_loop_state)
    (st : gen_state) (p : coll_pick) (h : coll_pick_collective c s st = some p) :
    coll_keep p.st = coll_keep st ∧ p.ind_io_ops_this_cycle = s.ind_io_ops_this_cycle ∧
    ∃ b, p.st.file_event_list = st.file_event_list ++ [b] ∧ b.type = event_type.BARRIER ∧
      b.rank = st.file.rank := by
  unfold coll_pick_collective at h
  obtain ⟨b, hb, h⟩ := Option.bind_eq_some.mp h
  unfold generate_barrier_event at hb
  obtain ⟨st1, hst, rfl⟩ := Option.map_eq_some'.mp hb
  have e1 := store_event_eq _ _ _ hst
  simp only at h
  by_cases hrw : st1.coll_rw = 0
  · rw [if_pos hrw] at h
    obtain ⟨q, _, h⟩ := Option.bind_eq_some.mp h
    obtain ⟨n, _, rfl⟩ := Option.map_eq_some'.mp h
    rw [e1]
    exact ⟨rfl, rfl, _, rfl, rfl, rfl⟩
  · rw [if_neg hrw] at h
    obtain ⟨q, _, h⟩ := Option.bind_eq_some.mp h
    obtain ⟨n, _, rfl⟩ := Option.map_eq_some'.mp h
    rw [e1]
    exact ⟨rfl, rfl, _, rfl, rfl, rfl⟩

theorem coll_toggle_keep (rnd : Nat → Nat) (c : coll_io_consts) (st : gen_state) (x : fval) :
    coll_keep (coll_toggle rnd c st x) = coll_keep st ∧
    (coll_toggle rnd c st x).file_event_list = st.file_event_list := by
  unfold coll_toggle
  split_ifs <;> exact ⟨rfl, rfl⟩

/-- One iteration of the I/O loop of a cycle with no independent operation left: a
collective operation is drawn, so one BARRIER and then reads or writes are stored. -/
theorem coll_io_body_collective (rnd : Nat → Nat) (c : coll_io_consts) (i : Int)
    (s s' : coll_loop_state) (hind : s.ind_io_ops_this_cycle = 0)
    (h : coll_io_body rnd c i s = some s') :
    s'.ind_io_ops_this_cycle = 0 ∧ coll_keep s'.st = coll_keep s.st ∧
    ∃ b l, s'.st.file_event_list = s.st.file_event_list ++ b :: l ∧
      b.type = event_type.BARRIER ∧ b.rank = s.st.file.rank ∧ all_io l := by
  unfold coll_io_body at h
  obtain ⟨sw, hsw, h⟩ := Option.bind_eq_some.mp h
  have hsw0 : sw = 0 := by
    unfold cdiv at hsw
    split_ifs at hsw
    rw [hind] at hsw
    simpa using hsw.symm
  subst hsw0
  obtain ⟨p, hp, h⟩ := Option.bind_eq_some.mp h
  rw [if_neg (by simpa using uniform_nonneg _)] at hp
  obtain ⟨p1, p2, b, p3, p4, p5⟩ := coll_pick_collective_shape c s _ p hp
  obtain ⟨r, hr, h⟩ := Option.bind_eq_some.mp h
  obtain ⟨r1, l, r2, r3⟩ := coll_io_ops_shape rnd c _ _ _ _ _ r hr
  obtain ⟨x, _, rfl⟩ := Option.map_eq_some'.mp h
  obtain ⟨t1, t2⟩ := coll_toggle_keep rnd c r.1 x
  refine ⟨by rw [← hind]; exact p2, ?_, b, l, ?_, p4, p5, r3⟩
  · show coll_keep (coll_toggle rnd c r.1 x) = _
    rw [t1, r1]
    exact p1
  · show (coll_toggle rnd c r.1 x).file_event_list = _
    rw [t2, r2]
    show p.st.file_event_list ++ l = _
    rw [p3]
    simp

/-- In a cycle without independent operations, `k` iterations of the I/O loop that all
complete store `k` BARRIER events, each followed by reads or writes only. -/
theorem coll_io_loop_collective (rnd : Nat → Nat) (c : coll_io_consts) :
    ∀ (k : Nat) (i : Int) (s s' : coll_loop_state), s.ind_io_ops_this_cycle = 0 →
    coll_io_loop rnd c k i s = some s' →
    coll_keep s'.st = coll_keep s.st ∧
    ∃ l, s'.st.file_event_list = s.st.file_event_list ++ l ∧ all_coll_io l ∧
      count_type event_type.BARRIER l = k := by
  intro k
  induction k with
  | zero =>
    intro i s s' _ h
    simp only [coll_io_loop, Option.some.injEq] at h
    subst h
    exact ⟨rfl, [], by simp, fun e he => (by cases he), rfl⟩
  | succ k ih =>
    intro i s s' hind h
    simp only [coll_io_loop] at h
    obtain ⟨z, hz, h⟩ := Option.bind_eq_some.mp h
    obtain ⟨a0, a1, b, l, a2, a3, _, a4⟩ := coll_io_body_collective rnd c i s z hind hz
    obtain ⟨b1, l2, b2, b3, b4⟩ := ih (i + 1) z s' a0 h
    refine ⟨by rw [b1, a1], b :: l ++ l2, by rw [b2, a2]; simp, fun x hx => ?_, ?_⟩
    · rcases List.mem_append.mp hx with h1 | h1
      · rcases List.mem_cons.mp h1 with h2 | h2
        · rw [h2]; exact Or.inl a3
        · exact Or.inr (a4 x h2)
      · exact b3 x h1
    · rw [count_type_append, b4]
      show count_type event_type.BARRIER ([b] ++ l) + k = k + 1
      rw [count_type_append, count_type_singleton, if_pos a3, count_type_barrier_all_io l a4]
      omega

theorem coll_keep_fields (a b : gen_state) (h : coll_keep a = coll_keep b) :
    a.file.rank = b.file.rank ∧ a.file.CP_POSIX_OPENS = b.file.CP_POSIX_OPENS ∧
    a.file.CP_COLL_OPENS = b.file.CP_COLL_OPENS ∧
    a.file.CP_INDEP_READS = b.file.CP_INDEP_READS ∧
    a.file.CP_INDEP_WRITES = b.file.CP_INDEP_WRITES := by
  unfold coll_keep at h
  simpa only [Prod.mk.injEq] using h

theorem coll_io_init_keep (nprocs agg : Int) (st st1 : gen_state)
    (h : coll_io_init nprocs agg st = some st1) :
    coll_keep st1 = coll_keep st ∧ st1.file_event_list = st.file_event_list := by
  unfold coll_io_init at h
  by_cases hrw : st.coll_rw = -1
  · rw [if_pos hrw] at h
    obtain ⟨a, _, h⟩ := Option.bind_eq_some.mp h
    obtain ⟨b, _, h⟩ := Option.bind_eq_some.mp h
    obtain ⟨n, _, rfl⟩ := Option.map_eq_some'.mp h
    exact ⟨rfl, rfl⟩
  · rw [if_neg hrw] at h
    cases h
    exact ⟨rfl, rfl⟩

theorem cdiv_eq (a b q : Int) (h : cdiv a b = some q) : q = Int.tdiv a b := by
  unfold cdiv at h
  split_ifs at h
  exact (Option.some.inj h).symm

/-- The I/O of the only cycle of a record opened once by every rank through a collective
open, with no independent read or write: the events are BARRIERs, READs and WRITEs, one
BARRIER for each of the `(CP_COLL_READS + CP_COLL_WRITES) / nprocs` collective operations. -/
theorem generate_psx_coll_io_events_collective (rnd : Nat → Nat) (nprocs agg : Int) (u : ℚ)
    (st : gen_state) (ndx : Int) (d m t : ℚ) (r : gen_state × ℚ)
    (hopens : st.file.CP_POSIX_OPENS = nprocs)
    (hco : st.file.CP_COLL_OPENS ≠ 0) (hir : st.file.CP_INDEP_READS = 0)
    (hiw : st.file.CP_INDEP_WRITES = 0)
    (hlo : -9007199254740992 < Int.tdiv (st.file.CP_COLL_READS + st.file.CP_COLL_WRITES) nprocs)
    (hhi : Int.tdiv (st.file.CP_COLL_READS + st.file.CP_COLL_WRITES) nprocs < 9007199254740992)
    (h : generate_psx_coll_io_events rnd nprocs agg u st ndx d m t = some r) :
    coll_keep r.1 = coll_keep st ∧
    ∃ l, r.1.file_event_list = st.file_event_list ++ l ∧ all_coll_io l ∧
      count_type event_type.BARRIER l =
        (Int.tdiv (st.file.CP_COLL_READS + st.file.CP_COLL_WRITES) nprocs).toNat := by
  unfold generate_psx_coll_io_events at h
  obtain ⟨tt, ht, h⟩ := Option.bind_eq_some.mp h
  unfold coll_io_totals at ht
  rw [if_pos hco] at ht
  obtain ⟨tc, htc, ht⟩ := Option.bind_eq_some.mp ht
  obtain ⟨rpa, _, rfl⟩ := Option.map_eq_some'.mp ht
  rw [← cdiv_eq _ _ _ htc] at hlo hhi ⊢
  simp only [hir, hiw, add_zero, zero_add, Int.cast_zero] at h
  by_cases hz : tc = 0
  · rw [if_pos hz] at h
    cases h
    exact ⟨rfl, [], by simp, fun e he => (by cases he), by rw [hz]; rfl⟩
  · rw [if_neg hz] at h
    obtain ⟨po, hpo, h⟩ := Option.bind_eq_some.mp h
    have hpo0 : po = 0 := by
      rw [(fdiv_eq_some hpo).2]
      exact fquo_zero_left _
    subst hpo0
    obtain ⟨cy, hcy, h⟩ := Option.bind_eq_some.mp h
    have hcy1 : cy = 1 := by
      rw [hopens] at hcy
      obtain ⟨hq, e⟩ := fdiv_eq_some hcy
      rw [e]
      exact fquo_self _ hq
    subst hcy1
    obtain ⟨ct, hct, h⟩ := Option.bind_eq_some.mp h
    have hct1 : ct = tc := by
      unfold ceil_qdiv at hct
      rw [if_neg one_ne_zero, fquo_intCast_one tc hlo hhi] at hct
      simpa using (Option.some.inj hct).symm
    subst hct1
    simp only [fmul_zero_left, Int.ceil_zero, zero_add] at h
    obtain ⟨st1, hst1, h⟩ := Option.bind_eq_some.mp h
    obtain ⟨i1, i2⟩ := coll_io_init_keep _ _ _ _ hst1
    obtain ⟨s, hs, h⟩ := Option.bind_eq_some.mp h
    obtain ⟨l1, l, l2, l3, l4⟩ := coll_io_loop_collective rnd _ _ _ _ s rfl hs
    obtain ⟨st2, hst2, rfl⟩ := Option.map_eq_some'.mp h
    have hso : s.st.file.CP_POSIX_OPENS ≤ nprocs := by
      rw [(coll_keep_fields _ _ l1).2.1]
      show st1.file.CP_POSIX_OPENS ≤ nprocs
      rw [(coll_keep_fields _ _ i1).2.1, hopens]
    unfold coll_io_finish at hst2
    simp only at hst2
    rw [if_pos hso] at hst2
    cases hst2
    refine ⟨?_, l, ?_, l3, l4⟩
    · show coll_keep s.st = _
      rw [l1]
      exact i1
    · show s.st.file_event_list = _
      rw [l2]
      show st1.file_event_list ++ l = _
      rw [i2]

/-- The single cycle of a Scenario B record: BARRIER, OPEN, the collective I/O, CLOSE. -/
theorem coll_full_cycle_scenario_b (rnd : Nat → Nat) (c : coll_cycle_params) (i cf : Int)
    (st : gen_state) (t : ℚ) (r : gen_state × ℚ × Int) (hx : c.extra_opens = 0)
    (hopens : st.file.CP_POSIX_OPENS = c.nprocs) (hco : st.file.CP_COLL_OPENS ≠ 0)
    (hir : st.file.CP_INDEP_READS = 0) (hiw : st.file.CP_INDEP_WRITES = 0)
    (hlo : -9007199254740992 <
      Int.tdiv (st.file.CP_COLL_READS + st.file.CP_COLL_WRITES) c.nprocs)
    (hhi : Int.tdiv (st.file.CP_COLL_READS + st.file.CP_COLL_WRITES) c.nprocs <
      9007199254740992)
    (h : coll_full_cycle rnd c i cf st t = some r) :
    r.1.file.CP_POSIX_OPENS = 0 ∧ r.1.file.CP_INDEP_READS = 0 ∧
    r.1.file.CP_INDEP_WRITES = 0 ∧
    ∃ b o io cl, r.1.file_event_list = st.file_event_list ++ b :: o :: (io ++ [cl]) ∧
      (b.type = event_type.BARRIER ∧ b.rank = st.file.rank) ∧
      (o.type = event_type.POSIX_OPEN ∧ o.rank = st.file.rank) ∧
      (cl.type = event_type.POSIX_CLOSE ∧ cl.rank = st.file.rank) ∧
      all_coll_io io ∧
      count_type event_type.BARRIER io =
        (Int.tdiv (st.file.CP_COLL_READS + st.file.CP_COLL_WRITES) c.nprocs).toNat := by
  unfold coll_full_cycle at h
  obtain ⟨r0, hr0, h⟩ := Option.bind_eq_some.mp h
  unfold coll_extra_open at hr0
  rw [if_neg (by simpa using hx)] at hr0
  cases hr0
  simp only at h
  obtain ⟨rb, hrb, h⟩ := Option.bind_eq_some.mp h
  rw [if_pos hco] at hrb
  unfold generate_barrier_event at hrb
  obtain ⟨sb, hsb, rfl⟩ := Option.map_eq_some'.mp hrb
  have eb := store_event_eq _ _ _ hsb
  obtain ⟨r1, hr1, h⟩ := Option.bind_eq_some.mp h
  unfold generate_psx_open_event at hr1
  obtain ⟨so, hso, rfl⟩ := Option.map_eq_some'.mp hr1
  have eo := store_event_eq _ _ _ hso
  obtain ⟨r2, hr2, h⟩ := Option.bind_eq_some.mp h
  have fo : so.file = st.file := by rw [eo]; show sb.file = _; rw [eb]
  obtain ⟨k, io, e2, a2, n2⟩ := generate_psx_coll_io_events_collective rnd _ _ _ so _ _ _ _ r2
    (by rw [fo]; exact hopens) (by rw [fo]; exact hco) (by rw [fo]; exact hir)
    (by rw [fo]; exact hiw) (by rw [fo]; exact hlo) (by rw [fo]; exact hhi) hr2
  obtain ⟨k1, k2, _, k4, k5⟩ := coll_keep_fields _ _ k
  rw [fo] at k1 k2 k4 k5 n2
  unfold generate_psx_close_event at h
  obtain ⟨r3, hr3, h⟩ := Option.map_eq_some'.mp h
  obtain ⟨sc, hsc, rfl⟩ := Option.map_eq_some'.mp hr3
  have ec := store_event_eq _ _ _ hsc
  subst h
  rw [ec]
  refine ⟨?_, ?_, ?_,
    { rank := st.file.rank, type := event_type.BARRIER, start_time := t,
      end_time := fadd t (round_double (1 / 1000000)),
      event_params := event_params.barrier (-1) 0 },
    { rank := sb.file.rank, type := event_type.POSIX_OPEN,
      start_time := fadd t (round_double (1 / 1000000)),
      end_time := fadd (fadd t (round_double (1 / 1000000))) c.meta_op_time,
      event_params := event_params.open sb.file.hash cf }, io,
    { rank := r2.1.file.rank, type := event_type.POSIX_CLOSE,
      start_time := fadd r2.2 (fmul c.pcts.close_pct c.delay_per_cycle),
      end_time := fadd (fadd r2.2 (fmul c.pcts.close_pct c.delay_per_cycle)) c.meta_op_time,
      event_params := event_params.close r2.1.file.hash },
    ?_, ⟨rfl, ?_⟩, ⟨rfl, ?_⟩, ⟨rfl, k1⟩, a2, n2⟩
  · show r2.1.file.CP_POSIX_OPENS - c.nprocs = 0
    rw [k2, hopens]
    omega
  · show r2.1.file.CP_INDEP_READS = 0
    rw [k4, hir]
  · show r2.1.file.CP_INDEP_WRITES = 0
    rw [k5, hiw]
  · show r2.1.file_event_list ++ [_] = _
    rw [e2, eo]
    show (sb.file_event_list ++ [_]) ++ io ++ [_] = _
    rw [eb]
    simp only [List.append_assoc, List.singleton_append]
    rfl
  · rfl
  · show sb.file.rank = _
    rw [eb]

theorem coll_cycle_setup_fields (nprocs agg : Int) (u : ℚ) (oc mo tio x : Int)
    (xs : Option Int) (file : darshan_file) (c : coll_cycle_params)
    (h : coll_cycle_setup nprocs agg u oc mo tio x xs file = some c) :
    c.nprocs = nprocs ∧ c.extra_opens = x := by
  unfold coll_cycle_setup at h
  obtain ⟨a1, _, h⟩ := Option.bind_eq_some.mp h
  obtain ⟨a2, _, h⟩ := Option.bind_eq_some.mp h
  obtain ⟨a3, _, h⟩ := Option.bind_eq_some.mp h
  obtain ⟨a4, _, h⟩ := Option.bind_eq_some.mp h
  obtain ⟨a5, _, rfl⟩ := Option.map_eq_some'.mp h
  exact ⟨rfl, rfl⟩

theorem scenario_b_two_reads_run :
    generate_psx_coll_file_events (fun _ => 0) 4 16 0 (fun f => f.CP_INDEP_OPENS)
      (initial_state scenario_b_two_reads 16) = some scenario_b_result := by
  decide!

/-- C11, as stated, fails: for the collective record `scenario_b_file` of a four-process
job (opens = nprocs = collective opens = 4, no independent operation, one collective read
per rank) the generator emits two BARRIER events, one before the OPEN and one before the
collective read. -/
theorem generate_psx_coll_file_events_two_barriers :
    scenario_b_file.rank = -1 ∧ scenario_b_file.CP_POSIX_OPENS = 4 ∧
    scenario_b_file.CP_COLL_OPENS = 4 ∧ scenario_b_file.CP_INDEP_OPENS = 0 ∧
    scenario_b_file.CP_INDEP_READS = 0 ∧ scenario_b_file.CP_INDEP_WRITES = 0 ∧
    ((generate_psx_coll_file_events (fun _ => 0) 4 16 0 (fun f => f.CP_INDEP_OPENS)
      (initial_state scenario_b_file 12)).map
      fun s => (s.file_event_list.map fun e => (e.type, e.rank),
        count_type event_type.BARRIER s.file_event_list)) =
    some ([(event_type.BARRIER, -1), (event_type.POSIX_OPEN, -1), (event_type.BARRIER, -1),
      (event_type.POSIX_READ, 0), (event_type.POSIX_READ, 0), (event_type.POSIX_READ, 0),
      (event_type.POSIX_READ, 0), (event_type.POSIX_CLOSE, -1)], 2) := by
  decide!

/-- C11, amended: for a collective record (rank -1) with opens = nprocs = collective opens,
no independent open, read or write, and a number of collective operations
`(CP_COLL_READS + CP_COLL_WRITES) / nprocs` below `2^53` in magnitude, every completed run of
`generate_psx_coll_file_events` appends one BARRIER of rank -1, one OPEN of rank -1, then
only BARRIER, READ and WRITE events, and last one CLOSE of rank -1.  The I/O part holds
one further BARRIER for each of the `(CP_COLL_READS + CP_COLL_WRITES) / nprocs` collective
operations, so no OPEN or CLOSE lies inside it, and no independent operation is issued:
the counters of independent reads and writes are still zero on exit, as is the open
count. -/
theorem generate_psx_coll_file_events_scenario_b (rnd : Nat → Nat) (nprocs agg : Int) (u : ℚ)
    (oc : darshan_file → Int) (st st' : gen_state) (hn : 1 ≤ nprocs)
    (hrank : st.file.rank = -1) (hopens : st.file.CP_POSIX_OPENS = nprocs)
    (hco : st.file.CP_COLL_OPENS = nprocs) (hio : st.file.CP_INDEP_OPENS = 0)
    (hir : st.file.CP_INDEP_READS = 0) (hiw : st.file.CP_INDEP_WRITES = 0)
    (hlo : -9007199254740992 < Int.tdiv (st.file.CP_COLL_READS + st.file.CP_COLL_WRITES) nprocs)
    (hhi : Int.tdiv (st.file.CP_COLL_READS + st.file.CP_COLL_WRITES) nprocs < 9007199254740992)
    (h : generate_psx_coll_file_events rnd nprocs agg u oc st = some st') :
    ∃ b o io cl, st'.file_event_list = st.file_event_list ++ b :: o :: (io ++ [cl]) ∧
      (b.type = event_type.BARRIER ∧ b.rank = -1) ∧
      (o.type = event_type.POSIX_OPEN ∧ o.rank = -1) ∧
      (cl.type = event_type.POSIX_CLOSE ∧ cl.rank = -1) ∧
      all_coll_io io ∧
      count_type event_type.BARRIER io =
        (Int.tdiv (st.file.CP_COLL_READS + st.file.CP_COLL_WRITES) nprocs).toNat ∧
      st'.file.CP_POSIX_OPENS = 0 ∧ st'.file.CP_INDEP_READS = 0 ∧
      st'.file.CP_INDEP_WRITES = 0 := by
  unfold generate_psx_coll_file_events at h
  rw [if_neg (by omega), if_neg (by rw [hopens, hco]; simp)] at h
  obtain ⟨a, ha, h⟩ := Option.bind_eq_some.mp h
  have hfile : ({ st.file with CP_POSIX_OPENS :=
      st.file.CP_POSIX_OPENS - st.file.CP_INDEP_OPENS } : darshan_file) = st.file := by
    rw [hio, sub_zero]
  unfold coll_adjust_opens at ha
  simp only at ha
  rw [if_pos (Or.inl (by omega)), if_neg (by rw [hopens, hco, hio]; simp), hfile] at ha
  cases ha
  simp only at h
  rw [if_neg (by omega)] at h
  obtain ⟨c, hc, h⟩ := Option.bind_eq_some.mp h
  obtain ⟨c1, c2⟩ := coll_cycle_setup_fields _ _ _ _ _ _ _ _ _ c hc
  obtain ⟨r, hr, rfl⟩ := Option.map_eq_some'.mp h
  unfold coll_cycles at hr
  rw [if_neg (show st.file.CP_POSIX_OPENS ≠ 0 by omega)] at hr
  simp only at hr
  obtain ⟨r1, hr1, hr⟩ := Option.bind_eq_some.mp hr
  unfold coll_cycle at hr1
  rw [if_pos (show st.file.CP_POSIX_OPENS ≥ c.nprocs by omega)] at hr1
  obtain ⟨f1, f2, f3, b, o, io, cl, e, hb, ho, hcl, hall, hcnt⟩ :=
    coll_full_cycle_scenario_b rnd c 0 _ st _ r1 (by rw [c2, hopens, hco, hio]; simp)
      (by rw [c1]; exact hopens) (by omega) hir hiw (by rw [c1]; exact hlo)
      (by rw [c1]; exact hhi) hr1
  unfold coll_cycles at hr
  rw [if_pos f1] at hr
  cases hr
  rw [hrank] at hb ho hcl
  rw [c1] at hcnt
  exact ⟨b, o, io, cl, e, hb, ho, hcl, hall, hcnt, f1, f2, f3⟩

theorem generate_psx_coll_file_events_scenario_b_witness :
    ∃ b o io cl, scenario_b_result.file_event_list = [] ++ b :: o :: (io ++ [cl]) ∧
      (b.type = event_type.BARRIER ∧ b.rank = -1) ∧
      (o.type = event_type.POSIX_OPEN ∧ o.rank = -1) ∧
      (cl.type = event_type.POSIX_CLOSE ∧ cl.rank = -1) ∧
      all_coll_io io ∧
      count_type event_type.BARRIER io = (Int.tdiv (8 + 0) 4).toNat ∧
      scenario_b_result.file.CP_POSIX_OPENS = 0 ∧
      scenario_b_result.file.CP_INDEP_READS = 0 ∧
      scenario_b_result.file.CP_INDEP_WRITES = 0 :=
  generate_psx_coll_file_events_scenario_b (fun _ => 0) 4 16 0 (fun f => f.CP_INDEP_OPENS)
    (initial_state scenario_b_two_reads 16) scenario_b_result (by decide) rfl rfl rfl rfl rfl
    rfl (by decide) (by decide) scenario_b_two_reads_run

/-! ## I/O parameter synthesizer: abort condition, sequential flag and offsets -/

/-- The steps of a returning call of `determine_io_params`. -/
theorem determine_io_params_steps (rnd : Nat → Nat) (st st' : gen_state) (w c k : Int)
    (sz : Nat) (off : Int) (h : determine_io_params rnd st w c k = some (st', sz, off)) :
    ∃ st2 st3, init_seq_flag (init_all_common_flag st) w = some st2 ∧
      choose_io_size st2 w k = some (st3, sz) ∧
      st' = reset_io_statics (choose_io_offset rnd (account_io_size st3 w sz) w sz).1 ∧
      off = (choose_io_offset rnd (account_io_size st3 w sz) w sz).2 := by
  unfold determine_io_params at h
  obtain ⟨r, h1, h2⟩ := Option.map_eq_some'.mp h
  obtain ⟨st3, sz3⟩ := r
  unfold determine_io_size at h1
  obtain ⟨st2, h3, h4⟩ := Option.bind_eq_some.mp h1
  unfold determine_io_offset at h2
  simp only [Prod.mk.injEq] at h2
  obtain ⟨e1, e2, e3⟩ := h2
  subst e2
  exact ⟨st2, st3, h3, h4, e1.symm, e3.symm⟩

theorem set_common_draw_offset_inputs (st : gen_state) (w : Int) (d : common_draw) :
    offset_inputs (set_common_draw st w d) = offset_inputs st := by
  unfold set_common_draw
  split_ifs <;> rfl

theorem choose_io_size_offset_inputs (st st' : gen_state) (w k : Int) (sz : Nat)
    (h : choose_io_size st w k = some (st', sz)) : offset_inputs st' = offset_inputs st := by
  unfold choose_io_size at h
  simp only at h
  split_ifs at h <;> cases h <;> first | rfl | exact set_common_draw_offset_inputs _ _ _

theorem account_io_size_offset_inputs (st : gen_state) (w : Int) (sz : Nat) :
    offset_inputs (account_io_size st w sz) = offset_inputs st := by
  unfold account_io_size
  split_ifs <;> rfl

theorem offset_inputs_fields (a b : gen_state) (h : offset_inputs a = offset_inputs b)
    (w : Int) :
    seq_flag_of a w = seq_flag_of b w ∧ next_off_of a w = next_off_of b w ∧
    last_io_byte a w = last_io_byte b w ∧
    a.file.CP_POSIX_READS + a.file.CP_POSIX_WRITES =
      b.file.CP_POSIX_READS + b.file.CP_POSIX_WRITES ∧ a.rand_cnt = b.rand_cnt := by
  unfold offset_inputs at h
  simp only [Prod.mk.injEq] at h
  obtain ⟨h1, h2, h3, h4, h5, h6, h7, h8, h9⟩ := h
  unfold seq_flag_of next_off_of last_io_byte
  rw [h1, h2, h3, h4, h5, h6, h7, h8, h9]
  exact ⟨rfl, rfl, rfl, rfl, rfl⟩

/-- The offset chosen at source lines 1556-1583, by the flag, cursor and last byte of the
requested direction. -/
theorem choose_io_offset_snd (rnd : Nat → Nat) (x : gen_state) (w : Int) (sz : Nat) :
    (choose_io_offset rnd x w sz).2 =
      if sz = 0 then last_io_byte x w + 1
      else if seq_flag_of x w ≠ 0 then s64 (seq_offset (next_off_of x w) sz (last_io_byte x w))
      else if sz < u64 (last_io_byte x w) then
        s64 (rnd x.rand_cnt % (u64 (last_io_byte x w) - sz))
      else 0 := by
  unfold choose_io_offset seq_flag_of next_off_of
  by_cases hs : sz = 0
  · rw [if_pos hs, if_pos hs]
  · rw [if_neg hs, if_neg hs]
    by_cases hw : w ≠ 0
    · rw [if_pos hw, if_pos hw]
      by_cases hf : x.seq_wr_flag ≠ 0
      · rw [if_pos ⟨hw, hf⟩, if_pos hf]
      · rw [if_neg (fun hh => hf hh.2), if_neg (fun hh => hw hh.1), if_neg hf]
        split_ifs <;> rfl
    · rw [if_neg hw, if_neg hw, if_neg (fun hh => hw hh.1)]
      have hw0 : w = 0 := not_not.mp hw
      by_cases hf : x.seq_rd_flag ≠ 0
      · rw [if_pos ⟨hw0, hf⟩, if_pos hf]
      · rw [if_neg (fun hh => hf hh.2), if_neg hf]
        split_ifs <;> rfl

/-- The cursor of the requested direction after the choice of the offset. -/
theorem choose_io_offset_cursor (rnd : Nat → Nat) (x : gen_state) (w : Int) (sz : Nat)
    (hs : sz ≠ 0) (hf : seq_flag_of x w ≠ 0) :
    next_off_of (choose_io_offset rnd x w sz).1 w =
      (seq_offset (next_off_of x w) sz (last_io_byte x w) + sz) % 18446744073709551616 := by
  by_cases hw : w ≠ 0
  · have hf1 : x.seq_wr_flag ≠ 0 := by
      unfold seq_flag_of at hf; rwa [if_pos hw] at hf
    unfold next_off_of
    rw [if_pos hw, if_pos hw]
    unfold choose_io_offset
    rw [if_neg hs, if_pos (And.intro hw hf1)]
  · have hf1 : x.seq_rd_flag ≠ 0 := by
      unfold seq_flag_of at hf; rwa [if_neg hw] at hf
    unfold next_off_of
    rw [if_neg hw, if_neg hw]
    unfold choose_io_offset
    rw [if_neg hs, if_neg (fun hh : w ≠ 0 ∧ x.seq_wr_flag ≠ 0 => hw hh.1),
      if_pos (And.intro (not_not.mp hw) hf1)]

theorem init_all_common_flag_offset_inputs (st : gen_state) :
    offset_inputs (init_all_common_flag st) = offset_inputs st ∧
    (init_all_common_flag st).file = st.file := by
  unfold init_all_common_flag
  split_ifs <;> exact ⟨rfl, rfl⟩

/-- The initialisation of the sequential flag leaves the record, the cursors and the
`rand()` position alone. -/
theorem init_seq_flag_cursor (st st' : gen_state) (w : Int)
    (h : init_seq_flag st w = some st') :
    st'.file = st.file ∧ next_off_of st' w = next_off_of st w ∧ st'.rand_cnt = st.rand_cnt ∧
    st'.all_common_flag = st.all_common_flag := by
  unfold init_seq_flag at h
  unfold next_off_of
  split_ifs at h
  · obtain ⟨f, _, rfl⟩ := Option.map_eq_some'.mp h; exact ⟨rfl, rfl, rfl, rfl⟩
  · cases h; exact ⟨rfl, rfl, rfl, rfl⟩
  · obtain ⟨f, _, rfl⟩ := Option.map_eq_some'.mp h; exact ⟨rfl, rfl, rfl, rfl⟩
  · cases h; exact ⟨rfl, rfl, rfl, rfl⟩

/-- The size, offset and final state of a returning call, by the inputs of the call: the
size is chosen by `choose_io_size` on the state with initialised flags, the offset by the
rule of source lines 1556-1583 on the flag `f` of the direction after initialisation. -/
theorem determine_io_params_offset (rnd : Nat → Nat) (st st' : gen_state) (w c k : Int)
    (sz : Nat) (off : Int) (h : determine_io_params rnd st w c k = some (st', sz, off)) :
    ∃ f, seq_flag_after st w = some f ∧
      off = (if sz = 0 then last_io_byte st w + 1
        else if f ≠ 0 then s64 (seq_offset (next_off_of st w) sz (last_io_byte st w))
        else if sz < u64 (last_io_byte st w) then
          s64 (rnd st.rand_cnt % (u64 (last_io_byte st w) - sz))
        else 0) ∧
      (st.file.CP_POSIX_READS + st.file.CP_POSIX_WRITES = 1 →
        st'.statics = initial_io_statics) ∧
      (st.file.CP_POSIX_READS + st.file.CP_POSIX_WRITES ≠ 1 →
        seq_flag_of st' w = f ∧
        (sz ≠ 0 → f ≠ 0 → next_off_of st' w =
          (seq_offset (next_off_of st w) sz (last_io_byte st w) + sz)
            % 18446744073709551616)) := by
  obtain ⟨st2, st3, h1, h2, h3, h4⟩ := determine_io_params_steps rnd st st' w c k sz off h
  obtain ⟨i1, i2⟩ := init_all_common_flag_offset_inputs st
  obtain ⟨a1, a2, a3, a4, a5⟩ := offset_inputs_fields _ _
    ((account_io_size_offset_inputs st3 w sz).trans (choose_io_size_offset_inputs _ _ _ _ _ h2)) w
  obtain ⟨b1, b2, b3, _⟩ := init_seq_flag_cursor _ _ _ h1
  obtain ⟨_, c2, _, _, _⟩ := offset_inputs_fields _ _ i1 w
  have hlast : last_io_byte (account_io_size st3 w sz) w = last_io_byte st w := by
    rw [a3]; unfold last_io_byte; rw [b1, i2]
  have hnext : next_off_of (account_io_size st3 w sz) w = next_off_of st w := by
    rw [a2, b2, c2]
  have hrand : (account_io_size st3 w sz).rand_cnt = st.rand_cnt := by
    rw [a5, b3]; exact (offset_inputs_fields _ _ i1 w).2.2.2.2
  have hops : (account_io_size st3 w sz).file.CP_POSIX_READS +
      (account_io_size st3 w sz).file.CP_POSIX_WRITES =
      st.file.CP_POSIX_READS + st.file.CP_POSIX_WRITES := by
    rw [a4, b1, i2]
  have hfile : ∀ y : gen_state, (choose_io_offset rnd y w sz).1.file = y.file := by
    intro y; unfold choose_io_offset; split_ifs <;> rfl
  refine ⟨seq_flag_of st2 w, ?_, ?_, ?_, ?_⟩
  · unfold seq_flag_after; rw [h1]; rfl
  · rw [h4, choose_io_offset_snd, hlast, hnext, hrand, a1]
  · intro h1'
    rw [h3]
    unfold reset_io_statics
    rw [hfile, if_pos (hops.trans h1')]
    rfl
  · intro hn
    rw [h3]
    unfold reset_io_statics
    rw [hfile, if_neg (fun hh => hn (hops.symm.trans hh))]
    constructor
    · rw [← a1]
      unfold choose_io_offset seq_flag_of
      split_ifs <;> rfl
    · intro hs hf
      rw [choose_io_offset_cursor rnd _ w sz hs (by rw [a1]; exact hf), hlast, hnext]

theorem choose_io_size_last_op (st st' : gen_state) (w k : Int) (sz : Nat)
    (h1 : st.file.CP_POSIX_READS + st.file.CP_POSIX_WRITES = 1)
    (h : choose_io_size st w k = some (st', sz)) : sz = u64 (total_io_size st w) := by
  unfold choose_io_size at h
  rw [if_pos (Or.inr h1)] at h
  simp only [Option.some.injEq, Prod.mk.injEq] at h
  exact h.2.symm

/-- The size returned for the last remaining operation of the file is the whole remaining
byte total of the requested direction. -/
theorem determine_io_params_last_size (rnd : Nat → Nat) (st st' : gen_state) (w c k : Int)
    (sz : Nat) (off : Int)
    (h1 : st.file.CP_POSIX_READS + st.file.CP_POSIX_WRITES = 1)
    (h : determine_io_params rnd st w c k = some (st', sz, off)) :
    sz = u64 (total_io_size st w) := by
  obtain ⟨st2, st3, s1, s2, _, _⟩ := determine_io_params_steps rnd st st' w c k sz off h
  obtain ⟨b1, _, _, _⟩ := init_seq_flag_cursor _ _ _ s1
  obtain ⟨_, i2⟩ := init_all_common_flag_offset_inputs st
  have e := choose_io_size_last_op st2 st3 w k sz (by rw [b1, i2]; exact h1) s2
  rw [e]
  unfold total_io_size
  rw [b1, i2]

/-- C22, as stated, fails: `one_read_file` has one read left (reads + writes = 1), 2048
bytes to read and the last byte read at 2047; the call returns the size 2048 and the
offset 0, not the end of file 2047 + 1. -/
theorem determine_io_params_last_op_offset_zero :
    one_read_file.CP_POSIX_READS + one_read_file.CP_POSIX_WRITES = 1 ∧
    (determine_io_params (fun _ => 0) (initial_state one_read_file 3) 0 0 1).map
      (fun r => (r.2.1, r.2.2)) = some (2048, 0) ∧
    last_io_byte (initial_state one_read_file 3) 0 + 1 = 2048 := by
  decide!

/-- C22, amended: a returning call of `determine_io_params` made for the last remaining
read or write of the file (reads + writes = 1 on entry) returns as size the whole
remaining byte total of the requested direction; when that size is 0 the offset is the
last byte touched plus one, and otherwise the offset is chosen by the rule for a non-zero
size: the sequential cursor (0 after a wrap) when the direction is flagged sequential, a
random offset below `last byte - size` when the size is below the last byte, else 0. -/
theorem determine_io_params_last_op (rnd : Nat → Nat) (st st' : gen_state) (w c k : Int)
    (sz : Nat) (off : Int)
    (h1 : st.file.CP_POSIX_READS + st.file.CP_POSIX_WRITES = 1)
    (h : determine_io_params rnd st w c k = some (st', sz, off)) :
    sz = u64 (total_io_size st w) ∧
    (sz = 0 → off = last_io_byte st w + 1) ∧
    (sz ≠ 0 → ∃ f, seq_flag_after st w = some f ∧
      (f ≠ 0 → off = s64 (seq_offset (next_off_of st w) sz (last_io_byte st w))) ∧
      (f = 0 → sz < u64 (last_io_byte st w) →
        off = s64 (rnd st.rand_cnt % (u64 (last_io_byte st w) - sz))) ∧
      (f = 0 → ¬ sz < u64 (last_io_byte st w) → off = 0)) := by
  obtain ⟨f, hf, hoff, _, _⟩ := determine_io_params_offset rnd st st' w c k sz off h
  refine ⟨determine_io_params_last_size rnd st st' w c k sz off h1 h, ?_, ?_⟩
  · intro hz
    rw [hoff, if_pos hz]
  · intro hz
    rw [if_neg hz] at hoff
    refine ⟨f, hf, ?_, ?_, ?_⟩
    · intro hf1; rw [hoff, if_pos hf1]
    · intro hf0 hlt; rw [hoff, if_neg (not_not.mpr hf0), if_pos hlt]
    · intro hf0 hlt; rw [hoff, if_neg (not_not.mpr hf0), if_neg hlt]

theorem determine_io_params_last_op_witness :
    one_read_result.2.1 = u64 (total_io_size (initial_state one_read_file 3) 0) ∧
    (one_read_result.2.1 = 0 →
      one_read_result.2.2 = last_io_byte (initial_state one_read_file 3) 0 + 1) ∧
    (one_read_result.2.1 ≠ 0 → ∃ f, seq_flag_after (initial_state one_read_file 3) 0 = some f ∧
      (f ≠ 0 → one_read_result.2.2 = s64 (seq_offset
        (next_off_of (initial_state one_read_file 3) 0) one_read_result.2.1
        (last_io_byte (initial_state one_read_file 3) 0))) ∧
      (f = 0 → one_read_result.2.1 < u64 (last_io_byte (initial_state one_read_file 3) 0) →
        one_read_result.2.2 = s64 ((fun _ => 0) (initial_state one_read_file 3).rand_cnt %
          (u64 (last_io_byte (initial_state one_read_file 3) 0) - one_read_result.2.1))) ∧
      (f = 0 → ¬ one_read_result.2.1 < u64 (last_io_byte (initial_state one_read_file 3) 0) →
        one_read_result.2.2 = 0)) :=
  determine_io_params_last_op (fun _ => 0) (initial_state one_read_file 3) one_read_result.1
    0 0 1 one_read_result.2.1 one_read_result.2.2 (by decide) one_read_file_run.1

/-- A returning call made when one read or write remains leaves the statics in their
initial state. -/
theorem determine_io_params_resets (rnd : Nat → Nat) (st st' : gen_state) (w c k : Int)
    (sz : Nat) (off : Int)
    (h1 : st.file.CP_POSIX_READS + st.file.CP_POSIX_WRITES = 1)
    (h : determine_io_params rnd st w c k = some (st', sz, off)) :
    st'.statics = initial_io_statics := by
  obtain ⟨f, _, _, hr, _⟩ := determine_io_params_offset rnd st st' w c k sz off h
  exact hr h1

/-- The sequential offset in integers: within the `int64_t` range of the last byte and
the `uint64_t` range of the cursor, for a size `0 < sz ≤ last + 1`. -/
theorem seq_offset_bound (cur sz : Nat) (last : Int) (hs : 0 < sz)
    (hle : (sz : Int) ≤ last + 1) (hr : last + 1 < 9223372036854775808)
    (hc : cur < 18446744073709551616) :
    s64 (seq_offset cur sz last) + sz ≤ last + 1 ∧
    (s64 (seq_offset cur sz last) = s64 cur ∨ s64 (seq_offset cur sz last) = 0) ∧
    ((cur : Int) + sz ≤ last + 1 → s64 (seq_offset cur sz last) = cur) ∧
    (cur + sz < 18446744073709551616 → last + 1 < (cur : Int) + sz →
      s64 (seq_offset cur sz last) = 0) ∧
    (((seq_offset cur sz last + sz) % 18446744073709551616 : Nat) : Int) =
      s64 (seq_offset cur sz last) + sz := by
  have hu : (u64 (last + 1) : Int) = last + 1 := by
    unfold u64; omega
  unfold seq_offset
  by_cases hw : (cur + sz) % 18446744073709551616 > u64 (last + 1)
  · rw [if_pos hw]
    have h0 : s64 0 = 0 := by unfold s64; norm_num
    rw [h0]
    refine ⟨by omega, Or.inr rfl, ?_, fun _ _ => rfl, by omega⟩
    intro h; omega
  · rw [if_neg hw]
    have hw1 : (((cur + sz) % 18446744073709551616 : Nat) : Int) ≤ last + 1 := by
      rw [← hu]; omega
    by_cases hlt : cur < 9223372036854775808
    · have e : s64 cur = cur := by unfold s64; split_ifs <;> omega
      rw [e]
      refine ⟨by omega, Or.inl rfl, fun _ => rfl, ?_, by omega⟩
      intro h1 h2; omega
    · have e : s64 cur = cur - 18446744073709551616 := by unfold s64; split_ifs <;> omega
      rw [e]
      refine ⟨by omega, Or.inl rfl, ?_, ?_, by omega⟩
      · intro h; omega
      · intro h1 h2; omega

theorem seq_read_file_run :
    determine_io_params (fun _ => 5) (initial_state seq_read_file 3) 0 0 1 =
      some (seq_read_first.1, seq_read_first.2.1, seq_read_first.2.2) ∧
    seq_read_first.2.1 = 10 ∧ seq_read_first.2.2 = 0 ∧
    seq_flag_after (initial_state seq_read_file 3) 0 = some 1 := by
  decide!

/-- C24: in sequential mode (the flag `f` the call uses for the requested direction is
non-zero), with the last byte in the `int64_t` range and the cursor in the `uint64_t`
range, every returning call with a size `0 < sz ≤ last byte + 1` returns an offset with
`offset + sz ≤ last byte + 1`.  The offset is the cursor of the direction (the previous
offset plus the previous size) when `cursor + sz` does not exceed `last byte + 1`, and 0
when it does; the cursor left for the next call is `offset + sz`, or 0 after the reset on
the last operation of the file. -/
theorem determine_io_params_sequential (rnd : Nat → Nat) (st st' : gen_state) (w c k : Int)
    (sz : Nat) (off f : Int) (hmode : seq_flag_after st w = some f) (hf : f ≠ 0)
    (hs : 0 < sz) (hle : (sz : Int) ≤ last_io_byte st w + 1)
    (hr : last_io_byte st w + 1 < 9223372036854775808)
    (hc : next_off_of st w < 18446744073709551616)
    (h : determine_io_params rnd st w c k = some (st', sz, off)) :
    off + sz ≤ last_io_byte st w + 1 ∧
    (off = s64 (next_off_of st w) ∨ off = 0) ∧
    ((next_off_of st w : Int) + sz ≤ last_io_byte st w + 1 → off = next_off_of st w) ∧
    (next_off_of st w + sz < 18446744073709551616 →
      last_io_byte st w + 1 < (next_off_of st w : Int) + sz → off = 0) ∧
    (st.file.CP_POSIX_READS + st.file.CP_POSIX_WRITES ≠ 1 →
      (next_off_of st' w : Int) = off + sz) ∧
    (st.file.CP_POSIX_READS + st.file.CP_POSIX_WRITES = 1 → next_off_of st' w = 0) := by
  obtain ⟨f1, hf1, hoff, hreset, hkeep⟩ := determine_io_params_offset rnd st st' w c k sz off h
  rw [hmode] at hf1
  cases hf1
  rw [if_neg (by omega), if_pos hf] at hoff
  obtain ⟨b1, b2, b3, b4, b5⟩ := seq_offset_bound (next_off_of st w) sz (last_io_byte st w) hs
    hle hr hc
  rw [← hoff] at b1 b2 b3 b4 b5
  refine ⟨b1, b2, b3, b4, ?_, ?_⟩
  · intro hn
    rw [(hkeep hn).2 (by omega) hf]
    exact b5
  · intro h1
    have e := hreset h1
    unfold next_off_of
    split_ifs
    · exact congrArg io_statics.next_wr_off e
    · exact congrArg io_statics.next_rd_off e

theorem determine_io_params_sequential_witness :
    seq_read_first.2.2 + (10 : Nat) ≤ last_io_byte (initial_state seq_read_file 3) 0 + 1 ∧
    (seq_read_first.2.2 = s64 (next_off_of (initial_state seq_read_file 3) 0) ∨
      seq_read_first.2.2 = 0) ∧
    ((next_off_of (initial_state seq_read_file 3) 0 : Int) + (10 : Nat) ≤
        last_io_byte (initial_state seq_read_file 3) 0 + 1 →
      seq_read_first.2.2 = next_off_of (initial_state seq_read_file 3) 0) ∧
    (next_off_of (initial_state seq_read_file 3) 0 + 10 < 18446744073709551616 →
      last_io_byte (initial_state seq_read_file 3) 0 + 1 <
        (next_off_of (initial_state seq_read_file 3) 0 : Int) + (10 : Nat) →
      seq_read_first.2.2 = 0) ∧
    ((initial_state seq_read_file 3).file.CP_POSIX_READS +
        (initial_state seq_read_file 3).file.CP_POSIX_WRITES ≠ 1 →
      (next_off_of seq_read_first.1 0 : Int) = seq_read_first.2.2 + (10 : Nat)) ∧
    ((initial_state seq_read_file 3).file.CP_POSIX_READS +
        (initial_state seq_read_file 3).file.CP_POSIX_WRITES = 1 →
      next_off_of seq_read_first.1 0 = 0) :=
  determine_io_params_sequential (fun _ => 5) (initial_state seq_read_file 3) seq_read_first.1
    0 0 1 10 seq_read_first.2.2 1 seq_read_file_run.2.2.2 (by decide) (by decide) (by decide)
    (by decide) (by decide) (seq_read_file_run.2.1 ▸ seq_read_file_run.1)

theorem random_read_file_run :
    determine_io_params (fun _ => 1234) (initial_state random_read_file 3) 0 0 1 =
      some (random_read_first.1, random_read_first.2.1, random_read_first.2.2) ∧
    random_read_first.2.1 = 10 ∧
    seq_flag_after (initial_state random_read_file 3) 0 = some 0 := by
  decide!

/-- A negative last byte, which no record of a log carries: the comparison
`*io_sz < last_io_byte` is made in `uint64_t`, where -2 is a large value, so the random
branch is taken; the size 10 is not below the last byte -2 and the offset is 5. -/
theorem determine_io_params_negative_last_byte :
    seq_flag_after (initial_state negative_last_byte_file 3) 0 = some 0 ∧
    last_io_byte (initial_state negative_last_byte_file 3) 0 = -2 ∧
    (determine_io_params (fun _ => 5) (initial_state negative_last_byte_file 3) 0 0 1).map
      (fun r => (r.2.1, r.2.2)) = some (10, 5) ∧
    ((10 : Nat) : Int) ≥ -2 ∧ (5 : Int) ≠ 0 := by
  decide!

/-- C25: in non-sequential mode (the flag the call uses for the requested direction is 0),
for a last byte in the range of the counters (not negative, below `2^63`), for every random
draw and every returning call with a size `sz > 0`: when `sz` is below the last byte the
modulus `last byte - sz` is non-zero and the offset is the draw modulo it, so `0 ≤ offset`
and `offset + sz < last byte`; when `sz` is not below the last byte the offset is 0. -/
theorem determine_io_params_random_offset (rnd : Nat → Nat) (st st' : gen_state)
    (w c k : Int) (sz : Nat) (off : Int) (hmode : seq_flag_after st w = some 0)
    (hs : 0 < sz) (hr : last_io_byte st w < 9223372036854775808)
    (h : determine_io_params rnd st w c k = some (st', sz, off)) :
    ((sz : Int) < last_io_byte st w →
      last_io_byte st w - sz ≠ 0 ∧
      off = (rnd st.rand_cnt : Int) % (last_io_byte st w - sz) ∧
      0 ≤ off ∧ off + sz < last_io_byte st w) ∧
    (0 ≤ last_io_byte st w → last_io_byte st w ≤ sz → off = 0) := by
  obtain ⟨f1, hf1, hoff, _, _⟩ := determine_io_params_offset rnd st st' w c k sz off h
  rw [hmode] at hf1
  cases hf1
  rw [if_neg (by omega), if_neg (by simp)] at hoff
  constructor
  · intro hlt
    have hu : (u64 (last_io_byte st w) : Int) = last_io_byte st w := by
      unfold u64; omega
    have hlt1 : sz < u64 (last_io_byte st w) := by omega
    rw [if_pos hlt1] at hoff
    have hm : ((rnd st.rand_cnt % (u64 (last_io_byte st w) - sz) : Nat) : Int) =
        (rnd st.rand_cnt : Int) % (last_io_byte st w - sz) := by
      rw [Int.natCast_mod, Nat.cast_sub (le_of_lt hlt1), hu]
    have hpos : 0 < u64 (last_io_byte st w) - sz := by omega
    have hb := Nat.mod_lt (rnd st.rand_cnt) hpos
    have e : off = ((rnd st.rand_cnt % (u64 (last_io_byte st w) - sz) : Nat) : Int) := by
      rw [hoff]; unfold s64; split_ifs <;> omega
    refine ⟨by omega, by rw [e, hm], by omega, by omega⟩
  · intro h0 hge
    have hu : (u64 (last_io_byte st w) : Int) = last_io_byte st w := by
      unfold u64; omega
    rw [if_neg (by omega)] at hoff
    exact hoff

theorem determine_io_params_random_offset_witness :
    (((10 : Nat) : Int) < last_io_byte (initial_state random_read_file 3) 0 →
      last_io_byte (initial_state random_read_file 3) 0 - (10 : Nat) ≠ 0 ∧
      random_read_first.2.2 =
        (((fun _ => 1234) (initial_state random_read_file 3).rand_cnt : Nat) : Int) %
          (last_io_byte (initial_state random_read_file 3) 0 - (10 : Nat)) ∧
      0 ≤ random_read_first.2.2 ∧
      random_read_first.2.2 + (10 : Nat) < last_io_byte (initial_state random_read_file 3) 0) ∧
    (0 ≤ last_io_byte (initial_state random_read_file 3) 0 →
      last_io_byte (initial_state random_read_file 3) 0 ≤ (10 : Nat) →
      random_read_first.2.2 = 0) :=
  determine_io_params_random_offset (fun _ => 1234) (initial_state random_read_file 3)
    random_read_first.1 0 0 1 10 random_read_first.2.2 random_read_file_run.2.2 (by decide)
    (by decide) (random_read_file_run.2.1 ▸ random_read_file_run.1)

/-- The truncating quotient of the sequential test against the ceiling the specification
writes, for a non-negative byte total and last byte: one less than the ceiling, except
when `0 < total ≤ last`, where both are 0. -/
theorem seq_quotient_ceil (total last : Int) (ht : 0 ≤ total) (hl : 0 ≤ last) :
    Int.tdiv (total - last - 1) (last + 1) =
      if 0 < total ∧ total ≤ last then
        Int.ceil (((total - last : Int) : ℚ) / ((last + 1 : Int) : ℚ))
      else Int.ceil (((total - last : Int) : ℚ) / ((last + 1 : Int) : ℚ)) - 1 := by
  have hb : (0 : ℚ) < ((last + 1 : Int) : ℚ) := by exact_mod_cast (by omega : 0 < last + 1)
  by_cases hn : 0 ≤ total - last - 1
  · rw [if_neg (by omega), Int.tdiv_eq_ediv hn (by omega)]
    have h1 := Int.ediv_mul_le (total - last - 1) (by omega : last + 1 ≠ 0)
    have h2 := Int.lt_ediv_add_one_mul_self (total - last - 1) (by omega : 0 < last + 1)
    have h1q : (((total - last - 1) / (last + 1) : Int) : ℚ) * ((last + 1 : Int) : ℚ) ≤
        ((total - last - 1 : Int) : ℚ) := by exact_mod_cast h1
    have h2i : total - last ≤ ((total - last - 1) / (last + 1) + 1) * (last + 1) := by
      linarith
    have h2q : ((total - last : Int) : ℚ) ≤
        ((((total - last - 1) / (last + 1) : Int) : ℚ) + 1) * ((last + 1 : Int) : ℚ) := by
      exact_mod_cast h2i
    have hc : Int.ceil (((total - last : Int) : ℚ) / ((last + 1 : Int) : ℚ)) =
        (total - last - 1) / (last + 1) + 1 := by
      rw [Int.ceil_eq_iff, lt_div_iff₀ hb, div_le_iff₀ hb]
      push_cast at h1q h2q ⊢
      constructor <;> linarith
    rw [hc]
    omega
  · have hc : Int.ceil (((total - last : Int) : ℚ) / ((last + 1 : Int) : ℚ)) = 0 := by
      rw [Int.ceil_eq_iff, lt_div_iff₀ hb, div_le_iff₀ hb]
      have h3 : ((total : Int) : ℚ) ≤ ((last : Int) : ℚ) := by exact_mod_cast (by omega : total ≤ last)
      have h4 : (0 : ℚ) ≤ ((total : Int) : ℚ) := by exact_mod_cast ht
      push_cast
      constructor <;> linarith
    rw [hc]
    by_cases h0 : total = 0
    · rw [if_neg (by omega), h0]
      have e : (0 : Int) - last - 1 = -(last + 1) := by ring
      rw [e, Int.neg_tdiv, Int.tdiv_self (by omega : last + 1 ≠ 0)]
      rfl
    · rw [if_pos (by omega)]
      have e : total - last - 1 = -(last + 1 - total) := by ring
      rw [e, Int.neg_tdiv, Int.tdiv_eq_zero_of_lt (by omega) (by omega)]
      rfl

/-- The flag the first call for a direction computes (source lines 1451-1463 and
1471-1483), when the last byte is not -1. -/
theorem seq_flag_after_first (st : gen_state) (w : Int) (hfirst : seq_flag_of st w = -1)
    (hl : last_io_byte st w + 1 ≠ 0) :
    seq_flag_after st w =
      some (if ops_of st.file w -
          Int.tdiv (total_io_size st w - last_io_byte st w - 1) (last_io_byte st w + 1) - 1 =
          seq_count_of st.file w then 1 else 0) := by
  obtain ⟨_, i2⟩ := init_all_common_flag_offset_inputs st
  have hflag : seq_flag_of (init_all_common_flag st) w = -1 := by
    rw [← hfirst]
    unfold init_all_common_flag seq_flag_of
    split_ifs <;> rfl
  have htot : total_io_size (init_all_common_flag st) w = total_io_size st w := by
    unfold total_io_size; rw [i2]
  have hlast : last_io_byte (init_all_common_flag st) w = last_io_byte st w := by
    unfold last_io_byte; rw [i2]
  unfold seq_flag_after init_seq_flag
  unfold seq_flag_of at hflag
  by_cases hw : w ≠ 0
  · rw [if_pos hw] at hflag
    rw [if_pos hw, if_pos hflag, htot, hlast, i2]
    unfold seq_flag_init ops_of seq_count_of seq_flag_of
    rw [if_neg hl, if_pos hw, if_pos hw]
    split_ifs <;> simp [hw]
  · rw [if_neg hw] at hflag
    rw [if_neg hw, if_pos hflag, htot, hlast, i2]
    unfold seq_flag_init ops_of seq_count_of seq_flag_of
    rw [if_neg hl, if_neg hw, if_neg hw]
    split_ifs <;> simp [hw]

/-- C23, as stated, fails: for `seq_read_file` (2 reads, 20 bytes, last byte 19, one
sequential read) the first call sets the sequential flag, and the flag is still set after
the call, while `reads - ceil((total - max) / (max + 1)) - 1 = 2 - 1 - 1 = 0` differs from
the sequential-access count 1. -/
theorem determine_io_params_seq_flag_not_ceil :
    seq_flag_of (initial_state seq_read_file 3) 0 = -1 ∧
    seq_flag_after (initial_state seq_read_file 3) 0 = some 1 ∧
    (determine_io_params (fun _ => 5) (initial_state seq_read_file 3) 0 0 1).map
      (fun r => r.1.seq_rd_flag) = some 1 ∧
    ops_of seq_read_file 0 -
      Int.ceil (((seq_read_file.CP_BYTES_READ - seq_read_file.CP_MAX_BYTE_READ : Int) : ℚ) /
        ((seq_read_file.CP_MAX_BYTE_READ + 1 : Int) : ℚ)) - 1 ≠ seq_count_of seq_read_file 0 := by
  refine ⟨by decide!, by decide!, by decide!, ?_⟩
  have e : Int.ceil (((seq_read_file.CP_BYTES_READ - seq_read_file.CP_MAX_BYTE_READ : Int) : ℚ) /
        ((seq_read_file.CP_MAX_BYTE_READ + 1 : Int) : ℚ)) = 1 := by
    rw [Int.ceil_eq_iff]
    simp only [seq_read_file]
    norm_num
  rw [e]
  decide

/-- C23, amended: on the first call for a direction (its sequential flag still -1), with a
non-negative byte total and last byte, the flag the call uses is 1 if and only if
`ops - q - 1` equals the recorded sequential-access count of the direction, where `q` is
the truncating integer quotient `(total - last - 1) / (last + 1)`, and 0 otherwise.  The
quotient is `ceil((total - last) / (last + 1)) - 1`, except for `0 < total ≤ last`, where
it equals the ceiling (both 0).  The flag keeps this value when the call returns, unless
the call is made for the last operation of the file. -/
theorem determine_io_params_seq_flag (rnd : Nat → Nat) (st st' : gen_state) (w c k : Int)
    (sz : Nat) (off : Int) (hfirst : seq_flag_of st w = -1)
    (htot : 0 ≤ total_io_size st w) (hlast : 0 ≤ last_io_byte st w)
    (h : determine_io_params rnd st w c k = some (st', sz, off)) :
    ∃ f, seq_flag_after st w = some f ∧ (f = 1 ∨ f = 0) ∧
      (f = 1 ↔ ops_of st.file w -
        Int.tdiv (total_io_size st w - last_io_byte st w - 1) (last_io_byte st w + 1) - 1 =
          seq_count_of st.file w) ∧
      Int.tdiv (total_io_size st w - last_io_byte st w - 1) (last_io_byte st w + 1) =
        (if 0 < total_io_size st w ∧ total_io_size st w ≤ last_io_byte st w then
          Int.ceil (((total_io_size st w - last_io_byte st w : Int) : ℚ) /
            ((last_io_byte st w + 1 : Int) : ℚ))
        else Int.ceil (((total_io_size st w - last_io_byte st w : Int) : ℚ) /
            ((last_io_byte st w + 1 : Int) : ℚ)) - 1) ∧
      (st.file.CP_POSIX_READS + st.file.CP_POSIX_WRITES ≠ 1 → seq_flag_of st' w = f) := by
  obtain ⟨f, hf, _, _, hkeep⟩ := determine_io_params_offset rnd st st' w c k sz off h
  have hfa := seq_flag_after_first st w hfirst (by omega)
  rw [hf] at hfa
  have hfe := Option.some.inj hfa
  refine ⟨f, hf, ?_, ?_, seq_quotient_ceil _ _ htot hlast, fun hn => (hkeep hn).1⟩
  · rw [hfe]; split_ifs
    · exact Or.inl rfl
    · exact Or.inr rfl
  · rw [hfe]
    constructor
    · intro h1
      by_contra hne
      rw [if_neg hne] at h1
      exact absurd h1 (by decide)
    · intro h1
      rw [if_pos h1]

theorem determine_io_params_seq_flag_witness :
    ∃ f, seq_flag_after (initial_state seq_read_file 3) 0 = some f ∧ (f = 1 ∨ f = 0) ∧
      (f = 1 ↔ ops_of (initial_state seq_read_file 3).file 0 -
        Int.tdiv (total_io_size (initial_state seq_read_file 3) 0 -
          last_io_byte (initial_state seq_read_file 3) 0 - 1)
          (last_io_byte (initial_state seq_read_file 3) 0 + 1) - 1 =
          seq_count_of (initial_state seq_read_file 3).file 0) ∧
      Int.tdiv (total_io_size (initial_state seq_read_file 3) 0 -
          last_io_byte (initial_state seq_read_file 3) 0 - 1)
          (last_io_byte (initial_state seq_read_file 3) 0 + 1) =
        (if 0 < total_io_size (initial_state seq_read_file 3) 0 ∧
            total_io_size (initial_state seq_read_file 3) 0 ≤
              last_io_byte (initial_state seq_read_file 3) 0 then
          Int.ceil (((total_io_size (initial_state seq_read_file 3) 0 -
            last_io_byte (initial_state seq_read_file 3) 0 : Int) : ℚ) /
            ((last_io_byte (initial_state seq_read_file 3) 0 + 1 : Int) : ℚ))
        else Int.ceil (((total_io_size (initial_state seq_read_file 3) 0 -
            last_io_byte (initial_state seq_read_file 3) 0 : Int) : ℚ) /
            ((last_io_byte (initial_state seq_read_file 3) 0 + 1 : Int) : ℚ)) - 1) ∧
      ((initial_state seq_read_file 3).file.CP_POSIX_READS +
          (initial_state seq_read_file 3).file.CP_POSIX_WRITES ≠ 1 →
        seq_flag_of seq_read_first.1 0 = f) :=
  determine_io_params_seq_flag (fun _ => 5) (initial_state seq_read_file 3) seq_read_first.1
    0 0 1 seq_read_first.2.1 seq_read_first.2.2 (by decide) (by decide) (by decide)
    seq_read_file_run.1

/-- The initialisation of the sequential flag completes unless it is made with the last
byte -1, and then leaves the record and the all-common flag alone. -/
theorem init_seq_flag_some (st : gen_state) (w : Int)
    (hlast : seq_flag_of st w = -1 → last_io_byte st w ≠ -1) :
    ∃ st2, init_seq_flag st w = some st2 ∧ st2.file = st.file ∧
      st2.all_common_flag = st.all_common_flag := by
  unfold seq_flag_of at hlast
  unfold init_seq_flag seq_flag_init
  by_cases hw : w ≠ 0
  · rw [if_pos hw] at hlast
    rw [if_pos hw]
    by_cases hf : st.seq_wr_flag = -1
    · have hl := hlast hf
      rw [if_pos hf, if_neg (by omega)]
      split_ifs <;> exact ⟨_, rfl, rfl, rfl⟩
    · rw [if_neg hf]
      exact ⟨_, rfl, rfl, rfl⟩
  · rw [if_neg hw] at hlast
    rw [if_neg hw]
    by_cases hf : st.seq_rd_flag = -1
    · have hl := hlast hf
      rw [if_pos hf, if_neg (by omega)]
      split_ifs <;> exact ⟨_, rfl, rfl, rfl⟩
    · rw [if_neg hf]
      exact ⟨_, rfl, rfl, rfl⟩

/-- With a non-zero `io_cycles`, the choice of the size stops exactly in the assertion of
the random-size path. -/
theorem choose_io_size_none_iff (st : gen_state) (w k : Int) (hk : k ≠ 0) :
    choose_io_size st w k = none ↔
      st.all_common_flag = 0 ∧ total_io_size st w ≠ 0 ∧
        st.file.CP_POSIX_READS + st.file.CP_POSIX_WRITES ≠ 1 := by
  unfold choose_io_size
  simp only
  by_cases h1 : total_io_size st w = 0 ∨ st.file.CP_POSIX_READS + st.file.CP_POSIX_WRITES = 1
  · rw [if_pos h1]
    constructor
    · intro h; cases h
    · rintro ⟨_, h2, h3⟩
      rcases h1 with h1 | h1
      · exact absurd h1 h2
      · exact absurd h1 h3
  · rw [if_neg h1]
    push_neg at h1
    by_cases hf : st.all_common_flag ≠ 0
    · rw [if_pos hf, if_neg hk]
      constructor
      · intro h; split_ifs at h
      · rintro ⟨h0, _, _⟩; exact absurd h0 hf
    · rw [if_neg hf]
      exact ⟨fun _ => ⟨not_not.mp hf, h1.1, h1.2⟩, fun _ => rfl⟩

/-- C21, as stated, fails: two calls that neither return nor reach the assertion.  For
`unset_last_byte_file` the byte total of the direction is 0, so the call should return, and
the sequential test of the first call divides by `last byte + 1 = 0`.  For `seq_read_file`
the byte totals are explained by the common-access slots, so the call should return, and
with `io_cycles = 0` the re-apportioning divides by zero. -/
theorem determine_io_params_division_stops :
    (total_io_size (initial_state unset_last_byte_file 3) 0 = 0 ∧
      determine_io_params (fun _ => 0) (initial_state unset_last_byte_file 3) 0 0 1 = none) ∧
    ((init_all_common_flag (initial_state seq_read_file 3)).all_common_flag = 1 ∧
      determine_io_params (fun _ => 5) (initial_state seq_read_file 3) 0 0 0 = none) := by
  decide!

/-- C21, amended: when the last byte of the requested direction is not -1 on the first
call for the direction, and `io_cycles` is not zero, `determine_io_params` stops (in the
assertion of the random-size path) if and only if the all-common flag, as decided on the
first call for the file, is 0, the byte total of the requested direction is not zero and
the reads and writes left are not 1; in every other case it returns.  On the first call
for the file the flag is 0 exactly when the byte totals are not explained by the four
common-access slots. -/
theorem determine_io_params_stops_iff (rnd : Nat → Nat) (st : gen_state) (w c k : Int)
    (hlast : seq_flag_of st w = -1 → last_io_byte st w ≠ -1) (hk : k ≠ 0) :
    (determine_io_params rnd st w c k = none ↔
      (init_all_common_flag st).all_common_flag = 0 ∧ total_io_size st w ≠ 0 ∧
        st.file.CP_POSIX_READS + st.file.CP_POSIX_WRITES ≠ 1) ∧
    (¬ ((init_all_common_flag st).all_common_flag = 0 ∧ total_io_size st w ≠ 0 ∧
        st.file.CP_POSIX_READS + st.file.CP_POSIX_WRITES ≠ 1) →
      ∃ st' sz off, determine_io_params rnd st w c k = some (st', sz, off)) ∧
    (st.all_common_flag = -1 →
      ((init_all_common_flag st).all_common_flag = 0 ↔
        common_access_bytes st.file ≠ st.file.CP_BYTES_WRITTEN + st.file.CP_BYTES_READ)) := by
  obtain ⟨i1, i2⟩ := init_all_common_flag_offset_inputs st
  obtain ⟨j1, _, j3, _, _⟩ := offset_inputs_fields _ _ i1 w
  obtain ⟨st2, s1, s2, s3⟩ := init_seq_flag_some (init_all_common_flag st) w
    (by rw [j1, j3]; exact hlast)
  have hiff : determine_io_params rnd st w c k = none ↔
      (init_all_common_flag st).all_common_flag = 0 ∧ total_io_size st w ≠ 0 ∧
        st.file.CP_POSIX_READS + st.file.CP_POSIX_WRITES ≠ 1 := by
    unfold determine_io_params determine_io_size
    rw [s1, Option.map_eq_none', Option.some_bind, choose_io_size_none_iff st2 w k hk, s3]
    unfold total_io_size
    rw [s2, i2]
  refine ⟨hiff, ?_, ?_⟩
  · intro hn
    cases hr : determine_io_params rnd st w c k with
    | none => exact absurd (hiff.mp hr) hn
    | some r => exact ⟨r.1, r.2.1, r.2.2, rfl⟩
  · intro hf
    unfold init_all_common_flag
    rw [if_pos hf]
    by_cases he : common_access_bytes st.file = st.file.CP_BYTES_WRITTEN + st.file.CP_BYTES_READ
    · rw [if_pos he]
      exact ⟨fun h => absurd (show (1 : Int) = 0 from h) (by decide), fun h => absurd he h⟩
    · rw [if_neg he]
      exact ⟨fun _ => he, fun _ => rfl⟩

theorem determine_io_params_stops_iff_witness :
    (determine_io_params (fun _ => 5) (initial_state seq_read_file 3) 0 0 1 = none ↔
      (init_all_common_flag (initial_state seq_read_file 3)).all_common_flag = 0 ∧
        total_io_size (initial_state seq_read_file 3) 0 ≠ 0 ∧
        (initial_state seq_read_file 3).file.CP_POSIX_READS +
          (initial_state seq_read_file 3).file.CP_POSIX_WRITES ≠ 1) ∧
    (¬ ((init_all_common_flag (initial_state seq_read_file 3)).all_common_flag = 0 ∧
        total_io_size (initial_state seq_read_file 3) 0 ≠ 0 ∧
        (initial_state seq_read_file 3).file.CP_POSIX_READS +
          (initial_state seq_read_file 3).file.CP_POSIX_WRITES ≠ 1) →
      ∃ st' sz off, determine_io_params (fun _ => 5) (initial_state seq_read_file 3) 0 0 1 =
        some (st', sz, off)) ∧
    ((initial_state seq_read_file 3).all_common_flag = -1 →
      ((init_all_common_flag (initial_state seq_read_file 3)).all_common_flag = 0 ↔
        common_access_bytes (initial_state seq_read_file 3).file ≠
          (initial_state seq_read_file 3).file.CP_BYTES_WRITTEN +
            (initial_state seq_read_file 3).file.CP_BYTES_READ)) :=
  determine_io_params_stops_iff (fun _ => 5) (initial_state seq_read_file 3) 0 0 1
    (by decide) (by decide)

/-! ## Reset of the statics; delay, cycles and thresholds of the collective generator -/

theorem ind_toggle_statics (rnd : Nat → Nat) (st : gen_state) (x : fval) :
    (ind_toggle rnd st x).statics = st.statics := by
  unfold ind_toggle
  split_ifs <;> rfl

theorem ind_io_count_statics (st : gen_state) : (ind_io_count st).statics = st.statics := by
  unfold ind_io_count
  split_ifs <;> rfl

/-- One iteration of the I/O loop of the independent generator made when one read or
write remains leaves the statics of `determine_io_params` in their initial state. -/
theorem ind_io_body_statics (rnd : Nat → Nat) (ops : Int) (d m : ℚ) (i : Int)
    (s s' : io_loop_state) (h : ind_io_body rnd ops d m i s = some s')
    (h1 : s.st.file.CP_POSIX_READS + s.st.file.CP_POSIX_WRITES = 1) :
    s'.st.statics = initial_io_statics := by
  unfold ind_io_body at h
  obtain ⟨r, hr, h⟩ := Option.bind_eq_some.mp h
  obtain ⟨st1, sz, off⟩ := r
  have e := determine_io_params_resets rnd _ _ _ _ _ _ _ h1 hr
  simp only at h
  by_cases hneg : (ind_io_count st1).file.CP_POSIX_READS < 0 ∨
      (ind_io_count st1).file.CP_POSIX_WRITES < 0
  · rw [if_pos hneg] at h; cases h
  rw [if_neg hneg] at h
  obtain ⟨st2, hst, rfl⟩ := Option.map_eq_some'.mp h
  have e2 := store_event_eq _ _ _ hst
  show (ind_toggle rnd st2 _).statics = _
  rw [ind_toggle_statics, e2]
  show (ind_io_count st1).statics = _
  rw [ind_io_count_statics]
  exact e

theorem ind_io_body_clean (rnd : Nat → Nat) (ops : Int) (d m : ℚ) (i : Int)
    (s s' : io_loop_state) (h : ind_io_body rnd ops d m i s = some s') :
    statics_clean s'.st ∧
    s'.st.file.CP_POSIX_READS + s'.st.file.CP_POSIX_WRITES =
      s.st.file.CP_POSIX_READS + s.st.file.CP_POSIX_WRITES - 1 ∧
    s'.st.file.CP_POSIX_OPENS = s.st.file.CP_POSIX_OPENS := by
  obtain ⟨_, ho, _, hr, hw, _, e, _, hcnt⟩ := ind_io_body_spec rnd ops d m i s s' h
  have hsum : s'.st.file.CP_POSIX_READS + s'.st.file.CP_POSIX_WRITES =
      s.st.file.CP_POSIX_READS + s.st.file.CP_POSIX_WRITES - 1 := by
    rcases hcnt with ⟨_, a, b⟩ | ⟨_, a, b⟩ <;> rw [a, b] <;> ring
  refine ⟨⟨by omega, fun h0 => ?_⟩, hsum, ho⟩
  exact ind_io_body_statics rnd ops d m i s s' h (by omega)

theorem ind_io_loop_clean (rnd : Nat → Nat) (ops : Int) (d m : ℚ) :
    ∀ (k : Nat) (i : Int) (s s' : io_loop_state), statics_clean s.st →
    ind_io_loop rnd ops d m k i s = some s' →
    statics_clean s'.st ∧
    s'.st.file.CP_POSIX_READS + s'.st.file.CP_POSIX_WRITES =
      s.st.file.CP_POSIX_READS + s.st.file.CP_POSIX_WRITES - k ∧
    s'.st.file.CP_POSIX_OPENS = s.st.file.CP_POSIX_OPENS := by
  intro k
  induction k with
  | zero =>
    intro i s s' hc h
    simp only [ind_io_loop, Option.some.injEq] at h
    subst h
    exact ⟨hc, by simp, rfl⟩
  | succ k ih =>
    intro i s s' _ h
    simp only [ind_io_loop] at h
    obtain ⟨z, hz, h⟩ := Option.bind_eq_some.mp h
    obtain ⟨a1, a2, a3⟩ := ind_io_body_clean rnd ops d m i s z hz
    obtain ⟨b1, b2, b3⟩ := ih (i + 1) z s' a1 h
    refine ⟨b1, ?_, by rw [b3, a3]⟩
    rw [b2, a2]
    push_cast
    ring

theorem ind_io_init_statics (st st1 : gen_state) (h : ind_io_init st = some st1) :
    st1.statics = st.statics := by
  unfold ind_io_init at h
  by_cases hrw : st.ind_rw = -1
  · rw [if_pos hrw] at h
    obtain ⟨n, _, rfl⟩ := Option.map_eq_some'.mp h; rfl
  · rw [if_neg hrw] at h
    cases h; rfl

theorem ind_io_finish_statics (ndx : Int) (s : io_loop_state) (st2 : gen_state)
    (h : ind_io_finish ndx s = some st2) : st2.statics = s.st.statics := by
  unfold ind_io_finish at h
  simp only at h
  by_cases h1 : s.st.file.CP_POSIX_OPENS = 1
  · rw [if_pos h1] at h; cases h; rfl
  · rw [if_neg h1] at h
    split at h
    · cases h
    · split_ifs at h
      · obtain ⟨n, _, rfl⟩ := Option.map_eq_some'.mp h; rfl
      · cases h; rfl

/-- The I/O of one cycle of the independent generator keeps `statics_clean`; in the last
cycle (one open left) it issues every remaining operation. -/
theorem generate_psx_ind_io_events_clean (rnd : Nat → Nat) (st : gen_state) (ndx : Int)
    (d m t : ℚ) (r : gen_state × ℚ) (hc : statics_clean st)
    (h : generate_psx_ind_io_events rnd st ndx d m t = some r) :
    statics_clean r.1 ∧ r.1.file.CP_POSIX_OPENS = st.file.CP_POSIX_OPENS ∧
    (st.file.CP_POSIX_OPENS = 1 →
      r.1.file.CP_POSIX_READS + r.1.file.CP_POSIX_WRITES = 0) := by
  unfold generate_psx_ind_io_events at h
  simp only at h
  by_cases h0 : st.file.CP_POSIX_READS + st.file.CP_POSIX_WRITES = 0
  · rw [if_pos h0] at h
    cases h
    exact ⟨hc, rfl, fun _ => h0⟩
  · rw [if_neg h0] at h
    obtain ⟨ioc, hioc, h⟩ := Option.bind_eq_some.mp h
    obtain ⟨st1, hst1, h⟩ := Option.bind_eq_some.mp h
    obtain ⟨i1, _, _⟩ := ind_io_init_frame _ _ hst1
    have i2 := ind_io_init_statics _ _ hst1
    obtain ⟨s, hs, h⟩ := Option.bind_eq_some.mp h
    obtain ⟨st2, hst2, rfl⟩ := Option.map_eq_some'.mp h
    have hc1 : statics_clean st1 := by
      unfold statics_clean
      rw [i1, i2]
      exact hc
    obtain ⟨l1, l2, l3⟩ := ind_io_loop_clean rnd _ _ _ _ _ _ s hc1 hs
    obtain ⟨f1, f2, f3, _, _⟩ := ind_io_finish_frame _ _ _ hst2
    have f4 := ind_io_finish_statics _ _ _ hst2
    have l2' : s.st.file.CP_POSIX_READS + s.st.file.CP_POSIX_WRITES =
        st.file.CP_POSIX_READS + st.file.CP_POSIX_WRITES - (ioc.toNat : Int) := by
      rw [l2]; show st1.file.CP_POSIX_READS + st1.file.CP_POSIX_WRITES - _ = _; rw [i1]
    have l3' : s.st.file.CP_POSIX_OPENS = st.file.CP_POSIX_OPENS := by
      rw [l3]; show st1.file.CP_POSIX_OPENS = _; rw [i1]
    refine ⟨?_, by rw [f1, l3'], ?_⟩
    · unfold statics_clean
      show 0 ≤ st2.file.CP_POSIX_READS + st2.file.CP_POSIX_WRITES ∧
        (st2.file.CP_POSIX_READS + st2.file.CP_POSIX_WRITES = 0 → st2.statics = _)
      rw [f2, f3, f4]
      exact l1
    · intro ho
      show st2.file.CP_POSIX_READS + st2.file.CP_POSIX_WRITES = 0
      rw [f2, f3, l2']
      unfold ceil_ddiv at hioc
      rw [ho] at hioc
      rw [if_neg (by decide), ceil_div_one] at hioc
      cases hioc
      have := hc.1
      omega

theorem ind_cycle_clean (rnd : Nat → Nat) (c : ind_cycle_params) (i cf : Int)
    (st : gen_state) (t : ℚ) (r : gen_state × ℚ) (hc : statics_clean st)
    (h : ind_cycle rnd c i cf st t = some r) :
    statics_clean r.1 ∧ r.1.file.CP_POSIX_OPENS = st.file.CP_POSIX_OPENS - 1 ∧
    (st.file.CP_POSIX_OPENS = 1 →
      r.1.file.CP_POSIX_READS + r.1.file.CP_POSIX_WRITES = 0) := by
  unfold ind_cycle at h
  obtain ⟨r1, hr1, h⟩ := Option.bind_eq_some.mp h
  obtain ⟨s1, t1⟩ := r1
  obtain ⟨_, e1, _, _, _, rfl⟩ := generate_psx_open_event_eq _ _ _ _ _ _ hr1
  obtain ⟨r2, hr2, h⟩ := Option.bind_eq_some.mp h
  have hc1 : statics_clean { st with file_event_list := st.file_event_list ++ [e1] } := hc
  obtain ⟨a1, a2, a3⟩ := generate_psx_ind_io_events_clean rnd _ _ _ _ _ r2 hc1 hr2
  obtain ⟨r3, hr3, rfl⟩ := Option.map_eq_some'.mp h
  obtain ⟨s3, t3⟩ := r3
  obtain ⟨_, e3, _, _, _, rfl⟩ := generate_psx_close_event_eq _ _ _ _ _ hr3
  exact ⟨a1, by show r2.1.file.CP_POSIX_OPENS - 1 = _; rw [a2], a3⟩

theorem ind_cycles_clean (rnd : Nat → Nat) (c : ind_cycle_params) :
    ∀ (fuel : Nat) (i cf : Int) (st : gen_state) (t : ℚ) (r : gen_state × ℚ),
    statics_clean st → 1 ≤ st.file.CP_POSIX_OPENS →
    ind_cycles rnd c fuel i cf st t = some r →
    statics_clean r.1 ∧ r.1.file.CP_POSIX_READS + r.1.file.CP_POSIX_WRITES = 0 := by
  intro fuel
  induction fuel with
  | zero =>
    intro i cf st t r _ ho h
    unfold ind_cycles at h
    rw [if_neg (by omega)] at h
    cases h
  | succ k ih =>
    intro i cf st t r hc ho h
    unfold ind_cycles at h
    rw [if_neg (by omega)] at h
    simp only at h
    obtain ⟨r1, hr1, h⟩ := Option.bind_eq_some.mp h
    obtain ⟨a1, a2, a3⟩ := ind_cycle_clean rnd c i cf st t r1 hc hr1
    by_cases h1 : st.file.CP_POSIX_OPENS = 1
    · unfold ind_cycles at h
      rw [if_pos (by rw [a2, h1]; rfl)] at h
      cases h
      exact ⟨a1, a3 h1⟩
    · exact ih _ _ _ _ _ a1 (by omega) h

theorem three_op_file_run :
    generate_psx_ind_file_events (fun _ => 0) [] (initial_state three_op_file 8) =
      some three_op_result := by
  decide!

/-- C26: a returning call of `determine_io_params` made when reads + writes = 1 leaves the
statics in their initial state (both sequential flags and the all-common flag -1, both
cursors 0, the eight share counters 0); and when `generate_psx_ind_file_events` completes a
record with at least one open and at least one read or write, every operation has been
issued and the state it leaves for the next file holds the initial statics. -/
theorem determine_io_params_statics_reset (rnd : Nat → Nat) (tbl : List hash_entry_t)
    (st st' : gen_state) (w c k : Int) (sz : Nat) (off : Int) (sg sg' : gen_state) :
    (st.file.CP_POSIX_READS + st.file.CP_POSIX_WRITES = 1 →
      determine_io_params rnd st w c k = some (st', sz, off) →
      st'.statics = initial_io_statics) ∧
    (sg.file.CP_POSIX_OPENS ≠ 0 → 1 ≤ sg.file.CP_POSIX_READS + sg.file.CP_POSIX_WRITES →
      generate_psx_ind_file_events rnd tbl sg = some sg' →
      sg'.statics = initial_io_statics ∧
      sg'.file.CP_POSIX_READS + sg'.file.CP_POSIX_WRITES = 0) := by
  constructor
  · intro h1 h
    exact determine_io_params_resets rnd st st' w c k sz off h1 h
  · intro ho hops h
    unfold generate_psx_ind_file_events at h
    rw [if_neg ho] at h
    obtain ⟨cp, _, h⟩ := Option.bind_eq_some.mp h
    obtain ⟨r, hr, rfl⟩ := Option.map_eq_some'.mp h
    have hc : statics_clean sg := ⟨by omega, fun h0 => absurd h0 (by omega)⟩
    by_cases hpos : 1 ≤ sg.file.CP_POSIX_OPENS
    · obtain ⟨a1, a2⟩ := ind_cycles_clean rnd cp _ _ _ _ _ r hc hpos hr
      exact ⟨a1.2 a2, a2⟩
    · have hfuel : sg.file.CP_POSIX_OPENS.toNat = 0 := by omega
      rw [hfuel] at hr
      unfold ind_cycles at hr
      rw [if_neg ho] at hr
      cases hr

theorem determine_io_params_statics_reset_witness :
    one_read_result.1.statics = initial_io_statics ∧
    three_op_result.statics = initial_io_statics ∧
    three_op_result.file.CP_POSIX_READS + three_op_result.file.CP_POSIX_WRITES = 0 :=
  ⟨(determine_io_params_statics_reset (fun _ => 0) [] (initial_state one_read_file 3)
      one_read_result.1 0 0 1 one_read_result.2.1 one_read_result.2.2
      (initial_state three_op_file 8) three_op_result).1 (by decide) one_read_file_run.1,
   (determine_io_params_statics_reset (fun _ => 0) [] (initial_state one_read_file 3)
      one_read_result.1 0 0 1 one_read_result.2.1 one_read_result.2.2
      (initial_state three_op_file 8) three_op_result).2 (by decide) (by decide)
      three_op_file_run⟩

/-- The body of the I/O loop compares the draw with `ind_coll_switch`. -/
theorem coll_io_body_switch (rnd : Nat → Nat) (c : coll_io_consts) (i : Int)
    (s : coll_loop_state) :
    coll_io_body rnd c i s =
      (ind_coll_switch c i s).bind fun ind_coll_switch =>
      (if uniform (rnd s.st.rand_cnt) < (ind_coll_switch : ℚ) then
          coll_pick_independent c s { s.st with rand_cnt := s.st.rand_cnt + 1 }
        else coll_pick_collective c s { s.st with rand_cnt := s.st.rand_cnt + 1 }).bind fun p =>
      (coll_io_ops rnd c p.ind_coll s.total_coll_io_ops s.cur_time p.io_cnt.toNat
        (p.st, p.rank, s.max_cur_time)).bind fun r =>
      (coll_rw_switch c r.1 (if p.ind_coll ≠ 0 then s.total_coll_io_ops - 1
          else s.total_coll_io_ops)).map fun rw_switch =>
        { st := coll_toggle rnd c r.1 rw_switch
          cur_time :=
            if i ≠ c.total_io_ops_this_cycle - 1 then
              fadd r.2.2 (fquo c.inter_io_delay ((c.total_io_ops_this_cycle : ℚ) - 1))
            else r.2.2
          max_cur_time := r.2.2
          total_coll_io_ops :=
            if p.ind_coll ≠ 0 then s.total_coll_io_ops - 1 else s.total_coll_io_ops
          ind_io_ops_this_cycle := p.ind_io_ops_this_cycle
          coll_io_ops_this_cycle := p.coll_io_ops_this_cycle
          next_ind_io_rank := p.next_ind_io_rank
          rw_switch := some rw_switch } := rfl

theorem mixed_coll_file_run :
    coll_io_body (fun _ => 0) mixed_coll_consts 0 mixed_coll_loop_state =
      some mixed_coll_first := by
  have hs : (coll_io_body (fun _ => 0) mixed_coll_consts 0 mixed_coll_loop_state).isSome =
      true := by decide!
  unfold mixed_coll_first
  cases hr : coll_io_body (fun _ => 0) mixed_coll_consts 0 mixed_coll_loop_state with
  | none => rw [hr] at hs; cases hs
  | some x => rfl

/-- C30: the threshold is not the exact fraction.  Source line 1239 divides two `int64_t`
values, so with `0 < independent-remaining < total-remaining` the threshold is 0, while the
exact fraction lies strictly between 0 and 1; no draw is below 0, so an iteration that
completes issues a collective operation whatever `rand()` returns: the number of
independent operations to issue stays and the number of collective ones goes down by 1. -/
theorem coll_io_body_threshold_truncated (rnd : Nat → Nat) (c : coll_io_consts) (i : Int)
    (s s' : coll_loop_state) (h0 : 0 < s.ind_io_ops_this_cycle)
    (h1 : s.ind_io_ops_this_cycle < c.total_io_ops_this_cycle - i)
    (h : coll_io_body rnd c i s = some s') :
    ind_coll_switch c i s = some 0 ∧
    (0 : ℚ) < (s.ind_io_ops_this_cycle : ℚ) / ((c.total_io_ops_this_cycle - i : Int) : ℚ) ∧
    (s.ind_io_ops_this_cycle : ℚ) / ((c.total_io_ops_this_cycle - i : Int) : ℚ) < 1 ∧
    s'.ind_io_ops_this_cycle = s.ind_io_ops_this_cycle ∧
    s'.coll_io_ops_this_cycle = s.coll_io_ops_this_cycle - 1 := by
  have hsw : ind_coll_switch c i s = some 0 := by
    unfold ind_coll_switch cdiv
    rw [if_neg (by omega), Int.tdiv_eq_zero_of_lt (le_of_lt h0) h1]
  have hd : (0 : ℚ) < ((c.total_io_ops_this_cycle - i : Int) : ℚ) := by
    exact_mod_cast (by omega : 0 < c.total_io_ops_this_cycle - i)
  have hn : (0 : ℚ) < (s.ind_io_ops_this_cycle : ℚ) := by exact_mod_cast h0
  have hlt : (s.ind_io_ops_this_cycle : ℚ) < ((c.total_io_ops_this_cycle - i : Int) : ℚ) := by
    exact_mod_cast h1
  refine ⟨hsw, div_pos hn hd, (div_lt_one hd).mpr hlt, ?_⟩
  rw [coll_io_body_switch, hsw, Option.some_bind] at h
  obtain ⟨p, hp, h⟩ := Option.bind_eq_some.mp h
  rw [if_neg (by simpa using uniform_nonneg _)] at hp
  obtain ⟨r, _, h⟩ := Option.bind_eq_some.mp h
  obtain ⟨x, _, rfl⟩ := Option.map_eq_some'.mp h
  unfold coll_pick_collective at hp
  obtain ⟨b, _, hp⟩ := Option.bind_eq_some.mp hp
  simp only at hp
  by_cases hrw : b.1.coll_rw = 0
  · rw [if_pos hrw] at hp
    obtain ⟨q, _, hp⟩ := Option.bind_eq_some.mp hp
    obtain ⟨n, _, rfl⟩ := Option.map_eq_some'.mp hp
    exact ⟨rfl, rfl⟩
  · rw [if_neg hrw] at hp
    obtain ⟨q, _, hp⟩ := Option.bind_eq_some.mp hp
    obtain ⟨n, _, rfl⟩ := Option.map_eq_some'.mp hp
    exact ⟨rfl, rfl⟩

theorem coll_io_body_threshold_truncated_witness :
    ind_coll_switch mixed_coll_consts 0 mixed_coll_loop_state = some 0 ∧
    (0 : ℚ) < (mixed_coll_loop_state.ind_io_ops_this_cycle : ℚ) /
      ((mixed_coll_consts.total_io_ops_this_cycle - 0 : Int) : ℚ) ∧
    (mixed_coll_loop_state.ind_io_ops_this_cycle : ℚ) /
      ((mixed_coll_consts.total_io_ops_this_cycle - 0 : Int) : ℚ) < 1 ∧
    mixed_coll_first.ind_io_ops_this_cycle = mixed_coll_loop_state.ind_io_ops_this_cycle ∧
    mixed_coll_first.coll_io_ops_this_cycle =
      mixed_coll_loop_state.coll_io_ops_this_cycle - 1 :=
  coll_io_body_threshold_truncated (fun _ => 0) mixed_coll_consts 0 mixed_coll_loop_state
    mixed_coll_first (by decide) (by decide) mixed_coll_file_run

/-- The per-cycle delay computed by the set-up of `generate_psx_coll_file_events`: the
subtrahend is the integer counter `open_counter`. -/
theorem coll_cycle_setup_delay (nprocs agg : Int) (u : ℚ) (oc mo tio x : Int)
    (xs : Option Int) (file : darshan_file) (c : coll_cycle_params)
    (h : coll_cycle_setup nprocs agg u oc mo tio x xs file = some c) :
    c.delay_per_cycle =
      finite_quotient
        (fsub (fsub (fsub (fsub file.CP_F_CLOSE_TIMESTAMP (oc : ℚ))
          (fquo file.CP_F_POSIX_READ_TIME (nprocs : ℚ)))
          (fquo file.CP_F_POSIX_WRITE_TIME (nprocs : ℚ)))
          (fquo file.CP_F_POSIX_META_TIME (nprocs : ℚ)))
        ((Int.ceil ((file.CP_POSIX_OPENS : ℚ) / (nprocs : ℚ)) : Int) : ℚ) := by
  unfold coll_cycle_setup at h
  obtain ⟨a2, h2, h⟩ := Option.bind_eq_some.mp h
  obtain ⟨a3, h3, h⟩ := Option.bind_eq_some.mp h
  obtain ⟨a4, h4, h⟩ := Option.bind_eq_some.mp h
  obtain ⟨a5, h5, h⟩ := Option.bind_eq_some.mp h
  obtain ⟨a7, _, rfl⟩ := Option.map_eq_some'.mp h
  obtain ⟨_, rfl⟩ := fdiv_eq_some h2
  obtain ⟨_, rfl⟩ := fdiv_eq_some h3
  obtain ⟨_, rfl⟩ := fdiv_eq_some h4
  unfold ceil_ddiv at h5
  split_ifs at h5
  cases h5
  rfl

/-- C27 (failing input): for `late_open_coll_file` (four processes, opened at time 2,
closed at time 10, no I/O time) the open count needs no adjustment and the generator
computes the per-cycle delay 10: it subtracts the integer counter at index
`CP_F_OPEN_TIMESTAMP` of `counters` (here the count of independent opens, 0), not the
floating-point open timestamp 2, which gives `(10 - 2) / ceil(4 / 4) = 8`. -/
theorem generate_psx_coll_file_events_delay_counter :
    (coll_adjust_opens 4 late_open_coll_file).map (fun a => (a.1.CP_POSIX_OPENS, a.2.1)) =
      some (4, 0) ∧
    (coll_cycle_setup 4 4 0 late_open_coll_file.CP_INDEP_OPENS
      late_open_coll_file.CP_POSIX_OPENS
      (late_open_coll_file.CP_POSIX_READS + late_open_coll_file.CP_POSIX_WRITES) 0 none
      late_open_coll_file).map (fun c => c.delay_per_cycle) = some 10 ∧
    (late_open_coll_file.CP_F_CLOSE_TIMESTAMP - late_open_coll_file.CP_F_OPEN_TIMESTAMP
      - late_open_coll_file.CP_F_POSIX_READ_TIME / 4
      - late_open_coll_file.CP_F_POSIX_WRITE_TIME / 4
      - late_open_coll_file.CP_F_POSIX_META_TIME / 4) / 1 = 8 := by
  decide!

/-- C29 (failing input): for `surplus_open_file` in a two-process job the surplus is
`E = 8 - 6 - 0 = 2` opens and there are `6 / 2 = 3` full cycles; the stride is `3 / 2 = 1`,
so every cycle starts with an OPEN and a CLOSE of rank 0: three pairs are emitted,
not two. -/
theorem generate_psx_coll_file_events_extra_opens :
    surplus_open_file.CP_POSIX_OPENS - surplus_open_file.CP_COLL_OPENS -
      surplus_open_file.CP_INDEP_OPENS = 2 ∧
    (coll_adjust_opens 2 surplus_open_file).map (fun a => (a.1.CP_POSIX_OPENS, a.2)) =
      some (6, 2, some 1) ∧
    (generate_psx_coll_file_events (fun _ => 0) 2 2 0 (fun f => f.CP_INDEP_OPENS)
      (initial_state surplus_open_file 40)).map
      (fun s => (s.file_event_list.map (fun e => (e.type, e.rank)),
        (s.file_event_list.filter
          (fun e => decide (e.type = event_type.POSIX_OPEN ∧ e.rank = 0))).length,
        (s.file_event_list.filter
          (fun e => decide (e.type = event_type.POSIX_CLOSE ∧ e.rank = 0))).length)) =
    some ([(event_type.POSIX_OPEN, 0), (event_type.POSIX_CLOSE, 0), (event_type.BARRIER, -1),
      (event_type.POSIX_OPEN, -1), (event_type.BARRIER, -1), (event_type.POSIX_WRITE, 0),
      (event_type.POSIX_WRITE, 1), (event_type.POSIX_CLOSE, -1),
      (event_type.POSIX_OPEN, 0), (event_type.POSIX_CLOSE, 0), (event_type.BARRIER, -1),
      (event_type.POSIX_OPEN, -1), (event_type.BARRIER, -1), (event_type.POSIX_WRITE, 0),
      (event_type.POSIX_WRITE, 1), (event_type.POSIX_CLOSE, -1),
      (event_type.POSIX_OPEN, 0), (event_type.POSIX_CLOSE, 0), (event_type.BARRIER, -1),
      (event_type.POSIX_OPEN, -1), (event_type.BARRIER, -1), (event_type.POSIX_WRITE, 0),
      (event_type.POSIX_WRITE, 1), (event_type.POSIX_CLOSE, -1)], 3, 3) := by
  decide!

/-- The number of independent operations of a cycle is the ceiling of a product rounded
twice: for 29 operations left and 7 opens left, all 7 in this cycle, the source computes
`ceil((double)29 / 7 * 7)`, which is 30, where the exact product is 29. -/
theorem ind_io_ops_this_cycle_rounded :
    Int.ceil (fmul (fquo ((29 : Int) : ℚ) ((7 : Int) : ℚ)) ((7 : Int) : ℚ)) = 30 ∧
    Int.ceil (((29 : Int) : ℚ) / ((7 : Int) : ℚ) * ((7 : Int) : ℚ)) = 29 := by
  constructor
  · decide!
  · norm_num

theorem adjust_timestamp_eq_max (start_time : Int) (t : ℚ) :
    adjust_timestamp start_time t = max (t - (start_time : ℚ)) 0 := by
  unfold adjust_timestamp
  split_ifs with h
  · exact (max_eq_right (le_of_lt h)).symm
  · exact (max_eq_left (not_lt.mp h)).symm

/-- C38 (failing input): the events of `slow_read_file` depend on the file processed
before it.  From the initial statics its READ lasts `10 / (10 / 5) = 5` seconds.  After
`two_open_read_file`, whose second cycle has no operation left and returns at source line
1020 without reaching the reset of `rw`, the direction flag is still 0 and the bandwidth
still 5: the initialisation for the new file is skipped and the READ lasts 2 seconds.
For the write-only `one_write_file` the stale direction makes the generator issue a READ
and stop in the assertion on the read count, where the run from the initial statics emits
OPEN, WRITE, CLOSE. -/
theorem generate_psx_ind_file_events_depends_on_history :
    ((generate_psx_ind_file_events (fun _ => 0) [] (initial_state two_open_read_file 8)).map
      fun s => (s.ind_rw, s.ind_rd_bw, s.statics)) = some (0, 5, initial_io_statics) ∧
    ((generate_psx_ind_file_events (fun _ => 0) [] (initial_state slow_read_file 8)).map
      fun s => s.file_event_list.map fun e => (e.type, e.end_time - e.start_time)) =
      some [(event_type.POSIX_OPEN, 0), (event_type.POSIX_READ, 5),
        (event_type.POSIX_CLOSE, 0)] ∧
    (((generate_psx_ind_file_events (fun _ => 0) [] (initial_state two_open_read_file 8)).bind
      fun s => generate_psx_ind_file_events (fun _ => 0) []
        (next_file_state s slow_read_file)).map
      fun s => s.file_event_list.map fun e => (e.type, e.end_time - e.start_time)) =
      some [(event_type.POSIX_OPEN, 0), (event_type.POSIX_READ, 2),
        (event_type.POSIX_CLOSE, 0)] ∧
    ((generate_psx_ind_file_events (fun _ => 0) [] (initial_state one_write_file 8)).map
      fun s => s.file_event_list.map fun e => e.type) =
      some [event_type.POSIX_OPEN, event_type.POSIX_WRITE, event_type.POSIX_CLOSE] ∧
    ((generate_psx_ind_file_events (fun _ => 0) [] (initial_state two_open_read_file 8)).bind
      fun s => generate_psx_ind_file_events (fun _ => 0) []
        (next_file_state s one_write_file)) = none := by
  decide!

/-- C39 (failing input): `zero_stride_file` in a two-process job passes both assertions of
the function (the surplus `5 - 2 - 1 = 2` is not above `2 / 2 + 1`, and bytes were
written), the surplus is not zero and the two opens left make a full cycle, but the stride
is `(2 / 2) / 2 = 0`: the first cycle evaluates `i % 0` and the generator stops there. -/
theorem generate_psx_coll_file_events_zero_stride :
    (coll_adjust_opens 2 zero_stride_file).map (fun a => (a.1.CP_POSIX_OPENS, a.2)) =
      some (2, 2, some 0) ∧
    ((coll_adjust_opens 2 zero_stride_file).bind fun a =>
      (coll_cycle_setup 2 2 0 zero_stride_file.CP_INDEP_OPENS zero_stride_file.CP_POSIX_OPENS
        (zero_stride_file.CP_POSIX_READS + zero_stride_file.CP_POSIX_WRITES) a.2.1 a.2.2
        a.1).map fun c =>
        (decide (a.1.CP_POSIX_OPENS ≥ c.nprocs), c.extra_opens, c.extra_open_stride,
          (coll_extra_open c 0 1 { initial_state zero_stride_file 40 with file := a.1 }
            0).isSome)) = some (true, 2, some 0, false) ∧
    generate_psx_coll_file_events (fun _ => 0) 2 2 0 (fun f => f.CP_INDEP_OPENS)
      (initial_state zero_stride_file 40) = none := by
  decide!

/-- The replacement value of the close timestamp is stored as it is: for a job header with
start time 100 and end time 50, which no job that ran has, the run duration
`end_time - start_time + 1` is -49, and the record with all timestamps 0 gets the close
timestamp -49. -/
theorem check_file_counters_negative_close :
    (0 : Int) ≤ 100 ∧ (0 : Int) ≤ 50 ∧ (0 : ℚ) ≤ zero_file.CP_F_CLOSE_TIMESTAMP ∧
    (check_file_counters 100 (50 - 100 + 1) zero_file).map
      (fun f => f.CP_F_CLOSE_TIMESTAMP) = some (-49) ∧ (-49 : ℚ) < 0 := by
  decide!

/-- C36: `check_file_counters` replaces each of the six timestamps `t` by
`max(t - start_time, 0)` when the open timestamp exceeds `start_time` and leaves all six
unchanged otherwise; then a close timestamp equal to 0 is replaced by the run duration
`end_time - start_time + 1`.  For a job header with `start_time ≥ 0` every zero read or
write timestamp is still zero, and for non-negative timestamps and a job that does not end
before it starts (run duration not negative) all six results are non-negative. -/
theorem check_file_counters_timestamps (start_time end_time : Int) (f f' : darshan_file)
    (h : check_file_counters start_time (end_time - start_time + 1) f = some f') :
    (f'.CP_F_OPEN_TIMESTAMP =
        normalized_timestamp start_time f.CP_F_OPEN_TIMESTAMP f.CP_F_OPEN_TIMESTAMP ∧
      f'.CP_F_READ_START_TIMESTAMP =
        normalized_timestamp start_time f.CP_F_OPEN_TIMESTAMP f.CP_F_READ_START_TIMESTAMP ∧
      f'.CP_F_WRITE_START_TIMESTAMP =
        normalized_timestamp start_time f.CP_F_OPEN_TIMESTAMP f.CP_F_WRITE_START_TIMESTAMP ∧
      f'.CP_F_READ_END_TIMESTAMP =
        normalized_timestamp start_time f.CP_F_OPEN_TIMESTAMP f.CP_F_READ_END_TIMESTAMP ∧
      f'.CP_F_WRITE_END_TIMESTAMP =
        normalized_timestamp start_time f.CP_F_OPEN_TIMESTAMP f.CP_F_WRITE_END_TIMESTAMP ∧
      f'.CP_F_CLOSE_TIMESTAMP =
        (if normalized_timestamp start_time f.CP_F_OPEN_TIMESTAMP f.CP_F_CLOSE_TIMESTAMP = 0
          then ((end_time - start_time + 1 : Int) : ℚ)
          else normalized_timestamp start_time f.CP_F_OPEN_TIMESTAMP
            f.CP_F_CLOSE_TIMESTAMP)) ∧
    (0 ≤ start_time →
      (f.CP_F_READ_START_TIMESTAMP = 0 → f'.CP_F_READ_START_TIMESTAMP = 0) ∧
      (f.CP_F_WRITE_START_TIMESTAMP = 0 → f'.CP_F_WRITE_START_TIMESTAMP = 0) ∧
      (f.CP_F_READ_END_TIMESTAMP = 0 → f'.CP_F_READ_END_TIMESTAMP = 0) ∧
      (f.CP_F_WRITE_END_TIMESTAMP = 0 → f'.CP_F_WRITE_END_TIMESTAMP = 0)) ∧
    (0 ≤ end_time - start_time + 1 →
      0 ≤ f.CP_F_OPEN_TIMESTAMP → 0 ≤ f.CP_F_CLOSE_TIMESTAMP →
      0 ≤ f.CP_F_READ_START_TIMESTAMP → 0 ≤ f.CP_F_WRITE_START_TIMESTAMP →
      0 ≤ f.CP_F_READ_END_TIMESTAMP → 0 ≤ f.CP_F_WRITE_END_TIMESTAMP →
      0 ≤ f'.CP_F_OPEN_TIMESTAMP ∧ 0 ≤ f'.CP_F_CLOSE_TIMESTAMP ∧
      0 ≤ f'.CP_F_READ_START_TIMESTAMP ∧ 0 ≤ f'.CP_F_WRITE_START_TIMESTAMP ∧
      0 ≤ f'.CP_F_READ_END_TIMESTAMP ∧ 0 ≤ f'.CP_F_WRITE_END_TIMESTAMP) := by
  have hn : ∀ t : ℚ, 0 ≤ normalized_timestamp start_time f.CP_F_OPEN_TIMESTAMP t ∨
      normalized_timestamp start_time f.CP_F_OPEN_TIMESTAMP t = t := by
    intro t
    unfold normalized_timestamp
    split_ifs
    · exact Or.inl (le_max_right _ _)
    · exact Or.inr rfl
  have hz : 0 ≤ start_time →
      normalized_timestamp start_time f.CP_F_OPEN_TIMESTAMP 0 = 0 := by
    intro hs
    unfold normalized_timestamp
    have hq : (0 : ℚ) ≤ (start_time : ℚ) := by exact_mod_cast hs
    split_ifs
    · exact max_eq_right (by linarith)
    · rfl
  have hmain : f'.CP_F_OPEN_TIMESTAMP =
        normalized_timestamp start_time f.CP_F_OPEN_TIMESTAMP f.CP_F_OPEN_TIMESTAMP ∧
      f'.CP_F_READ_START_TIMESTAMP =
        normalized_timestamp start_time f.CP_F_OPEN_TIMESTAMP f.CP_F_READ_START_TIMESTAMP ∧
      f'.CP_F_WRITE_START_TIMESTAMP =
        normalized_timestamp start_time f.CP_F_OPEN_TIMESTAMP f.CP_F_WRITE_START_TIMESTAMP ∧
      f'.CP_F_READ_END_TIMESTAMP =
        normalized_timestamp start_time f.CP_F_OPEN_TIMESTAMP f.CP_F_READ_END_TIMESTAMP ∧
      f'.CP_F_WRITE_END_TIMESTAMP =
        normalized_timestamp start_time f.CP_F_OPEN_TIMESTAMP f.CP_F_WRITE_END_TIMESTAMP ∧
      f'.CP_F_CLOSE_TIMESTAMP =
        (if normalized_timestamp start_time f.CP_F_OPEN_TIMESTAMP f.CP_F_CLOSE_TIMESTAMP = 0
          then ((end_time - start_time + 1 : Int) : ℚ)
          else normalized_timestamp start_time f.CP_F_OPEN_TIMESTAMP
            f.CP_F_CLOSE_TIMESTAMP) := by
    unfold check_file_counters at h
    split at h
    · cases h
    · simp only [Option.some.injEq] at h
      subst h
      unfold normalized_timestamp
      by_cases ho : f.CP_F_OPEN_TIMESTAMP > (start_time : ℚ)
      · simp only [if_pos ho, adjust_timestamp_eq_max]
        split_ifs <;> exact ⟨rfl, rfl, rfl, rfl, rfl, rfl⟩
      · simp only [if_neg ho]
        split_ifs <;> exact ⟨rfl, rfl, rfl, rfl, rfl, rfl⟩
  obtain ⟨m1, m2, m3, m4, m5, m6⟩ := hmain
  refine ⟨⟨m1, m2, m3, m4, m5, m6⟩, ?_, ?_⟩
  · intro hs
    refine ⟨fun h0 => ?_, fun h0 => ?_, fun h0 => ?_, fun h0 => ?_⟩
    · rw [m2, h0]; exact hz hs
    · rw [m3, h0]; exact hz hs
    · rw [m4, h0]; exact hz hs
    · rw [m5, h0]; exact hz hs
  · intro hd h1 h2 h3 h4 h5 h6
    have hdq : (0 : ℚ) ≤ ((end_time - start_time + 1 : Int) : ℚ) := by exact_mod_cast hd
    have key : ∀ t : ℚ, 0 ≤ t →
        0 ≤ normalized_timestamp start_time f.CP_F_OPEN_TIMESTAMP t := by
      intro t ht
      rcases hn t with h | h
      · exact h
      · rw [h]; exact ht
    refine ⟨by rw [m1]; exact key _ h1, ?_, by rw [m2]; exact key _ h3,
      by rw [m3]; exact key _ h4, by rw [m4]; exact key _ h5, by rw [m5]; exact key _ h6⟩
    rw [m6]
    split_ifs
    · exact hdq
    · exact key _ h2

/-- The record `check_file_counters` makes of `late_job_file` in a job running from time
100 to time 200. -/
theorem late_job_file_run :
    check_file_counters 100 (200 - 100 + 1) late_job_file = some late_job_checked := by
  decide!

theorem check_file_counters_timestamps_witness :
    (late_job_file.CP_F_OPEN_TIMESTAMP > ((100 : Int) : ℚ) ∧
      late_job_checked.CP_F_OPEN_TIMESTAMP = 150 - 100 ∧
      late_job_checked.CP_F_READ_START_TIMESTAMP = 160 - 100 ∧
      late_job_checked.CP_F_READ_END_TIMESTAMP = 170 - 100 ∧
      late_job_checked.CP_F_WRITE_START_TIMESTAMP = 0 ∧
      late_job_checked.CP_F_WRITE_END_TIMESTAMP = 0 ∧
      late_job_checked.CP_F_CLOSE_TIMESTAMP = 200 - 100 + 1) ∧
    (late_job_checked.CP_F_OPEN_TIMESTAMP =
        normalized_timestamp 100 late_job_file.CP_F_OPEN_TIMESTAMP
          late_job_file.CP_F_OPEN_TIMESTAMP ∧
      late_job_checked.CP_F_READ_START_TIMESTAMP =
        normalized_timestamp 100 late_job_file.CP_F_OPEN_TIMESTAMP
          late_job_file.CP_F_READ_START_TIMESTAMP ∧
      late_job_checked.CP_F_WRITE_START_TIMESTAMP =
        normalized_timestamp 100 late_job_file.CP_F_OPEN_TIMESTAMP
          late_job_file.CP_F_WRITE_START_TIMESTAMP ∧
      late_job_checked.CP_F_READ_END_TIMESTAMP =
        normalized_timestamp 100 late_job_file.CP_F_OPEN_TIMESTAMP
          late_job_file.CP_F_READ_END_TIMESTAMP ∧
      late_job_checked.CP_F_WRITE_END_TIMESTAMP =
        normalized_timestamp 100 late_job_file.CP_F_OPEN_TIMESTAMP
          late_job_file.CP_F_WRITE_END_TIMESTAMP ∧
      late_job_checked.CP_F_CLOSE_TIMESTAMP =
        (if normalized_timestamp 100 late_job_file.CP_F_OPEN_TIMESTAMP
            late_job_file.CP_F_CLOSE_TIMESTAMP = 0
          then (((200 : Int) - 100 + 1 : Int) : ℚ)
          else normalized_timestamp 100 late_job_file.CP_F_OPEN_TIMESTAMP
            late_job_file.CP_F_CLOSE_TIMESTAMP)) ∧
    ((late_job_file.CP_F_WRITE_START_TIMESTAMP = 0 →
        late_job_checked.CP_F_WRITE_START_TIMESTAMP = 0) ∧
      (late_job_file.CP_F_WRITE_END_TIMESTAMP = 0 →
        late_job_checked.CP_F_WRITE_END_TIMESTAMP = 0)) ∧
    (0 ≤ late_job_checked.CP_F_OPEN_TIMESTAMP ∧ 0 ≤ late_job_checked.CP_F_CLOSE_TIMESTAMP ∧
      0 ≤ late_job_checked.CP_F_READ_START_TIMESTAMP ∧
      0 ≤ late_job_checked.CP_F_WRITE_START_TIMESTAMP ∧
      0 ≤ late_job_checked.CP_F_READ_END_TIMESTAMP ∧
      0 ≤ late_job_checked.CP_F_WRITE_END_TIMESTAMP) :=
  ⟨by decide!,
   (check_file_counters_timestamps 100 200 late_job_file late_job_checked
      late_job_file_run).1,
   ⟨((check_file_counters_timestamps 100 200 late_job_file late_job_checked
      late_job_file_run).2.1 (by decide)).2.1,
    ((check_file_counters_timestamps 100 200 late_job_file late_job_checked
      late_job_file_run).2.1 (by decide)).2.2.2⟩,
   (check_file_counters_timestamps 100 200 late_job_file late_job_checked
      late_job_file_run).2.2 (by decide) (by decide!) (by decide!) (by decide!) (by decide!)
      (by decide!) (by decide!)⟩

theorem calc_io_delay_pcts_nonpositive (file : darshan_file) (num_opens num_io_ops : Int)
    (d : ℚ) (p : delay_pcts) (hd : d ≤ 0) :
    calc_io_delay_pcts file num_opens num_io_ops d p = some p := by
  unfold calc_io_delay_pcts
  rw [if_neg (not_lt.mpr hd)]

theorem ind_cycle_setup_pcts (file : darshan_file) (c : ind_cycle_params)
    (h : ind_cycle_setup file = some c) :
    c.pcts = finite_pcts (calc_io_delay_pcts file file.CP_POSIX_OPENS
      (file.CP_POSIX_READS + file.CP_POSIX_WRITES) c.delay_per_open zero_pcts) ∧
    c.inter_open_delay =
      (if file.CP_POSIX_OPENS > 1 then
        fmul (fmul c.pcts.inter_open_pct c.delay_per_open)
          (fquo (file.CP_POSIX_OPENS : ℚ) ((file.CP_POSIX_OPENS : ℚ) - 1))
      else 0) := by
  unfold ind_cycle_setup at h
  simp only [Option.some.injEq] at h
  subst h
  exact ⟨rfl, rfl⟩

theorem coll_cycle_setup_pcts (nprocs agg : Int) (u : ℚ) (oc mo tio x : Int)
    (xs : Option Int) (file : darshan_file) (c : coll_cycle_params)
    (h : coll_cycle_setup nprocs agg u oc mo tio x xs file = some c) :
    ∃ cycles ops : Int,
      c.pcts = finite_pcts (calc_io_delay_pcts file cycles ops c.delay_per_cycle zero_pcts) := by
  unfold coll_cycle_setup at h
  obtain ⟨a1, _, h⟩ := Option.bind_eq_some.mp h
  obtain ⟨a2, _, h⟩ := Option.bind_eq_some.mp h
  obtain ⟨a3, _, h⟩ := Option.bind_eq_some.mp h
  obtain ⟨a4, _, h⟩ := Option.bind_eq_some.mp h
  obtain ⟨a5, _, rfl⟩ := Option.map_eq_some'.mp h
  exact ⟨a4, round_half_away a5, rfl⟩

/-- C33: when the unaccounted time per cycle is not positive, `calc_io_delay_pcts` returns
the four zero fractions both generators pass in; the set-up of the independent and of the
collective generator then holds four zero fractions, and every delay the cycle loops add
to the current time (before the first I/O, between I/O operations, before the close and
between cycles) is zero. -/
theorem calc_io_delay_pcts_no_delay (file : darshan_file) (num_opens num_io_ops : Int)
    (d : ℚ) (hd : d ≤ 0) :
    calc_io_delay_pcts file num_opens num_io_ops d zero_pcts = some zero_pcts ∧
    (∀ c, ind_cycle_setup file = some c → c.delay_per_open ≤ 0 →
      c.pcts = zero_pcts ∧ c.pcts.first_io_pct * c.delay_per_open = 0 ∧
      c.pcts.inter_io_pct * c.delay_per_open = 0 ∧
      c.pcts.close_pct * c.delay_per_open = 0 ∧ c.inter_open_delay = 0) ∧
    (∀ nprocs agg u oc mo tio x xs c,
      coll_cycle_setup nprocs agg u oc mo tio x xs file = some c → c.delay_per_cycle ≤ 0 →
      c.pcts = zero_pcts ∧ c.pcts.first_io_pct * c.delay_per_cycle = 0 ∧
      c.pcts.inter_io_pct * c.delay_per_cycle = 0 ∧
      c.pcts.close_pct * c.delay_per_cycle = 0 ∧
      c.pcts.inter_open_pct * c.delay_per_cycle = 0) := by
  refine ⟨calc_io_delay_pcts_nonpositive file num_opens num_io_ops d zero_pcts hd, ?_, ?_⟩
  · intro c h hc
    obtain ⟨h1, h2⟩ := ind_cycle_setup_pcts file c h
    rw [calc_io_delay_pcts_nonpositive _ _ _ _ _ hc] at h1
    have hp : c.pcts = zero_pcts := h1
    rw [h2, hp]
    have hz : fmul (fmul zero_pcts.inter_open_pct c.delay_per_open)
        (fquo (file.CP_POSIX_OPENS : ℚ) ((file.CP_POSIX_OPENS : ℚ) - 1)) = 0 := by
      show fmul (fmul 0 c.delay_per_open) _ = 0
      rw [fmul_zero_left, fmul_zero_left]
    rw [hz]
    simp [zero_pcts]
  · intro nprocs agg u oc mo tio x xs c h hc
    obtain ⟨cy, ops, h1⟩ := coll_cycle_setup_pcts nprocs agg u oc mo tio x xs file c h
    rw [calc_io_delay_pcts_nonpositive _ _ _ _ _ hc] at h1
    have hp : c.pcts = zero_pcts := h1
    rw [hp]
    simp [zero_pcts]

theorem calc_io_delay_pcts_no_delay_witness :
    (0 : ℚ) ≤ 0 ∧ calc_io_delay_pcts zero_file 1 1 0 zero_pcts = some zero_pcts :=
  ⟨le_refl 0, (calc_io_delay_pcts_no_delay zero_file 1 1 0 (le_refl 0)).1⟩

theorem eq_some_getD_of_isSome {α : Type} (o : Option α) (d : α) (h : o.isSome = true) :
    o = some (o.getD d) := by
  cases o with
  | none => cases h
  | some a => rfl

/-- One pass of the inner loop stores one READ or WRITE with the current `io_event.rank`
and advances that rank by `ranks_per_aggregator`, wrapping to 0. -/
theorem coll_io_op_rank (rnd : Nat → Nat) (c : coll_io_consts) (ind_coll tc : Int) (t : ℚ)
    (x y : gen_state × Int × ℚ) (h : coll_io_op rnd c ind_coll tc t x = some y) :
    y.2.1 = (if x.2.1 + c.ranks_per_aggregator ≥ c.ranks_per_aggregator * c.aggregator_cnt
      then 0 else x.2.1 + c.ranks_per_aggregator) ∧
    ∃ e, y.1.file_event_list = x.1.file_event_list ++ [e] ∧ e.rank = x.2.1 ∧
      (e.type = event_type.POSIX_READ ∨ e.type = event_type.POSIX_WRITE) := by
  unfold coll_io_op at h
  obtain ⟨k, _, h⟩ := Option.bind_eq_some.mp h
  obtain ⟨r, hr, h⟩ := Option.bind_eq_some.mp h
  obtain ⟨st1, sz, off⟩ := r
  obtain ⟨k1, k2, _⟩ := determine_io_params_keep rnd _ _ _ _ _ _ _ hr
  simp only at h
  by_cases hneg : (coll_io_count st1).file.CP_POSIX_READS < 0 ∨
      (coll_io_count st1).file.CP_POSIX_WRITES < 0
  · rw [if_pos hneg] at h; cases h
  · rw [if_neg hneg] at h
    obtain ⟨st2, hst, rfl⟩ := Option.map_eq_some'.mp h
    have e2 := store_event_eq _ _ _ hst
    obtain ⟨c1, c2⟩ := coll_io_count_keep st1
    refine ⟨rfl, coll_io_event st1 x.2.1 c.meta_op_time t sz off, ?_, ?_, ?_⟩
    · show st2.file_event_list = _
      rw [e2]
      show (coll_io_count st1).file_event_list ++ _ = _
      rw [c2, k2]
    · unfold coll_io_event
      split_ifs <;> rfl
    · rw [coll_io_event_type]
      split_ifs
      · exact Or.inl rfl
      · exact Or.inr rfl

/-- The rank after one more event of a round-robin over `a` aggregators `s` ranks apart. -/
theorem round_robin_next (a s : Int) (j : Nat) (ha : 1 ≤ a) (hs : 0 ≤ s) :
    (if ((j : Int) % a) * s + s ≥ s * a then 0 else ((j : Int) % a) * s + s) =
      (((j + 1 : Nat) : Int) % a) * s := by
  have h0 : 0 ≤ (j : Int) % a := Int.emod_nonneg _ (by omega)
  have h1 : (j : Int) % a < a := Int.emod_lt_of_pos _ (by omega)
  have hj : ((j + 1 : Nat) : Int) = (j : Int) + 1 := by push_cast; rfl
  rw [hj]
  by_cases hlast : (j : Int) % a = a - 1
  · have hz : ((j : Int) + 1) % a = 0 := by
      rw [Int.add_emod, hlast]
      have : (a - 1 + 1 % a) % a = 0 := by
        by_cases ha1 : a = 1
        · subst ha1; decide
        · rw [Int.emod_eq_of_lt (by omega : (0 : Int) ≤ 1) (by omega : (1 : Int) < a)]
          rw [show a - 1 + 1 = a by ring]
          exact Int.emod_self
      exact this
    rw [hz, hlast, if_pos (by nlinarith)]
    ring
  · have hlt : (j : Int) % a + 1 < a := by omega
    have hz : ((j : Int) + 1) % a = (j : Int) % a + 1 := by
      by_cases ha1 : a = 1
      · subst ha1; omega
      · rw [Int.add_emod, Int.emod_eq_of_lt (by omega : (0 : Int) ≤ 1) (by omega : (1 : Int) < a)]
        exact Int.emod_eq_of_lt (by omega) hlt
    rw [hz]
    by_cases hs0 : s = 0
    · subst hs0; simp
    · have hs1 : 1 ≤ s := by omega
      rw [if_neg (by nlinarith)]
      ring

/-- The inner loop started after `j0` events of a round-robin: the `j`-th further event
has rank `((j0 + j) mod a) * s`. -/
theorem coll_io_ops_ranks (rnd : Nat → Nat) (c : coll_io_consts) (ind_coll tc : Int) (t : ℚ)
    (ha : 1 ≤ c.aggregator_cnt) (hs : 0 ≤ c.ranks_per_aggregator) :
    ∀ (k j0 : Nat) (x y : gen_state × Int × ℚ),
    x.2.1 = ((j0 : Int) % c.aggregator_cnt) * c.ranks_per_aggregator →
    coll_io_ops rnd c ind_coll tc t k x = some y →
    ∃ l, y.1.file_event_list = x.1.file_event_list ++ l ∧ l.length = k ∧ all_io l ∧
      ∀ (j : Nat) (hj : j < l.length),
        (l.get ⟨j, hj⟩).rank =
          (((j0 + j : Nat) : Int) % c.aggregator_cnt) * c.ranks_per_aggregator := by
  intro k
  induction k with
  | zero =>
    intro j0 x y _ h
    simp only [coll_io_ops, Option.some.injEq] at h
    subst h
    exact ⟨[], by simp, rfl, fun e he => (by cases he), fun j hj => absurd hj (by simp)⟩
  | succ k ih =>
    intro j0 x y hx h
    simp only [coll_io_ops] at h
    obtain ⟨z, hz, h⟩ := Option.bind_eq_some.mp h
    obtain ⟨a1, e, a2, a3, a4⟩ := coll_io_op_rank rnd c ind_coll tc t x z hz
    have hz1 : z.2.1 = (((j0 + 1 : Nat) : Int) % c.aggregator_cnt) * c.ranks_per_aggregator := by
      rw [a1, hx]
      exact round_robin_next c.aggregator_cnt c.ranks_per_aggregator j0 ha hs
    obtain ⟨l, b1, b2, b3, b4⟩ := ih (j0 + 1) z y hz1 h
    refine ⟨e :: l, by rw [b1, a2]; simp, by simp [b2], fun x hx => ?_, ?_⟩
    · rcases List.mem_cons.mp hx with h | h
      · rw [h]; exact a4
      · exact b3 x h
    · intro j hj
      cases j with
      | zero =>
        show e.rank = _
        rw [a3, hx]
        rfl
      | succ j =>
        have hj1 : j < l.length := by simpa using hj
        show (l.get ⟨j, hj1⟩).rank = _
        rw [b4 j hj1]
        have : j0 + 1 + j = j0 + (j + 1) := by omega
        rw [this]

/-- C31: for a file with collective opens in a job of `nprocs ≥ 1` processes with a
configured aggregator count `agg ≥ 1`, the events of one collective operation are the
READ or WRITE events stored by the inner loop after the pick of the operation; the `j`-th
of them has rank `(j mod agg) * (nprocs / agg)`, and each has a rank in `[0, nprocs)`. -/
theorem coll_io_ops_round_robin (rnd : Nat → Nat) (nprocs agg : Int) (file : darshan_file)
    (t : Int × Int × Int × Int) (c : coll_io_consts) (s : coll_loop_state) (st : gen_state)
    (p : coll_pick) (m : ℚ) (y : gen_state × Int × ℚ)
    (hn : 1 ≤ nprocs) (ha : 1 ≤ agg) (hco : file.CP_COLL_OPENS ≠ 0)
    (ht : coll_io_totals nprocs agg file = some t)
    (hc1 : c.aggregator_cnt = t.2.2.1) (hc2 : c.ranks_per_aggregator = t.2.2.2)
    (hp : coll_pick_collective c s st = some p)
    (h : coll_io_ops rnd c p.ind_coll s.total_coll_io_ops s.cur_time p.io_cnt.toNat
      (p.st, p.rank, m) = some y) :
    ∃ l, y.1.file_event_list = p.st.file_event_list ++ l ∧ l.length = p.io_cnt.toNat ∧
      all_io l ∧
      (∀ (j : Nat) (hj : j < l.length),
        (l.get ⟨j, hj⟩).rank = ((j : Int) % agg) * (nprocs / agg)) ∧
      ∀ e ∈ l, 0 ≤ e.rank ∧ e.rank < nprocs := by
  have hagg : c.aggregator_cnt = agg ∧ c.ranks_per_aggregator = nprocs / agg := by
    unfold coll_io_totals at ht
    rw [if_pos hco] at ht
    obtain ⟨a, _, ht⟩ := Option.bind_eq_some.mp ht
    obtain ⟨b, hb, rfl⟩ := Option.map_eq_some'.mp ht
    unfold cdiv at hb
    rw [if_neg (by omega)] at hb
    cases hb
    exact ⟨hc1, by rw [hc2]; exact Int.tdiv_eq_ediv (by omega) (by omega)⟩
  have hrank : p.rank = 0 := by
    unfold coll_pick_collective at hp
    obtain ⟨b, _, hp⟩ := Option.bind_eq_some.mp hp
    simp only at hp
    split at hp
    · obtain ⟨q, _, hp⟩ := Option.bind_eq_some.mp hp
      obtain ⟨n, _, rfl⟩ := Option.map_eq_some'.mp hp
      rfl
    · obtain ⟨q, _, hp⟩ := Option.bind_eq_some.mp hp
      obtain ⟨n, _, rfl⟩ := Option.map_eq_some'.mp hp
      rfl
  have hs0 : 0 ≤ nprocs / agg := Int.ediv_nonneg (by omega) (by omega)
  have hmul : nprocs / agg * agg ≤ nprocs := Int.ediv_mul_le _ (by omega)
  obtain ⟨l, l1, l2, l3, l4⟩ := coll_io_ops_ranks rnd c p.ind_coll s.total_coll_io_ops
    s.cur_time (by rw [hagg.1]; exact ha) (by rw [hagg.2]; exact hs0) p.io_cnt.toNat 0
    (p.st, p.rank, m) y (by show p.rank = _; rw [hrank]; simp) h
  have l5 : ∀ (j : Nat) (hj : j < l.length),
      (l.get ⟨j, hj⟩).rank = ((j : Int) % agg) * (nprocs / agg) := by
    intro j hj
    rw [l4 j hj, hagg.1, hagg.2]
    simp
  refine ⟨l, l1, l2, l3, l5, ?_⟩
  intro e he
  obtain ⟨i, hi⟩ := List.get_of_mem he
  have hr := l5 i.1 i.2
  rw [show l.get ⟨i.1, i.2⟩ = e from hi] at hr
  have h0 : 0 ≤ (i.1 : Int) % agg := Int.emod_nonneg _ (by omega)
  have h1 : (i.1 : Int) % agg < agg := Int.emod_lt_of_pos _ (by omega)
  rw [hr]
  constructor
  · exact mul_nonneg h0 hs0
  · by_cases hz : nprocs / agg = 0
    · rw [hz]; omega
    · have : 1 ≤ nprocs / agg := by omega
      nlinarith

theorem coll_io_ops_round_robin_witness :
    ∃ l, ((coll_io_ops (fun _ => 0) round_robin_consts round_robin_pick.ind_coll 1 0
        round_robin_pick.io_cnt.toNat
        (round_robin_pick.st, round_robin_pick.rank, 0)).getD
        (round_robin_pick.st, 0, 0)).1.file_event_list =
        round_robin_pick.st.file_event_list ++ l ∧
      l.length = round_robin_pick.io_cnt.toNat ∧ all_io l ∧
      (∀ (j : Nat) (hj : j < l.length),
        (l.get ⟨j, hj⟩).rank = ((j : Int) % 2) * (4 / 2)) ∧
      ∀ e ∈ l, 0 ≤ e.rank ∧ e.rank < 4 :=
  coll_io_ops_round_robin (fun _ => 0) 4 2 round_robin_file (0, 1, 2, 2) round_robin_consts
    round_robin_loop_state round_robin_loop_state.st round_robin_pick 0
    ((coll_io_ops (fun _ => 0) round_robin_consts round_robin_pick.ind_coll 1 0
        round_robin_pick.io_cnt.toNat
        (round_robin_pick.st, round_robin_pick.rank, 0)).getD
        (round_robin_pick.st, 0, 0))
    (by decide) (by decide) (by decide) (by decide!) rfl rfl
    (eq_some_getD_of_isSome _ _ (by decide!))
    (eq_some_getD_of_isSome _ _ (by decide!))

theorem round_robin_pick_count :
    round_robin_pick.io_cnt = 3 ∧ round_robin_pick.ind_coll = 1 := by
  decide!

/-- A toggle happens only while the switch budget is not zero, so a non-negative budget
stays non-negative. -/
theorem ind_toggle_budget (rnd : Nat → Nat) (st : gen_state) (rem : Int) :
    (0 ≤ st.file.CP_RW_SWITCHES →
      0 ≤ (ind_toggle rnd st (ind_rw_switch st rem)).file.CP_RW_SWITCHES) ∧
    (st.file.CP_RW_SWITCHES = 0 →
      (ind_toggle rnd st (ind_rw_switch st rem)).file.CP_RW_SWITCHES = 0 ∧
      (ind_toggle rnd st (ind_rw_switch st rem)).ind_rw = st.ind_rw) := by
  constructor
  · intro h0
    by_cases hz : st.file.CP_RW_SWITCHES = 0
    · rw [ind_rw_switch_no_switches st rem hz, ind_toggle_zero]
      exact h0
    · unfold ind_toggle
      split_ifs
      · show 0 ≤ st.file.CP_RW_SWITCHES - 1
        omega
      · exact h0
  · intro hz
    rw [ind_rw_switch_no_switches st rem hz, ind_toggle_zero]
    exact ⟨hz, rfl⟩

theorem ind_toggle_timestamps (rnd : Nat → Nat) (st : gen_state) (x : fval) :
    (ind_toggle rnd st x).file.CP_F_WRITE_START_TIMESTAMP =
      st.file.CP_F_WRITE_START_TIMESTAMP ∧
    (ind_toggle rnd st x).file.CP_F_READ_START_TIMESTAMP =
      st.file.CP_F_READ_START_TIMESTAMP := by
  unfold ind_toggle
  split_ifs <;> exact ⟨rfl, rfl⟩

theorem ind_io_count_ctl (st : gen_state) :
    (ind_io_count st).file.CP_RW_SWITCHES = st.file.CP_RW_SWITCHES ∧
    (ind_io_count st).ind_rw = st.ind_rw := by
  unfold ind_io_count
  split_ifs <;> exact ⟨rfl, rfl⟩

/-- One iteration of the I/O loop: the new state is the toggle applied to the state that
holds the event of the current direction. -/
theorem ind_io_body_budget (rnd : Nat → Nat) (ops : Int) (d m : ℚ) (i : Int)
    (s s' : io_loop_state) (h : ind_io_body rnd ops d m i s = some s') :
    (0 ≤ s.st.file.CP_RW_SWITCHES → 0 ≤ s'.st.file.CP_RW_SWITCHES) ∧
    (s.st.file.CP_RW_SWITCHES = 0 →
      s'.st.file.CP_RW_SWITCHES = 0 ∧ s'.st.ind_rw = s.st.ind_rw ∧
      s'.rw_switch = some (fval.fin 0)) ∧
    s'.st.file.CP_POSIX_OPENS = s.st.file.CP_POSIX_OPENS ∧
    ∃ e, s'.st.file_event_list = s.st.file_event_list ++ [e] ∧
      e.type = io_kind s.st.ind_rw := by
  unfold ind_io_body at h
  obtain ⟨r, hr, h⟩ := Option.bind_eq_some.mp h
  obtain ⟨st1, sz, off⟩ := r
  have hctl := determine_io_params_ctl rnd s.st st1 _ _ _ sz off hr
  simp only at h
  by_cases hneg : (ind_io_count st1).file.CP_POSIX_READS < 0 ∨
      (ind_io_count st1).file.CP_POSIX_WRITES < 0
  · rw [if_pos hneg] at h; cases h
  · rw [if_neg hneg] at h
    obtain ⟨st2, hst, rfl⟩ := Option.map_eq_some'.mp h
    have e2 := store_event_eq _ _ _ hst
    have c_sw : st1.file.CP_RW_SWITCHES = s.st.file.CP_RW_SWITCHES :=
      congrArg ctl_view.rw_switches hctl
    have c_rw : st1.ind_rw = s.st.ind_rw := congrArg ctl_view.ind_rw hctl
    have c_ev : st1.file_event_list = s.st.file_event_list := congrArg ctl_view.events hctl
    have c_opens : st1.file.CP_POSIX_OPENS = s.st.file.CP_POSIX_OPENS :=
      congrArg ctl_view.opens hctl
    obtain ⟨k1, k2⟩ := ind_io_count_ctl st1
    obtain ⟨f1, f2, _, _, _⟩ := ind_io_count_frame st1
    have s_sw : st2.file.CP_RW_SWITCHES = s.st.file.CP_RW_SWITCHES := by
      rw [e2]; show (ind_io_count st1).file.CP_RW_SWITCHES = _; rw [k1, c_sw]
    have s_rw : st2.ind_rw = s.st.ind_rw := by
      rw [e2]; show (ind_io_count st1).ind_rw = _; rw [k2, c_rw]
    have s_opens : st2.file.CP_POSIX_OPENS = s.st.file.CP_POSIX_OPENS := by
      rw [e2]; show (ind_io_count st1).file.CP_POSIX_OPENS = _; rw [f1, c_opens]
    have s_ev : st2.file_event_list =
        s.st.file_event_list ++ [(ind_io_event st1 m s.cur_time sz off).1] := by
      rw [e2]; show (ind_io_count st1).file_event_list ++ _ = _; rw [f2, c_ev]
    obtain ⟨b1, b2⟩ := ind_toggle_budget rnd st2 (s.psx_rw_ops_remaining - 1)
    obtain ⟨t1, _, _, t4, _⟩ := ind_toggle_frame rnd st2
      (ind_rw_switch st2 (s.psx_rw_ops_remaining - 1))
    refine ⟨?_, ?_, ?_, (ind_io_event st1 m s.cur_time sz off).1, ?_, ?_⟩
    · intro h0
      exact b1 (by rw [s_sw]; exact h0)
    · intro hz
      obtain ⟨b3, b4⟩ := b2 (by rw [s_sw]; exact hz)
      refine ⟨b3, by rw [← s_rw]; exact b4, ?_⟩
      show some (ind_rw_switch st2 (s.psx_rw_ops_remaining - 1)) = _
      rw [ind_rw_switch_no_switches st2 _ (by rw [s_sw]; exact hz)]
    · show (ind_toggle rnd st2 _).file.CP_POSIX_OPENS = _
      rw [t1, s_opens]
    · show (ind_toggle rnd st2 _).file_event_list = _
      rw [t4, s_ev]
    · rw [ind_io_event_type, c_rw]
      rfl

theorem ind_io_loop_budget (rnd : Nat → Nat) (ops : Int) (d m : ℚ) :
    ∀ (k : Nat) (i : Int) (s s' : io_loop_state),
    ind_io_loop rnd ops d m k i s = some s' →
    (0 ≤ s.st.file.CP_RW_SWITCHES → 0 ≤ s'.st.file.CP_RW_SWITCHES) ∧
    s'.st.file.CP_POSIX_OPENS = s.st.file.CP_POSIX_OPENS ∧
    (s.st.file.CP_RW_SWITCHES = 0 →
      s'.st.file.CP_RW_SWITCHES = 0 ∧ s'.st.ind_rw = s.st.ind_rw ∧
      (0 < k → s'.rw_switch = some (fval.fin 0)) ∧
      ∃ l, s'.st.file_event_list = s.st.file_event_list ++ l ∧
        ∀ e ∈ l, e.type = io_kind s.st.ind_rw) := by
  intro k
  induction k with
  | zero =>
    intro i s s' h
    simp only [ind_io_loop, Option.some.injEq] at h
    subst h
    exact ⟨fun h => h, rfl, fun hz => ⟨hz, rfl, fun hk => absurd hk (by decide), [],
      by simp, fun e he => (by cases he)⟩⟩
  | succ k ih =>
    intro i s s' h
    simp only [ind_io_loop] at h
    obtain ⟨z, hz, h⟩ := Option.bind_eq_some.mp h
    obtain ⟨a1, a2, a3, e, a4, a5⟩ := ind_io_body_budget rnd ops d m i s z hz
    obtain ⟨b1, b2, b3⟩ := ih (i + 1) z s' h
    refine ⟨fun h0 => b1 (a1 h0), by rw [b2, a3], fun h0 => ?_⟩
    obtain ⟨c1, c2, c3⟩ := a2 h0
    obtain ⟨d1, d2, d3, l, d4, d5⟩ := b3 c1
    refine ⟨d1, by rw [d2, c2], fun _ => ?_, e :: l, by rw [d4, a4]; simp, fun x hx => ?_⟩
    · by_cases hk : 0 < k
      · exact d3 hk
      · have hk0 : k = 0 := by omega
        subst hk0
        simp only [ind_io_loop, Option.some.injEq] at h
        rw [← h]
        exact c3
    · rcases List.mem_cons.mp hx with hx | hx
      · rw [hx]; exact a5
      · rw [d5 x hx, c2]

theorem ind_io_init_direction (st st1 : gen_state) (h : ind_io_init st = some st1) :
    st1.ind_rw = ind_direction st ∧ st1.file = st.file ∧
    st1.file_event_list = st.file_event_list ∧
    (st.ind_rw = 0 ∨ st.ind_rw = 1 ∨ st.ind_rw = -1 → st1.ind_rw = 0 ∨ st1.ind_rw = 1) := by
  unfold ind_io_init at h
  unfold ind_direction
  by_cases hrw : st.ind_rw = -1
  · rw [if_pos hrw] at h
    obtain ⟨n, _, rfl⟩ := Option.map_eq_some'.mp h
    rw [if_pos hrw]
    refine ⟨rfl, rfl, rfl, fun _ => ?_⟩
    simp only
    split_ifs
    · exact Or.inl rfl
    · exact Or.inr rfl
    · exact Or.inl rfl
    · exact Or.inr rfl
  · rw [if_neg hrw] at h
    cases h
    rw [if_neg hrw]
    refine ⟨rfl, rfl, rfl, fun hh => ?_⟩
    rcases hh with hh | hh | hh
    · exact Or.inl hh
    · exact Or.inr hh
    · exact absurd hh hrw

/-- The end of `generate_psx_ind_io_events`: the budget is lowered only when it is not
zero. -/
theorem ind_io_finish_budget (ndx : Int) (s : io_loop_state) (st2 : gen_state)
    (h : ind_io_finish ndx s = some st2) :
    (0 ≤ s.st.file.CP_RW_SWITCHES → 0 ≤ st2.file.CP_RW_SWITCHES) ∧
    (s.st.file.CP_RW_SWITCHES = 0 →
      st2.file.CP_RW_SWITCHES = 0 ∧
      (s.st.file.CP_POSIX_OPENS ≠ 1 → st2.ind_rw = s.st.ind_rw)) := by
  unfold ind_io_finish at h
  simp only at h
  by_cases ho : s.st.file.CP_POSIX_OPENS = 1
  · rw [if_pos ho] at h
    cases h
    exact ⟨fun h0 => h0, fun hz => ⟨hz, fun hne => absurd ho hne⟩⟩
  · rw [if_neg ho] at h
    cases hsw : s.rw_switch with
    | none => rw [hsw] at h; cases h
    | some x =>
      rw [hsw] at h
      simp only at h
      by_cases hc : x.is_zero = true ∧ s.st.file.CP_RW_SWITCHES ≠ 0 ∧
          s.st.ind_next_switch_ndx = ndx + 1
      · rw [if_pos hc] at h
        obtain ⟨n, _, rfl⟩ := Option.map_eq_some'.mp h
        refine ⟨fun h0 => ?_, fun hz => absurd hz hc.2.1⟩
        show 0 ≤ s.st.file.CP_RW_SWITCHES - 1
        have := hc.2.1
        omega
      · rw [if_neg hc] at h
        cases h
        exact ⟨fun h0 => h0, fun hz => ⟨hz, fun _ => rfl⟩⟩

/-- One call of `generate_psx_ind_io_events`. -/
theorem generate_psx_ind_io_events_budget (rnd : Nat → Nat) (st st' : gen_state) (ndx : Int)
    (d m t t' : ℚ) (h : generate_psx_ind_io_events rnd st ndx d m t = some (st', t')) :
    (0 ≤ st.file.CP_RW_SWITCHES → 0 ≤ st'.file.CP_RW_SWITCHES) ∧
    st'.file.CP_POSIX_OPENS = st.file.CP_POSIX_OPENS ∧
    (st.file.CP_RW_SWITCHES = 0 →
      st'.file.CP_RW_SWITCHES = 0 ∧
      (st.file.CP_POSIX_OPENS ≠ 1 → ind_direction st' = ind_direction st) ∧
      ∃ l, st'.file_event_list = st.file_event_list ++ l ∧
        ∀ e ∈ l, e.type = io_kind (ind_direction st)) := by
  unfold generate_psx_ind_io_events at h
  simp only at h
  by_cases hrem : st.file.CP_POSIX_READS + st.file.CP_POSIX_WRITES = 0
  · rw [if_pos hrem] at h
    simp only [Option.some.injEq, Prod.mk.injEq] at h
    obtain ⟨rfl, _⟩ := h
    exact ⟨fun h0 => h0, rfl, fun hz => ⟨hz, fun _ => rfl, [], by simp,
      fun e he => (by cases he)⟩⟩
  · rw [if_neg hrem] at h
    obtain ⟨ops, _, h⟩ := Option.bind_eq_some.mp h
    obtain ⟨st1, hinit, h⟩ := Option.bind_eq_some.mp h
    obtain ⟨s, hloop, h⟩ := Option.bind_eq_some.mp h
    obtain ⟨st2, hfin, h⟩ := Option.map_eq_some'.mp h
    simp only [Prod.mk.injEq] at h
    obtain ⟨rfl, _⟩ := h
    obtain ⟨i1, i2, i3, _⟩ := ind_io_init_direction st st1 hinit
    obtain ⟨l1, l2, l3⟩ := ind_io_loop_budget rnd ops d m _ _ _ s hloop
    obtain ⟨f1, f2⟩ := ind_io_finish_budget ndx s st2 hfin
    obtain ⟨g1, _, _, g4, _⟩ := ind_io_finish_frame ndx s st2 hfin
    have l2' : s.st.file.CP_POSIX_OPENS = st1.file.CP_POSIX_OPENS := l2
    refine ⟨fun h0 => f1 (l1 (by show 0 ≤ st1.file.CP_RW_SWITCHES; rw [i2]; exact h0)),
      by rw [g1, l2', i2], fun hz => ?_⟩
    obtain ⟨m1, m2, _, l, m4, m5⟩ := l3 (by show st1.file.CP_RW_SWITCHES = 0; rw [i2]; exact hz)
    have m2' : s.st.ind_rw = ind_direction st := by rw [m2]; exact i1
    obtain ⟨n1, n2⟩ := f2 m1
    refine ⟨n1, fun hne => ?_, l, ?_, fun e he => ?_⟩
    · have hrw : st2.ind_rw = ind_direction st := by
        rw [n2 (by rw [l2', i2]; exact hne)]; exact m2'
      have hne1 : ind_direction st ≠ -1 := by
        unfold ind_direction
        split_ifs <;> first | decide | assumption
      unfold ind_direction at hrw ⊢
      rw [if_neg (by rw [hrw]; exact hne1)]
      exact hrw
    · rw [g4, m4]
      show st1.file_event_list ++ l = _
      rw [i3]
    · rw [m5 e he]
      show io_kind st1.ind_rw = _
      rw [i1]

/-- One open-I/O-close cycle. -/
theorem ind_cycle_budget (rnd : Nat → Nat) (c : ind_cycle_params) (i cf : Int)
    (st : gen_state) (t : ℚ) (r : gen_state × ℚ) (h : ind_cycle rnd c i cf st t = some r) :
    (0 ≤ st.file.CP_RW_SWITCHES → 0 ≤ r.1.file.CP_RW_SWITCHES) ∧
    r.1.file.CP_POSIX_OPENS = st.file.CP_POSIX_OPENS - 1 ∧
    (st.file.CP_RW_SWITCHES = 0 →
      r.1.file.CP_RW_SWITCHES = 0 ∧
      (st.file.CP_POSIX_OPENS ≠ 1 → ind_direction r.1 = ind_direction st) ∧
      ∃ l, r.1.file_event_list = st.file_event_list ++ l ∧
        ∀ e ∈ l, e.type = event_type.POSIX_READ ∨ e.type = event_type.POSIX_WRITE →
          e.type = io_kind (ind_direction st)) := by
  unfold ind_cycle at h
  obtain ⟨r1, h1, h⟩ := Option.bind_eq_some.mp h
  obtain ⟨r2, h2, h⟩ := Option.bind_eq_some.mp h
  obtain ⟨r3, h3, rfl⟩ := Option.map_eq_some'.mp h
  obtain ⟨s1, t1⟩ := r1
  obtain ⟨s2, t2⟩ := r2
  obtain ⟨s3, t3⟩ := r3
  obtain ⟨_, e1, o1, _, _, rfl⟩ := generate_psx_open_event_eq _ _ _ _ _ _ h1
  obtain ⟨_, e3, o3, _, _, rfl⟩ := generate_psx_close_event_eq _ _ _ _ _ h3
  obtain ⟨b1, b2, b3⟩ := generate_psx_ind_io_events_budget rnd _ s2 _ _ _ _ t2 h2
  refine ⟨fun h0 => b1 h0, ?_, fun hz => ?_⟩
  · show s2.file.CP_POSIX_OPENS - 1 = _
    rw [b2]
  · obtain ⟨c1, c2, l, c3, c4⟩ := b3 hz
    refine ⟨c1, fun hne => ?_, e1 :: l ++ [e3], ?_, fun e he hio => ?_⟩
    · have := c2 hne
      unfold ind_direction at this ⊢
      exact this
    · show s2.file_event_list ++ [e3] = _
      rw [c3]
      simp
    · rcases List.mem_append.mp he with he | he
      · rcases List.mem_cons.mp he with he | he
        · rw [he, o1] at hio
          rcases hio with hio | hio <;> cases hio
        · rw [c4 e he]
          rfl
      · rw [List.mem_singleton.mp he, o3] at hio
        rcases hio with hio | hio <;> cases hio

/-- The cycle loop: with an exhausted switch budget every READ or WRITE stored has the
kind of the direction at the start. -/
theorem ind_cycles_budget (rnd : Nat → Nat) (c : ind_cycle_params) :
    ∀ (fuel : Nat) (i cf : Int) (st : gen_state) (t : ℚ) (r : gen_state × ℚ),
    ind_cycles rnd c fuel i cf st t = some r →
    (0 ≤ st.file.CP_RW_SWITCHES → 0 ≤ r.1.file.CP_RW_SWITCHES) ∧
    (st.file.CP_RW_SWITCHES = 0 →
      r.1.file.CP_RW_SWITCHES = 0 ∧
      ∃ l, r.1.file_event_list = st.file_event_list ++ l ∧
        ∀ e ∈ l, e.type = event_type.POSIX_READ ∨ e.type = event_type.POSIX_WRITE →
          e.type = io_kind (ind_direction st)) := by
  intro fuel
  induction fuel with
  | zero =>
    intro i cf st t r h
    unfold ind_cycles at h
    split_ifs at h
    cases h
    exact ⟨fun h0 => h0, fun hz => ⟨hz, [], by simp, fun e he => (by cases he)⟩⟩
  | succ k ih =>
    intro i cf st t r h
    unfold ind_cycles at h
    by_cases ho : st.file.CP_POSIX_OPENS = 0
    · rw [if_pos ho] at h
      cases h
      exact ⟨fun h0 => h0, fun hz => ⟨hz, [], by simp, fun e he => (by cases he)⟩⟩
    · rw [if_neg ho] at h
      obtain ⟨z, hz, h⟩ := Option.bind_eq_some.mp h
      obtain ⟨a1, a2, a3⟩ := ind_cycle_budget rnd c i cf st t z hz
      obtain ⟨b1, b2⟩ := ih (i + 1) 0 z.1 z.2 r h
      refine ⟨fun h0 => b1 (a1 h0), fun h0 => ?_⟩
      obtain ⟨c1, c2, l, c3, c4⟩ := a3 h0
      obtain ⟨d1, l2, d2, d3⟩ := b2 c1
      by_cases hlast : st.file.CP_POSIX_OPENS = 1
      · have hdone : z.1.file.CP_POSIX_OPENS = 0 := by rw [a2, hlast]; rfl
        have hr : r = (z.1, z.2) := by
          cases k with
          | zero =>
            unfold ind_cycles at h
            rw [if_pos hdone] at h
            cases h; rfl
          | succ k =>
            unfold ind_cycles at h
            rw [if_pos hdone] at h
            cases h; rfl
        subst hr
        exact ⟨c1, l, c3, c4⟩
      · refine ⟨d1, l ++ l2, by rw [d2, c3]; simp, fun e he hio => ?_⟩
        rcases List.mem_append.mp he with he | he
        · exact c4 e he hio
        · rw [d3 e he hio, c2 hlast]

/-- C34: in `generate_psx_ind_io_events` a non-negative read/write-switch budget
`CP_RW_SWITCHES` stays non-negative through every iteration of the I/O loop, through the
end of the function and through the whole cycle loop of the file.  Once the budget is 0
no draw toggles the direction: an iteration leaves the budget at 0 and the direction
unchanged and stores an event of the kind of the direction, and every READ or WRITE the
remaining cycles of the file store has the kind of the current direction. -/
theorem generate_psx_ind_io_events_switch_budget (rnd : Nat → Nat) :
    (∀ (ops : Int) (d m : ℚ) (i : Int) (s s' : io_loop_state),
      ind_io_body rnd ops d m i s = some s' →
      (0 ≤ s.st.file.CP_RW_SWITCHES → 0 ≤ s'.st.file.CP_RW_SWITCHES) ∧
      (s.st.file.CP_RW_SWITCHES = 0 →
        s'.st.file.CP_RW_SWITCHES = 0 ∧ s'.st.ind_rw = s.st.ind_rw ∧
        ∃ e, s'.st.file_event_list = s.st.file_event_list ++ [e] ∧
          e.type = io_kind s.st.ind_rw)) ∧
    (∀ (st st' : gen_state) (ndx : Int) (d m t t' : ℚ),
      generate_psx_ind_io_events rnd st ndx d m t = some (st', t') →
      (0 ≤ st.file.CP_RW_SWITCHES → 0 ≤ st'.file.CP_RW_SWITCHES) ∧
      (st.file.CP_RW_SWITCHES = 0 →
        st'.file.CP_RW_SWITCHES = 0 ∧
        (st.file.CP_POSIX_OPENS ≠ 1 → ind_direction st' = ind_direction st) ∧
        ∃ l, st'.file_event_list = st.file_event_list ++ l ∧
          ∀ e ∈ l, e.type = io_kind (ind_direction st))) ∧
    (∀ (c : ind_cycle_params) (fuel : Nat) (i cf : Int) (st : gen_state) (t : ℚ)
      (r : gen_state × ℚ), ind_cycles rnd c fuel i cf st t = some r →
      (0 ≤ st.file.CP_RW_SWITCHES → 0 ≤ r.1.file.CP_RW_SWITCHES) ∧
      (st.file.CP_RW_SWITCHES = 0 →
        r.1.file.CP_RW_SWITCHES = 0 ∧
        ∃ l, r.1.file_event_list = st.file_event_list ++ l ∧
          ∀ e ∈ l, e.type = event_type.POSIX_READ ∨ e.type = event_type.POSIX_WRITE →
            e.type = io_kind (ind_direction st))) := by
  refine ⟨fun ops d m i s s' h => ?_, fun st st' ndx d m t t' h => ?_,
    fun c fuel i cf st t r h => ind_cycles_budget rnd c fuel i cf st t r h⟩
  · obtain ⟨a1, a2, _, e, a4, a5⟩ := ind_io_body_budget rnd ops d m i s s' h
    exact ⟨a1, fun hz => ⟨(a2 hz).1, (a2 hz).2.1, e, a4, a5⟩⟩
  · obtain ⟨a1, _, a3⟩ := generate_psx_ind_io_events_budget rnd st st' ndx d m t t' h
    exact ⟨a1, a3⟩

theorem generate_psx_ind_io_events_switch_budget_witness :
    no_switch_result.1.file.CP_RW_SWITCHES = 0 ∧
    (∃ l, no_switch_result.1.file_event_list =
        (initial_state no_switch_file 8).file_event_list ++ l ∧
      ∀ e ∈ l, e.type = event_type.POSIX_READ ∨ e.type = event_type.POSIX_WRITE →
        e.type = io_kind (ind_direction (initial_state no_switch_file 8))) ∧
    no_switch_result.1.file_event_list.map (fun e => e.type) =
      [event_type.POSIX_OPEN, event_type.POSIX_READ, event_type.POSIX_READ,
        event_type.POSIX_CLOSE, event_type.POSIX_OPEN, event_type.POSIX_READ,
        event_type.POSIX_CLOSE] :=
  ⟨(((generate_psx_ind_io_events_switch_budget (fun _ => 0)).2.2 no_switch_params 2 0 0
      (initial_state no_switch_file 8) 0 no_switch_result (by decide!)).2 (by decide)).1,
   (((generate_psx_ind_io_events_switch_budget (fun _ => 0)).2.2 no_switch_params 2 0 0
      (initial_state no_switch_file 8) 0 no_switch_result (by decide!)).2 (by decide)).2,
   by decide!⟩

/-! ## Stable merge, byte totals of single-kind records and buffer capacity -/

/-- The interleaving loop with enough fuel returns the stable merge, which holds each
input as a subsequence, and in which a file event of an ascending buffer precedes every
timeline event that does not start earlier. -/
theorem merge_loop_stable : ∀ (fuel : Nat) (rs fs : List darshan_event),
    rs.length + fs.length ≤ fuel →
    ∃ l, merge_loop fuel rs fs = some l ∧ l = stable_merge rs fs ∧
      rs.Sublist l ∧ fs.Sublist l ∧
      (fs.Pairwise (fun a b => a.start_time ≤ b.start_time) →
        ∀ r ∈ rs, ∀ f ∈ fs, f.start_time ≤ r.start_time → [f, r].Sublist l) := by
  intro fuel
  induction fuel with
  | zero =>
    intro rs fs hlen
    have hr : rs = [] := List.eq_nil_of_length_eq_zero (by omega)
    have hf : fs = [] := List.eq_nil_of_length_eq_zero (by omega)
    subst hr hf
    refine ⟨[], by simp [merge_loop], by simp [stable_merge], List.Sublist.refl _,
      List.Sublist.refl _, fun _ r hr => (by cases hr)⟩
  | succ k ih =>
    intro rs fs hlen
    cases rs with
    | nil =>
      cases fs with
      | nil =>
        exact ⟨[], by simp [merge_loop], by simp [stable_merge], List.Sublist.refl _,
          List.Sublist.refl _, fun _ r hr => (by cases hr)⟩
      | cons f fs =>
        exact ⟨f :: fs, by simp [merge_loop], by simp [stable_merge], List.nil_sublist _,
          List.Sublist.refl _, fun _ r hr => (by cases hr)⟩
    | cons r rs =>
      cases fs with
      | nil =>
        exact ⟨r :: rs, by simp [merge_loop], by simp [stable_merge], List.Sublist.refl _,
          List.nil_sublist _, fun _ _ _ f hf => (by cases hf)⟩
      | cons f fs =>
        simp only [merge_loop]
        by_cases hlt : r.start_time < f.start_time
        · rw [if_pos hlt]
          obtain ⟨l, h1, h2, h3, h4, h5⟩ := ih rs (f :: fs) (by simp at hlen ⊢; omega)
          refine ⟨r :: l, by rw [h1]; rfl, ?_, h3.cons₂ r, h4.cons r, ?_⟩
          · unfold stable_merge at h2 ⊢
            rw [List.cons_merge_cons, if_neg (by simpa using hlt), h2]
          · intro hp r' hr' f' hf' hle
            have hhead : f.start_time ≤ f'.start_time := by
              rcases List.mem_cons.mp hf' with h | h
              · rw [h]
              · exact (List.pairwise_cons.mp hp).1 f' h
            rcases List.mem_cons.mp hr' with h | h
            · rw [h] at hle
              exact absurd (lt_of_lt_of_le hlt hhead) (not_lt.mpr hle)
            · exact (h5 hp r' h f' hf' hle).cons r
        · rw [if_neg hlt]
          obtain ⟨l, h1, h2, h3, h4, h5⟩ := ih (r :: rs) fs (by simp at hlen ⊢; omega)
          refine ⟨f :: l, by rw [h1]; rfl, ?_, h3.cons f, h4.cons₂ f, ?_⟩
          · unfold stable_merge at h2 ⊢
            rw [List.cons_merge_cons, if_pos (by simpa using hlt), h2]
          · intro hp r' hr' f' hf' hle
            rcases List.mem_cons.mp hf' with h | h
            · rw [h]
              exact (List.singleton_sublist.mpr (h3.subset hr')).cons₂ f
            · exact (h5 (List.pairwise_cons.mp hp).2 r' hr' f' h hle).cons f

/-- C35, as stated, fails in the placement of equal start times when the file's events are
not in ascending order: merging the file events with start times 9, 5 into the timeline
with start times 1, 5 takes both timeline events first, so the timeline event with
`start_time` 5 precedes the file event with the same `start_time`. -/
theorem merge_file_events_tie_after_timeline :
    ¬ (unsorted_file_state.last_close_time < zero_file.CP_F_OPEN_TIMESTAMP) ∧
    (merge_file_events zero_file unsorted_file_state).map (fun m => m.rank_event_list) =
      some [event_at 1, event_at 5, close_event_at 9, close_event_at 5] ∧
    (event_at 5).start_time = (close_event_at 5).start_time ∧
    ¬ [close_event_at 5, event_at 5].Sublist
      [event_at 1, event_at 5, close_event_at 9, close_event_at 5] := by
  decide!

/-- C35, amended: in the interleaving path of `merge_file_events` (timeline `L` and file
buffer `F` non-empty, open timestamp of the file not later than `last_close_time`, and
`L` and `F` together within the capacity the source asserts) the call completes; the new
timeline is the stable merge of `L` and `F`, has length `n + m`, is a permutation of the
events of `L` and `F` and holds `L` and `F` as subsequences; when `F` is in non-decreasing
order of `start_time`, a file event precedes every timeline event with the same
`start_time`; and the result is in non-decreasing order when both `L` and `F` are. -/
theorem merge_file_events_interleave (file : darshan_file) (m : merge_state)
    (hL : m.rank_event_list ≠ []) (hF : m.file_event_list ≠ [])
    (hpath : ¬ (m.last_close_time < file.CP_F_OPEN_TIMESTAMP))
    (hcap : ((m.rank_event_list.length + m.file_event_list.length : Nat) : Int) ≤
      m.rank_event_list_max) :
    ∃ m', merge_file_events file m = some m' ∧ m'.file_event_list = [] ∧
      m'.rank_event_list = stable_merge m.rank_event_list m.file_event_list ∧
      m'.rank_event_list.length = m.rank_event_list.length + m.file_event_list.length ∧
      m'.rank_event_list.Perm (m.rank_event_list ++ m.file_event_list) ∧
      m.rank_event_list.Sublist m'.rank_event_list ∧
      m.file_event_list.Sublist m'.rank_event_list ∧
      (time_ordered m.file_event_list →
        ∀ r ∈ m.rank_event_list, ∀ f ∈ m.file_event_list, f.start_time = r.start_time →
          [f, r].Sublist m'.rank_event_list) ∧
      (time_ordered m.rank_event_list → time_ordered m.file_event_list →
        time_ordered m'.rank_event_list) := by
  obtain ⟨l, h1, h2, h3, h4, h5⟩ := merge_loop_stable
    (m.rank_event_list.length + m.file_event_list.length) m.rank_event_list
    m.file_event_list (le_refl _)
  have hlen : l.length = m.rank_event_list.length + m.file_event_list.length := by
    rw [h2]
    unfold stable_merge
    rw [List.length_merge]
    omega
  have hperm : l.Perm (m.rank_event_list ++ m.file_event_list) := by
    rw [h2]
    unfold stable_merge
    exact (List.merge_perm_append _).trans List.perm_append_comm
  unfold merge_file_events
  rw [if_neg (length_ne_zero_of_ne_nil hF), if_neg (length_ne_zero_of_ne_nil hL),
    if_neg hpath, h1]
  simp only [Option.some_bind]
  rw [if_pos (by rw [hlen]; exact hcap)]
  refine ⟨_, rfl, rfl, h2, hlen, hperm, h3, h4, ?_, ?_⟩
  · intro hf r hr f hf' heq
    exact h5 ((time_ordered_iff_pairwise _).mp hf) r hr f hf' (le_of_eq heq)
  · intro hr hf
    rw [time_ordered_iff_pairwise] at hr hf ⊢
    exact merge_loop_pairwise _ _ _ l hr hf h1

theorem merge_file_events_interleave_witness :
    ∃ m', merge_file_events zero_file tie_state = some m' ∧ m'.file_event_list = [] ∧
      m'.rank_event_list = stable_merge tie_state.rank_event_list tie_state.file_event_list ∧
      m'.rank_event_list.length =
        tie_state.rank_event_list.length + tie_state.file_event_list.length ∧
      m'.rank_event_list.Perm (tie_state.rank_event_list ++ tie_state.file_event_list) ∧
      tie_state.rank_event_list.Sublist m'.rank_event_list ∧
      tie_state.file_event_list.Sublist m'.rank_event_list ∧
      (time_ordered tie_state.file_event_list →
        ∀ r ∈ tie_state.rank_event_list, ∀ f ∈ tie_state.file_event_list,
          f.start_time = r.start_time → [f, r].Sublist m'.rank_event_list) ∧
      (time_ordered tie_state.rank_event_list → time_ordered tie_state.file_event_list →
        time_ordered m'.rank_event_list) :=
  merge_file_events_interleave zero_file tie_state (by decide) (by decide) (by decide!)
    (by decide)

theorem merge_file_events_tie_state_run :
    (merge_file_events zero_file tie_state).map (fun m => m.rank_event_list) =
      some [event_at 1, close_event_at 2, close_event_at 3, event_at 3] := by
  decide!

theorem u64_lt (x : Int) : u64 x < 18446744073709551616 := by
  unfold u64
  omega

theorem u64_s64 (n : Nat) : u64 (s64 n) = n % 18446744073709551616 := by
  unfold u64 s64
  split_ifs <;> omega

theorem s64_cancel (x : Int) : s64 (u64 x + 18446744073709551616 - u64 x) = 0 := by
  have h : u64 x + 18446744073709551616 - u64 x = 18446744073709551616 := by omega
  rw [h]
  unfold s64
  norm_num

theorem bytes_of_append (t : event_type) (l1 l2 : List darshan_event) :
    bytes_of t (l1 ++ l2) = bytes_of t l1 + bytes_of t l2 := by
  unfold bytes_of
  rw [List.filter_append, List.map_append, List.sum_append]

theorem bytes_of_nil (t : event_type) : bytes_of t [] = 0 := rfl

theorem bytes_of_singleton (t : event_type) (e : darshan_event) :
    bytes_of t [e] = if e.type = t then io_size e else 0 := by
  unfold bytes_of
  by_cases h : e.type = t
  · simp [h]
  · simp [h]

theorem io_kind_congr (a b : Int) (h : a ≠ 0 ↔ b ≠ 0) : io_kind a = io_kind b := by
  unfold io_kind
  by_cases ha : a = 0
  · have hb : b = 0 := by
      by_contra hb
      exact (h.mpr hb) ha
    rw [if_pos ha, if_pos hb]
  · rw [if_neg ha, if_neg (h.mp ha)]

theorem total_io_size_congr (st : gen_state) (a b : Int) (h : a ≠ 0 ↔ b ≠ 0) :
    total_io_size st a = total_io_size st b := by
  unfold total_io_size
  by_cases ha : a ≠ 0
  · rw [if_pos ha, if_pos (h.mp ha)]
  · rw [if_neg ha, if_neg (fun hb => ha (h.mpr hb))]

theorem ops_of_congr (f : darshan_file) (a b : Int) (h : a ≠ 0 ↔ b ≠ 0) :
    ops_of f a = ops_of f b := by
  unfold ops_of
  by_cases ha : a ≠ 0
  · rw [if_pos ha, if_pos (h.mp ha)]
  · rw [if_neg ha, if_neg (fun hb => ha (h.mpr hb))]

theorem init_all_common_flag_total (st : gen_state) (w : Int) :
    total_io_size (init_all_common_flag st) w = total_io_size st w := by
  unfold init_all_common_flag total_io_size
  split_ifs <;> rfl

theorem init_seq_flag_total (st st' : gen_state) (w w' : Int)
    (h : init_seq_flag st w = some st') : total_io_size st' w' = total_io_size st w' := by
  unfold init_seq_flag at h
  by_cases hw : w ≠ 0
  · rw [if_pos hw] at h
    by_cases hf : st.seq_wr_flag = -1
    · rw [if_pos hf] at h
      obtain ⟨f, _, rfl⟩ := Option.map_eq_some'.mp h
      rfl
    · rw [if_neg hf] at h
      cases h; rfl
  · rw [if_neg hw] at h
    by_cases hf : st.seq_rd_flag = -1
    · rw [if_pos hf] at h
      obtain ⟨f, _, rfl⟩ := Option.map_eq_some'.mp h
      rfl
    · rw [if_neg hf] at h
      cases h; rfl

theorem set_common_draw_total (st : gen_state) (w w' : Int) (d : common_draw) :
    total_io_size (set_common_draw st w d) w' = total_io_size st w' := by
  unfold set_common_draw total_io_size
  split_ifs <;> rfl

theorem drain_share_lt (a s c : List Int) :
    (drain_share a s c).io_sz < 18446744073709551616 := by
  unfold drain_share
  split
  · exact u64_lt _
  · show (0 : Nat) < 18446744073709551616
    norm_num

theorem reapportion_fold_lt (a : List Int) (k : Int) :
    ∀ (l : List Nat) (d : common_draw), d.io_sz < 18446744073709551616 →
    (l.foldl
      (fun d i =>
        let share := Int.tdiv (d.counts.getD i 0) k
        if d.io_sz = 0 ∧ share ≠ 0 then
          { io_sz := u64 (a.getD i 0)
            shares := d.shares.set i (share - 1)
            counts := d.counts.set i (d.counts.getD i 0 - 1) }
        else { d with shares := d.shares.set i share })
      d).io_sz < 18446744073709551616 := by
  intro l
  induction l with
  | nil => intro d hd; exact hd
  | cons i l ih =>
    intro d hd
    rw [List.foldl_cons]
    apply ih
    simp only
    split_ifs
    · exact u64_lt _
    · exact hd

theorem reapportion_lt (a : List Int) (k : Int) (d : common_draw)
    (hd : d.io_sz < 18446744073709551616) :
    (reapportion a k d).io_sz < 18446744073709551616 := by
  unfold reapportion
  exact reapportion_fold_lt a k _ d hd

theorem choose_io_size_total (st st' : gen_state) (w k : Int) (sz : Nat)
    (h : choose_io_size st w k = some (st', sz)) :
    (∀ w', total_io_size st' w' = total_io_size st w') ∧ sz < 18446744073709551616 := by
  unfold choose_io_size at h
  simp only at h
  split_ifs at h <;> cases h <;>
    first
    | exact ⟨fun _ => rfl, u64_lt _⟩
    | exact ⟨fun w' => set_common_draw_total _ _ _ _,
        reapportion_lt _ _ _ (drain_share_lt _ _ _)⟩
    | exact ⟨fun w' => set_common_draw_total _ _ _ _, drain_share_lt _ _ _⟩

theorem account_io_size_total (st : gen_state) (w : Int) (sz : Nat) :
    total_io_size (account_io_size st w sz) w =
      s64 (u64 (total_io_size st w) + 18446744073709551616 - sz) := by
  unfold account_io_size total_io_size
  split_ifs <;> rfl

theorem choose_io_offset_total (rnd : Nat → Nat) (st : gen_state) (w w' : Int) (sz : Nat) :
    total_io_size (choose_io_offset rnd st w sz).1 w' = total_io_size st w' := by
  unfold choose_io_offset
  split_ifs <;> rfl

theorem reset_io_statics_total (st : gen_state) (w : Int) :
    total_io_size (reset_io_statics st) w = total_io_size st w := by
  unfold reset_io_statics
  split_ifs <;> rfl

/-- What `determine_io_params` does to the byte total of the requested direction:
`*total_io_size -= *io_sz` in 64-bit arithmetic, with a size below `2^64`. -/
theorem determine_io_params_bytes (rnd : Nat → Nat) (st st' : gen_state) (w c k : Int)
    (sz : Nat) (off : Int) (h : determine_io_params rnd st w c k = some (st', sz, off)) :
    total_io_size st' w = s64 (u64 (total_io_size st w) + 18446744073709551616 - sz) ∧
    sz < 18446744073709551616 := by
  obtain ⟨st2, st3, s1, s2, s3, _⟩ := determine_io_params_steps rnd st st' w c k sz off h
  obtain ⟨c1, c2⟩ := choose_io_size_total st2 st3 w k sz s2
  refine ⟨?_, c2⟩
  rw [s3, reset_io_statics_total, choose_io_offset_total, account_io_size_total, c1 w,
    init_seq_flag_total _ _ w w s1, init_all_common_flag_total]

theorem ind_io_count_total (st : gen_state) (w : Int) :
    total_io_size (ind_io_count st) w = total_io_size st w := by
  unfold ind_io_count
  split_ifs <;> rfl

theorem ind_toggle_total (rnd : Nat → Nat) (st : gen_state) (x : fval) (w : Int) :
    total_io_size (ind_toggle rnd st x) w = total_io_size st w := by
  unfold ind_toggle
  split_ifs <;> rfl

theorem ind_io_event_size (st : gen_state) (m t : ℚ) (sz : Nat) (off : Int) :
    io_size (ind_io_event st m t sz off).1 = sz := by
  unfold ind_io_event
  split_ifs <;> rfl

theorem ind_io_finish_total (ndx : Int) (s : io_loop_state) (st2 : gen_state) (w : Int)
    (h : ind_io_finish ndx s = some st2) : total_io_size st2 w = total_io_size s.st w := by
  unfold ind_io_finish at h
  simp only at h
  by_cases ho : s.st.file.CP_POSIX_OPENS = 1
  · rw [if_pos ho] at h
    cases h; rfl
  · rw [if_neg ho] at h
    cases hsw : s.rw_switch with
    | none => rw [hsw] at h; cases h
    | some x =>
      rw [hsw] at h
      simp only at h
      by_cases hc : x.is_zero = true ∧ s.st.file.CP_RW_SWITCHES ≠ 0 ∧
          s.st.ind_next_switch_ndx = ndx + 1
      · rw [if_pos hc] at h
        obtain ⟨n, _, rfl⟩ := Option.map_eq_some'.mp h
        rfl
      · rw [if_neg hc] at h
        cases h; rfl

theorem bytes_step_refl (w : Int) (st : gen_state) (h : single_kind w st) :
    bytes_step w st st := by
  refine ⟨h, [], by simp, ?_⟩
  rw [bytes_of_nil, Nat.zero_add]
  exact Nat.mod_eq_of_lt (u64_lt _)

theorem bytes_step_trans (w : Int) {a b c : gen_state} (h1 : bytes_step w a b)
    (h2 : bytes_step w b c) : bytes_step w a c := by
  obtain ⟨_, l1, e1, m1⟩ := h1
  obtain ⟨k2, l2, e2, m2⟩ := h2
  refine ⟨k2, l1 ++ l2, by rw [e2, e1]; simp, ?_⟩
  rw [bytes_of_append]
  omega

/-- A step that stores events of other kinds only and leaves the counters of the record
alone. -/
theorem bytes_step_of_frame (w : Int) (st st' : gen_state) (l : List darshan_event)
    (hk : single_kind w st) (hev : st'.file_event_list = st.file_event_list ++ l)
    (hl : bytes_of (io_kind w) l = 0)
    (hr : st'.file.CP_POSIX_READS = st.file.CP_POSIX_READS)
    (hw : st'.file.CP_POSIX_WRITES = st.file.CP_POSIX_WRITES)
    (ht : total_io_size st' w = total_io_size st w) : bytes_step w st st' := by
  have ho : ops_of st'.file w = ops_of st.file w := by
    unfold ops_of; rw [hr, hw]
  have hot : other_ops_of st'.file w = other_ops_of st.file w := by
    unfold other_ops_of; rw [hr, hw]
  refine ⟨⟨by rw [hot]; exact hk.1, by rw [ho, ht]; exact hk.2⟩, l, hev, ?_⟩
  rw [hl, ht, Nat.zero_add]
  exact Nat.mod_eq_of_lt (u64_lt _)

/-- One iteration of the I/O loop on a single-kind record: the event stored has the kind
of the record, and its size is taken off the byte total. -/
theorem ind_io_body_bytes (rnd : Nat → Nat) (ops : Int) (d m : ℚ) (i : Int) (w : Int)
    (s s' : io_loop_state) (hk : other_ops_of s.st.file w = 0)
    (h : ind_io_body rnd ops d m i s = some s') : bytes_step w s.st s'.st := by
  unfold ind_io_body at h
  obtain ⟨r, hr, h⟩ := Option.bind_eq_some.mp h
  obtain ⟨st1, sz, off⟩ := r
  have hctl := determine_io_params_ctl rnd s.st st1 _ _ _ sz off hr
  obtain ⟨hb1, hb2⟩ := determine_io_params_bytes rnd s.st st1 _ _ _ sz off hr
  simp only at h
  by_cases hneg : (ind_io_count st1).file.CP_POSIX_READS < 0 ∨
      (ind_io_count st1).file.CP_POSIX_WRITES < 0
  · rw [if_pos hneg] at h; cases h
  · rw [if_neg hneg] at h
    obtain ⟨st2, hst, rfl⟩ := Option.map_eq_some'.mp h
    have e2 := store_event_eq _ _ _ hst
    have c_reads : st1.file.CP_POSIX_READS = s.st.file.CP_POSIX_READS :=
      congrArg ctl_view.reads hctl
    have c_writes : st1.file.CP_POSIX_WRITES = s.st.file.CP_POSIX_WRITES :=
      congrArg ctl_view.writes hctl
    have c_ev : st1.file_event_list = s.st.file_event_list := congrArg ctl_view.events hctl
    have c_rw : st1.ind_rw = s.st.ind_rw := congrArg ctl_view.ind_rw hctl
    push_neg at hneg
    obtain ⟨_, k2, _, k4, k5⟩ := ind_io_count_frame st1
    obtain ⟨_, t2, t3, t4, _⟩ := ind_toggle_frame rnd st2
      (ind_rw_switch st2 (s.psx_rw_ops_remaining - 1))
    rw [k4, c_rw, c_reads] at hneg
    rw [k5, c_rw, c_writes] at hneg
    have f_reads : st2.file.CP_POSIX_READS =
        (if s.st.ind_rw = 0 then s.st.file.CP_POSIX_READS - 1 else s.st.file.CP_POSIX_READS) := by
      rw [e2]
      show (ind_io_count st1).file.CP_POSIX_READS = _
      rw [k4, c_rw, c_reads]
    have f_writes : st2.file.CP_POSIX_WRITES =
        (if s.st.ind_rw = 0 then s.st.file.CP_POSIX_WRITES
          else s.st.file.CP_POSIX_WRITES - 1) := by
      rw [e2]
      show (ind_io_count st1).file.CP_POSIX_WRITES = _
      rw [k5, c_rw, c_writes]
    have f_ev : st2.file_event_list =
        s.st.file_event_list ++ [(ind_io_event st1 m s.cur_time sz off).1] := by
      rw [e2]
      show (ind_io_count st1).file_event_list ++ _ = _
      rw [k2, c_ev]
    have f_total : total_io_size st2 s.st.ind_rw =
        s64 (u64 (total_io_size s.st s.st.ind_rw) + 18446744073709551616 - sz) := by
      rw [e2]
      show total_io_size (ind_io_count st1) _ = _
      rw [ind_io_count_total, hb1]
    have hdir : s.st.ind_rw ≠ 0 ↔ w ≠ 0 := by
      unfold other_ops_of at hk
      by_cases hw : w ≠ 0
      · rw [if_pos hw] at hk
        refine ⟨fun _ => hw, fun _ hrw => ?_⟩
        rw [if_pos hrw] at hneg
        omega
      · rw [if_neg hw] at hk
        refine ⟨fun hrw => ?_, fun h => absurd h hw⟩
        rw [if_neg hrw] at hneg
        omega
    have hlast : s.st.file.CP_POSIX_READS + s.st.file.CP_POSIX_WRITES = 1 →
        sz = u64 (total_io_size s.st s.st.ind_rw) := fun h1 =>
      determine_io_params_last_size rnd s.st st1 _ _ _ sz off h1 hr
    rw [total_io_size_congr _ _ _ hdir] at f_total hlast
    rw [total_io_size_congr s.st _ _ hdir] at f_total
    have g_reads : (ind_toggle rnd st2
        (ind_rw_switch st2 (s.psx_rw_ops_remaining - 1))).file.CP_POSIX_READS =
        (if w = 0 then s.st.file.CP_POSIX_READS - 1 else s.st.file.CP_POSIX_READS) := by
      rw [t2, f_reads]
      by_cases hw : w = 0
      · rw [if_pos hw, if_pos (by by_contra hc; exact (hdir.mp hc) hw)]
      · rw [if_neg hw, if_neg (hdir.mpr hw)]
    have g_writes : (ind_toggle rnd st2
        (ind_rw_switch st2 (s.psx_rw_ops_remaining - 1))).file.CP_POSIX_WRITES =
        (if w = 0 then s.st.file.CP_POSIX_WRITES else s.st.file.CP_POSIX_WRITES - 1) := by
      rw [t3, f_writes]
      by_cases hw : w = 0
      · rw [if_pos hw, if_pos (by by_contra hc; exact (hdir.mp hc) hw)]
      · rw [if_neg hw, if_neg (hdir.mpr hw)]
    have hneg' : 0 ≤ (if w = 0 then s.st.file.CP_POSIX_READS - 1
          else s.st.file.CP_POSIX_READS) ∧
        0 ≤ (if w = 0 then s.st.file.CP_POSIX_WRITES
          else s.st.file.CP_POSIX_WRITES - 1) := by
      by_cases hw : w = 0
      · rw [if_pos hw, if_pos hw]
        rw [if_pos (by by_contra hc; exact (hdir.mp hc) hw),
          if_pos (by by_contra hc; exact (hdir.mp hc) hw)] at hneg
        exact hneg
      · rw [if_neg hw, if_neg hw]
        rw [if_neg (hdir.mpr hw), if_neg (hdir.mpr hw)] at hneg
        exact hneg
    have g_total : total_io_size (ind_toggle rnd st2
        (ind_rw_switch st2 (s.psx_rw_ops_remaining - 1))) w =
        s64 (u64 (total_io_size s.st w) + 18446744073709551616 - sz) := by
      rw [ind_toggle_total, f_total]
    refine ⟨⟨?_, ?_⟩, [(ind_io_event st1 m s.cur_time sz off).1], ?_, ?_⟩
    · show other_ops_of (ind_toggle rnd st2 _).file w = 0
      unfold other_ops_of at hk ⊢
      rw [g_reads, g_writes]
      by_cases hw : w = 0
      · rw [if_neg (by simpa using hw)] at hk ⊢
        rw [if_pos hw]
        exact hk
      · rw [if_pos hw] at hk ⊢
        rw [if_neg hw]
        exact hk
    · show 1 ≤ ops_of (ind_toggle rnd st2 _).file w ∨ total_io_size (ind_toggle rnd st2 _) w = 0
      rw [g_total]
      unfold ops_of
      rw [g_reads, g_writes]
      unfold other_ops_of at hk
      by_cases hw : w = 0
      · rw [if_neg (by simpa using hw)] at hk ⊢
        rw [if_pos hw] at hneg' ⊢
        rw [if_pos hw] at hneg'
        by_cases h2 : 2 ≤ s.st.file.CP_POSIX_READS
        · exact Or.inl (by omega)
        · right
          rw [hlast (by omega)]
          exact s64_cancel _
      · rw [if_pos hw] at hk ⊢
        rw [if_neg hw] at hneg' ⊢
        rw [if_neg hw] at hneg'
        by_cases h2 : 2 ≤ s.st.file.CP_POSIX_WRITES
        · exact Or.inl (by omega)
        · right
          rw [hlast (by omega)]
          exact s64_cancel _
    · show (ind_toggle rnd st2 _).file_event_list = _
      rw [t4, f_ev]
    · rw [g_total, bytes_of_singleton, ind_io_event_type, c_rw,
        show (if s.st.ind_rw = 0 then event_type.POSIX_READ else event_type.POSIX_WRITE) =
          io_kind s.st.ind_rw from rfl, io_kind_congr _ _ hdir, if_pos rfl,
        ind_io_event_size, u64_s64]
      have := u64_lt (total_io_size s.st w)
      omega

theorem ind_io_loop_bytes (rnd : Nat → Nat) (ops : Int) (d m : ℚ) (w : Int) :
    ∀ (k : Nat) (i : Int) (s s' : io_loop_state), single_kind w s.st →
    ind_io_loop rnd ops d m k i s = some s' → bytes_step w s.st s'.st := by
  intro k
  induction k with
  | zero =>
    intro i s s' hk h
    simp only [ind_io_loop, Option.some.injEq] at h
    subst h
    exact bytes_step_refl w _ hk
  | succ k ih =>
    intro i s s' hk h
    simp only [ind_io_loop] at h
    obtain ⟨z, hz, h⟩ := Option.bind_eq_some.mp h
    have h1 := ind_io_body_bytes rnd ops d m i w s z hk.1 hz
    exact bytes_step_trans w h1 (ih (i + 1) z s' h1.1 h)

theorem generate_psx_ind_io_events_bytes (rnd : Nat → Nat) (st st' : gen_state) (ndx : Int)
    (d m t t' : ℚ) (w : Int) (hk : single_kind w st)
    (h : generate_psx_ind_io_events rnd st ndx d m t = some (st', t')) :
    bytes_step w st st' := by
  unfold generate_psx_ind_io_events at h
  simp only at h
  by_cases hrem : st.file.CP_POSIX_READS + st.file.CP_POSIX_WRITES = 0
  · rw [if_pos hrem] at h
    simp only [Option.some.injEq, Prod.mk.injEq] at h
    obtain ⟨rfl, _⟩ := h
    exact bytes_step_refl w _ hk
  · rw [if_neg hrem] at h
    obtain ⟨ops, _, h⟩ := Option.bind_eq_some.mp h
    obtain ⟨st1, hinit, h⟩ := Option.bind_eq_some.mp h
    obtain ⟨s, hloop, h⟩ := Option.bind_eq_some.mp h
    obtain ⟨st2, hfin, h⟩ := Option.map_eq_some'.mp h
    simp only [Prod.mk.injEq] at h
    obtain ⟨rfl, _⟩ := h
    obtain ⟨i1, i2, _⟩ := ind_io_init_frame st st1 hinit
    have s1 : bytes_step w st st1 :=
      bytes_step_of_frame w st st1 [] hk (by rw [i2]; simp) rfl (by rw [i1]) (by rw [i1])
        (by unfold total_io_size; rw [i1])
    have s2 : bytes_step w st1 s.st := ind_io_loop_bytes rnd ops d m w _ _ _ s s1.1 hloop
    obtain ⟨_, g2, g3, g4, _⟩ := ind_io_finish_frame ndx s st2 hfin
    have s3 : bytes_step w s.st st2 :=
      bytes_step_of_frame w s.st st2 [] s2.1 (by rw [g4]; simp) rfl g2 g3
        (ind_io_finish_total ndx s st2 w hfin)
    exact bytes_step_trans w s1 (bytes_step_trans w s2 s3)

theorem io_kind_ne_open (w : Int) :
    event_type.POSIX_OPEN ≠ io_kind w ∧ event_type.POSIX_CLOSE ≠ io_kind w := by
  unfold io_kind
  split_ifs <;> exact ⟨by decide, by decide⟩

theorem ind_cycle_bytes (rnd : Nat → Nat) (c : ind_cycle_params) (i cf : Int) (w : Int)
    (st : gen_state) (t : ℚ) (r : gen_state × ℚ) (hk : single_kind w st)
    (h : ind_cycle rnd c i cf st t = some r) : bytes_step w st r.1 := by
  unfold ind_cycle at h
  obtain ⟨r1, h1, h⟩ := Option.bind_eq_some.mp h
  obtain ⟨r2, h2, h⟩ := Option.bind_eq_some.mp h
  obtain ⟨r3, h3, rfl⟩ := Option.map_eq_some'.mp h
  obtain ⟨s1, t1⟩ := r1
  obtain ⟨s2, t2⟩ := r2
  obtain ⟨s3, t3⟩ := r3
  obtain ⟨_, e1, o1, _, _, rfl⟩ := generate_psx_open_event_eq _ _ _ _ _ _ h1
  obtain ⟨_, e3, o3, _, _, rfl⟩ := generate_psx_close_event_eq _ _ _ _ _ h3
  have a1 : bytes_step w st { st with file_event_list := st.file_event_list ++ [e1] } :=
    bytes_step_of_frame w st _ [e1] hk rfl
      (by rw [bytes_of_singleton, o1, if_neg (io_kind_ne_open w).1]) rfl rfl rfl
  have a2 := generate_psx_ind_io_events_bytes rnd _ s2 _ _ _ _ t2 w a1.1 h2
  have a3 : bytes_step w s2
      { s2 with file_event_list := s2.file_event_list ++ [e3],
                file := { s2.file with CP_POSIX_OPENS := s2.file.CP_POSIX_OPENS - 1 } } :=
    bytes_step_of_frame w s2 _ [e3] a2.1 rfl
      (by rw [bytes_of_singleton, o3, if_neg (io_kind_ne_open w).2]) rfl rfl rfl
  exact bytes_step_trans w a1 (bytes_step_trans w a2 a3)

theorem ind_cycles_bytes (rnd : Nat → Nat) (c : ind_cycle_params) (w : Int) :
    ∀ (fuel : Nat) (i cf : Int) (st : gen_state) (t : ℚ) (r : gen_state × ℚ),
    single_kind w st → ind_cycles rnd c fuel i cf st t = some r → bytes_step w st r.1 := by
  intro fuel
  induction fuel with
  | zero =>
    intro i cf st t r hk h
    unfold ind_cycles at h
    split_ifs at h
    cases h
    exact bytes_step_refl w _ hk
  | succ k ih =>
    intro i cf st t r hk h
    unfold ind_cycles at h
    by_cases ho : st.file.CP_POSIX_OPENS = 0
    · rw [if_pos ho] at h
      cases h
      exact bytes_step_refl w _ hk
    · rw [if_neg ho] at h
      obtain ⟨z, hz, h⟩ := Option.bind_eq_some.mp h
      have h1 := ind_cycle_bytes rnd c i cf w st t z hk hz
      exact bytes_step_trans w h1 (ih (i + 1) 0 z.1 z.2 r h1.1 h)

/-- The byte accounting of a completed run on a single-kind record, for the direction
`w` (0 for reads, otherwise writes). -/
theorem generate_psx_ind_file_events_single_kind (rnd : Nat → Nat) (tbl : List hash_entry_t)
    (st st' : gen_state) (w : Int) (hopens : 1 ≤ st.file.CP_POSIX_OPENS)
    (hother : other_ops_of st.file w = 0) (hops : 1 ≤ ops_of st.file w)
    (h : generate_psx_ind_file_events rnd tbl st = some st') :
    total_io_size st' w = 0 ∧
    ∃ l, st'.file_event_list = st.file_event_list ++ l ∧
      bytes_of (io_kind w) l % 18446744073709551616 = u64 (total_io_size st w) := by
  have hrw : 0 ≤ st.file.CP_POSIX_READS + st.file.CP_POSIX_WRITES := by
    unfold other_ops_of at hother
    unfold ops_of at hops
    split_ifs at hother hops <;> omega
  unfold generate_psx_ind_file_events at h
  rw [if_neg (by omega)] at h
  obtain ⟨c, _, h⟩ := Option.bind_eq_some.mp h
  obtain ⟨r, hcy, rfl⟩ := Option.map_eq_some'.mp h
  obtain ⟨⟨k1, k2⟩, l, e1, e2⟩ := ind_cycles_bytes rnd c w _ _ _ st _ r
    ⟨hother, Or.inl hops⟩ hcy
  obtain ⟨_, _, _, _, _, _, _, a7, _⟩ :=
    ind_cycles_spec rnd c st.file.CP_POSIX_OPENS.toNat 0 _ st r.1 _ r.2
      (by rw [Int.toNat_of_nonneg (by omega)]) hrw hcy
  have hdone := a7 (by omega)
  have hz : total_io_size r.1 w = 0 := by
    rcases k2 with k2 | k2
    · exfalso
      unfold other_ops_of at k1
      unfold ops_of at k2
      split_ifs at k1 k2 <;> omega
    · exact k2
  refine ⟨hz, l, e1, ?_⟩
  rw [hz] at e2
  have h0 : u64 0 = 0 := by decide
  rw [h0, Nat.add_zero] at e2
  exact e2

/-- C40: for an independent record with at least one open whose I/O is of a single kind,
on which `generate_psx_ind_file_events` completes: with no write and at least one read the
sizes of the READ events stored sum to the bytes-read total modulo `2^64` and
`CP_BYTES_READ` is 0 on exit; with no read and at least one write the sizes of the WRITE
events stored sum to the bytes-written total modulo `2^64` and `CP_BYTES_WRITTEN` is 0 on
exit. -/
theorem generate_psx_ind_file_events_bytes (rnd : Nat → Nat) (tbl : List hash_entry_t)
    (st st' : gen_state) (hopens : 1 ≤ st.file.CP_POSIX_OPENS)
    (h : generate_psx_ind_file_events rnd tbl st = some st') :
    (st.file.CP_POSIX_WRITES = 0 → 1 ≤ st.file.CP_POSIX_READS →
      st'.file.CP_BYTES_READ = 0 ∧
      ∃ l, st'.file_event_list = st.file_event_list ++ l ∧
        bytes_of event_type.POSIX_READ l % 18446744073709551616 =
          u64 st.file.CP_BYTES_READ) ∧
    (st.file.CP_POSIX_READS = 0 → 1 ≤ st.file.CP_POSIX_WRITES →
      st'.file.CP_BYTES_WRITTEN = 0 ∧
      ∃ l, st'.file_event_list = st.file_event_list ++ l ∧
        bytes_of event_type.POSIX_WRITE l % 18446744073709551616 =
          u64 st.file.CP_BYTES_WRITTEN) := by
  constructor
  · intro hw hr
    exact generate_psx_ind_file_events_single_kind rnd tbl st st' 0 hopens hw hr h
  · intro hr hw
    exact generate_psx_ind_file_events_single_kind rnd tbl st st' 1 hopens hr hw h

theorem generate_psx_ind_file_events_bytes_witness :
    read_only_result.file.CP_BYTES_READ = 0 ∧
    (∃ l, read_only_result.file_event_list =
        (initial_state read_only_file 8).file_event_list ++ l ∧
      bytes_of event_type.POSIX_READ l % 18446744073709551616 =
        u64 (initial_state read_only_file 8).file.CP_BYTES_READ) ∧
    read_only_result.file_event_list.map io_size = [0, 10, 10, 0, 0, 10, 0] :=
  ⟨((generate_psx_ind_file_events_bytes (fun _ => 0) [] (initial_state read_only_file 8)
      read_only_result (by decide) (by decide!)).1 (by decide) (by decide)).1,
   ((generate_psx_ind_file_events_bytes (fun _ => 0) [] (initial_state read_only_file 8)
      read_only_result (by decide) (by decide!)).1 (by decide) (by decide)).2,
   by decide!⟩

theorem init_all_common_flag_capacity (M : Int) (st : gen_state) :
    init_all_common_flag (with_capacity M st) = with_capacity M (init_all_common_flag st) := by
  unfold init_all_common_flag with_capacity
  dsimp only
  split_ifs <;> rfl

theorem init_seq_flag_capacity (M : Int) (st : gen_state) (w : Int) :
    init_seq_flag (with_capacity M st) w = (init_seq_flag st w).map (with_capacity M) := by
  unfold init_seq_flag with_capacity total_io_size last_io_byte
  dsimp only
  split_ifs <;> first | rfl | (rw [Option.map_map]; rfl)

theorem set_common_draw_capacity (M : Int) (st : gen_state) (w : Int) (d : common_draw) :
    set_common_draw (with_capacity M st) w d = with_capacity M (set_common_draw st w d) := by
  unfold set_common_draw with_capacity
  split_ifs <;> rfl

theorem choose_io_size_capacity (M : Int) (st : gen_state) (w k : Int) :
    choose_io_size (with_capacity M st) w k =
      (choose_io_size st w k).map (fun r => (with_capacity M r.1, r.2)) := by
  unfold choose_io_size total_io_size
  simp only [set_common_draw_capacity]
  unfold with_capacity
  dsimp only
  split_ifs <;> rfl

theorem account_io_size_capacity (M : Int) (st : gen_state) (w : Int) (sz : Nat) :
    account_io_size (with_capacity M st) w sz = with_capacity M (account_io_size st w sz) := by
  unfold account_io_size with_capacity
  split_ifs <;> rfl

theorem choose_io_offset_capacity (rnd : Nat → Nat) (M : Int) (st : gen_state) (w : Int)
    (sz : Nat) :
    choose_io_offset rnd (with_capacity M st) w sz =
      (with_capacity M (choose_io_offset rnd st w sz).1, (choose_io_offset rnd st w sz).2) := by
  unfold choose_io_offset last_io_byte with_capacity
  dsimp only
  split_ifs <;> rfl

theorem reset_io_statics_capacity (M : Int) (st : gen_state) :
    reset_io_statics (with_capacity M st) = with_capacity M (reset_io_statics st) := by
  unfold reset_io_statics with_capacity
  dsimp only
  split_ifs <;> rfl

/-- The function `determine_io_params` does not read the capacity of the buffer. -/
theorem determine_io_params_capacity (rnd : Nat → Nat) (M : Int) (st : gen_state)
    (w c k : Int) :
    determine_io_params rnd (with_capacity M st) w c k =
      (determine_io_params rnd st w c k).map (fun r => (with_capacity M r.1, r.2)) := by
  unfold determine_io_params determine_io_size determine_io_offset
  rw [init_all_common_flag_capacity, init_seq_flag_capacity]
  cases h1 : init_seq_flag (init_all_common_flag st) w with
  | none => rfl
  | some st2 =>
    simp only [Option.map_some', Option.some_bind]
    rw [choose_io_size_capacity]
    cases h2 : choose_io_size st2 w k with
    | none => rfl
    | some r =>
      simp only [Option.map_some']
      rw [account_io_size_capacity, choose_io_offset_capacity, reset_io_statics_capacity]

/-- With the capacity assertion out of reach (`file_event_list_max = -1`) a store always
succeeds; with capacity `M` above the current length it gives the same buffer. -/
theorem store_event_capacity (M : Int) (st : gen_state) (e : darshan_event)
    (hmax : st.file_event_list_max = -1) (hlen : (st.file_event_list.length : Int) < M) :
    store_event (with_capacity M st) e = (store_event st e).map (with_capacity M) := by
  unfold store_event with_capacity
  dsimp only
  rw [if_neg (by omega), if_neg (by rw [hmax]; omega)]
  rfl

theorem generate_psx_open_event_capacity (M : Int) (st : gen_state) (cf : Int) (m t : ℚ)
    (hmax : st.file_event_list_max = -1) (hlen : (st.file_event_list.length : Int) < M) :
    generate_psx_open_event (with_capacity M st) cf m t =
      (generate_psx_open_event st cf m t).map (fun r => (with_capacity M r.1, r.2)) := by
  unfold generate_psx_open_event
  rw [show (with_capacity M st).file = st.file from rfl,
    store_event_capacity M st _ hmax hlen, Option.map_map, Option.map_map]
  rfl

theorem generate_psx_close_event_capacity (M : Int) (st : gen_state) (m t : ℚ)
    (hmax : st.file_event_list_max = -1) (hlen : (st.file_event_list.length : Int) < M) :
    generate_psx_close_event (with_capacity M st) m t =
      (generate_psx_close_event st m t).map (fun r => (with_capacity M r.1, r.2)) := by
  unfold generate_psx_close_event
  rw [show (with_capacity M st).file = st.file from rfl,
    store_event_capacity M st _ hmax hlen, Option.map_map, Option.map_map]
  rfl

theorem ind_io_init_capacity (M : Int) (st : gen_state) :
    ind_io_init (with_capacity M st) = (ind_io_init st).map (with_capacity M) := by
  unfold ind_io_init with_capacity
  dsimp only
  split_ifs <;> first | rfl | (rw [Option.map_map]; rfl)

theorem ind_io_count_capacity (M : Int) (st : gen_state) :
    ind_io_count (with_capacity M st) = with_capacity M (ind_io_count st) := by
  unfold ind_io_count with_capacity
  dsimp only
  split_ifs <;> rfl

theorem ind_io_event_capacity (M : Int) (st : gen_state) (m t : ℚ) (sz : Nat) (off : Int) :
    ind_io_event (with_capacity M st) m t sz off = ind_io_event st m t sz off := rfl

theorem ind_rw_switch_capacity (M : Int) (st : gen_state) (r : Int) :
    ind_rw_switch (with_capacity M st) r = ind_rw_switch st r := rfl

theorem ind_toggle_capacity (rnd : Nat → Nat) (M : Int) (st : gen_state) (x : fval) :
    ind_toggle rnd (with_capacity M st) x = with_capacity M (ind_toggle rnd st x) := by
  unfold ind_toggle with_capacity
  dsimp only
  split_ifs <;> rfl

/-- One iteration of the I/O loop under a capacity above the current length. -/
theorem ind_io_body_capacity (rnd : Nat → Nat) (ops : Int) (d m : ℚ) (i : Int) (M : Int)
    (s : io_loop_state) (hmax : s.st.file_event_list_max = -1)
    (hlen : (s.st.file_event_list.length : Int) < M) :
    ind_io_body rnd ops d m i (with_loop_capacity M s) =
      (ind_io_body rnd ops d m i s).map (with_loop_capacity M) := by
  unfold ind_io_body with_loop_capacity
  dsimp only
  rw [show (with_capacity M s.st).ind_rw = s.st.ind_rw from rfl,
    show (with_capacity M s.st).file = s.st.file from rfl,
    determine_io_params_capacity]
  cases hr : determine_io_params rnd s.st s.st.ind_rw 0 s.st.file.CP_POSIX_OPENS with
  | none => rfl
  | some r =>
    obtain ⟨st1, sz, off⟩ := r
    have hctl := determine_io_params_ctl rnd s.st st1 _ _ _ sz off hr
    have c_ev : st1.file_event_list = s.st.file_event_list := congrArg ctl_view.events hctl
    have c_max : st1.file_event_list_max = s.st.file_event_list_max :=
      congrArg ctl_view.events_max hctl
    obtain ⟨_, k2, k3, _, _⟩ := ind_io_count_frame st1
    simp only [Option.map_some', Option.some_bind]
    rw [ind_io_count_capacity, ind_io_event_capacity,
      show (with_capacity M (ind_io_count st1)).file = (ind_io_count st1).file from rfl]
    by_cases hneg : (ind_io_count st1).file.CP_POSIX_READS < 0 ∨
        (ind_io_count st1).file.CP_POSIX_WRITES < 0
    · rw [if_pos hneg, if_pos hneg]
      rfl
    · rw [if_neg hneg, if_neg hneg,
        store_event_capacity M _ _ (by rw [k3, c_max]; exact hmax)
          (by rw [k2, c_ev]; exact hlen)]
      cases hs : store_event (ind_io_count st1) (ind_io_event st1 m s.cur_time sz off).1 with
      | none => rfl
      | some st2 =>
        simp only [Option.map_some']
        rw [ind_rw_switch_capacity, ind_toggle_capacity]

theorem ind_io_loop_capacity (rnd : Nat → Nat) (ops : Int) (d m : ℚ) (M : Int) :
    ∀ (k : Nat) (i : Int) (s : io_loop_state), s.st.file_event_list_max = -1 →
    (s.st.file_event_list.length : Int) + k ≤ M →
    ind_io_loop rnd ops d m k i (with_loop_capacity M s) =
      (ind_io_loop rnd ops d m k i s).map (with_loop_capacity M) := by
  intro k
  induction k with
  | zero =>
    intro i s _ _
    rfl
  | succ k ih =>
    intro i s hmax hlen
    simp only [ind_io_loop]
    rw [ind_io_body_capacity rnd ops d m i M s hmax (by push_cast at hlen; omega)]
    cases hb : ind_io_body rnd ops d m i s with
    | none => rfl
    | some z =>
      obtain ⟨_, _, b3, _, _, _, e, b7, _⟩ := ind_io_body_spec rnd ops d m i s z hb
      simp only [Option.map_some', Option.some_bind]
      exact ih (i + 1) z (by rw [b3]; exact hmax) (by
        rw [b7, List.length_append, List.length_singleton]
        push_cast at hlen ⊢
        omega)

theorem ind_io_finish_capacity (M : Int) (ndx : Int) (s : io_loop_state) :
    ind_io_finish ndx (with_loop_capacity M s) =
      (ind_io_finish ndx s).map (with_capacity M) := by
  unfold ind_io_finish with_loop_capacity with_capacity
  dsimp only
  by_cases ho : s.st.file.CP_POSIX_OPENS = 1
  · rw [if_pos ho, if_pos ho]
    rfl
  · rw [if_neg ho, if_neg ho]
    cases hsw : s.rw_switch with
    | none => rfl
    | some x =>
      dsimp only
      split_ifs
      · rw [Option.map_map]; rfl
      · rfl

/-- One call of `generate_psx_ind_io_events` under a capacity that leaves room for the
remaining I/O operations. -/
theorem generate_psx_ind_io_events_capacity (rnd : Nat → Nat) (M : Int) (st : gen_state)
    (ndx : Int) (d m t : ℚ) (hmax : st.file_event_list_max = -1)
    (hopens : 1 ≤ st.file.CP_POSIX_OPENS)
    (hrem : 0 ≤ st.file.CP_POSIX_READS + st.file.CP_POSIX_WRITES)
    (hcap : (st.file_event_list.length : Int) +
      (st.file.CP_POSIX_READS + st.file.CP_POSIX_WRITES) ≤ M) :
    generate_psx_ind_io_events rnd (with_capacity M st) ndx d m t =
      (generate_psx_ind_io_events rnd st ndx d m t).map
        (fun r => (with_capacity M r.1, r.2)) := by
  unfold generate_psx_ind_io_events
  rw [show (with_capacity M st).file = st.file from rfl]
  dsimp only
  by_cases hz : st.file.CP_POSIX_READS + st.file.CP_POSIX_WRITES = 0
  · rw [if_pos hz, if_pos hz]
    rfl
  · rw [if_neg hz, if_neg hz]
    cases hops : ceil_ddiv (st.file.CP_POSIX_READS + st.file.CP_POSIX_WRITES)
        st.file.CP_POSIX_OPENS with
    | none => rfl
    | some ops =>
      have hops' : ops = Int.ceil
          (((st.file.CP_POSIX_READS + st.file.CP_POSIX_WRITES : Int) : ℚ) /
            (st.file.CP_POSIX_OPENS : ℚ)) := by
        unfold ceil_ddiv at hops
        rw [if_neg (by omega)] at hops
        exact (Option.some.inj hops).symm
      obtain ⟨hb1, hb2⟩ := ceil_div_bounds _ _ hrem hopens
      rw [← hops'] at hb1 hb2
      simp only [Option.some_bind]
      rw [ind_io_init_capacity]
      cases hinit : ind_io_init st with
      | none => rfl
      | some st1 =>
        obtain ⟨_, i2, i3⟩ := ind_io_init_frame st st1 hinit
        simp only [Option.map_some', Option.some_bind]
        have hloop : ind_io_loop rnd ops d m ops.toNat 0
            { st := with_capacity M st1, cur_time := t,
              psx_rw_ops_remaining := st.file.CP_POSIX_READS + st.file.CP_POSIX_WRITES,
              rw_switch := none } =
            (ind_io_loop rnd ops d m ops.toNat 0
              { st := st1, cur_time := t,
                psx_rw_ops_remaining := st.file.CP_POSIX_READS + st.file.CP_POSIX_WRITES,
                rw_switch := none }).map (with_loop_capacity M) :=
          ind_io_loop_capacity rnd ops d m M ops.toNat 0
            { st := st1, cur_time := t,
              psx_rw_ops_remaining := st.file.CP_POSIX_READS + st.file.CP_POSIX_WRITES,
              rw_switch := none }
            (by show st1.file_event_list_max = -1; rw [i3]; exact hmax)
            (by
              show (st1.file_event_list.length : Int) + (ops.toNat : Int) ≤ M
              rw [i2, Int.toNat_of_nonneg hb1]
              omega)
        rw [hloop]
        cases hl : ind_io_loop rnd ops d m ops.toNat 0
            { st := st1, cur_time := t,
              psx_rw_ops_remaining := st.file.CP_POSIX_READS + st.file.CP_POSIX_WRITES,
              rw_switch := none } with
        | none => rfl
        | some s =>
          simp only [Option.map_some', Option.some_bind]
          rw [ind_io_finish_capacity, Option.map_map, Option.map_map]
          rfl

/-- One open-I/O-close cycle under a capacity that leaves room for the OPEN, the remaining
I/O operations and the CLOSE. -/
theorem ind_cycle_capacity (rnd : Nat → Nat) (c : ind_cycle_params) (i cf : Int) (M : Int)
    (st : gen_state) (t : ℚ) (hmax : st.file_event_list_max = -1)
    (hopens : 1 ≤ st.file.CP_POSIX_OPENS)
    (hrem : 0 ≤ st.file.CP_POSIX_READS + st.file.CP_POSIX_WRITES)
    (hcap : (st.file_event_list.length : Int) + 2 +
      (st.file.CP_POSIX_READS + st.file.CP_POSIX_WRITES) ≤ M) :
    ind_cycle rnd c i cf (with_capacity M st) t =
      (ind_cycle rnd c i cf st t).map (fun r => (with_capacity M r.1, r.2)) := by
  unfold ind_cycle
  rw [generate_psx_open_event_capacity M st cf c.meta_op_time t hmax (by omega)]
  cases h1 : generate_psx_open_event st cf c.meta_op_time t with
  | none => rfl
  | some r1 =>
    obtain ⟨s1, t1⟩ := r1
    obtain ⟨_, e1, _, _, _, hs1⟩ := generate_psx_open_event_eq _ _ _ _ _ _ h1
    simp only [Option.map_some', Option.some_bind]
    have m1 : s1.file_event_list_max = -1 := by rw [hs1]; exact hmax
    have o1 : s1.file.CP_POSIX_OPENS = st.file.CP_POSIX_OPENS := by rw [hs1]
    have r1 : s1.file.CP_POSIX_READS + s1.file.CP_POSIX_WRITES =
        st.file.CP_POSIX_READS + st.file.CP_POSIX_WRITES := by rw [hs1]
    have l1 : (s1.file_event_list.length : Int) = st.file_event_list.length + 1 := by
      rw [hs1]
      simp
    rw [generate_psx_ind_io_events_capacity rnd M s1 i _ _ _ m1 (by rw [o1]; exact hopens)
      (by rw [r1]; exact hrem) (by rw [l1, r1]; omega)]
    cases h2 : generate_psx_ind_io_events rnd s1 i (fmul c.pcts.inter_io_pct c.delay_per_open)
        c.meta_op_time (fadd t1 (fmul c.pcts.first_io_pct c.delay_per_open)) with
    | none => rfl
    | some r2 =>
      obtain ⟨s2, t2⟩ := r2
      obtain ⟨_, m2, l, e2, e3, _⟩ := generate_psx_ind_io_events_spec rnd s1 s2 i _ _ _ t2
        (by rw [o1]; exact hopens) (by rw [r1]; exact hrem) h2
      obtain ⟨_, hb2⟩ := ceil_div_bounds (s1.file.CP_POSIX_READS + s1.file.CP_POSIX_WRITES)
        s1.file.CP_POSIX_OPENS (by rw [r1]; exact hrem) (by rw [o1]; exact hopens)
      simp only [Option.map_some', Option.some_bind]
      rw [generate_psx_close_event_capacity M s2 _ _ (by rw [m2]; exact m1) (by
        rw [e2, List.length_append]
        push_cast
        rw [e3, l1]
        omega)]
      cases h3 : generate_psx_close_event s2 c.meta_op_time
          (fadd t2 (fmul c.pcts.close_pct c.delay_per_open)) with
      | none => rfl
      | some r3 => rfl

/-- The cycle loop under a capacity that leaves room for two events per open left and one
per I/O operation left. -/
theorem ind_cycles_capacity (rnd : Nat → Nat) (c : ind_cycle_params) (M : Int) :
    ∀ (n : Nat) (i cf : Int) (st : gen_state) (t : ℚ), st.file_event_list_max = -1 →
    st.file.CP_POSIX_OPENS = (n : Int) →
    0 ≤ st.file.CP_POSIX_READS + st.file.CP_POSIX_WRITES →
    (st.file_event_list.length : Int) + 2 * (n : Int) +
      (st.file.CP_POSIX_READS + st.file.CP_POSIX_WRITES) ≤ M →
    ind_cycles rnd c n i cf (with_capacity M st) t =
      (ind_cycles rnd c n i cf st t).map (fun r => (with_capacity M r.1, r.2)) := by
  intro n
  induction n with
  | zero =>
    intro i cf st t _ ho _ _
    have ho' : st.file.CP_POSIX_OPENS = 0 := by simpa using ho
    unfold ind_cycles
    rw [if_pos ho', if_pos (show (with_capacity M st).file.CP_POSIX_OPENS = 0 from ho')]
    rfl
  | succ n ih =>
    intro i cf st t hmax ho hrem hcap
    have ho' : st.file.CP_POSIX_OPENS ≠ 0 := by rw [ho]; push_cast; omega
    have hopens : 1 ≤ st.file.CP_POSIX_OPENS := by rw [ho]; push_cast; omega
    unfold ind_cycles
    rw [if_neg ho', if_neg (show ¬ (with_capacity M st).file.CP_POSIX_OPENS = 0 from ho')]
    dsimp only
    rw [ind_cycle_capacity rnd c i cf M st t hmax hopens hrem (by push_cast at hcap; omega)]
    cases hz : ind_cycle rnd c i cf st t with
    | none => rfl
    | some z =>
      obtain ⟨z1, z2⟩ := z
      obtain ⟨a1, a2, l, a3, a4, _, _, a7, _⟩ := ind_cycle_spec rnd c i cf st z1 t z2 hopens
        hrem hz
      obtain ⟨hb1, hb2⟩ := ceil_div_bounds (st.file.CP_POSIX_READS + st.file.CP_POSIX_WRITES)
        st.file.CP_POSIX_OPENS hrem hopens
      have hl : (l.length : Int) = Int.ceil
          (((st.file.CP_POSIX_READS + st.file.CP_POSIX_WRITES : Int) : ℚ) /
            (st.file.CP_POSIX_OPENS : ℚ)) + 2 := by
        have := congrArg List.length a4
        simp only [List.length_map, List.length_cons, List.length_append,
          List.length_replicate, List.length_singleton, List.length_nil] at this
        have hk := Int.toNat_of_nonneg hb1
        omega
      simp only [Option.map_some', Option.some_bind]
      exact ih (i + 1) 0 z1 z2 (by rw [a2]; exact hmax)
        (by rw [a1, ho]; push_cast; ring) (by rw [a7]; omega) (by
          rw [a3, List.length_append, a7, Nat.cast_add, hl]
          simp only [Nat.cast_add, Nat.cast_one] at hcap
          omega)

theorem generate_psx_ind_file_events_capacity (rnd : Nat → Nat) (tbl : List hash_entry_t)
    (M : Int) (st : gen_state) (hmax : st.file_event_list_max = -1)
    (hopens : 0 ≤ st.file.CP_POSIX_OPENS)
    (hrem : 0 ≤ st.file.CP_POSIX_READS + st.file.CP_POSIX_WRITES)
    (hcap : (st.file_event_list.length : Int) + 2 * st.file.CP_POSIX_OPENS +
      (st.file.CP_POSIX_READS + st.file.CP_POSIX_WRITES) ≤ M) :
    generate_psx_ind_file_events rnd tbl (with_capacity M st) =
      (generate_psx_ind_file_events rnd tbl st).map (with_capacity M) := by
  unfold generate_psx_ind_file_events
  rw [show (with_capacity M st).file = st.file from rfl]
  by_cases h0 : st.file.CP_POSIX_OPENS = 0
  · rw [if_pos h0, if_pos h0]
    rfl
  · rw [if_neg h0, if_neg h0]
    cases hc : ind_cycle_setup st.file with
    | none => rfl
    | some c =>
      simp only [Option.some_bind]
      rw [ind_cycles_capacity rnd c M st.file.CP_POSIX_OPENS.toNat 0 _ st _ hmax
        (by rw [Int.toNat_of_nonneg hopens]) hrem
        (by rw [Int.toNat_of_nonneg hopens]; exact hcap), Option.map_map, Option.map_map]
      rfl

/-- The sizing count of an independent record with non-negative counters in a job of at
least one process is `2 * opens + reads + writes` (stdio counts included) plus three
non-negative quotients, as long as that sum is below `2^64`. -/
theorem file_event_cnt_lower_bound (nprocs : Int) (f : darshan_file) (hrank : f.rank > -1)
    (hn : 1 ≤ nprocs) (hco : 0 ≤ f.CP_COLL_OPENS) (hcr : 0 ≤ f.CP_COLL_READS)
    (hcw : 0 ≤ f.CP_COLL_WRITES)
    (hnn : 0 ≤ 2 * (f.CP_POSIX_OPENS + f.CP_POSIX_FOPENS) +
      (f.CP_POSIX_READS + f.CP_POSIX_FREADS) + (f.CP_POSIX_WRITES + f.CP_POSIX_FWRITES))
    (hlt : 2 * (f.CP_POSIX_OPENS + f.CP_POSIX_FOPENS) + (f.CP_POSIX_READS + f.CP_POSIX_FREADS)
      + (f.CP_POSIX_WRITES + f.CP_POSIX_FWRITES) + coll_sizing_terms nprocs f <
        18446744073709551616) :
    2 * (f.CP_POSIX_OPENS + f.CP_POSIX_FOPENS) + (f.CP_POSIX_READS + f.CP_POSIX_FREADS)
      + (f.CP_POSIX_WRITES + f.CP_POSIX_FWRITES) ≤ (file_event_cnt nprocs f : Int) := by
  rw [file_event_cnt_independent nprocs f hrank]
  have hq : 0 ≤ coll_sizing_terms nprocs f := by
    unfold coll_sizing_terms
    have h1 := Int.tdiv_nonneg hco (by omega : (0 : Int) ≤ nprocs)
    have h2 := Int.tdiv_nonneg hcw (by omega : (0 : Int) ≤ nprocs)
    have h3 := Int.tdiv_nonneg hcr (by omega : (0 : Int) ≤ nprocs)
    omega
  rw [u64_cast, Int.emod_eq_of_lt (by omega) hlt]
  omega

/-- C37, as stated, fails when the sizing count wraps: `wrap_file` is an independent record
with non-negative counters (`2^63 - 1` opens, 2 reads) whose event count
`2 * opens + reads` is `2^64`, so the count computed in `uint64_t` is 0.  With that
capacity the generation stops at the first OPEN, in the capacity assertion: the set-up of
the cycles succeeds, and the same OPEN is stored when the capacity is 1.  It also fails
when the job header holds a negative process count: for `one_coll_open_file` and
`nprocs = -1` the quotient `CP_COLL_OPENS / nprocs` is -1 and the count is 1, the OPEN
fills the buffer and the CLOSE stops in the capacity assertion, while with capacity 2 both
events are stored. -/
theorem generate_file_events_capacity_exceeded :
    ((wrap_file.rank > -1 ∧ 0 ≤ wrap_file.CP_POSIX_OPENS ∧ 0 ≤ wrap_file.CP_POSIX_READS ∧
        0 ≤ wrap_file.CP_POSIX_WRITES) ∧
      file_event_cnt 1 wrap_file = 0 ∧
      generate_file_events (fun _ => 0) 1 16 0 (fun f => f.CP_INDEP_OPENS) 0 11 []
        (initial_state wrap_file (file_event_cnt 1 wrap_file)) = none ∧
      (ind_cycle_setup ((check_file_counters 0 11 wrap_file).getD zero_file)).isSome = true ∧
      generate_psx_open_event
        (initial_state ((check_file_counters 0 11 wrap_file).getD zero_file) 0) 0 0 0 = none ∧
      (generate_psx_open_event
        (initial_state ((check_file_counters 0 11 wrap_file).getD zero_file) 1) 0 0 0).isSome =
        true) ∧
    (file_event_cnt (-1) one_coll_open_file = 1 ∧
      generate_file_events (fun _ => 0) (-1) 16 0 (fun f => f.CP_INDEP_OPENS) 0 11 []
        (initial_state one_coll_open_file (file_event_cnt (-1) one_coll_open_file)) = none ∧
      (generate_file_events (fun _ => 0) (-1) 16 0 (fun f => f.CP_INDEP_OPENS) 0 11 []
        (initial_state one_coll_open_file 2)).map (fun s => s.file_event_list.length) =
        some 2) := by
  decide!

/-- C37, amended: for an independent record (rank above -1) of a job of at least one
process, with non-negative open, read and write counts (POSIX and stdio) and non-negative
collective counts, whose sizing sum `2 * opens + reads + writes` plus the three quotients
is below `2^64`, and an empty file buffer whose capacity is at least the count the sizing
pass computed for the record: a generation that completes has stored at most that count
of events, and the generation is the one with the capacity assertions out of reach
(capacity -1, which no length equals) with the capacity put back, so no capacity assertion
of the open, I/O and close event writers fails. -/
theorem generate_file_events_capacity (rnd : Nat → Nat) (nprocs opt_agg_count : Int)
    (unspecified_time : ℚ) (open_counter : darshan_file → Int) (start_time app_run_time : Int)
    (tbl : List hash_entry_t) (st : gen_state)
    (hrank : st.file.rank > -1) (hn : 1 ≤ nprocs)
    (ho : 0 ≤ st.file.CP_POSIX_OPENS) (hfo : 0 ≤ st.file.CP_POSIX_FOPENS)
    (hr : 0 ≤ st.file.CP_POSIX_READS) (hfr : 0 ≤ st.file.CP_POSIX_FREADS)
    (hw : 0 ≤ st.file.CP_POSIX_WRITES) (hfw : 0 ≤ st.file.CP_POSIX_FWRITES)
    (hco : 0 ≤ st.file.CP_COLL_OPENS) (hcr : 0 ≤ st.file.CP_COLL_READS)
    (hcw : 0 ≤ st.file.CP_COLL_WRITES)
    (hlt : 2 * (st.file.CP_POSIX_OPENS + st.file.CP_POSIX_FOPENS) +
        (st.file.CP_POSIX_READS + st.file.CP_POSIX_FREADS) +
        (st.file.CP_POSIX_WRITES + st.file.CP_POSIX_FWRITES) +
        coll_sizing_terms nprocs st.file < 18446744073709551616)
    (hempty : st.file_event_list = [])
    (hcap : (file_event_cnt nprocs st.file : Int) ≤ st.file_event_list_max) :
    (∀ st', generate_file_events rnd nprocs opt_agg_count unspecified_time open_counter
        start_time app_run_time tbl st = some st' →
      (st'.file_event_list.length : Int) ≤ (file_event_cnt nprocs st.file : Int)) ∧
    generate_file_events rnd nprocs opt_agg_count unspecified_time open_counter
        start_time app_run_time tbl st =
      (generate_file_events rnd nprocs opt_agg_count unspecified_time open_counter
        start_time app_run_time tbl (with_capacity (-1) st)).map
        (with_capacity st.file_event_list_max) := by
  have hbound := file_event_cnt_lower_bound nprocs st.file hrank hn hco hcr hcw (by omega) hlt
  constructor
  · intro st' h
    unfold generate_file_events at h
    obtain ⟨f, hf, h⟩ := Option.bind_eq_some.mp h
    obtain ⟨k1, k2, k3, k4⟩ := check_file_counters_counts _ _ _ _ hf
    rw [if_pos (by rw [k1]; exact hrank)] at h
    by_cases h0 : f.CP_POSIX_OPENS = 0
    · unfold generate_psx_ind_file_events at h
      rw [if_pos h0] at h
      cases h
      show ((st.file_event_list.length : Nat) : Int) ≤ _
      rw [hempty]
      exact Int.natCast_nonneg _
    · obtain ⟨l, l1, l2⟩ := generate_psx_ind_file_events_length rnd tbl _ st'
        (by show 1 ≤ f.CP_POSIX_OPENS; omega)
        (by show 0 ≤ f.CP_POSIX_READS + f.CP_POSIX_WRITES; omega) h
      have l1' : st'.file_event_list = st.file_event_list ++ l := l1
      have l2' : (l.length : Int) =
          2 * f.CP_POSIX_OPENS + f.CP_POSIX_READS + f.CP_POSIX_WRITES := l2
      rw [l1', hempty, List.nil_append, l2', k2, k3, k4]
      omega
  · unfold generate_file_events
    rw [show (with_capacity (-1) st).file = st.file from rfl]
    cases hf : check_file_counters start_time app_run_time st.file with
    | none => rfl
    | some f =>
      obtain ⟨k1, k2, k3, k4⟩ := check_file_counters_counts _ _ _ _ hf
      simp only [Option.some_bind]
      rw [if_pos (by rw [k1]; exact hrank), if_pos (by rw [k1]; exact hrank)]
      exact generate_psx_ind_file_events_capacity rnd tbl st.file_event_list_max
        { with_capacity (-1) st with file := f } rfl
        (by show 0 ≤ f.CP_POSIX_OPENS; omega)
        (by show 0 ≤ f.CP_POSIX_READS + f.CP_POSIX_WRITES; omega)
        (by
          show ((st.file_event_list.length : Nat) : Int) + 2 * f.CP_POSIX_OPENS +
            (f.CP_POSIX_READS + f.CP_POSIX_WRITES) ≤ st.file_event_list_max
          rw [hempty, k2, k3, k4]
          simp only [List.length_nil, Nat.cast_zero]
          omega)

theorem generate_file_events_capacity_witness :
    generate_file_events (fun _ => 0) 2 16 0 (fun f => f.CP_INDEP_OPENS) 0 10 []
        (initial_state mixed_file 7) =
      (generate_file_events (fun _ => 0) 2 16 0 (fun f => f.CP_INDEP_OPENS) 0 10 []
        (with_capacity (-1) (initial_state mixed_file 7))).map
        (with_capacity (initial_state mixed_file 7).file_event_list_max) ∧
    file_event_cnt 2 mixed_file = 7 ∧ mixed_pass_result.file_event_list.length = 7 :=
  ⟨(generate_file_events_capacity (fun _ => 0) 2 16 0 (fun f => f.CP_INDEP_OPENS) 0 10 []
      (initial_state mixed_file 7) (by decide) (by decide) (by decide) (by decide)
      (by decide) (by decide) (by decide) (by decide) (by decide) (by decide) (by decide)
      (by decide!) rfl (by decide!)).2,
   by decide!, by decide!⟩

end Darshan
